import Mathlib

/-!
# audioDB: insertion path, catalogue, L2 retrofit and query engines

A shallow embedding of `src/audioDB.cpp` (audioDB version 1.0).

Modelling conventions.

* The mapped database file is split into its regions: the header
  (`dbTableHeaderT`), `fileTable` (a flat array of bytes: slot `k` starts at byte
  `k * O2_FILETABLESIZE`), `segTable` (an array of `unsigned`), `dataBuf`,
  `timesTable` and `l2normTable` (arrays of `double`).  Each region is an
  unbounded array of its own; an index beyond a region's extent is an
  out-of-table access, it is not made to alias the neighbouring region.
  What is stated about a key, a count or a payload being found again as it
  was stored is stated for stores that stay inside their tables (`InTables`,
  `ReachableInTables`); likewise what is stated about the content of a ranked
  list after an insertion is stated for shifts that start inside the
  declared cells.
* `unsigned` values are natural numbers; the places where the source stores a
  wider value into an `unsigned` (`numVectors`, `length +=`, `numFiles++`)
  carry an explicit `% 2 ^ 32`.
* `double` is an abstract scalar type `D` with `0`, `1`, `+`, `*`, `/` and a
  square root passed as a parameter.  Statements about rounding are out of
  reach; statements about *which* value is stored *where* hold for every
  interpretation, and the numerical statements are made for `D = ℝ`.
* A feature file is the dimension word followed by `nbytes` further bytes, that
  is `st_size = 4 + nbytes`; `indata i` is the `i`-th `double` after the
  dimension word.  The payload region is tracked at the granularity of whole
  doubles: the copy made by `insert` is exact whenever the insertion offset and
  the copied size are multiples of `sizeof(double)`.
* `error(...)` terminates the process; the writes already made through the shared
  mapping stay in the file.  Every operation therefore returns the mapped state
  together with its status.
* `audioDB.h` is not among the sources embedded here; its size constants are the
  fields of `Config`, the two flag bits are fixed as the specification gives them.
* The query engines work on a scalar type that is a linearly ordered field.  They
  are embedded for a run that prints its answer, and take the duration test of a
  run with timestamps as a parameter; the preparation of that test and the run of
  the segment point query with a key list are embedded on top of them, in sections
  of their own.  Fresh memory (`new double[n]`) enters as a parameter named `junk`.
* The writes of `insert` through the mapping are also embedded one by one, as the
  list of the states the mapped file passes through.
* The closed evaluations of the engines are made for `D = ℚ` with `Rat.sqrt`, which is
  exact on the squares that occur; there the model computes.
-/

namespace audioDB

/-! ## Constants and layout -/

/-- Compile-time constants of `audioDB.h`, taken as parameters. -/
structure Config where
  O2_DEFAULTDBSIZE : Nat
  O2_MAXFILES : Nat
  O2_FILETABLESIZE : Nat
  O2_SEGTABLESIZE : Nat
  O2_HEADERSIZE : Nat
  O2_MEANNUMVECTORS : Nat
  O2_MAGIC : Nat
deriving Repr, DecidableEq

/-- Modelled from the spec: the constant `O2_FLAG_L2NORM` of `audioDB.h` is missing;
the specification gives "bit 0 = L2_NORMED". -/
def O2_FLAG_L2NORM : Nat := 1

/-- Modelled from the spec: the constant `O2_FLAG_TIMES` of `audioDB.h` is missing;
the specification gives "bit 1 = TIMESTAMPED". -/
def O2_FLAG_TIMES : Nat := 2

/-- The width of `sizeof(double)`. -/
def sizeofDouble : Nat := 8

/-- Offset of the key table: `fileTableOffset = O2_HEADERSIZE` (initTables, line 480). -/
def fileTableOffset (cfg : Config) : Nat := cfg.O2_HEADERSIZE

/-- Offset of the segment table:
`segTableOffset = fileTableOffset + O2_FILETABLESIZE*O2_MAXFILES` (line 481). -/
def segTableOffset (cfg : Config) : Nat :=
  fileTableOffset cfg + cfg.O2_FILETABLESIZE * cfg.O2_MAXFILES

/-- Offset of the payload: `dataoffset = segTableOffset + O2_SEGTABLESIZE*O2_MAXFILES`
(line 482). -/
def dataoffset (cfg : Config) : Nat :=
  segTableOffset cfg + cfg.O2_SEGTABLESIZE * cfg.O2_MAXFILES

/-- Offset of the norm table:
`l2normTableOffset = O2_DEFAULTDBSIZE - O2_MAXFILES*O2_MEANNUMVECTORS*sizeof(double)`
(line 483). -/
def l2normTableOffset (cfg : Config) : Nat :=
  cfg.O2_DEFAULTDBSIZE - cfg.O2_MAXFILES * cfg.O2_MEANNUMVECTORS * sizeofDouble

/-- Offset of the timestamp table:
`timesTableOffset = l2normTableOffset - O2_MAXFILES*O2_MEANNUMVECTORS*sizeof(double)`
(line 484). -/
def timesTableOffset (cfg : Config) : Nat :=
  l2normTableOffset cfg - cfg.O2_MAXFILES * cfg.O2_MEANNUMVECTORS * sizeofDouble

/-- A layout in which the five regions follow one another inside the file and every
offset fits an `unsigned`. -/
def Config.WellFormed (cfg : Config) : Prop :=
  dataoffset cfg ≤ timesTableOffset cfg ∧
  2 * (cfg.O2_MAXFILES * cfg.O2_MEANNUMVECTORS * sizeofDouble) ≤ cfg.O2_DEFAULTDBSIZE ∧
  cfg.O2_DEFAULTDBSIZE < 2 ^ 32

/-! ## Data model -/

/-- The header `dbTableHeaderT`: five `unsigned` words. -/
structure dbTableHeaderT where
  magic : Nat
  numFiles : Nat
  dim : Nat
  length : Nat
  flags : Nat
deriving Repr, DecidableEq

/-- The mapped database file, region by region. -/
structure DB (D : Type) where
  hdr : dbTableHeaderT
  fileTable : Nat → Nat
  segTable : Nat → Nat
  dataBuf : Nat → D
  timesTable : Nat → D
  l2normTable : Nat → D

/-- A feature file: the leading dimension word, the number of bytes that follow it
(`st_size - sizeof(int)`), and the doubles that follow the dimension word. -/
structure FeatureFile (D : Type) where
  dim : Nat
  nbytes : Nat
  indata : Nat → D

/-- A C string: the bytes in front of the terminating NUL. -/
abbrev CStr := List Nat

/-- The byte at position `i` of the string as it lies in memory: the characters,
then NUL. -/
def CStr.byte (key : CStr) (i : Nat) : Nat := key.getD i 0

/-- The library function `strlen`: number of bytes in front of the first NUL. -/
def strlen (key : CStr) : Nat := (key.takeWhile (fun b => b ≠ 0)).length

/-- The library function `strncmp(s1, s2, n)`: difference of the first pair of bytes
that differ among the first `n`, the comparison stopping after a common NUL. -/
def strncmp (s1 s2 : Nat → Nat) : Nat → Int
  | 0 => 0
  | n + 1 =>
    if s1 0 ≠ s2 0 then (s1 0 : Int) - (s2 0 : Int)
    else if s1 0 = 0 then 0
    else strncmp (fun i => s1 (i + 1)) (fun i => s2 (i + 1)) n

/-- The library function `strncpy(mem + dst, src, n)`: copies `n` bytes, writing NUL
from the first NUL of `src` on. -/
def strncpy (mem : Nat → Nat) (dst : Nat) (src : Nat → Nat) : Nat → (Nat → Nat)
  | 0 => mem
  | n + 1 =>
    if src 0 = 0 then
      fun a => if dst ≤ a ∧ a < dst + (n + 1) then 0 else mem a
    else
      strncpy (fun a => if a = dst then src 0 else mem a) (dst + 1)
        (fun i => src (i + 1)) n

/-- The linear scan of the key table (insert, lines 536-541): is there a slot
`k < numFiles` with `strncmp(fileTable + k*O2_FILETABLESIZE, key, strlen(key)) == 0`? -/
def alreadyInserted (cfg : Config) (fileTable : Nat → Nat) (key : CStr) : Nat → Bool
  | 0 => false
  | k + 1 =>
    alreadyInserted cfg fileTable key k ||
      decide (strncmp (fun i => fileTable (k * cfg.O2_FILETABLESIZE + i)) key.byte
        (strlen key) = 0)

/-- The string printed by `cout << fileTable + k*O2_FILETABLESIZE`: the bytes from
address `p` up to the first NUL, at most `fuel` of them. -/
def cstrAt (mem : Nat → Nat) (p : Nat) : Nat → CStr
  | 0 => []
  | fuel + 1 => if mem p = 0 then [] else mem p :: cstrAt mem (p + 1) fuel

/-! ## Timestamps -/

/-- A times file as the stream `ifstream* timesFile` sees it: whether the stream is
open, the values it holds, and whether white space follows the last value (when it
does not, extracting the last value already raises `eof()`). -/
structure TimesFile (D : Type) where
  is_open : Bool
  vals : List D
  endsWithSpace : Bool

/-- Failures: every `error(...)` of the insertion path and of the L2 retrofit, the
failed `assert`, and the division by a zero dimension. -/
inductive Err where
  | CorruptHeader
  | DimensionMismatch
  | Full
  | TimesRequired
  | TimesFileMissing
  | TimesCountMismatch
  | NotEnoughTimesFiles
  | AlreadyL2Normed
  | AssertFailed
  | DivideByZero
deriving Repr, DecidableEq

/-- How a command ended: it did its work, it returned after a warning, or it
terminated the process through `error`. -/
inductive Status where
  | ok
  | warnDuplicate
  | warnEmpty
  | failed (e : Err)
deriving Repr, DecidableEq

/-- The mapped database after a command, and how the command ended. -/
structure Result (D : Type) where
  db : DB D
  status : Status

/-- The first reading loop of `insertTimeStamps` (lines 626-631): a `do ... while`
storing values through `timesdata++` and counting them in `numtimes` until `eof()` or
`numtimes = numVectors`.  Returns the values left in the stream, `numtimes`, the
buffer and `eof()`.  An extraction that fails at the end of the stream stores
nothing. -/
def readTimes {D : Type} (endsWithSpace : Bool) (numVectors : Nat) :
    List D → Nat → (Nat → D) → Nat → List D × Nat × (Nat → D) × Bool
  | [], numtimes, buf, _ => ([], numtimes, buf, true)
  | x :: rest, numtimes, buf, p =>
    let buf1 : Nat → D := fun a => if a = p then x else buf a
    if rest.isEmpty && !endsWithSpace then ([], numtimes, buf1, true)
    else if numtimes + 1 < numVectors then
      readTimes endsWithSpace numVectors rest (numtimes + 1) buf1 (p + 1)
    else (rest, numtimes + 1, buf1, false)

/-- The second loop of `insertTimeStamps` (lines 634-639): the values left in the
stream are read into `dummy` and counted until `eof()`. -/
def countRest {D : Type} (endsWithSpace : Bool) : List D → Nat → Nat
  | [], numtimes => numtimes
  | _ :: rest, numtimes =>
    if rest.isEmpty && !endsWithSpace then numtimes
    else countRest endsWithSpace rest (numtimes + 1)

/-- What `insertTimeStamps` leaves behind: the in-memory header, the member
`usingTimes`, the buffer written through `timesdata`, and the error if it called
`error`. -/
structure TimesResult (D : Type) where
  dbH : dbTableHeaderT
  usingTimes : Bool
  buf : Nat → D
  err : Option Err

/-- The function `audioDB::insertTimeStamps` (lines 602-652); `timesdata` is the index
in `buf` at which the first value is stored. -/
def insertTimeStamps {D : Type} (numVectors : Nat) (usingTimes : Bool)
    (dbH : dbTableHeaderT) (timesFile : TimesFile D) (buf : Nat → D) (timesdata : Nat) :
    TimesResult D :=
  if usingTimes then
    let dbH1 : dbTableHeaderT :=
      if dbH.flags &&& O2_FLAG_TIMES = 0 ∧ dbH.numFiles = 0 then
        { dbH with flags := dbH.flags ||| O2_FLAG_TIMES }
      else dbH
    let using1 : Bool :=
      if dbH.flags &&& O2_FLAG_TIMES = 0 ∧ dbH.numFiles = 0 then true
      else if dbH.flags &&& O2_FLAG_TIMES = 0 then false
      else true
    if !timesFile.is_open ∧ dbH1.flags &&& O2_FLAG_TIMES ≠ 0 then
      { dbH := dbH1, usingTimes := using1, buf := buf, err := some Err.TimesFileMissing }
    else
      let using2 : Bool := if !timesFile.is_open then false else using1
      if using2 then
        let r := readTimes timesFile.endsWithSpace numVectors timesFile.vals 0 buf timesdata
        let numtimes : Nat :=
          if r.2.2.2 then r.2.1 else countRest timesFile.endsWithSpace r.1 r.2.1
        if numtimes < numVectors ∨ numtimes > numVectors + 2 then
          { dbH := dbH1, usingTimes := using2, buf := r.2.2.1,
            err := some Err.TimesCountMismatch }
        else
          { dbH := dbH1, usingTimes := using2, buf := r.2.2.1, err := none }
      else
        { dbH := dbH1, usingTimes := using2, buf := buf, err := none }
  else
    { dbH := dbH, usingTimes := usingTimes, buf := buf, err := none }

/-! ## Unit norm -/

/-- The accumulation `while(d--){ *l2ptr += *p * *p; p++; }` of
`unitNormAndInsertL2` (lines 1917-1920), started at `X[p]` with accumulator `acc`. -/
def sumSquares {D : Type} [Add D] [Mul D] (X : Nat → D) : Nat → Nat → D → D
  | _, 0, acc => acc
  | p, d + 1, acc => sumSquares X (p + 1) d (acc + X p * X p)

/-- The scaling `while(d--){ *X *= oneOverL2; X++; }` (lines 1924-1927) applied to
the `d` doubles from `X[p]` on. -/
def scaleVector {D : Type} [Mul D] (oneOverL2 : D) : (Nat → D) → Nat → Nat → (Nat → D)
  | X, _, 0 => X
  | X, p, d + 1 =>
    scaleVector oneOverL2 (fun a => if a = p then X a * oneOverL2 else X a) (p + 1) d

/-- The loop `while(nn--)` of `unitNormAndInsertL2` (lines 1913-1928): for each of
`nn` vectors of `dim` doubles from `X[p]` on, store the norm through `l2ptr++` and
scale the vector by the reciprocal of its norm.  Returns the block and `l2buf`. -/
def normLoop {D : Type} [Zero D] [One D] [Add D] [Mul D] [Div D] (sqrt : D → D)
    (dim : Nat) : Nat → (Nat → D) → Nat → (Nat → D) → Nat → (Nat → D) × (Nat → D)
  | 0, X, _, l2buf, _ => (X, l2buf)
  | nn + 1, X, p, l2buf, l2ptr =>
    let L2 : D := sqrt (sumSquares X p dim 0)
    let oneOverL2 : D := 1 / L2
    normLoop sqrt dim nn (scaleVector oneOverL2 X p dim) (p + dim)
      (fun a => if a = l2ptr then L2 else l2buf a) (l2ptr + 1)

/-- The function `audioDB::unitNormAndInsertL2(X, dim, n, append)` (lines 1895-1939),
for a block that starts at double `X` of the payload.  `dbH` is the in-memory
header at the time of the call. -/
def unitNormAndInsertL2 {D : Type} [Zero D] [One D] [Add D] [Mul D] [Div D]
    (sqrt : D → D) (dbH : dbTableHeaderT) (db : DB D) (X : Nat) (dim n : Nat)
    (append : Bool) : Result D :=
  if !append ∧ dbH.flags &&& O2_FLAG_L2NORM ≠ 0 then
    { db := db, status := Status.failed Err.AlreadyL2Normed }
  else
    let r := normLoop sqrt dim n db.dataBuf X (fun _ => 0) 0
    if append ∧ dbH.dim = 0 then
      { db := { db with dataBuf := r.1 }, status := Status.failed Err.DivideByZero }
    else
      let offset : Nat := if append then dbH.length / (dbH.dim * sizeofDouble) else 0
      { db := { db with
                dataBuf := r.1
                l2normTable := fun a =>
                  if offset ≤ a ∧ a < offset + n then r.2 (a - offset)
                  else db.l2normTable a },
        status := Status.ok }

/-! ## Commands -/

/-- The database written by `audioDB::create` (lines 418-451): a file of zero bytes
whose header is `magic = O2_MAGIC, numFiles = 0, length = 0, dim = 0, flags = 0`. -/
def create {D : Type} [Zero D] (cfg : Config) : DB D :=
  { hdr := { magic := cfg.O2_MAGIC, numFiles := 0, dim := 0, length := 0, flags := 0 }
    fileTable := fun _ => 0
    segTable := fun _ => 0
    dataBuf := fun _ => 0
    timesTable := fun _ => 0
    l2normTable := fun _ => 0 }

/-- The dimension test made while attaching (initTables, lines 491-501; the same lines
are repeated in batchinsert, 734-744): an empty database takes the dimension word of
the file, any other database must agree with it. -/
def checkDim {D : Type} (dbH : dbTableHeaderT) (inFile : FeatureFile D) :
    Except Err dbTableHeaderT :=
  if dbH.dim = 0 ∧ dbH.length = 0 then Except.ok { dbH with dim := inFile.dim }
  else if dbH.dim ≠ inFile.dim then Except.error Err.DimensionMismatch
  else Except.ok dbH

/-- The function `audioDB::initTables(dbName, inFile)` (lines 461-520) as far as it
decides anything: it reads the header, tests the magic number and, when a feature
file is given, its dimension.  The result is the in-memory header `dbH`. -/
def initTables {D : Type} (cfg : Config) (db : DB D) (inFile : Option (FeatureFile D)) :
    Except Err dbTableHeaderT :=
  if db.hdr.magic ≠ cfg.O2_MAGIC then Except.error Err.CorruptHeader
  else
    match inFile with
    | none => Except.ok db.hdr
    | some f => checkDim db.hdr f

/-- The copy `memcpy(db+dataoffset+insertoffset, indata+sizeof(int), nbytes)` seen on
the doubles of the payload. -/
def copyPayload {D : Type} (dataBuf : Nat → D) (insertoffset : Nat) (inFile : FeatureFile D) :
    Nat → D :=
  fun c =>
    if insertoffset / sizeofDouble ≤ c ∧
        c < insertoffset / sizeofDouble + inFile.nbytes / sizeofDouble then
      inFile.indata (c - insertoffset / sizeofDouble)
    else dataBuf c

/-- The tail shared by `insert` (lines 571-589) and `batchinsert` (lines 793-810): bump
`numFiles`, add the file size to `length`, write the header back, store `numVectors`
in `segTable[numFiles-1]`, copy the payload and, on a database that is L2 normed, norm
the block just copied (`append = 1`). -/
def commit {D : Type} [Zero D] [One D] [Add D] [Mul D] [Div D] (sqrt : D → D)
    (dbH : dbTableHeaderT) (db : DB D) (inFile : FeatureFile D) (numVectors : Nat) :
    dbTableHeaderT × Result D :=
  let insertoffset : Nat := dbH.length
  let dbH1 : dbTableHeaderT := { dbH with numFiles := (dbH.numFiles + 1) % 2 ^ 32 }
  let dbH2 : dbTableHeaderT :=
    { dbH1 with length := (dbH1.length + inFile.nbytes) % 2 ^ 32 }
  let db1 : DB D := { db with hdr := dbH2 }
  let db2 : DB D :=
    { db1 with segTable := fun k => if k = dbH2.numFiles - 1 then numVectors
                                    else db1.segTable k }
  let db3 : DB D := { db2 with dataBuf := copyPayload db2.dataBuf insertoffset inFile }
  if dbH2.flags &&& O2_FLAG_L2NORM ≠ 0 then
    (dbH2, unitNormAndInsertL2 sqrt dbH2 db3 (insertoffset / sizeofDouble) dbH2.dim
      numVectors true)
  else (dbH2, { db := db3, status := Status.ok })

/-- The arguments of a single insert: the key in use (after `if(!key) key=inFile`),
the feature file, the member `usingTimes` and the stream `timesFile`. -/
structure InsertArgs (D : Type) where
  key : CStr
  inFile : FeatureFile D
  usingTimes : Bool
  timesFile : TimesFile D

/-- The function `audioDB::insert` (lines 522-600). -/
def insert {D : Type} [Zero D] [One D] [Add D] [Mul D] [Div D] (cfg : Config)
    (sqrt : D → D) (db : DB D) (a : InsertArgs D) : Result D :=
  match initTables cfg db (some a.inFile) with
  | Except.error e => { db := db, status := Status.failed e }
  | Except.ok dbH =>
    if !a.usingTimes ∧ dbH.flags &&& O2_FLAG_TIMES ≠ 0 then
      { db := db, status := Status.failed Err.TimesRequired }
    else if timesTableOffset cfg < dataoffset cfg + dbH.length + a.inFile.nbytes then
      { db := db, status := Status.failed Err.Full }
    else if alreadyInserted cfg db.fileTable a.key dbH.numFiles then
      { db := db, status := Status.warnDuplicate }
    else if dbH.dim = 0 then
      { db := db, status := Status.failed Err.DivideByZero }
    else
      let numVectors : Nat := a.inFile.nbytes / (sizeofDouble * dbH.dim) % 2 ^ 32
      if numVectors = 0 then { db := db, status := Status.warnEmpty }
      else
        let db1 : DB D :=
          { db with fileTable := strncpy db.fileTable (dbH.numFiles * cfg.O2_FILETABLESIZE)
                      a.key.byte (strlen a.key) }
        let insertoffset : Nat := dbH.length
        let timesoffset : Nat := insertoffset / (dbH.dim * sizeofDouble)
        if ¬ (timesTableOffset cfg + sizeofDouble * (timesoffset + numVectors)
                < l2normTableOffset cfg) then
          { db := db1, status := Status.failed Err.AssertFailed }
        else
          let t := insertTimeStamps numVectors a.usingTimes dbH a.timesFile
            db1.timesTable timesoffset
          let db2 : DB D := { db1 with timesTable := t.buf }
          match t.err with
          | some e => { db := db2, status := Status.failed e }
          | none => (commit sqrt t.dbH db2 a.inFile numVectors).2

/-- One line of the lists read by `batchinsert`: the feature file, the key in use
(`thisKey`), whether the list of times files is exhausted (`timesFile->eof()`), and
the stream opened on `thisTimesFileName`. -/
structure BatchEntry (D : Type) where
  thisFile : FeatureFile D
  thisKey : CStr
  timesListEof : Bool
  thisTimesFile : TimesFile D

/-- What the loop of `batchinsert` carries from one file to the next: the in-memory
header `dbH`, the mapped database, the member `usingTimes`, and the error that ended
the process, if any. -/
structure BatchState (D : Type) where
  dbH : dbTableHeaderT
  db : DB D
  usingTimes : Bool
  err : Option Err

/-- The timestamp part of one turn of `batchinsert` (lines 774-787), run when the file
is going to be inserted: with `usingTimes`, the list of times files must not be
exhausted, the times file must open, the `assert` must hold, and `insertTimeStamps`
reads the file into `timesTable + timesoffset`. -/
def batchTimes {D : Type} (cfg : Config) (usingTimes : Bool) (dbH : dbTableHeaderT)
    (timesTable : Nat → D) (e : BatchEntry D) (numVectors : Nat) : TimesResult D :=
  if usingTimes then
    if e.timesListEof then
      { dbH := dbH, usingTimes := usingTimes, buf := timesTable,
        err := some Err.NotEnoughTimesFiles }
    else if !e.thisTimesFile.is_open then
      { dbH := dbH, usingTimes := usingTimes, buf := timesTable,
        err := some Err.TimesFileMissing }
    else if ¬ (timesTableOffset cfg + sizeofDouble *
        (dbH.length / (dbH.dim * sizeofDouble) + numVectors) < l2normTableOffset cfg) then
      { dbH := dbH, usingTimes := usingTimes, buf := timesTable,
        err := some Err.AssertFailed }
    else
      insertTimeStamps numVectors usingTimes dbH e.thisTimesFile timesTable
        (dbH.length / (dbH.dim * sizeofDouble))
  else
    { dbH := dbH, usingTimes := usingTimes, buf := timesTable, err := none }

/-- The branch of `batchinsert` that inserts a file of `numVectors > 0` vectors under a
key that is not yet there (lines 773-813): timestamps, then the key, then `commit`. -/
def batchInsertOne {D : Type} [Zero D] [One D] [Add D] [Mul D] [Div D] (cfg : Config)
    (sqrt : D → D) (st : BatchState D) (dbH : dbTableHeaderT) (e : BatchEntry D)
    (numVectors : Nat) : BatchState D :=
  let t : TimesResult D := batchTimes cfg st.usingTimes dbH st.db.timesTable e numVectors
  let db1 : DB D := { st.db with timesTable := t.buf }
  match t.err with
  | some er => { dbH := t.dbH, db := db1, usingTimes := t.usingTimes, err := some er }
  | none =>
    let db2 : DB D :=
      { db1 with fileTable := strncpy db1.fileTable
                  (t.dbH.numFiles * cfg.O2_FILETABLESIZE) e.thisKey.byte
                  (strlen e.thisKey) }
    let c := commit sqrt t.dbH db2 e.thisFile numVectors
    { dbH := c.1, db := c.2.db, usingTimes := t.usingTimes,
      err := match c.2.status with
             | Status.failed er => some er
             | _ => none }

/-- One turn of the loop of `batchinsert` (lines 710-818). -/
def batchStep {D : Type} [Zero D] [One D] [Add D] [Mul D] [Div D] (cfg : Config)
    (sqrt : D → D) (st : BatchState D) (e : BatchEntry D) : BatchState D :=
  if timesTableOffset cfg < dataoffset cfg + (st.dbH.length + e.thisFile.nbytes) then
    { st with err := some Err.Full }
  else
    match checkDim st.dbH e.thisFile with
    | Except.error er => { st with err := some er }
    | Except.ok dbH =>
      if alreadyInserted cfg st.db.fileTable e.thisKey dbH.numFiles then
        { st with dbH := dbH }
      else if dbH.dim = 0 then { st with dbH := dbH, err := some Err.DivideByZero }
      else if e.thisFile.nbytes / (sizeofDouble * dbH.dim) % 2 ^ 32 = 0 then
        { st with dbH := dbH }
      else
        batchInsertOne cfg sqrt st dbH e
          (e.thisFile.nbytes / (sizeofDouble * dbH.dim) % 2 ^ 32)

/-- The loop of `batchinsert` over the lines read: it stops at the first `error`. -/
def batchLoop {D : Type} [Zero D] [One D] [Add D] [Mul D] [Div D] (cfg : Config)
    (sqrt : D → D) : BatchState D → List (BatchEntry D) → BatchState D
  | st, [] => st
  | st, e :: es =>
    match (batchStep cfg sqrt st e).err with
    | some _ => batchStep cfg sqrt st e
    | none => batchLoop cfg sqrt (batchStep cfg sqrt st e) es

/-- The function `audioDB::batchinsert` (lines 654-834), for the entries of the list
files that the loop gets to see. -/
def batchinsert {D : Type} [Zero D] [One D] [Add D] [Mul D] [Div D] (cfg : Config)
    (sqrt : D → D) (db : DB D) (usingTimes : Bool) (entries : List (BatchEntry D)) :
    Result D :=
  if !usingTimes ∧ db.hdr.flags &&& O2_FLAG_TIMES ≠ 0 then
    { db := db, status := Status.failed Err.TimesRequired }
  else if db.hdr.magic ≠ cfg.O2_MAGIC then
    { db := db, status := Status.failed Err.CorruptHeader }
  else
    let st := batchLoop cfg sqrt
      { dbH := db.hdr, db := db, usingTimes := usingTimes, err := none } entries
    match st.err with
    | some er => { db := st.db, status := Status.failed er }
    | none => { db := st.db, status := Status.ok }

/-- The function `audioDB::l2norm` (lines 914-923). -/
def l2norm {D : Type} [Zero D] [One D] [Add D] [Mul D] [Div D] (cfg : Config)
    (sqrt : D → D) (db : DB D) : Result D :=
  match initTables cfg db (none : Option (FeatureFile D)) with
  | Except.error e => { db := db, status := Status.failed e }
  | Except.ok dbH =>
    if dbH.length > 0 then
      if dbH.dim = 0 then { db := db, status := Status.failed Err.DivideByZero }
      else
        let numVectors : Nat := dbH.length / (sizeofDouble * dbH.dim)
        let r := unitNormAndInsertL2 sqrt dbH db 0 dbH.dim numVectors false
        match r.status with
        | Status.ok =>
          { db := { r.db with hdr := { dbH with flags := dbH.flags ||| O2_FLAG_L2NORM } },
            status := Status.ok }
        | s => { db := r.db, status := s }
    else
      { db := { db with hdr := { dbH with flags := dbH.flags ||| O2_FLAG_L2NORM } },
        status := Status.ok }

/-- One line of `audioDB::dump` (line 909): the key read from slot `k` and
`segTable[k]`. -/
def dumpLine {D : Type} (cfg : Config) (db : DB D) (k : Nat) : CStr × Nat :=
  (cstrAt db.fileTable (k * cfg.O2_FILETABLESIZE)
    (cfg.O2_FILETABLESIZE * cfg.O2_MAXFILES), db.segTable k)

/-- The lines printed by `audioDB::dump` (lines 908-909), one per `k < numFiles`. -/
def dump {D : Type} (cfg : Config) (db : DB D) : List (CStr × Nat) :=
  (List.range db.hdr.numFiles).map (dumpLine cfg db)

/-! ## Derived notions used by the statements -/

/-- The sum `segTable[0] + ... + segTable[n-1]`. -/
def segSum (segTable : Nat → Nat) : Nat → Nat
  | 0 => 0
  | n + 1 => segSum segTable n + segTable n

/-- The key stored in slot `k`, as `dump` prints it. -/
def keyAt {D : Type} (cfg : Config) (db : DB D) (k : Nat) : CStr :=
  (dumpLine cfg db k).1

/-- The comparison made by the scan of `insert`, between slot `i` of the key table and
a key: `strncmp(fileTable + i*O2_FILETABLESIZE, key, strlen(key))`. -/
def slotCompare {D : Type} (cfg : Config) (db : DB D) (i : Nat) (key : CStr) : Int :=
  strncmp (fun t => db.fileTable (i * cfg.O2_FILETABLESIZE + t)) key.byte (strlen key)

/-- The database states reached from `create` by commands that end without `error`:
single inserts, batch inserts and the L2 retrofit.  `okKey` and `okFile` restrict the
keys and the feature files presented. -/
inductive Reachable {D : Type} [Zero D] [One D] [Add D] [Mul D] [Div D] (cfg : Config)
    (sqrt : D → D) (okKey : CStr → Prop) (okFile : FeatureFile D → Prop) : DB D → Prop
  | create : Reachable cfg sqrt okKey okFile (create cfg)
  | insert (db : DB D) (a : InsertArgs D) :
      Reachable cfg sqrt okKey okFile db → okKey a.key → okFile a.inFile →
      (∀ e, (insert cfg sqrt db a).status ≠ Status.failed e) →
      Reachable cfg sqrt okKey okFile (insert cfg sqrt db a).db
  | batchinsert (db : DB D) (usingTimes : Bool) (entries : List (BatchEntry D)) :
      Reachable cfg sqrt okKey okFile db →
      (∀ e ∈ entries, okKey e.thisKey ∧ okFile e.thisFile) →
      (batchinsert cfg sqrt db usingTimes entries).status = Status.ok →
      Reachable cfg sqrt okKey okFile (batchinsert cfg sqrt db usingTimes entries).db
  | l2norm (db : DB D) :
      Reachable cfg sqrt okKey okFile db →
      (l2norm cfg sqrt db).status = Status.ok →
      Reachable cfg sqrt okKey okFile (l2norm cfg sqrt db).db

/-- The Euclidean norm of the vector of `dim` scalars that starts at `X[p]`: the
square root of the sum of the squares of its coordinates. -/
def euclideanNorm {D : Type} [AddCommMonoid D] [Mul D] (sqrt : D → D) (X : Nat → D)
    (p dim : Nat) : D :=
  sqrt (∑ d in Finset.range dim, X (p + d) * X (p + d))

/-! ## A small layout and sample inputs -/

/-- A small layout: two key slots of 16 bytes, a payload region of 64 bytes
(bytes 60 to 123), and two tables of eight doubles. -/
def cfgSmall : Config :=
  { O2_DEFAULTDBSIZE := 252, O2_MAXFILES := 2, O2_FILETABLESIZE := 16, O2_SEGTABLESIZE := 4,
    O2_HEADERSIZE := 20, O2_MEANNUMVECTORS := 4, O2_MAGIC := 1329735040 }

/-- No times file: `usingTimes = 0`, the stream is never looked at. -/
def noTimes (D : Type) : TimesFile D :=
  { is_open := false, vals := [], endsWithSpace := false }

/-- The feature file with dimension word `dim`, `nbytes` bytes after it, holding the
doubles `vals`. -/
def fileOf {D : Type} [Zero D] (dim nbytes : Nat) (vals : List D) : FeatureFile D :=
  { dim := dim, nbytes := nbytes, indata := fun i => vals.getD i 0 }

/-- An insert without times of the file `fileOf dim nbytes vals` under `key`. -/
def plainInsert {D : Type} [Zero D] (key : CStr) (dim nbytes : Nat) (vals : List D) :
    InsertArgs D :=
  { key := key, inFile := fileOf dim nbytes vals, usingTimes := false,
    timesFile := noTimes D }

section Samples

variable {D : Type} [Zero D] [One D] [Add D] [Mul D] [Div D]

/-- A ragged feature file: dimension 2 followed by three doubles (24 bytes), under
key "a". -/
def raggedInsert : InsertArgs D := plainInsert [97] 2 24 [1, 1 + 1, 1 + 1 + 1]

/-- The database after `create` and the insert of the ragged file. -/
def raggedDB (sqrt : D → D) : DB D :=
  (insert cfgSmall sqrt (create cfgSmall) raggedInsert).db

/-- The feature file of test 0012, two vectors `(0, 0.5)` and `(0.5, 0)` of dimension
2, under key "testfeature". -/
def testfeature : InsertArgs D :=
  plainInsert [116, 101, 115, 116, 102, 101, 97, 116, 117, 114, 101] 2 32
    [0, 1 / (1 + 1), 1 / (1 + 1), 0]

/-- The database of test 0012 after `create` and `l2norm`. -/
def normedEmptyDB (sqrt : D → D) : DB D := (l2norm cfgSmall sqrt (create cfgSmall)).db

/-- The database after `create` and the insert of one vector `(1)` under the key
"abcdefghijklmnopqr" of 18 bytes, two more than a key slot of `cfgSmall` holds. -/
def longKeyDB (sqrt : D → D) : DB D :=
  (insert cfgSmall sqrt (create cfgSmall)
    (plainInsert [97, 98, 99, 100, 101, 102, 103, 104, 105, 106, 107, 108, 109, 110, 111, 112,
      113, 114] 1 8 [1])).db

/-- A feature file of five vectors of dimension 1 (40 bytes), under key "a". -/
def fiveVectors : InsertArgs D := plainInsert [97] 1 40 [1, 1, 1, 1, 1]

/-- A feature file of four vectors of dimension 2 (64 bytes, the whole payload region
of `cfgSmall`), under key "a". -/
def fillingInsert : InsertArgs D := plainInsert [97] 2 64 [1, 1, 1, 1, 1, 1, 1, 1]

/-- A feature file of one vector `(1)` of dimension 1 (8 bytes), under `key`. -/
def oneVector (key : CStr) : InsertArgs D := plainInsert key 1 8 [1]

/-- The database after `create` and the insert of one vector under the key "a". -/
def oneKeyDB (sqrt : D → D) : DB D :=
  (insert cfgSmall sqrt (create cfgSmall) (oneVector [97])).db

/-- The database after `create` and the inserts of one vector each under the keys "a",
"b" and "c". -/
def threeKeysDB (sqrt : D → D) : DB D :=
  (insert cfgSmall sqrt
    (insert cfgSmall sqrt
      (insert cfgSmall sqrt (create cfgSmall) (oneVector [97])).db
      (oneVector [98])).db
    (oneVector [99])).db

/-- The database after `create` and the inserts of one vector each under the keys
"abc" and then "abcd". -/
def abcDB (sqrt : D → D) : DB D :=
  (insert cfgSmall sqrt
    (insert cfgSmall sqrt (create cfgSmall) (oneVector [97, 98, 99])).db
    (oneVector [97, 98, 99, 100])).db

end Samples


/-! ## Further sample inputs -/

section MoreSamples

variable {D : Type} [Zero D] [One D] [Add D] [Mul D] [Div D]

/-- The database of test 0006 run on the feature file of test 0012: `create`, the
insert of `testfeature`, then `l2norm`. -/
def insertedThenNormedDB (sqrt : D → D) : DB D :=
  (l2norm cfgSmall sqrt (insert cfgSmall sqrt (create cfgSmall) testfeature).db).db

/-- The database of test 0012: `create`, `l2norm`, then the insert of `testfeature`. -/
def normedThenInsertedDB (sqrt : D → D) : DB D :=
  (insert cfgSmall sqrt (normedEmptyDB sqrt) testfeature).db

/-- An insert with a times file: the vector `(1)` of dimension 1 under key "a", with
a times file holding the two values 0 and 1. -/
def timedVector : InsertArgs D :=
  { key := [97], inFile := fileOf 1 8 [1], usingTimes := true,
    timesFile := { is_open := true, vals := [0, 1], endsWithSpace := true } }

/-- The database after `create` and the insert of `timedVector`. -/
def timedDB (sqrt : D → D) : DB D :=
  (insert cfgSmall sqrt (create cfgSmall) timedVector).db

/-- An insert without times of a feature file that holds the dimension word `dim` and
nothing else, under `key`. -/
def emptyFile (key : CStr) (dim : Nat) : InsertArgs D := plainInsert key dim 0 []

end MoreSamples


/-! ## The command line of a query -/

/-- The fields of `gengetopt_args_info` read by the QUERY branch of `processArgs`
(lines 334-369), with the types `cmdline.h` gives them: a string, a flag and five
`int`s. -/
structure QueryOptions where
  QUERY_arg : CStr
  exhaustive_flag : Bool
  qpoint_arg : Int
  pointnn_arg : Int
  resultlength_arg : Int
  sequencelength_arg : Int
  sequencehop_arg : Int
deriving Repr, DecidableEq

/-- The three values of the member `queryType`. -/
inductive QueryType where
  | O2_FLAG_SEG_QUERY
  | O2_FLAG_POINT_QUERY
  | O2_FLAG_SEQUENCE_QUERY
deriving Repr, DecidableEq

/-- The calls of `error` in the QUERY branch of `processArgs`. -/
inductive ArgsErr where
  | UnsupportedQueryType
  | QueryPointOutOfRange
  | PointNNOutOfRange
  | ResultLengthOutOfRange
  | SeqlenOutOfRange
  | SeqhopOutOfRange
deriving Repr, DecidableEq

/-- The members of `audioDB` that steer a query, as `processArgs` leaves them. -/
structure QuerySettings where
  queryType : QueryType
  queryPoint : Nat
  usingQueryPoint : Bool
  pointNN : Nat
  segNN : Nat
  sequenceLength : Nat
  sequenceHop : Nat
deriving Repr, DecidableEq

/-- The string "segment". -/
def strSegment : CStr := [115, 101, 103, 109, 101, 110, 116]

/-- The string "point". -/
def strPoint : CStr := [112, 111, 105, 110, 116]

/-- The string "sequence". -/
def strSequence : CStr := [115, 101, 113, 117, 101, 110, 99, 101]

/-- The query type named by the option `QUERY_arg` (lines 335-342), compared with
`strncmp` over at most `MAXSTR` bytes; `none` stands for the call of `error`. -/
def queryTypeOf (MAXSTR : Nat) (QUERY_arg : CStr) : Option QueryType :=
  if strncmp QUERY_arg.byte strSegment.byte MAXSTR = 0 then
    some QueryType.O2_FLAG_SEG_QUERY
  else if strncmp QUERY_arg.byte strPoint.byte MAXSTR = 0 then
    some QueryType.O2_FLAG_POINT_QUERY
  else if strncmp QUERY_arg.byte strSequence.byte MAXSTR = 0 then
    some QueryType.O2_FLAG_SEQUENCE_QUERY
  else none

/-- The range tests of the QUERY branch (lines 344-369), in their order.  The members
are declared in `audioDB.h`; each test is embedded as it is written, on the value of
the option, which gives the same verdict for a member of type `int` and for one of
type `unsigned` holding the converted `int`.  A member that passed its test holds the
value of the option; `queryPoint` and `usingQueryPoint` keep the values 0 of the
constructor under `--exhaustive`. -/
def checkRanges (qt : QueryType) (args : QueryOptions) : Except ArgsErr QuerySettings :=
  if !args.exhaustive_flag ∧ (args.qpoint_arg < 0 ∨ args.qpoint_arg > 10000) then
    Except.error ArgsErr.QueryPointOutOfRange
  else if args.pointnn_arg < 1 ∨ args.pointnn_arg > 1000 then
    Except.error ArgsErr.PointNNOutOfRange
  else if args.resultlength_arg < 1 ∨ args.resultlength_arg > 1000 then
    Except.error ArgsErr.ResultLengthOutOfRange
  else if args.sequencelength_arg < 1 ∨ args.sequencelength_arg > 1000 then
    Except.error ArgsErr.SeqlenOutOfRange
  else if args.sequencehop_arg < 1 ∨ args.sequencehop_arg > 1000 then
    Except.error ArgsErr.SeqhopOutOfRange
  else
    Except.ok
      { queryType := qt
        queryPoint := if args.exhaustive_flag then 0 else args.qpoint_arg.toNat
        usingQueryPoint := !args.exhaustive_flag
        pointNN := args.pointnn_arg.toNat
        segNN := args.resultlength_arg.toNat
        sequenceLength := args.sequencelength_arg.toNat
        sequenceHop := args.sequencehop_arg.toNat }

/-- The QUERY branch of `audioDB::processArgs` (lines 313-372), reached when
`QUERY_given` is set and no earlier command option is.  `MAXSTR` is a constant of
`audioDB.h`.  The streams opened on the key list and on the times file do not take
part in the decision (`new ifstream` does not return a null pointer). -/
def processArgs (MAXSTR : Nat) (args : QueryOptions) : Except ArgsErr QuerySettings :=
  match queryTypeOf MAXSTR args.QUERY_arg with
  | none => Except.error ArgsErr.UnsupportedQueryType
  | some qt => checkRanges qt args


/-! ## Ranked lists

The engines keep their results in parallel arrays on the stack (`distances`,
`qIndexes`, `sIndexes`, and `segDistances`, `segIDs`, `segQIndexes`, `segSIndexes`).
An array is a function of the index; the cells from the declared length on are not
part of the array: the model gives them the initial value too, and a store beyond the
declared length lands in such a cell, not in a neighbouring array. -/

/-- The value `~0` of an `unsigned`, stored in the index cells that hold no result. -/
def noIndex : Nat := 2 ^ 32 - 1

/-- The arrays `distances`, `qIndexes` and `sIndexes`. -/
structure PointList (D : Type) where
  distances : Nat → D
  qIndexes : Nat → Nat
  sIndexes : Nat → Nat

/-- The arrays `segDistances`, `segIDs`, `segQIndexes` and `segSIndexes`. -/
structure SegList (D : Type) where
  segDistances : Nat → D
  segIDs : Nat → Nat
  segQIndexes : Nat → Nat
  segSIndexes : Nat → Nat

/-- The loop `distances[k]=0.0; qIndexes[k]=~0; sIndexes[k]=~0;` (lines 981-985), which
is also the reset made after each segment (lines 1328-1332 and 1760-1764). -/
def PointList.init (D : Type) [Zero D] : PointList D :=
  { distances := fun _ => 0, qIndexes := fun _ => noIndex, sIndexes := fun _ => noIndex }

/-- The loop `segDistances[k]=0.0; segQIndexes[k]=~0; segSIndexes[k]=~0; segIDs[k]=~0;`
(lines 1177-1182). -/
def SegList.init (D : Type) [Zero D] : SegList D :=
  { segDistances := fun _ => 0, segIDs := fun _ => noIndex,
    segQIndexes := fun _ => noIndex, segSIndexes := fun _ => noIndex }

/-- The loop `for(l = top; l > n; l--) a[l] = a[l-1];` on one array, entered with
`l`.  The source moves the parallel arrays in one loop (lines 1049-1053); the cells of
one array do not depend on the others. -/
def shiftArr {α : Type} (n : Nat) : Nat → (Nat → α) → (Nat → α)
  | 0, a => a
  | l + 1, a =>
    if n < l + 1 then shiftArr n l (fun i => if i = l + 1 then a l else a i) else a

/-- The store of a new entry at rank `n` after the shift of the cells `n .. top - 1`
into `n + 1 .. top` (lines 1049-1054). -/
def placeAt {α : Type} (top n : Nat) (x : α) (a : Nat → α) : Nat → α :=
  fun i => if i = n then x else shiftArr n top a i

/-- The search made by `n=pointNN; while(n--){ if(thisDist>=distances[n]){
if(n==0 || thisDist<=distances[n-1]){ ...; break; } } else break; }` (lines 1044-1062,
1276-1294, 1307-1327, 1735-1756): the rank at which the loop stores `thisDist`, if it
stores it.  The argument is the value of `n` before the test `n--`. -/
def findRank {D : Type} [LinearOrder D] (distances : Nat → D) (thisDist : D) :
    Nat → Option Nat
  | 0 => none
  | n + 1 =>
    if thisDist ≥ distances n then
      if n = 0 ∨ thisDist ≤ distances (n - 1) then some n
      else findRank distances thisDist n
    else none

/-- The search made by `for(m=0; m<pointNN; m++){ if(thisDist>=distances[m]){ ...;
break; } }` of the sequence query (lines 1706-1722): the first rank `m` with
`thisDist >= distances[m]`.  The arguments are the number of ranks left and `m`. -/
def findRankNBest {D : Type} [LinearOrder D] (distances : Nat → D) (thisDist : D) :
    Nat → Nat → Option Nat
  | 0, _ => none
  | rest + 1, m =>
    if thisDist ≥ distances m then some m
    else findRankNBest distances thisDist rest (m + 1)

/-- The entry `(thisDist, qIndex, sIndex)` stored at rank `n`, the shift starting at
cell `top`. -/
def PointList.place {D : Type} (top n : Nat) (thisDist : D) (qIndex sIndex : Nat)
    (r : PointList D) : PointList D :=
  { distances := placeAt top n thisDist r.distances
    qIndexes := placeAt top n qIndex r.qIndexes
    sIndexes := placeAt top n sIndex r.sIndexes }

/-- The entry `(thisDist, seg, qIndex, sIndex)` stored at rank `n`, the shift starting
at cell `top`. -/
def SegList.place {D : Type} (top n : Nat) (thisDist : D) (seg qIndex sIndex : Nat)
    (r : SegList D) : SegList D :=
  { segDistances := placeAt top n thisDist r.segDistances
    segIDs := placeAt top n seg r.segIDs
    segQIndexes := placeAt top n qIndex r.segQIndexes
    segSIndexes := placeAt top n sIndex r.segSIndexes }

/-- The insertion of `pointQuery` (lines 1044-1062) and of the point level of
`segPointQuery` (lines 1276-1294) into a list of `pointNN` ranks. -/
def insertPoint {D : Type} [LinearOrder D] (pointNN : Nat) (thisDist : D)
    (qIndex sIndex : Nat) (r : PointList D) : PointList D :=
  match findRank r.distances thisDist pointNN with
  | none => r
  | some n => r.place (pointNN - 1) n thisDist qIndex sIndex

/-- The insertion of the sequence query (lines 1706-1722) into a list of `pointNN`
ranks. -/
def insertNBest {D : Type} [LinearOrder D] (pointNN : Nat) (thisDist : D)
    (qIndex sIndex : Nat) (r : PointList D) : PointList D :=
  match findRankNBest r.distances thisDist pointNN 0 with
  | none => r
  | some m => r.place (pointNN - 1) m thisDist qIndex sIndex

/-- The insertion at the segment level into a list of `segNN` ranks; `top` is the
cell at which the shift starts: `pointNN-1` in `segPointQuery` (line 1312), `segNN-1`
in `segSequenceQuery` (line 1740).  The second component tells whether the entry was
stored (`successfulSegs++`, line 1749). -/
def insertSeg {D : Type} [LinearOrder D] (segNN top : Nat) (thisDist : D)
    (seg qIndex sIndex : Nat) (r : SegList D) : SegList D × Bool :=
  match findRank r.segDistances thisDist segNN with
  | none => (r, false)
  | some n => (r.place top n thisDist seg qIndex sIndex, true)

/-- The sum `thisDist=0; ...; thisDist+=distances[...]` over the `pointNN` ranks, in
the order of the ranks (lines 1302-1305 and 1725-1727): the ranks left to add and the
sum so far. -/
def sumDistances {D : Type} [Add D] (distances : Nat → D) (pointNN : Nat) : Nat → D → D
  | 0, acc => acc
  | n + 1, acc => sumDistances distances pointNN n (acc + distances (pointNN - n - 1))

/-- The inner product `thisDist=0; l=dim; while(l--) thisDist+=*q++**data++;` (lines
1036-1040) of the vectors that start at `q[qp]` and at `data[dp]`: the coordinates
left and the sum so far. -/
def innerProduct {D : Type} [Add D] [Mul D] (q data : Nat → D) : Nat → Nat → Nat → D → D
  | _, _, 0, acc => acc
  | qp, dp, l + 1, acc => innerProduct q data (qp + 1) (dp + 1) l (acc + q qp * data dp)

/-- The function `audioDB::unitNorm(X, dim, n, qNorm)` (lines 1867-1892) on the copy of
the query: its loop is the loop of `unitNormAndInsertL2`, storing through `qNorm`.
`qNorm` is fresh memory, `junk` stands for what it holds.  Returns the normed block
and `qNorm`. -/
def unitNorm {D : Type} [Zero D] [One D] [Add D] [Mul D] [Div D] (sqrt : D → D)
    (X : Nat → D) (dim n : Nat) (junk : Nat → D) : (Nat → D) × (Nat → D) :=
  normLoop sqrt dim n X 0 junk 0

/-- The failures of a query: an `error` of `initTables`, the division by a zero
dimension, a failed `assert`, the query point test, and the L2 test of the sequence
query. -/
inductive QueryErr where
  | Init (e : Err)
  | DivideByZero
  | AssertFailed
  | QueryPointTooLarge
  | NotL2Normed
deriving Repr, DecidableEq

/-- One line of the answer: the slot of the key table whose key is printed, the
distance, and the two positions. -/
structure ResultRow (D : Type) where
  slot : Nat
  distance : D
  qpos : Nat
  spos : Nat
deriving DecidableEq

/-- The scan for the key of a winner in `pointQuery` (lines 1078-1086):
`cumSeg=0; for(l=0; l<numFiles; l++){ cumSeg+=segTable[l]; if(sIndex<cumSeg){ ...;
break; } }`.  The arguments are the slots left, `l` and `cumSeg`; the result is the
slot found and the position printed, `sIndex+segTable[l]-cumSeg`. -/
def keyScan (segTable : Nat → Nat) (sIndex : Nat) : Nat → Nat → Nat → Option (Nat × Nat)
  | 0, _, _ => none
  | rest + 1, l, cumSeg =>
    if sIndex < (cumSeg + segTable l) % 2 ^ 32 then
      some (l, (sIndex + segTable l + (2 ^ 32 - (cumSeg + segTable l) % 2 ^ 32)) % 2 ^ 32)
    else keyScan segTable sIndex rest (l + 1) ((cumSeg + segTable l) % 2 ^ 32)

/-- The line printed by `pointQuery` for rank `k` (lines 1076-1087), if one is. -/
def pointRow {D : Type} (segTable : Nat → Nat) (numFiles : Nat) (r : PointList D)
    (k : Nat) : Option (ResultRow D) :=
  match keyScan segTable (r.sIndexes k) numFiles 0 0 with
  | none => none
  | some p =>
    some { slot := p.1, distance := r.distances k, qpos := r.qIndexes k, spos := p.2 }

/-- The settings of a query besides those of `processArgs`: the constant `O2_MAXNN`
of `audioDB.h` used by the `assert`s, whether the query and the database are both
timestamped (the member `usingTimes` after lines 996-1004), and the duration test
`!usingTimes || fabs(...) < ...` of the engine as a function of the two indices it is
made on.  Without a times file the test is constantly true. -/
structure QueryEnv where
  O2_MAXNN : Nat
  usingTimes : Bool
  durOk : Nat → Nat → Bool

/-- The environment of a query without a times file. -/
def plainEnv : QueryEnv :=
  { O2_MAXNN := 1000, usingTimes := false, durOk := fun _ _ => true }

/-- The test made in `pointQuery` and `segPointQuery` on the query point (lines 1021
and 1215): `queryPoint>numVectors-1`, in `unsigned` arithmetic. -/
def queryPointTooLarge (queryPoint numVectors : Nat) : Bool :=
  decide (queryPoint > (numVectors + (2 ^ 32 - 1)) % 2 ^ 32)

/-- The test made in `segSequenceQuery` on the query point (line 1567):
`queryPoint>numVectors || queryPoint>numVectors-wL+1`, in `unsigned` arithmetic. -/
def sequenceQueryPointTooLarge (queryPoint numVectors wL : Nat) : Bool :=
  decide (queryPoint > numVectors ∨
    queryPoint > (numVectors + (2 ^ 32 - wL % 2 ^ 32) + 1) % 2 ^ 32)


/-! ## The point query and the segment point query

The engines are embedded for a run without a key list (`segFile = 0`) that prints its
answer (`adbQueryResult = 0`).  The duration test enters through `QueryEnv`; the
preparation of the duration tables and the run with a key list are embedded in
sections of their own, further down. -/

section PointEngines

variable {D : Type} [LinearOrderedField D]

/-- The loop `k=totalVecs; while(k--){ ... }` of `pointQuery` over the vectors of the
database (lines 1034-1064) for the query vector at `query[qp]`: the value of `k` before
the test `k--`, the position of `data`, and the list. -/
def pointScan (env : QueryEnv) (pointNN dim totalVecs : Nat) (query dataBuf : Nat → D)
    (qp qIndex : Nat) : Nat → Nat → PointList D → PointList D
  | 0, _, r => r
  | k + 1, dp, r =>
    pointScan env pointNN dim totalVecs query dataBuf qp qIndex k (dp + dim)
      (if env.durOk (totalVecs - k - 1) qIndex then
        insertPoint pointNN (innerProduct query dataBuf qp dp dim 0) qIndex
          (totalVecs - k - 1) r
      else r)

/-- The loop `while(j--){ data=dataBuf; ...; query+=dbH->dim; }` of `pointQuery` (lines
1032-1067): the value of `j` before the test `j--`, the position of `query`, and the
list.  The index stored in `qIndexes` is `numVectors-j-1`. -/
def pointLoop (env : QueryEnv) (pointNN dim totalVecs numVectors : Nat)
    (query dataBuf : Nat → D) : Nat → Nat → PointList D → PointList D
  | 0, _, r => r
  | j + 1, qp, r =>
    pointLoop env pointNN dim totalVecs numVectors query dataBuf j (qp + dim)
      (pointScan env pointNN dim totalVecs query dataBuf qp
        ((numVectors + (2 ^ 32 - 1 - j)) % 2 ^ 32) totalVecs 0 r)

/-- The query vectors the engines compare with: on a database that is L2 normed, the
copy made of the `numVectors` vectors of the file and normed by `unitNorm` (lines
966-974); otherwise the vectors of the file. -/
def queryInUse (sqrt : D → D) (dbH : dbTableHeaderT) (inFile : FeatureFile D)
    (junk : Nat → D) : Nat → D :=
  if dbH.flags &&& O2_FLAG_L2NORM ≠ 0 then
    (unitNorm sqrt inFile.indata dbH.dim
      (inFile.nbytes / (sizeofDouble * dbH.dim) % 2 ^ 32) junk).1
  else inFile.indata

/-- What `pointQuery` leaves: the ranked list and the lines printed. -/
structure PointOutput (D : Type) where
  list : PointList D
  rows : List (ResultRow D)

/-- The function `audioDB::pointQuery` (lines 954-1124).  `junk` stands for the content
of the fresh array `qNorm`. -/
def pointQuery (cfg : Config) (sqrt : D → D) (env : QueryEnv) (s : QuerySettings)
    (db : DB D) (inFile : FeatureFile D) (junk : Nat → D) :
    Except QueryErr (PointOutput D) :=
  match initTables cfg db (some inFile) with
  | Except.error e => Except.error (QueryErr.Init e)
  | Except.ok dbH =>
    if dbH.dim = 0 then Except.error QueryErr.DivideByZero
    else
      let numVectors : Nat := inFile.nbytes / (sizeofDouble * dbH.dim) % 2 ^ 32
      let query : Nat → D := queryInUse sqrt dbH inFile junk
      if ¬ (s.pointNN > 0 ∧ s.pointNN ≤ env.O2_MAXNN) then
        Except.error QueryErr.AssertFailed
      else
        let totalVecs : Nat := dbH.length / (dbH.dim * sizeofDouble)
        let j0 : Nat := if env.usingTimes then (numVectors + (2 ^ 32 - 1)) % 2 ^ 32
                        else numVectors
        if s.usingQueryPoint ∧ queryPointTooLarge s.queryPoint numVectors then
          Except.error QueryErr.QueryPointTooLarge
        else
          let qp : Nat := if s.usingQueryPoint then s.queryPoint * dbH.dim % 2 ^ 32 else 0
          let numVectors1 : Nat :=
            if s.usingQueryPoint then (s.queryPoint + 1) % 2 ^ 32 else numVectors
          let j : Nat := if s.usingQueryPoint then 1 else j0
          let r : PointList D :=
            pointLoop env s.pointNN dbH.dim totalVecs numVectors1 query db.dataBuf j qp
              (PointList.init D)
          Except.ok
            { list := r
              rows := (List.range s.pointNN).filterMap
                (pointRow db.segTable dbH.numFiles r) }

/-- The table `segOffsetTable` (lines 1225-1231): `segOffsetTable[k]=cumSeg;
cumSeg+=segTable[k]*dbH->dim;`. -/
def segOffsetTable (segTable : Nat → Nat) (dim : Nat) : Nat → Nat
  | 0 => 0
  | k + 1 => (segOffsetTable segTable dim k + segTable k * dim) % 2 ^ 32

/-- The loop `k=segTable[seg]; data=dataBuf+segOffset; while(k--){ ... }` of
`segPointQuery` (lines 1265-1295).  The duration test depends on the segment only; the
index stored in `sIndexes` is `segTable[seg]-k-1`. -/
def segScan (env : QueryEnv) (pointNN dim seg segLen : Nat) (query dataBuf : Nat → D)
    (qp qIndex : Nat) : Nat → Nat → PointList D → PointList D
  | 0, _, r => r
  | k + 1, dp, r =>
    segScan env pointNN dim seg segLen query dataBuf qp qIndex k (dp + dim)
      (if env.durOk seg 0 then
        insertPoint pointNN (innerProduct query dataBuf qp dp dim 0) qIndex
          (segLen - k - 1) r
      else r)

/-- The loop `while(j--){ ...; query+=dbH->dim; }` of `segPointQuery` (lines
1264-1299). -/
def segPointLoop (env : QueryEnv) (pointNN dim seg segLen segOffset numVectors : Nat)
    (query dataBuf : Nat → D) : Nat → Nat → PointList D → PointList D
  | 0, _, r => r
  | j + 1, qp, r =>
    segPointLoop env pointNN dim seg segLen segOffset numVectors query dataBuf j (qp + dim)
      (segScan env pointNN dim seg segLen query dataBuf qp
        ((numVectors + (2 ^ 32 - 1 - j)) % 2 ^ 32) segLen segOffset r)

/-- One turn of the loop over the segments of `segPointQuery` (lines 1251-1332): the
point level for segment `seg`, the mean of the `pointNN` distances, the insertion at
the segment level (whose shift starts at cell `pointNN-1`, line 1312), and the reset
of the point list. -/
def segPointStep (env : QueryEnv) (s : QuerySettings) (dim numVectors : Nat)
    (query : Nat → D) (db : DB D) (seg : Nat) (st : PointList D × SegList D) :
    PointList D × SegList D :=
  let pts : PointList D :=
    segPointLoop env s.pointNN dim seg (db.segTable seg)
      (segOffsetTable db.segTable dim seg) numVectors query db.dataBuf
      (if s.usingQueryPoint then 1 else numVectors)
      (if s.usingQueryPoint then s.queryPoint * dim % 2 ^ 32 else 0) st.1
  let thisDist : D := sumDistances pts.distances s.pointNN s.pointNN 0 / (s.pointNN : D)
  (PointList.init D,
    (insertSeg s.segNN (s.pointNN - 1) thisDist seg (pts.qIndexes 0) (pts.sIndexes 0)
      st.2).1)

/-- The loop `for(seg=0; seg<dbH->numFiles; seg++, processedSegs++)` of `segPointQuery`
(lines 1237-1333): the segments left and `seg`. -/
def segPointSegs (env : QueryEnv) (s : QuerySettings) (dim numVectors : Nat)
    (query : Nat → D) (db : DB D) :
    Nat → Nat → PointList D × SegList D → PointList D × SegList D
  | 0, _, st => st
  | rest + 1, seg, st =>
    segPointSegs env s dim numVectors query db rest (seg + 1)
      (segPointStep env s dim numVectors query db seg st)

/-- What the segment engines leave: the two ranked lists and the lines printed. -/
structure SegOutput (D : Type) where
  points : PointList D
  segs : SegList D
  rows : List (ResultRow D)

/-- The line printed for rank `k` of the segment list (lines 1346-1347 and 1790). -/
def segRow (r : SegList D) (k : Nat) : ResultRow D :=
  { slot := r.segIDs k, distance := r.segDistances k, qpos := r.segQIndexes k,
    spos := r.segSIndexes k }

/-- The function `audioDB::segPointQuery` (lines 1133-1381). -/
def segPointQuery (cfg : Config) (sqrt : D → D) (env : QueryEnv) (s : QuerySettings)
    (db : DB D) (inFile : FeatureFile D) (junk : Nat → D) :
    Except QueryErr (SegOutput D) :=
  match initTables cfg db (some inFile) with
  | Except.error e => Except.error (QueryErr.Init e)
  | Except.ok dbH =>
    if dbH.dim = 0 then Except.error QueryErr.DivideByZero
    else
      let numVectors : Nat := inFile.nbytes / (sizeofDouble * dbH.dim) % 2 ^ 32
      let query : Nat → D := queryInUse sqrt dbH inFile junk
      if ¬ (s.pointNN > 0 ∧ s.pointNN ≤ env.O2_MAXNN) then
        Except.error QueryErr.AssertFailed
      else if ¬ (s.segNN > 0 ∧ s.segNN ≤ env.O2_MAXNN) then
        Except.error QueryErr.AssertFailed
      else if s.usingQueryPoint ∧ queryPointTooLarge s.queryPoint numVectors then
        Except.error QueryErr.QueryPointTooLarge
      else
        let numVectors1 : Nat :=
          if s.usingQueryPoint then (s.queryPoint + 1) % 2 ^ 32 else numVectors
        let st : PointList D × SegList D :=
          segPointSegs env s dbH.dim numVectors1 query db dbH.numFiles 0
            (PointList.init D, SegList.init D)
        Except.ok
          { points := st.1
            segs := st.2
            rows := (List.range (min s.segNN dbH.numFiles)).map (segRow st.2) }

end PointEngines


/-! ## The sequence query -/

section SequenceEngine

variable {D : Type} [LinearOrderedField D]

/-- The library function `fabs`. -/
def fabs (x : D) : D := if x < 0 then -x else x

/-- The loop `while(w--) *snPtr+=snPtr[j++];` (lines 1438-1439 and 1480-1481) on the
cell `a[p]`: the value of `w` before the test and `j`. -/
def addAhead (p : Nat) : Nat → Nat → (Nat → D) → (Nat → D)
  | 0, _, a => a
  | w + 1, j, a => addAhead p w (j + 1) (fun i => if i = p then a p + a (p + j) else a i)

/-- The loop `while(w--){ tmp2=*ps; *ps=*(ps-1)-tmp1+*(ps+sequenceLength); tmp1=tmp2;
ps++; }` (lines 1442-1447): the value of `w` before the test, `ps` and `tmp1`. -/
def slideNorms (sequenceLength : Nat) : Nat → Nat → D → (Nat → D) → (Nat → D)
  | 0, _, _, a => a
  | w + 1, ps, tmp1, a =>
    slideNorms sequenceLength w (ps + 1) (a ps)
      (fun i => if i = ps then a (ps - 1) - tmp1 + a (ps + sequenceLength) else a i)

/-- The loop over the files that turns the norms of the vectors into the norms of the
shingles (lines 1432-1450): the files left, `i`, the position of `snPtr`, and `sNorm`. -/
def shingleNorms (segTable : Nat → Nat) (sequenceLength : Nat) :
    Nat → Nat → Nat → (Nat → D) → (Nat → D)
  | 0, _, _, a => a
  | rest + 1, i, snPtr, a =>
    shingleNorms segTable sequenceLength rest (i + 1) (snPtr + segTable i)
      (if segTable i > sequenceLength then
        slideNorms sequenceLength (segTable i - sequenceLength) (snPtr + 1) (a snPtr)
          (addAhead snPtr (sequenceLength - 1) 1 a)
      else a)

/-- The loop `while(w--) *pn+=*ps++;` (lines 1462-1463): the value of `w` before the
test, the position of `ps`, and `*pn`. -/
def sumNorms (sNorm : Nat → D) : Nat → Nat → D → D
  | 0, _, acc => acc
  | w + 1, ps, acc => sumNorms sNorm w (ps + 1) (acc + sNorm ps)

/-- What the loop of lines 1458-1469 computes: the array `sMeanL2`, the sum
`SILENCE_THRESH` and the count `processedSegs`. -/
structure SegMeans (D : Type) where
  sMeanL2 : Nat → D
  SILENCE_THRESH : D
  processedSegs : Nat

/-- The loop over the files that computes the mean shingle norm of each file (lines
1458-1469): the files left, `i`, the position of `ps` (which line 1468 sets to
`sNorm + segTable[i]`), and the values so far. -/
def segMeans (segTable : Nat → Nat) (sequenceLength : Nat) (sNorm : Nat → D) :
    Nat → Nat → Nat → SegMeans D → SegMeans D
  | 0, _, _, m => m
  | rest + 1, i, ps, m =>
    segMeans segTable sequenceLength sNorm rest (i + 1) (segTable i)
      (if segTable i > sequenceLength - 1 then
        { sMeanL2 := fun t =>
            if t = i then
              sumNorms sNorm (segTable i - sequenceLength + 1) ps 0
                / ((segTable i - sequenceLength + 1 : Nat) : D)
            else m.sMeanL2 t
          SILENCE_THRESH := m.SILENCE_THRESH +
            sumNorms sNorm (segTable i - sequenceLength + 1) ps 0
              / ((segTable i - sequenceLength + 1 : Nat) : D)
          processedSegs := m.processedSegs + 1 }
      else m)

/-- The loop `while(w--){ tmp2=*ps; *ps=*(ps-1)-tmp1+*(ps+sequenceLength); tmp1=tmp2;
qMeanL2+=*ps; *ps++; }` on the norms of the query (lines 1485-1491): the value of `w`
before the test, `ps`, `tmp1`, the array `qNorm` and `qMeanL2`. -/
def slideQuery (sequenceLength : Nat) : Nat → Nat → D → (Nat → D) → D → (Nat → D) × D
  | 0, _, _, a, m => (a, m)
  | w + 1, ps, tmp1, a, m =>
    slideQuery sequenceLength w (ps + 1) (a ps)
      (fun i => if i = ps then a (ps - 1) - tmp1 + a (ps + sequenceLength) else a i)
      (m + (a (ps - 1) - tmp1 + a (ps + sequenceLength)))

/-- The cell `D[j][k]` of the cross-correlation (lines 1638-1648): the inner product of
query vector `j` and vector `k` of the segment. -/
def crossCorrelation (dim : Nat) (query dataBuf : Nat → D) (qp segOffset : Nat)
    (j k : Nat) : D :=
  innerProduct query dataBuf (qp + j * dim) (segOffset + k * dim) dim 0

/-- The loop `k=segTable[seg]-w; while(k--) *sp+++=*spd++;` (lines 1658-1660) with
`sp=DD[j]` and `spd=D[j+w]+w`: the value of `k` before the test and the column. -/
def addDiagonal (Dm : Nat → Nat → D) (j w : Nat) :
    Nat → Nat → (Nat → Nat → D) → (Nat → Nat → D)
  | 0, _, DD => DD
  | k + 1, c, DD =>
    addDiagonal Dm j w k (c + 1)
      (fun a b => if a = j ∧ b = c then DD j c + Dm (j + w) (w + c) else DD a b)

/-- The loop `for(j=0; j<numVectors-w; j++)` of the matched filter with hop 1 (lines
1655-1661): the rows left and `j`. -/
def filterRows (Dm : Nat → Nat → D) (segLen w : Nat) :
    Nat → Nat → (Nat → Nat → D) → (Nat → Nat → D)
  | 0, _, DD => DD
  | rest + 1, j, DD =>
    filterRows Dm segLen w rest (j + 1) (addDiagonal Dm j w (segLen - w) 0 DD)

/-- The loop `for(k=0; k<bound; k+=hop) body(k)` of the lines 1665, 1668, 1691 and
1692: the turns left and `k`.  For `hop >= 1` the loop ends within `bound` turns. -/
def strideLoop {σ : Type} (hop bound : Nat) (body : Nat → σ → σ) : Nat → Nat → σ → σ
  | 0, _, s => s
  | fuel + 1, k, s =>
    if k < bound then strideLoop hop bound body fuel (k + hop) (body k s) else s

/-- The matched filter (lines 1653-1674), one diagonal `w` after the other: the
diagonals left and `w`.  `numVectors-w` is an `unsigned` difference. -/
def matchedFilter (Dm : Nat → Nat → D) (HOP_SIZE numVectors segLen : Nat) :
    Nat → Nat → (Nat → Nat → D) → (Nat → Nat → D)
  | 0, _, DD => DD
  | rest + 1, w, DD =>
    matchedFilter Dm HOP_SIZE numVectors segLen rest (w + 1)
      (if HOP_SIZE = 1 then
        filterRows Dm segLen w ((numVectors + (2 ^ 32 - w % 2 ^ 32)) % 2 ^ 32) 0 DD
      else
        strideLoop HOP_SIZE ((numVectors + (2 ^ 32 - w % 2 ^ 32)) % 2 ^ 32)
          (fun j DD1 =>
            strideLoop HOP_SIZE (segLen - w)
              (fun k DD2 => fun a b =>
                if a = j ∧ b = k then DD2 j k + Dm (j + w) (w + k) else DD2 a b)
              (segLen - w) 0 DD1)
          ((numVectors + (2 ^ 32 - w % 2 ^ 32)) % 2 ^ 32) 0 DD)

/-- The values computed before the loop over the segments: the norms of the shingles
of the database and of the query, the means and the two thresholds. -/
structure Thresholds (D : Type) where
  sNorm : Nat → D
  qNorm : Nat → D
  sMeanL2 : Nat → D
  qMeanL2 : D
  SILENCE_THRESH : D
  DIFF_THRESH : D

/-- The distance of one pair of shingles (lines 1694-1703): the matched filter value
over `wL` when the power test passes, zero otherwise.  `qNormAt` is the position of
the member `qNorm`, which line 1573 moves by `queryPoint`. -/
def shingleDistance (t : Thresholds D) (DD : Nat → Nat → D) (wL seg qNormAt : Nat)
    (j k : Nat) : D :=
  if t.qNorm (qNormAt + j) > t.SILENCE_THRESH ∧ t.sNorm k > t.SILENCE_THRESH ∧
      (t.qNorm (qNormAt + j) > t.qMeanL2 ∧ t.sNorm k > t.sMeanL2 seg ∧
        fabs (t.qNorm (qNormAt + j) - t.sNorm k) < t.DIFF_THRESH) then
    DD j k * (1 / (wL : D))
  else 0

/-- The search over the pairs of shingles of one segment (lines 1691-1723). -/
def shingleSearch (s : QuerySettings) (t : Thresholds D) (DD : Nat → Nat → D)
    (numVectors segLen seg qNormAt : Nat) (r : PointList D) : PointList D :=
  strideLoop s.sequenceHop ((numVectors + (2 ^ 32 - s.sequenceLength % 2 ^ 32) + 1) % 2 ^ 32)
    (fun j r1 =>
      strideLoop s.sequenceHop (segLen - s.sequenceLength + 1)
        (fun k r2 =>
          insertNBest s.pointNN (shingleDistance t DD s.sequenceLength seg qNormAt j k)
            (if s.usingQueryPoint then s.queryPoint else j) k r2)
        (segLen - s.sequenceLength + 1) 0 r1)
    ((numVectors + (2 ^ 32 - s.sequenceLength % 2 ^ 32) + 1) % 2 ^ 32) 0 r

/-- The state carried by the loop over the segments: the two lists and
`successfulSegs`. -/
structure SequenceState (D : Type) where
  points : PointList D
  segs : SegList D
  successfulSegs : Nat

/-- One turn of the loop over the segments of `segSequenceQuery` (lines 1616-1776). -/
def sequenceStep (env : QueryEnv) (s : QuerySettings) (t : Thresholds D)
    (dim numVectors qp qNormAt : Nat) (query : Nat → D) (db : DB D) (seg : Nat)
    (st : SequenceState D) : SequenceState D :=
  if s.sequenceLength < db.segTable seg then
    if env.durOk seg 0 then
      let DD : Nat → Nat → D :=
        matchedFilter
          (crossCorrelation dim query db.dataBuf qp (segOffsetTable db.segTable dim seg))
          s.sequenceHop numVectors (db.segTable seg) s.sequenceLength 0 (fun _ _ => 0)
      let pts : PointList D :=
        shingleSearch s t DD numVectors (db.segTable seg) seg qNormAt st.points
      let thisDist : D :=
        sumDistances pts.distances s.pointNN s.pointNN 0 / (s.pointNN : D)
      let ins := insertSeg s.segNN (s.segNN - 1) thisDist seg (pts.qIndexes 0)
        (pts.sIndexes 0) st.segs
      { points := PointList.init D
        segs := ins.1
        successfulSegs := if ins.2 then st.successfulSegs + 1 else st.successfulSegs }
    else { st with points := PointList.init D }
  else st

/-- The loop `for(processedSegs=0, seg=0; processedSegs<dbH->numFiles; seg++,
processedSegs++)` (lines 1604-1777): the segments left and `seg`. -/
def sequenceSegs (env : QueryEnv) (s : QuerySettings) (t : Thresholds D)
    (dim numVectors qp qNormAt : Nat) (query : Nat → D) (db : DB D) :
    Nat → Nat → SequenceState D → SequenceState D
  | 0, _, st => st
  | rest + 1, seg, st =>
    sequenceSegs env s t dim numVectors qp qNormAt query db rest (seg + 1)
      (sequenceStep env s t dim numVectors qp qNormAt query db seg st)

/-- The norms and thresholds computed by lines 1415-1492.  `junkQ` and `junkS` stand
for the content of the fresh arrays `qNorm` and `sNorm`. -/
def sequenceThresholds (s : QuerySettings) (dbH : dbTableHeaderT) (db : DB D)
    (qNorm0 : Nat → D) (numVectors : Nat) (junkS : Nat → D) : Thresholds D :=
  let dbVectors : Nat := dbH.length / (sizeofDouble * dbH.dim)
  let sNorm : Nat → D :=
    shingleNorms db.segTable s.sequenceLength dbH.numFiles 0 0
      (fun i => if i < dbVectors then db.l2normTable i else junkS i)
  let m : SegMeans D :=
    segMeans db.segTable s.sequenceLength sNorm dbH.numFiles 0 0
      { sMeanL2 := fun _ => 0, SILENCE_THRESH := 0, processedSegs := 0 }
  let qNorm1 : Nat → D := addAhead 0 (s.sequenceLength - 1) 1 qNorm0
  let q := slideQuery s.sequenceLength
    ((numVectors + (2 ^ 32 - s.sequenceLength % 2 ^ 32)) % 2 ^ 32) 1 (qNorm0 0) qNorm1
    (qNorm1 0)
  { sNorm := sNorm
    qNorm := q.1
    sMeanL2 := m.sMeanL2
    qMeanL2 := q.2 /
      (((numVectors + (2 ^ 32 - s.sequenceLength % 2 ^ 32) + 1) % 2 ^ 32 : Nat) : D)
    SILENCE_THRESH := m.SILENCE_THRESH / (m.processedSegs : D) / ((2 : Nat) : D)
      / ((10 : Nat) : D)
    DIFF_THRESH := m.SILENCE_THRESH / (m.processedSegs : D) / ((2 : Nat) : D) }

/-- The function `audioDB::segSequenceQuery` (lines 1390-1829). -/
def segSequenceQuery (cfg : Config) (sqrt : D → D) (env : QueryEnv) (s : QuerySettings)
    (db : DB D) (inFile : FeatureFile D) (junkQ junkS : Nat → D) :
    Except QueryErr (SegOutput D) :=
  match initTables cfg db (some inFile) with
  | Except.error e => Except.error (QueryErr.Init e)
  | Except.ok dbH =>
    if dbH.dim = 0 then Except.error QueryErr.DivideByZero
    else
      let numVectors : Nat := inFile.nbytes / (sizeofDouble * dbH.dim) % 2 ^ 32
      if dbH.flags &&& O2_FLAG_L2NORM = 0 then Except.error QueryErr.NotL2Normed
      else if s.sequenceLength = 0 then Except.error QueryErr.AssertFailed
      else
        let u := unitNorm sqrt inFile.indata dbH.dim numVectors junkQ
        let t : Thresholds D := sequenceThresholds s dbH db u.2 numVectors junkS
        if ¬ (s.pointNN > 0 ∧ s.pointNN ≤ env.O2_MAXNN) then
          Except.error QueryErr.AssertFailed
        else if ¬ (s.segNN > 0 ∧ s.segNN ≤ env.O2_MAXNN) then
          Except.error QueryErr.AssertFailed
        else if s.usingQueryPoint ∧
            sequenceQueryPointTooLarge s.queryPoint numVectors s.sequenceLength then
          Except.error QueryErr.QueryPointTooLarge
        else
          let st : SequenceState D :=
            sequenceSegs env s t dbH.dim
              (if s.usingQueryPoint then s.sequenceLength else numVectors)
              (if s.usingQueryPoint then s.queryPoint * dbH.dim % 2 ^ 32 else 0)
              (if s.usingQueryPoint then s.queryPoint else 0)
              u.1 db dbH.numFiles 0
              { points := PointList.init D, segs := SegList.init D, successfulSegs := 0 }
          Except.ok
            { points := st.points
              segs := st.segs
              rows := (List.range (min s.segNN st.successfulSegs)).map (segRow st.segs) }

end SequenceEngine


/-! ## Derived notions used by the statements about queries -/

/-- The first `K` cells of an array of scores are in non-increasing order. -/
def SortedDesc {D : Type} [LinearOrder D] (d : Nat → D) (K : Nat) : Prop :=
  ∀ i j, i ≤ j → j < K → d j ≤ d i

/-- The entry at rank `i` of a point list. -/
def PointList.entry {D : Type} (r : PointList D) (i : Nat) : D × Nat × Nat :=
  (r.distances i, r.qIndexes i, r.sIndexes i)

/-- The entry at rank `i` of a segment list. -/
def SegList.entry {D : Type} (r : SegList D) (i : Nat) : D × Nat × Nat × Nat :=
  (r.segDistances i, r.segIDs i, r.segQIndexes i, r.segSIndexes i)

/-- The lines printed by a segment engine, if it returns. -/
def answerOf {D : Type} (r : Except QueryErr (SegOutput D)) : Option (List (ResultRow D)) :=
  match r with
  | Except.ok o => some o.rows
  | Except.error _ => none

section Scores

variable {D : Type} [LinearOrderedField D]

/-- The score of vector `g` of the database in the scan of `pointQuery`: the inner
product of the query vector at `query[qp]` with the `dim` doubles at
`dataBuf[g * dim]`. -/
def vectorScore (dim : Nat) (query dataBuf : Nat → D) (qp g : Nat) : D :=
  innerProduct query dataBuf qp (g * dim) dim 0

/-- The score of vector `g` of the database in a point query at the query point: the
inner product with vector `queryPoint` of the query in use (which is the normed copy
when the database is L2 normed). -/
def pointScore (sqrt : D → D) (dbH : dbTableHeaderT) (s : QuerySettings) (db : DB D)
    (inFile : FeatureFile D) (junk : Nat → D) (g : Nat) : D :=
  vectorScore dbH.dim (queryInUse sqrt dbH inFile junk) db.dataBuf
    (s.queryPoint * dbH.dim % 2 ^ 32) g

/-- The state of the list of `K` ranks after the scan of the first `t` vectors, all of
positive score: the list is sorted; the first `min t K` ranks hold distinct vectors
among the first `t`, each with its own score; the other ranks hold the initial zero;
and every vector among the first `t` is in the list or scores no more than the last
rank. -/
def ScanInv (K : Nat) (score : Nat → D) (qIndex t : Nat) (r : PointList D) : Prop :=
  SortedDesc r.distances K ∧
  (∀ i, i < K → i < t →
    r.sIndexes i < t ∧ r.distances i = score (r.sIndexes i) ∧ r.qIndexes i = qIndex) ∧
  (∀ i, i < K → t ≤ i → r.distances i = 0) ∧
  (∀ i i', i < K → i' < K → i < t → i' < t → r.sIndexes i = r.sIndexes i' → i = i') ∧
  (∀ g, g < t →
    (∃ i, i < K ∧ i < t ∧ r.sIndexes i = g) ∨ (K ≤ t ∧ score g ≤ r.distances (K - 1)))

end Scores


/-! ## Sample queries -/

section QuerySamples

variable {D : Type} [Zero D] [One D] [Add D] [Mul D] [Div D]

/-- The feature file of test 0006, the two vectors `(0, 1)` and `(1, 0)` of dimension 2,
under key "testfeature". -/
def feature0006 : InsertArgs D :=
  plainInsert [116, 101, 115, 116, 102, 101, 97, 116, 117, 114, 101] 2 32 [0, 1, 1, 0]

/-- The database of test 0006: `create`, the insert of `feature0006`, then `l2norm`. -/
def db0006 (sqrt : D → D) : DB D :=
  (l2norm cfgSmall sqrt (insert cfgSmall sqrt (create cfgSmall) feature0006).db).db

/-- The first query file of tests 0006 and 0012: the vector `(0, 0.5)`. -/
def queryA : FeatureFile D := fileOf 2 16 [0, 1 / (1 + 1)]

/-- The second query file of tests 0006 and 0012: the vector `(0.5, 0)`. -/
def queryB : FeatureFile D := fileOf 2 16 [1 / (1 + 1), 0]

/-- The database after `create` and the insert of the three vectors `(1)`, `(3)`, `(2)`
of dimension 1 under key "a". -/
def threeVectorsDB (sqrt : D → D) : DB D :=
  (insert cfgSmall sqrt (create cfgSmall) (plainInsert [97] 1 24 [1, 1 + 1 + 1, 1 + 1])).db

/-- The database after `create` and the insert of the two equal vectors `(1)`, `(1)` of
dimension 1 under key "a". -/
def equalVectorsDB (sqrt : D → D) : DB D :=
  (insert cfgSmall sqrt (create cfgSmall) (plainInsert [97] 1 16 [1, 1])).db

/-- The query file that holds the single vector `(1)` of dimension 1. -/
def queryOne : FeatureFile D := fileOf 1 8 [1]

/-- A query file of dimension 1 that holds the dimension word and nothing else. -/
def queryNone : FeatureFile D := fileOf 1 0 []

/-- The database after `create` and the insert of the three vectors `(1)`, `(0)`, `(0)`
of dimension 1 under key "a". -/
def sparseVectorsDB (sqrt : D → D) : DB D :=
  (insert cfgSmall sqrt (create cfgSmall) (plainInsert [97] 1 24 [1, 0, 0])).db

/-- The query file that holds the single vector `(-1)` of dimension 1. -/
def queryMinusOne [Neg D] : FeatureFile D := fileOf 1 8 [-1]

/-- A second ragged feature file: dimension 2 followed by three doubles (24 bytes),
under key "b". -/
def raggedInsertB : InsertArgs D := plainInsert [98] 2 24 [1, 1 + 1, 1 + 1 + 1]

/-- The database after `create` and the inserts of the two ragged files: six doubles
`1, 2, 3, 1, 2, 3` in the payload, one vector counted for each key. -/
def raggedTwiceDB (sqrt : D → D) : DB D :=
  (insert cfgSmall sqrt (raggedDB sqrt) raggedInsertB).db

/-- The query file that holds the single vector `(1, 1)` of dimension 2. -/
def queryOneOne : FeatureFile D := fileOf 2 16 [1, 1]

end QuerySamples

/-- The settings of a query at query point `queryPoint` (the option `--exhaustive` not
given) with the sequence length 1 and the hop 1. -/
def settingsAt (queryType : QueryType) (queryPoint pointNN segNN : Nat) : QuerySettings :=
  { queryType := queryType, queryPoint := queryPoint, usingQueryPoint := true,
    pointNN := pointNN, segNN := segNN, sequenceLength := 1, sequenceHop := 1 }


/-! ## Sample databases of several files -/

section SegmentSamples

variable {D : Type} [Zero D] [One D] [Add D] [Mul D] [Div D]

/-- The database after `create` and the inserts of the vector `(1)` under key "a" and
of the vector `(2)` under key "b", both of dimension 1. -/
def twoKeysDB (sqrt : D → D) : DB D :=
  (insert cfgSmall sqrt
    (insert cfgSmall sqrt (create cfgSmall) (plainInsert [97] 1 8 [1])).db
    (plainInsert [98] 1 8 [1 + 1])).db

/-- The database after `create`, the insert of the three vectors `(1)`, `(3)`, `(2)`
of dimension 1 under key "a", and `l2norm`: the norms stored are 1, 3 and 2. -/
def threeNormedDB (sqrt : D → D) : DB D :=
  (l2norm cfgSmall sqrt (threeVectorsDB sqrt)).db

/-- A layout with four key slots of 16 bytes, a payload region of 64 bytes (bytes 100
to 163), and two tables of eight doubles. -/
def cfgFour : Config :=
  { O2_DEFAULTDBSIZE := 292, O2_MAXFILES := 4, O2_FILETABLESIZE := 16, O2_SEGTABLESIZE := 4,
    O2_HEADERSIZE := 20, O2_MEANNUMVECTORS := 2, O2_MAGIC := 1329735040 }

/-- The database, in the layout `cfgFour`, after `create`, the inserts of the vector
`(1)` under key "a", of `(2)` under key "b" and of `(4)` under key "c", all of
dimension 1, and `l2norm`: three segments of one vector, with the norms 1, 2 and 4. -/
def threeSegmentsDB (sqrt : D → D) : DB D :=
  (l2norm cfgFour sqrt
    (insert cfgFour sqrt
      (insert cfgFour sqrt
        (insert cfgFour sqrt (create cfgFour) (plainInsert [97] 1 8 [1])).db
        (plainInsert [98] 1 8 [1 + 1])).db
      (plainInsert [99] 1 8 [1 + 1 + 1 + 1])).db).db

/-- The database after `create`, the inserts of the two vectors `(4)`, `(4)` under key
"a" and of the two vectors `(1)`, `(1)` under key "b", all of dimension 1, and
`l2norm`: two segments of two unit vectors, with the norms 4, 4 and 1, 1. -/
def loudQuietDB (sqrt : D → D) : DB D :=
  (l2norm cfgSmall sqrt
    (insert cfgSmall sqrt
      (insert cfgSmall sqrt (create cfgSmall)
        (plainInsert [97] 1 16 [1 + 1 + 1 + 1, 1 + 1 + 1 + 1])).db
      (plainInsert [98] 1 16 [1, 1])).db).db

/-- The query file that holds the two vectors `(4)` and `(1)` of dimension 1. -/
def queryLoud : FeatureFile D := fileOf 1 16 [1 + 1 + 1 + 1, 1]

end SegmentSamples

/-- The settings of a sequence query at query point 0 with sequence length
`sequenceLength`, hop 1 and one rank in each list. -/
def sequenceSettings (sequenceLength : Nat) : QuerySettings :=
  { queryType := QueryType.O2_FLAG_SEQUENCE_QUERY, queryPoint := 0, usingQueryPoint := true,
    pointNN := 1, segNN := 1, sequenceLength := sequenceLength, sequenceHop := 1 }

/-- The score of a shingle pair as the specification words it: `DD[j][k] / W` when both
norms exceed `SILENCE_THRESH`, both exceed their means and they differ by less than
`DIFF_THRESH`, zero otherwise, the norm on the database side being the norm of shingle
`k` of the segment itself, whose first vector has index `segStart`. -/
def shingleScoreOf {D : Type} [LinearOrderedField D] (t : Thresholds D) (DD : Nat → Nat → D)
    (W segStart seg j k : Nat) : D :=
  if t.qNorm j > t.SILENCE_THRESH ∧ t.sNorm (segStart + k) > t.SILENCE_THRESH ∧
      t.qNorm j > t.qMeanL2 ∧ t.sNorm (segStart + k) > t.sMeanL2 seg ∧
      |t.qNorm j - t.sNorm (segStart + k)| < t.DIFF_THRESH then
    DD j k / (W : D)
  else 0

/-- The mean shingle norm of a segment as the specification words it: the arithmetic
mean of the `count` shingle norms of the segment, whose first vector has index
`segStart`. -/
def segMeanOf {D : Type} [DivisionRing D] (sNorm : Nat → D) (segStart count : Nat) : D :=
  (∑ i in Finset.range count, sNorm (segStart + i)) / (count : D)

/-- Shingle norm `i` of a segment as the specification words it: the sum of the norms
of the vectors `i .. i+W-1` of the segment, whose first vector has index `segStart`. -/
def shingleNormOf {D : Type} [AddCommMonoid D] (norm : Nat → D) (segStart W i : Nat) : D :=
  ∑ w in Finset.range W, norm (segStart + i + w)


/-! ## The duration gate of the segment engines

`segPointQuery` (lines 1184-1212) and `segSequenceQuery` (lines 1532-1564) prepare the
duration test with the same statements. -/

section Durations

variable {D : Type} [LinearOrderedField D]

/-- The member `timesTol`, set to `0.1` by the constructor (line 138). -/
def timesTol : D := 1 / 10

/-- The loop `for(j=0; j<bound; j++) acc+=t[j+1]-t[j];` of lines 1208-1209 and
1560-1561 (and, on the times of the query, of lines 1200-1203 and 1549-1552, where the
difference is also stored in the cell `t[j]`, which is not read again): the turns left,
`j` and the sum. -/
def durationSum (t : Nat → D) : Nat → Nat → D → D
  | 0, _, acc => acc
  | n + 1, j, acc => durationSum t n (j + 1) (acc + (t (j + 1) - t j))

/-- The cell `meanDBdur[k]` (lines 1206-1211 and 1558-1563): the sum of the differences
`timesTable[j+1]-timesTable[j]` for `j < segTable[k]-1`, an `unsigned` difference,
divided by the final value of `j`. -/
def meanDBdur (segTable : Nat → Nat) (timesTable : Nat → D) (k : Nat) : D :=
  durationSum timesTable ((segTable k + (2 ^ 32 - 1)) % 2 ^ 32) 0 0
    / (((segTable k + (2 ^ 32 - 1)) % 2 ^ 32 : Nat) : D)

/-- The value `meanQdur` (lines 1200-1204 and 1549-1553): the sum of the differences of
the times of the query for `k < numVectors-1`, divided by the final value of `k`. -/
def meanQdur (timesdata : Nat → D) (numVectors : Nat) : D :=
  durationSum timesdata ((numVectors + (2 ^ 32 - 1)) % 2 ^ 32) 0 0
    / (((numVectors + (2 ^ 32 - 1)) % 2 ^ 32 : Nat) : D)

/-- The test `!usingTimes || (usingTimes && fabs(meanDBdur[seg]-meanQdur) <
meanQdur*timesTol)` of lines 1273-1275 and 1681-1683. -/
def segDurationOk (usingTimes : Bool) (segTable : Nat → Nat) (timesTable : Nat → D)
    (mQdur : D) (seg : Nat) : Bool :=
  !usingTimes ||
    (usingTimes && decide (fabs (meanDBdur segTable timesTable seg - mQdur) < mQdur * timesTol))

/-- The preparation of the duration test (lines 1188-1212 and 1536-1564) for a query
given with or without a times file (`usingTimes`): on a database without timestamps
the times of the query are ignored, without a times file the timestamps of the
database are ignored, and with both `insertTimeStamps` reads the times of the query
into the fresh array `timesdata` (its content is `junkT`) and the test compares the
means.  The result is the environment in which the engine goes on. -/
def segQueryTimes (O2_MAXNN : Nat) (usingTimes : Bool) (dbH : dbTableHeaderT) (db : DB D)
    (numVectors : Nat) (timesFile : TimesFile D) (junkT : Nat → D) : Except Err QueryEnv :=
  if usingTimes ∧ dbH.flags &&& O2_FLAG_TIMES = 0 then
    Except.ok { O2_MAXNN := O2_MAXNN, usingTimes := false, durOk := fun _ _ => true }
  else if !usingTimes then
    Except.ok { O2_MAXNN := O2_MAXNN, usingTimes := false, durOk := fun _ _ => true }
  else
    let t := insertTimeStamps numVectors true dbH timesFile junkT 0
    match t.err with
    | some e => Except.error e
    | none =>
      Except.ok
        { O2_MAXNN := O2_MAXNN
          usingTimes := t.usingTimes
          durOk := fun seg _ =>
            segDurationOk t.usingTimes db.segTable db.timesTable (meanQdur t.buf numVectors)
              seg }

/-- The failures of a query run with a times file: those of the engine, and the
`error` of `insertTimeStamps` on the times of the query. -/
inductive TimedQueryErr where
  | Query (e : QueryErr)
  | Times (e : Err)
deriving Repr, DecidableEq

/-- The function `audioDB::segPointQuery` (lines 1133-1381) run with the members
`usingTimes` and `timesFile` as given: the statements up to the two `assert`s, the
preparation of the duration test, then the engine. -/
def segPointQueryTimed (cfg : Config) (sqrt : D → D) (O2_MAXNN : Nat) (usingTimes : Bool)
    (timesFile : TimesFile D) (s : QuerySettings) (db : DB D) (inFile : FeatureFile D)
    (junk junkT : Nat → D) : Except TimedQueryErr (SegOutput D) :=
  match initTables cfg db (some inFile) with
  | Except.error e => Except.error (TimedQueryErr.Query (QueryErr.Init e))
  | Except.ok dbH =>
    if dbH.dim = 0 then Except.error (TimedQueryErr.Query QueryErr.DivideByZero)
    else if ¬ (s.pointNN > 0 ∧ s.pointNN ≤ O2_MAXNN) then
      Except.error (TimedQueryErr.Query QueryErr.AssertFailed)
    else if ¬ (s.segNN > 0 ∧ s.segNN ≤ O2_MAXNN) then
      Except.error (TimedQueryErr.Query QueryErr.AssertFailed)
    else
      match segQueryTimes O2_MAXNN usingTimes dbH db
          (inFile.nbytes / (sizeofDouble * dbH.dim) % 2 ^ 32) timesFile junkT with
      | Except.error e => Except.error (TimedQueryErr.Times e)
      | Except.ok env =>
        match segPointQuery cfg sqrt env s db inFile junk with
        | Except.error e => Except.error (TimedQueryErr.Query e)
        | Except.ok o => Except.ok o

/-- The lines printed by a run with a times file, if it returns. -/
def timedAnswerOf (r : Except TimedQueryErr (SegOutput D)) : Option (List (ResultRow D)) :=
  match r with
  | Except.ok o => some o.rows
  | Except.error _ => none

/-- The mean duration of a segment as the specification words it: the mean of the
differences between the consecutive timestamps of the `count` vectors of the segment,
whose first vector has index `segStart`. -/
def meanDurationOf (timesTable : Nat → D) (segStart count : Nat) : D :=
  (∑ j in Finset.range (count - 1),
    (timesTable (segStart + j + 1) - timesTable (segStart + j))) / ((count - 1 : Nat) : D)

end Durations

section TimedSamples

variable {D : Type} [Zero D] [One D] [Add D] [Mul D] [Div D]

/-- The times file that holds the two values 0 and `x`. -/
def timesUpTo (x : D) : TimesFile D :=
  { is_open := true, vals := [0, x], endsWithSpace := true }

/-- The database after `create` and two inserts with times files, each of the two
vectors `(1)`, `(1)` of dimension 1: under key "a" with the times 0 and 1, under key
"b" with the times 0 and 10. -/
def twoTemposDB (sqrt : D → D) : DB D :=
  (insert cfgSmall sqrt
    (insert cfgSmall sqrt (create cfgSmall)
      { key := [97], inFile := fileOf 1 16 [1, 1], usingTimes := true,
        timesFile := timesUpTo 1 }).db
    { key := [98], inFile := fileOf 1 16 [1, 1], usingTimes := true,
      timesFile := timesUpTo (1 + 1 + 1 + 1 + 1 + 1 + 1 + 1 + 1 + 1) }).db

/-- The query file that holds the two vectors `(1)`, `(1)` of dimension 1. -/
def queryTwoOnes : FeatureFile D := fileOf 1 16 [1, 1]

end TimedSamples


/-! ## The segment point query with a key list -/

/-- The function `audioDB::getKeyPos` (lines 945-951): the first slot `k < numFiles` with
`strncmp(fileTable + k*O2_FILETABLESIZE, key, strlen(key)) == 0`; `none` stands for
`error("Key not found")`.  The arguments are the slots left and `k`. -/
def getKeyPos (cfg : Config) (fileTable : Nat → Nat) (key : CStr) : Nat → Nat → Option Nat
  | 0, _ => none
  | rest + 1, k =>
    if strncmp (fun i => fileTable (k * cfg.O2_FILETABLESIZE + i)) key.byte (strlen key) = 0
    then some k
    else getKeyPos cfg fileTable key rest (k + 1)

/-- The failures of a query run with a key list: those of the engine, and the `error`
of `getKeyPos`. -/
inductive KeyedQueryErr where
  | Query (e : QueryErr)
  | KeyNotFound
deriving Repr, DecidableEq

section KeyedEngine

variable {D : Type} [LinearOrderedField D]

/-- The loop `for(seg=0; seg<dbH->numFiles; seg++, processedSegs++)` of `segPointQuery`
(lines 1237-1333) run with a key list (`segFile != 0`).  The list holds the lines that
`getline` delivers, one per turn, until `eof()`; an exhausted list is `eof()`, where
the loop ends through `break`.  Each turn stores the position of the key read in the
loop variable `seg` (line 1246), which the loop then increments and tests.  The
arguments are the lines left, `seg`, `processedSegs` and the two lists. -/
def segPointKeyed (cfg : Config) (env : QueryEnv) (s : QuerySettings) (dim numVectors : Nat)
    (query : Nat → D) (db : DB D) (numFiles : Nat) :
    List CStr → Nat → Nat → PointList D × SegList D →
      Except KeyedQueryErr ((PointList D × SegList D) × Nat)
  | [], _, processedSegs, st => Except.ok (st, processedSegs)
  | nextKey :: rest, seg, processedSegs, st =>
    if seg < numFiles then
      match getKeyPos cfg db.fileTable nextKey numFiles 0 with
      | none => Except.error KeyedQueryErr.KeyNotFound
      | some pos =>
        segPointKeyed cfg env s dim numVectors query db numFiles rest (pos + 1)
          (processedSegs + 1) (segPointStep env s dim numVectors query db pos st)
    else Except.ok (st, processedSegs)

/-- The function `audioDB::segPointQuery` (lines 1133-1381) run with the member
`segFile` as given: without a key list it is the loop over all segments, with one it
is the loop over the lines of the list.  The number of lines printed is
`min(segNN, processedSegs)` (line 1345). -/
def segPointQueryKeyed (cfg : Config) (sqrt : D → D) (env : QueryEnv) (s : QuerySettings)
    (db : DB D) (inFile : FeatureFile D) (junk : Nat → D) (segFile : Option (List CStr)) :
    Except KeyedQueryErr (SegOutput D) :=
  match initTables cfg db (some inFile) with
  | Except.error e => Except.error (KeyedQueryErr.Query (QueryErr.Init e))
  | Except.ok dbH =>
    if dbH.dim = 0 then Except.error (KeyedQueryErr.Query QueryErr.DivideByZero)
    else
      let numVectors : Nat := inFile.nbytes / (sizeofDouble * dbH.dim) % 2 ^ 32
      let query : Nat → D := queryInUse sqrt dbH inFile junk
      if ¬ (s.pointNN > 0 ∧ s.pointNN ≤ env.O2_MAXNN) then
        Except.error (KeyedQueryErr.Query QueryErr.AssertFailed)
      else if ¬ (s.segNN > 0 ∧ s.segNN ≤ env.O2_MAXNN) then
        Except.error (KeyedQueryErr.Query QueryErr.AssertFailed)
      else if s.usingQueryPoint ∧ queryPointTooLarge s.queryPoint numVectors then
        Except.error (KeyedQueryErr.Query QueryErr.QueryPointTooLarge)
      else
        let numVectors1 : Nat :=
          if s.usingQueryPoint then (s.queryPoint + 1) % 2 ^ 32 else numVectors
        match segFile with
        | none =>
          let st : PointList D × SegList D :=
            segPointSegs env s dbH.dim numVectors1 query db dbH.numFiles 0
              (PointList.init D, SegList.init D)
          Except.ok
            { points := st.1
              segs := st.2
              rows := (List.range (min s.segNN dbH.numFiles)).map (segRow st.2) }
        | some keys =>
          match segPointKeyed cfg env s dbH.dim numVectors1 query db dbH.numFiles keys 0 0
              (PointList.init D, SegList.init D) with
          | Except.error e => Except.error e
          | Except.ok r =>
            Except.ok
              { points := r.1.1
                segs := r.1.2
                rows := (List.range (min s.segNN r.2)).map (segRow r.1.2) }

/-- The lines printed by a run with a key list, if it returns. -/
def keyedAnswerOf (r : Except KeyedQueryErr (SegOutput D)) : Option (List (ResultRow D)) :=
  match r with
  | Except.ok o => some o.rows
  | Except.error _ => none

end KeyedEngine


/-! ## The writes of an insert, one after the other -/

section InsertTrace

variable {D : Type} [Zero D] [One D] [Add D] [Mul D] [Div D]

/-- The states of the mapped file during the tail of `insert` (lines 571-589), in the
order of the statements: after the header is copied back (line 578), after
`numVectors` is stored in `segTable[numFiles-1]` (line 582), after the payload is
copied (line 585) and, on a database that is L2 normed, after the block is normed
(line 589). -/
def commitTrace (sqrt : D → D) (dbH : dbTableHeaderT) (db : DB D) (inFile : FeatureFile D)
    (numVectors : Nat) : List (DB D) :=
  let insertoffset : Nat := dbH.length
  let dbH1 : dbTableHeaderT := { dbH with numFiles := (dbH.numFiles + 1) % 2 ^ 32 }
  let dbH2 : dbTableHeaderT :=
    { dbH1 with length := (dbH1.length + inFile.nbytes) % 2 ^ 32 }
  let db1 : DB D := { db with hdr := dbH2 }
  let db2 : DB D :=
    { db1 with segTable := fun k => if k = dbH2.numFiles - 1 then numVectors
                                    else db1.segTable k }
  let db3 : DB D := { db2 with dataBuf := copyPayload db2.dataBuf insertoffset inFile }
  if dbH2.flags &&& O2_FLAG_L2NORM ≠ 0 then
    [db1, db2, db3,
      (unitNormAndInsertL2 sqrt dbH2 db3 (insertoffset / sizeofDouble) dbH2.dim
        numVectors true).db]
  else [db1, db2, db3]

/-- The states of the mapped file during a run of `audioDB::insert` (lines 522-600), in
the order of the statements that write through the mapping: the state found, then the
state after the key is copied into its slot (line 561), after `insertTimeStamps`
(line 569), and the states of the tail.  A run that ends before line 561 writes
nothing. -/
def insertTrace (cfg : Config) (sqrt : D → D) (db : DB D) (a : InsertArgs D) : List (DB D) :=
  match initTables cfg db (some a.inFile) with
  | Except.error _ => [db]
  | Except.ok dbH =>
    if !a.usingTimes ∧ dbH.flags &&& O2_FLAG_TIMES ≠ 0 then [db]
    else if timesTableOffset cfg < dataoffset cfg + dbH.length + a.inFile.nbytes then [db]
    else if alreadyInserted cfg db.fileTable a.key dbH.numFiles then [db]
    else if dbH.dim = 0 then [db]
    else
      let numVectors : Nat := a.inFile.nbytes / (sizeofDouble * dbH.dim) % 2 ^ 32
      if numVectors = 0 then [db]
      else
        let db1 : DB D :=
          { db with fileTable := strncpy db.fileTable (dbH.numFiles * cfg.O2_FILETABLESIZE)
                      a.key.byte (strlen a.key) }
        let insertoffset : Nat := dbH.length
        let timesoffset : Nat := insertoffset / (dbH.dim * sizeofDouble)
        if ¬ (timesTableOffset cfg + sizeofDouble * (timesoffset + numVectors)
                < l2normTableOffset cfg) then
          [db, db1]
        else
          let t := insertTimeStamps numVectors a.usingTimes dbH a.timesFile
            db1.timesTable timesoffset
          let db2 : DB D := { db1 with timesTable := t.buf }
          match t.err with
          | some _ => [db, db1, db2]
          | none => [db, db1, db2] ++ commitTrace sqrt t.dbH db2 a.inFile numVectors

/-- The property of the specification for a state `σ` met during an insert that ends in
the state `final`: every `k` below the `numFiles` of the mapped header of `σ` has its
key, its `segTable` entry and its payload, as far as the header counts it, in
place. -/
def PrefixInPlace (cfg : Config) (σ final : DB D) : Prop :=
  ∀ k, k < σ.hdr.numFiles →
    (∀ i, i < cfg.O2_FILETABLESIZE →
      σ.fileTable (k * cfg.O2_FILETABLESIZE + i) = final.fileTable (k * cfg.O2_FILETABLESIZE + i)) ∧
    σ.segTable k = final.segTable k ∧
    (∀ c, c < σ.hdr.length / sizeofDouble → σ.dataBuf c = final.dataBuf c)

/-- The single insert, without times, of one line of the lists of `batchinsert`. -/
def entryArgs (e : BatchEntry D) : InsertArgs D :=
  { key := e.thisKey, inFile := e.thisFile, usingTimes := false, timesFile := noTimes D }

/-- The reading of the specification for `batchinsert`: `insert` applied to each entry
of the list in order, up to the first one that ends in `error`. -/
def insertEach (cfg : Config) (sqrt : D → D) : DB D → List (BatchEntry D) → Result D
  | db, [] => { db := db, status := Status.ok }
  | db, e :: es =>
    match (insert cfg sqrt db (entryArgs e)).status with
    | Status.failed er =>
      { db := (insert cfg sqrt db (entryArgs e)).db, status := Status.failed er }
    | _ => insertEach cfg sqrt (insert cfg sqrt db (entryArgs e)).db es

/-- The relation between the state that the loop of `batchinsert` carries and the
mapped file `db` on which the single inserts work: the loop runs without times and
has met no `error`, its mapped file is `db`, and its header in memory is the mapped
header, or else the mapped header is that of an empty database and the header in
memory differs from it by the dimension `d` adopted from a file that was skipped. -/
def BatchRel (d : Nat) (st : BatchState D) (db : DB D) : Prop :=
  st.db = db ∧ st.usingTimes = false ∧ st.err = none ∧
  (st.dbH = db.hdr ∨
    (db.hdr.dim = 0 ∧ db.hdr.length = 0 ∧ st.dbH = { db.hdr with dim := d }))

/-- A line of the lists of `batchinsert` run without a times list. -/
def plainEntry (key : CStr) (dim nbytes : Nat) (vals : List D) : BatchEntry D :=
  { thisFile := fileOf dim nbytes vals, thisKey := key, timesListEof := true,
    thisTimesFile := noTimes D }

end InsertTrace


/-! ## Further notions and samples: keys, times files, ranked lists -/

section KeySamples

variable {D : Type} [Zero D] [One D] [Add D] [Mul D] [Div D]

/-- The database after `create` and the insert of one vector under the key "abc". -/
def abcOnlyDB (sqrt : D → D) : DB D :=
  (insert cfgSmall sqrt (create cfgSmall) (oneVector [97, 98, 99])).db

/-- The database after `create` and the insert of one vector under the key "abcd". -/
def abcdOnlyDB (sqrt : D → D) : DB D :=
  (insert cfgSmall sqrt (create cfgSmall) (oneVector [97, 98, 99, 100])).db

end KeySamples

/-! ### The count of a times file -/

/-- The value of `numtimes` when `insertTimeStamps` tests it at line 641: the count
left by the first reading loop (lines 626-631) if it ended at `eof()`, else the count
after the second loop (lines 632-640). -/
def countTimes {D : Type} (numVectors : Nat) (timesFile : TimesFile D) (buf : Nat → D)
    (timesdata : Nat) : Nat :=
  let r := readTimes timesFile.endsWithSpace numVectors timesFile.vals 0 buf timesdata
  if r.2.2.2 then r.2.1 else countRest timesFile.endsWithSpace r.1 r.2.1

/-- The number of values of a stream that the loops count: all of them when white
space follows the last one, all but the last one otherwise (the extraction of the
last value then raises `eof()` and the loop leaves before `numtimes++`). -/
def countedValues {D : Type} (endsWithSpace : Bool) (vals : List D) : Nat :=
  if endsWithSpace then vals.length else vals.length - 1

/-- An insert of the vector `(1)` of dimension 1 under the key "a" with an open times
file that holds `vals`, followed by white space. -/
def timedOne {D : Type} [Zero D] [One D] (vals : List D) : InsertArgs D :=
  { key := [97], inFile := fileOf 1 8 [1], usingTimes := true,
    timesFile := { is_open := true, vals := vals, endsWithSpace := true } }

/-- An insert of the vector `(1)` of dimension 1 under `key` that names a times file
which cannot be opened. -/
def missingTimes {D : Type} [Zero D] [One D] (key : CStr) : InsertArgs D :=
  { key := key, inFile := fileOf 1 8 [1], usingTimes := true, timesFile := noTimes D }

/-! ### The candidates of the point query and the best `K` of them -/

section TopScores

variable {D : Type} [LinearOrderedField D]

/-- The first `K` cells of an array, as a list. -/
def firstCells (K : Nat) (d : Nat → D) : List D := (List.range K).map d

/-- Modelled from the spec: the first `K` elements of the descending sort of the
scores together with `K` zeros. -/
def topScores (K : Nat) (scores : List D) : List D :=
  ((scores ++ List.replicate K 0).insertionSort (fun a b => a ≥ b)).take K

/-- The list after the insertions of the candidates `(thisDist, qIndex, sIndex)`, one
after the other, by the insertion of `pointQuery`. -/
def insertAll (K : Nat) (cands : List (D × Nat × Nat)) (r : PointList D) : PointList D :=
  cands.foldl (fun r1 c => insertPoint K c.1 c.2.1 c.2.2 r1) r

/-- The candidates that the loop over the vectors of the database (`pointScan`) admits,
in the order of the loop: the pairs that pass the duration test, with their inner
product and the indices stored with it. -/
def scanCandidates (env : QueryEnv) (dim totalVecs : Nat) (query dataBuf : Nat → D)
    (qp qIndex : Nat) : Nat → Nat → List (D × Nat × Nat)
  | 0, _ => []
  | k + 1, dp =>
    (if env.durOk (totalVecs - k - 1) qIndex then
      [(innerProduct query dataBuf qp dp dim 0, qIndex, totalVecs - k - 1)]
    else []) ++ scanCandidates env dim totalVecs query dataBuf qp qIndex k (dp + dim)

/-- The candidates that the loop over the query vectors (`pointLoop`) admits, in the
order of the loops. -/
def loopCandidates (env : QueryEnv) (dim totalVecs numVectors : Nat)
    (query dataBuf : Nat → D) : Nat → Nat → List (D × Nat × Nat)
  | 0, _ => []
  | j + 1, qp =>
    scanCandidates env dim totalVecs query dataBuf qp
        ((numVectors + (2 ^ 32 - 1 - j)) % 2 ^ 32) totalVecs 0
      ++ loopCandidates env dim totalVecs numVectors query dataBuf j (qp + dim)

/-- The invariant of the point list along the insertions of the scores `l`: the
first `K` cells are in non-increasing order and not negative, and with a rest that is
nowhere above them they make up the scores and `K` zeros. -/
def TopInv (K : Nat) (r : PointList D) (l : List D) : Prop :=
  SortedDesc r.distances K ∧ (∀ i, i < K → 0 ≤ r.distances i) ∧
  ∃ R : List D, (firstCells K r.distances ++ R).Perm (l ++ List.replicate K 0) ∧
    ∀ y ∈ R, ∀ i, i < K → y ≤ r.distances i

end TopScores


/-! ## The stores that stay inside their tables

The regions of the mapped file are embedded as arrays of their own.  In the file they
follow one another: the key slot `numFiles >= O2_MAXFILES`, and the bytes of a key
that runs past the key table, are bytes of the segment table and of the payload.  The
statements that depend on a key, or on an entry of the segment table, being found
again as it was stored are made for stores that stay inside their tables. -/

/-- The stores of an insert into slot `numFiles` stay inside their tables: the slot
is a slot of the key table, the key is no longer than the slot, and every slot has an
entry of `sizeof(unsigned)` bytes in the segment table. -/
def InTables (cfg : Config) (numFiles : Nat) (key : CStr) : Prop :=
  numFiles < cfg.O2_MAXFILES ∧ strlen key ≤ cfg.O2_FILETABLESIZE ∧ 4 ≤ cfg.O2_SEGTABLESIZE

/-- The states reached from `create` by commands that end without `error` and leave
`numFiles` at most `O2_MAXFILES`: every file stored on the way was stored in a slot
of the key table.  (`numFiles` never decreases, and a batch insert raises it by one
for each file it stores, so the bound after a command holds all along it.) -/
inductive ReachableInTables {D : Type} [Zero D] [One D] [Add D] [Mul D] [Div D]
    (cfg : Config) (sqrt : D → D) (okKey : CStr → Prop) (okFile : FeatureFile D → Prop) :
    DB D → Prop
  | create : ReachableInTables cfg sqrt okKey okFile (create cfg)
  | insert (db : DB D) (a : InsertArgs D) :
      ReachableInTables cfg sqrt okKey okFile db → okKey a.key → okFile a.inFile →
      (∀ e, (insert cfg sqrt db a).status ≠ Status.failed e) →
      (insert cfg sqrt db a).db.hdr.numFiles ≤ cfg.O2_MAXFILES →
      ReachableInTables cfg sqrt okKey okFile (insert cfg sqrt db a).db
  | batchinsert (db : DB D) (usingTimes : Bool) (entries : List (BatchEntry D)) :
      ReachableInTables cfg sqrt okKey okFile db →
      (∀ e ∈ entries, okKey e.thisKey ∧ okFile e.thisFile) →
      (batchinsert cfg sqrt db usingTimes entries).status = Status.ok →
      (batchinsert cfg sqrt db usingTimes entries).db.hdr.numFiles ≤ cfg.O2_MAXFILES →
      ReachableInTables cfg sqrt okKey okFile (batchinsert cfg sqrt db usingTimes entries).db
  | l2norm (db : DB D) :
      ReachableInTables cfg sqrt okKey okFile db →
      (l2norm cfg sqrt db).status = Status.ok →
      ReachableInTables cfg sqrt okKey okFile (l2norm cfg sqrt db).db

/-! ### The scan of the point query when some scores are not positive -/

section NearestNotions

variable {D : Type} [LinearOrderedField D]

/-- The number of vectors among the first `t` whose score is positive. -/
def positives (score : Nat → D) (t : Nat) : Nat :=
  ((List.range t).filter (fun g => decide (0 < score g))).length

/-- The state of the list of `K` ranks after the scan of the first `t` vectors, of
whatever score: the list is sorted and not negative; a rank of positive distance
holds one of the first `t` vectors with its own score, and these are distinct; every
vector among the first `t` is in the list at a rank of positive distance or scores no
more than the last rank; and a rank `i` that holds the distance 0 tells that at most
`i` of the first `t` vectors have a positive score. -/
def NearInv (K : Nat) (score : Nat → D) (qIndex t : Nat) (r : PointList D) : Prop :=
  SortedDesc r.distances K ∧
  (∀ i, i < K → 0 ≤ r.distances i) ∧
  (∀ i, i < K → 0 < r.distances i →
    r.sIndexes i < t ∧ r.distances i = score (r.sIndexes i) ∧ r.qIndexes i = qIndex) ∧
  (∀ i i', i < K → i' < K → 0 < r.distances i → 0 < r.distances i' →
    r.sIndexes i = r.sIndexes i' → i = i') ∧
  (∀ g, g < t →
    (∃ i, i < K ∧ 0 < r.distances i ∧ r.sIndexes i = g) ∨ score g ≤ r.distances (K - 1)) ∧
  (∀ i, i < K → r.distances i = 0 → positives score t ≤ i)

end NearestNotions

/-! ### The candidates of a run of the point query -/

section QueryCandidates

variable {D : Type} [LinearOrderedField D]

/-- The candidates that a run of `pointQuery` admits, for the in-memory header `dbH`
that `initTables` returns: those of its loops (`loopCandidates`) for the arguments
with which `pointQuery` enters them. -/
def queryCandidates (sqrt : D → D) (env : QueryEnv) (s : QuerySettings) (db : DB D)
    (inFile : FeatureFile D) (junk : Nat → D) (dbH : dbTableHeaderT) : List (D × Nat × Nat) :=
  loopCandidates env dbH.dim (dbH.length / (dbH.dim * sizeofDouble))
    (if s.usingQueryPoint then (s.queryPoint + 1) % 2 ^ 32
      else inFile.nbytes / (sizeofDouble * dbH.dim) % 2 ^ 32)
    (queryInUse sqrt dbH inFile junk) db.dataBuf
    (if s.usingQueryPoint then 1
      else if env.usingTimes then
        (inFile.nbytes / (sizeofDouble * dbH.dim) % 2 ^ 32 + (2 ^ 32 - 1)) % 2 ^ 32
      else inFile.nbytes / (sizeofDouble * dbH.dim) % 2 ^ 32)
    (if s.usingQueryPoint then s.queryPoint * dbH.dim % 2 ^ 32 else 0)

end QueryCandidates


/-! ## Invariants -/

/-- The invariant of the key table while every key presented is shorter than a slot:
the table is zero from slot `n` on, and every slot `j < n` holds a key of fewer than
`O2_FILETABLESIZE` bytes followed by NUL, which differs, within its own length, from
the bytes at the start of every earlier slot. -/
def KeyInv (cfg : Config) (ft : Nat → Nat) (n : Nat) : Prop :=
  (∀ a, n * cfg.O2_FILETABLESIZE ≤ a → ft a = 0) ∧
  ∀ j, j < n → ∃ key : CStr, (∀ b ∈ key, b ≠ 0) ∧ key.length < cfg.O2_FILETABLESIZE ∧
    (∀ t, t < key.length → ft (j * cfg.O2_FILETABLESIZE + t) = key.byte t) ∧
    ft (j * cfg.O2_FILETABLESIZE + key.length) = 0 ∧
    ∀ i, i < j → ∃ t, t < key.length ∧ ft (i * cfg.O2_FILETABLESIZE + t) ≠ key.byte t

/-- The invariant carried along the reachable states, for a header `H`, a key table and
a segment table: `numFiles ≤ length` (which keeps the `unsigned` counters from
wrapping); when only files of whole vectors are presented (`strictFiles`), the
invariant P2 `length = 8 * dim * Σ segTable[k < numFiles]`; when only keys shorter
than a slot are presented (`shortKeys`), `KeyInv`. -/
def StateInv (cfg : Config) (strictFiles shortKeys : Prop) (H : dbTableHeaderT)
    (ft seg : Nat → Nat) : Prop :=
  H.numFiles ≤ H.length ∧
  (strictFiles → H.length = 8 * H.dim * segSum seg H.numFiles) ∧
  (shortKeys → KeyInv cfg ft H.numFiles)

/-- The invariant of the loop of `batchinsert`: the in-memory header satisfies
`StateInv`, and the mapped header agrees with it, except that a dimension taken from
a file that was then skipped is not yet written back. -/
def BatchInv {D : Type} (cfg : Config) (strictFiles shortKeys : Prop) (st : BatchState D) :
    Prop :=
  StateInv cfg strictFiles shortKeys st.dbH st.db.fileTable st.db.segTable ∧
  st.db.hdr.numFiles = st.dbH.numFiles ∧ st.db.hdr.length = st.dbH.length ∧
  (st.db.hdr.dim = st.dbH.dim ∨ (st.dbH.length = 0 ∧ st.db.hdr.dim = 0))


/-! ## Lemmas

### Strings -/

theorem byte_ne_zero_of_lt_strlen (key : CStr) :
    ∀ i, i < strlen key → key.byte i ≠ 0 := by
  induction key with
  | nil => intro i hi; simp [strlen] at hi
  | cons b bs ih =>
    intro i hi
    unfold strlen at hi
    by_cases hb : b = 0
    · simp [List.takeWhile, hb] at hi
    · simp only [List.takeWhile, ne_eq, hb, not_false_eq_true, decide_True,
        List.length_cons] at hi
      cases i with
      | zero => simpa [CStr.byte] using hb
      | succ i =>
        have := ih i (by unfold strlen; simpa using Nat.lt_of_succ_lt_succ hi)
        simpa [CStr.byte] using this

theorem byte_strlen (key : CStr) : key.byte (strlen key) = 0 := by
  induction key with
  | nil => simp [strlen, CStr.byte]
  | cons b bs ih =>
    unfold strlen
    by_cases hb : b = 0
    · simp [List.takeWhile, hb, CStr.byte]
    · simp only [List.takeWhile, ne_eq, hb, not_false_eq_true, decide_True,
        List.length_cons]
      unfold strlen at ih
      simpa [CStr.byte] using ih

theorem strlen_eq_length (key : CStr) (h : ∀ b ∈ key, b ≠ 0) : strlen key = key.length := by
  unfold strlen
  rw [List.takeWhile_eq_self_iff.mpr]
  intro b hb
  simpa using h b hb

theorem strlen_takeWhile (key : CStr) :
    strlen (key.takeWhile (fun b => b ≠ 0)) = strlen key := by
  unfold strlen
  rw [List.takeWhile_takeWhile]
  simp

theorem strncmp_eq_zero_iff (n : Nat) :
    ∀ s1 s2 : Nat → Nat, (∀ j, j < n → s2 j ≠ 0) →
      (strncmp s1 s2 n = 0 ↔ ∀ i, i < n → s1 i = s2 i) := by
  induction n with
  | zero => intro s1 s2 _; simp [strncmp]
  | succ n ih =>
    intro s1 s2 hz
    unfold strncmp
    by_cases h0 : s1 0 = s2 0
    · have hne : s1 0 ≠ 0 := by rw [h0]; exact hz 0 (Nat.succ_pos n)
      simp only [h0, ne_eq, not_true_eq_false, if_false]
      rw [if_neg (by rw [← h0]; exact hne)]
      rw [ih (fun i => s1 (i + 1)) (fun i => s2 (i + 1))
        (fun j hj => hz (j + 1) (Nat.succ_lt_succ hj))]
      constructor
      · intro h i hi
        cases i with
        | zero => exact h0
        | succ i => exact h i (Nat.lt_of_succ_lt_succ hi)
      · intro h i hi
        exact h (i + 1) (Nat.succ_lt_succ hi)
    · simp only [ne_eq, h0, not_false_eq_true, if_true]
      constructor
      · intro h
        exfalso
        apply h0
        omega
      · intro h
        exact absurd (h 0 (Nat.succ_pos n)) h0

theorem strncpy_spec (n : Nat) :
    ∀ (mem : Nat → Nat) (dst : Nat) (src : Nat → Nat), (∀ j, j < n → src j ≠ 0) →
      ∀ a, strncpy mem dst src n a =
        if dst ≤ a ∧ a < dst + n then src (a - dst) else mem a := by
  induction n with
  | zero =>
    intro mem dst src _ a
    rw [if_neg (by omega)]
    rfl
  | succ n ih =>
    intro mem dst src hz a
    unfold strncpy
    rw [if_neg (hz 0 (Nat.succ_pos n))]
    rw [ih _ _ _ (fun j hj => hz (j + 1) (Nat.succ_lt_succ hj))]
    by_cases h1 : dst + 1 ≤ a ∧ a < dst + 1 + n
    · rw [if_pos h1, if_pos (by omega)]
      congr 1
      omega
    · rw [if_neg h1]
      by_cases h2 : a = dst
      · rw [if_pos h2, if_pos (by omega), h2, Nat.sub_self]
      · rw [if_neg h2, if_neg (by omega)]

/-- The scan of the key table finds a key exactly when some slot below `n` compares
equal to it. -/
theorem alreadyInserted_eq_false_iff (cfg : Config) (ft : Nat → Nat) (key : CStr) (n : Nat) :
    alreadyInserted cfg ft key n = false ↔
      ∀ k, k < n → strncmp (fun i => ft (k * cfg.O2_FILETABLESIZE + i)) key.byte
        (strlen key) ≠ 0 := by
  induction n with
  | zero => simp [alreadyInserted]
  | succ n ih =>
    unfold alreadyInserted
    rw [Bool.or_eq_false_iff, ih]
    constructor
    · rintro ⟨h1, h2⟩ k hk
      rcases Nat.lt_succ_iff_lt_or_eq.mp hk with hlt | heq
      · exact h1 k hlt
      · rw [heq]; simpa using h2
    · intro h
      exact ⟨fun k hk => h k (Nat.lt_succ_of_lt hk), by simpa using h n (Nat.lt_succ_self n)⟩

theorem cstrAt_of_key (mem : Nat → Nat) (key : CStr) :
    ∀ (p fuel : Nat), (∀ b ∈ key, b ≠ 0) → key.length < fuel →
      (∀ t, t < key.length → mem (p + t) = key.byte t) → mem (p + key.length) = 0 →
      cstrAt mem p fuel = key := by
  induction key with
  | nil =>
    intro p fuel _ hf _ h0
    cases fuel with
    | zero => simp at hf
    | succ fuel => simp [cstrAt] at h0 ⊢; exact h0
  | cons b bs ih =>
    intro p fuel hz hf hb h0
    cases fuel with
    | zero => simp at hf
    | succ fuel =>
      have hp : mem p = b := by simpa [CStr.byte] using hb 0 (by simp)
      have hb0 : b ≠ 0 := hz b (List.mem_cons_self b bs)
      unfold cstrAt
      rw [if_neg (by rw [hp]; exact hb0), hp]
      congr 1
      apply ih (p + 1) fuel (fun c hc => hz c (List.mem_cons_of_mem b hc))
        (by simpa using hf)
      · intro t ht
        have := hb (t + 1) (by simpa using ht)
        simpa [CStr.byte, Nat.add_assoc, Nat.add_comm 1 t] using this
      · simpa [Nat.add_assoc, Nat.add_comm 1] using h0


/-! ### What the commands leave untouched -/

theorem insertTimeStamps_dbH {D : Type} (numVectors : Nat) (usingTimes : Bool)
    (dbH : dbTableHeaderT)
    (tf : TimesFile D) (buf : Nat → D) (p : Nat) :
    (insertTimeStamps numVectors usingTimes dbH tf buf p).dbH.magic = dbH.magic ∧
    (insertTimeStamps numVectors usingTimes dbH tf buf p).dbH.numFiles = dbH.numFiles ∧
    (insertTimeStamps numVectors usingTimes dbH tf buf p).dbH.dim = dbH.dim ∧
    (insertTimeStamps numVectors usingTimes dbH tf buf p).dbH.length = dbH.length := by
  unfold insertTimeStamps
  dsimp only
  repeat' split
  all_goals simp


section Frame

variable {D : Type} [Zero D] [One D] [Add D] [Mul D] [Div D]

theorem unitNormAndInsertL2_hdr (sqrt : D → D) (dbH : dbTableHeaderT) (db : DB D)
    (X dim n : Nat) (append : Bool) :
    (unitNormAndInsertL2 sqrt dbH db X dim n append).db.hdr = db.hdr ∧
    (unitNormAndInsertL2 sqrt dbH db X dim n append).db.fileTable = db.fileTable ∧
    (unitNormAndInsertL2 sqrt dbH db X dim n append).db.segTable = db.segTable ∧
    (unitNormAndInsertL2 sqrt dbH db X dim n append).db.timesTable = db.timesTable := by
  unfold unitNormAndInsertL2
  split_ifs <;> simp

theorem commit_hdr (sqrt : D → D) (dbH : dbTableHeaderT) (db : DB D) (f : FeatureFile D)
    (nv : Nat) :
    (commit sqrt dbH db f nv).2.db.hdr =
      { dbH with numFiles := (dbH.numFiles + 1) % 2 ^ 32,
                 length := (dbH.length + f.nbytes) % 2 ^ 32 } := by
  unfold commit
  simp only []
  split_ifs
  · rw [(unitNormAndInsertL2_hdr sqrt _ _ _ _ _ _).1]
  · rfl

theorem commit_fst (sqrt : D → D) (dbH : dbTableHeaderT) (db : DB D) (f : FeatureFile D)
    (nv : Nat) :
    (commit sqrt dbH db f nv).1 = (commit sqrt dbH db f nv).2.db.hdr := by
  rw [commit_hdr]
  unfold commit
  simp only []
  split_ifs <;> rfl

theorem commit_tables (sqrt : D → D) (dbH : dbTableHeaderT) (db : DB D) (f : FeatureFile D)
    (nv : Nat) :
    (commit sqrt dbH db f nv).2.db.fileTable = db.fileTable ∧
    (commit sqrt dbH db f nv).2.db.timesTable = db.timesTable ∧
    (commit sqrt dbH db f nv).2.db.segTable =
      (fun k => if k = (dbH.numFiles + 1) % 2 ^ 32 - 1 then nv else db.segTable k) := by
  unfold commit
  simp only []
  split_ifs
  · refine ⟨?_, ?_, ?_⟩
    · rw [(unitNormAndInsertL2_hdr sqrt _ _ _ _ _ _).2.1]
    · rw [(unitNormAndInsertL2_hdr sqrt _ _ _ _ _ _).2.2.2]
    · rw [(unitNormAndInsertL2_hdr sqrt _ _ _ _ _ _).2.2.1]
  · exact ⟨rfl, rfl, rfl⟩

theorem commit_status (sqrt : D → D) (dbH : dbTableHeaderT) (db : DB D) (f : FeatureFile D)
    (nv : Nat) (hdim : dbH.dim ≠ 0) :
    (commit sqrt dbH db f nv).2.status = Status.ok := by
  unfold commit unitNormAndInsertL2
  simp only []
  split_ifs <;> simp_all

end Frame


section InsertInv

variable {D : Type} [Zero D] [One D] [Add D] [Mul D] [Div D]

/-- The number of vectors `insert` computes for a file, given the in-memory header. -/
theorem insert_ok_inv (cfg : Config) (sqrt : D → D) (db : DB D) (a : InsertArgs D)
    (h : (insert cfg sqrt db a).status = Status.ok) :
    ∃ dbH : dbTableHeaderT,
      db.hdr.magic = cfg.O2_MAGIC ∧
      checkDim db.hdr a.inFile = Except.ok dbH ∧
      ¬ ((!a.usingTimes) = true ∧ dbH.flags &&& O2_FLAG_TIMES ≠ 0) ∧
      dataoffset cfg + dbH.length + a.inFile.nbytes ≤ timesTableOffset cfg ∧
      alreadyInserted cfg db.fileTable a.key dbH.numFiles = false ∧
      dbH.dim ≠ 0 ∧
      a.inFile.nbytes / (sizeofDouble * dbH.dim) % 2 ^ 32 ≠ 0 ∧
      timesTableOffset cfg + sizeofDouble * (dbH.length / (dbH.dim * sizeofDouble) +
        a.inFile.nbytes / (sizeofDouble * dbH.dim) % 2 ^ 32) < l2normTableOffset cfg ∧
      (insertTimeStamps (a.inFile.nbytes / (sizeofDouble * dbH.dim) % 2 ^ 32) a.usingTimes
        dbH a.timesFile db.timesTable (dbH.length / (dbH.dim * sizeofDouble))).err = none ∧
      insert cfg sqrt db a =
        (commit sqrt
          (insertTimeStamps (a.inFile.nbytes / (sizeofDouble * dbH.dim) % 2 ^ 32)
            a.usingTimes dbH a.timesFile db.timesTable
            (dbH.length / (dbH.dim * sizeofDouble))).dbH
          { db with
            fileTable := strncpy db.fileTable (dbH.numFiles * cfg.O2_FILETABLESIZE)
              a.key.byte (strlen a.key)
            timesTable := (insertTimeStamps
              (a.inFile.nbytes / (sizeofDouble * dbH.dim) % 2 ^ 32) a.usingTimes dbH
              a.timesFile db.timesTable (dbH.length / (dbH.dim * sizeofDouble))).buf }
          a.inFile (a.inFile.nbytes / (sizeofDouble * dbH.dim) % 2 ^ 32)).2 := by
  unfold insert initTables at h ⊢
  by_cases hm : db.hdr.magic ≠ cfg.O2_MAGIC
  · simp [hm] at h
  · simp only [hm, if_false] at h ⊢
    cases hc : checkDim db.hdr a.inFile with
    | error e => simp [hc] at h
    | ok dbH =>
      simp only [hc] at h ⊢
      refine ⟨dbH, not_not.mp hm, rfl, ?_⟩
      split_ifs at h with h1 h2 h3 h4 h5 h6
      rw [if_neg h1, if_neg h2, if_neg h3, if_neg h4, if_neg h5, if_neg (not_not.mpr h6)]
      cases ht : (insertTimeStamps (a.inFile.nbytes / (sizeofDouble * dbH.dim) % 2 ^ 32)
          a.usingTimes dbH a.timesFile db.timesTable
          (dbH.length / (dbH.dim * sizeofDouble))).err with
      | some e =>
        simp only [Nat.reducePow] at ht h
        rw [ht] at h
        simp at h
      | none =>
        refine ⟨h1, Nat.le_of_not_lt h2, by simpa using h3, h4, h5, h6, rfl, ?_⟩
        simp only [ht]

end InsertInv


/-! ### Bookkeeping of the header and the key table -/

theorem segSum_congr (seg seg2 : Nat → Nat) (n : Nat) (h : ∀ k, k < n → seg2 k = seg k) :
    segSum seg2 n = segSum seg n := by
  induction n with
  | zero => rfl
  | succ m ih =>
    simp only [segSum]
    rw [ih (fun k hk => h k (Nat.lt_succ_of_lt hk)), h m (Nat.lt_succ_self m)]

theorem segSum_update (seg : Nat → Nat) (n v : Nat) :
    segSum (fun k => if k = n then v else seg k) (n + 1) = segSum seg n + v := by
  simp only [segSum, if_true]
  rw [segSum_congr seg _ n]
  intro k hk
  simp [Nat.ne_of_lt hk]

theorem checkDim_ok {D : Type} (hdr dbH : dbTableHeaderT) (f : FeatureFile D)
    (h : checkDim hdr f = Except.ok dbH) :
    dbH.magic = hdr.magic ∧ dbH.numFiles = hdr.numFiles ∧ dbH.length = hdr.length ∧
    dbH.flags = hdr.flags ∧ dbH.dim = f.dim ∧
    ((hdr.dim = 0 ∧ hdr.length = 0) ∨ dbH = hdr) := by
  unfold checkDim at h
  split_ifs at h with h1 h2
  · cases h
    exact ⟨rfl, rfl, rfl, rfl, rfl, Or.inl h1⟩
  · cases h
    exact ⟨rfl, rfl, rfl, rfl, not_not.mp h2, Or.inr rfl⟩

theorem offsets_lt (cfg : Config) (hcfg : cfg.WellFormed) : timesTableOffset cfg < 2 ^ 32 := by
  obtain ⟨_, _, h3⟩ := hcfg
  unfold timesTableOffset l2normTableOffset
  omega

/-- The bookkeeping of `commit`: under the capacity test the counters do not wrap,
`numFiles ≤ length` is kept, and so is `length = 8 * dim * Σ segTable` when the file
holds whole vectors. -/
theorem commit_count (cfg : Config) (hcfg : cfg.WellFormed) (H : dbTableHeaderT)
    (seg : Nat → Nat) (nbytes : Nat) (hn : H.numFiles ≤ H.length)
    (hcap : dataoffset cfg + H.length + nbytes ≤ timesTableOffset cfg)
    (hdim : H.dim ≠ 0) (hnv : nbytes / (sizeofDouble * H.dim) % 2 ^ 32 ≠ 0) :
    (H.numFiles + 1) % 2 ^ 32 = H.numFiles + 1 ∧
    (H.length + nbytes) % 2 ^ 32 = H.length + nbytes ∧
    nbytes / (sizeofDouble * H.dim) % 2 ^ 32 = nbytes / (sizeofDouble * H.dim) ∧
    H.numFiles + 1 ≤ H.length + nbytes ∧
    (H.length = 8 * H.dim * segSum seg H.numFiles → sizeofDouble * H.dim ∣ nbytes →
      H.length + nbytes = 8 * H.dim *
        segSum (fun k => if k = (H.numFiles + 1) % 2 ^ 32 - 1
          then nbytes / (sizeofDouble * H.dim) % 2 ^ 32 else seg k) (H.numFiles + 1)) := by
  have hlt := offsets_lt cfg hcfg
  have hq : nbytes / (sizeofDouble * H.dim) ≠ 0 := by
    intro h0
    rw [h0] at hnv
    exact hnv rfl
  have hge : sizeofDouble * H.dim ≤ nbytes := by
    by_contra hlt2
    exact hq (Nat.div_eq_of_lt (Nat.lt_of_not_le hlt2))
  have h8 : 8 ≤ sizeofDouble * H.dim := by
    unfold sizeofDouble; omega
  have hqle : nbytes / (sizeofDouble * H.dim) ≤ nbytes := Nat.div_le_self _ _
  have e1 : (H.numFiles + 1) % 2 ^ 32 = H.numFiles + 1 := Nat.mod_eq_of_lt (by omega)
  have e2 : (H.length + nbytes) % 2 ^ 32 = H.length + nbytes := Nat.mod_eq_of_lt (by omega)
  have e3 : nbytes / (sizeofDouble * H.dim) % 2 ^ 32 = nbytes / (sizeofDouble * H.dim) :=
    Nat.mod_eq_of_lt (by omega)
  refine ⟨e1, e2, e3, by omega, ?_⟩
  intro hJ hdiv
  have hmul : sizeofDouble * H.dim * (nbytes / (sizeofDouble * H.dim)) = nbytes :=
    Nat.mul_div_cancel' hdiv
  rw [e1, e3, Nat.add_sub_cancel, segSum_update, Nat.mul_add, ← hJ]
  have : 8 * H.dim = sizeofDouble * H.dim := rfl
  rw [this, hmul]

theorem takeWhile_byte (key : CStr) :
    ∀ t, t < strlen key → CStr.byte (key.takeWhile (fun b => b ≠ 0)) t = key.byte t := by
  induction key with
  | nil => intro t ht; simp [strlen] at ht
  | cons b bs ih =>
    intro t ht
    unfold strlen at ht
    by_cases hb : b = 0
    · simp [List.takeWhile, hb] at ht
    · simp only [List.takeWhile, ne_eq, hb, not_false_eq_true, decide_True,
        List.length_cons] at ht ⊢
      cases t with
      | zero => simp [CStr.byte]
      | succ t =>
        have := ih t (by unfold strlen; simpa using Nat.lt_of_succ_lt_succ ht)
        simpa [CStr.byte] using this

/-- Writing a key shorter than a slot that the scan did not find into slot `n` keeps
the invariant of the key table. -/
theorem keyInv_step (cfg : Config) (ft : Nat → Nat) (n : Nat) (key : CStr)
    (hK : KeyInv cfg ft n) (hshort : strlen key < cfg.O2_FILETABLESIZE)
    (hdup : alreadyInserted cfg ft key n = false) :
    KeyInv cfg (strncpy ft (n * cfg.O2_FILETABLESIZE) key.byte (strlen key)) (n + 1) := by
  obtain ⟨hK1, hK2⟩ := hK
  have hcp := strncpy_spec (strlen key) ft (n * cfg.O2_FILETABLESIZE) key.byte
    (byte_ne_zero_of_lt_strlen key)
  have hbelow : ∀ a, a < n * cfg.O2_FILETABLESIZE →
      strncpy ft (n * cfg.O2_FILETABLESIZE) key.byte (strlen key) a = ft a := by
    intro a ha
    rw [hcp, if_neg (by omega)]
  have hslot : ∀ j t, j < n → t < cfg.O2_FILETABLESIZE →
      j * cfg.O2_FILETABLESIZE + t < n * cfg.O2_FILETABLESIZE := by
    intro j t hj ht
    have : (j + 1) * cfg.O2_FILETABLESIZE ≤ n * cfg.O2_FILETABLESIZE :=
      Nat.mul_le_mul_right _ hj
    rw [Nat.succ_mul] at this
    omega
  refine ⟨?_, ?_⟩
  · intro a ha
    rw [Nat.succ_mul] at ha
    rw [hcp, if_neg (by omega)]
    exact hK1 a (by omega)
  · intro j hj
    rcases Nat.lt_succ_iff_lt_or_eq.mp hj with hlt | heq
    · obtain ⟨k, z, hl, hb, h0, hprev⟩ := hK2 j hlt
      refine ⟨k, z, hl, ?_, ?_, ?_⟩
      · intro t ht
        rw [hbelow _ (hslot j t hlt (by omega))]
        exact hb t ht
      · rw [hbelow _ (hslot j _ hlt hl)]
        exact h0
      · intro i hi
        obtain ⟨t, ht, hne⟩ := hprev i hi
        refine ⟨t, ht, ?_⟩
        rw [hbelow _ (hslot i t (by omega) (by omega))]
        exact hne
    · subst heq
      have hlen : (key.takeWhile (fun b => b ≠ 0)).length = strlen key := rfl
      refine ⟨key.takeWhile (fun b => b ≠ 0), ?_, by rw [hlen]; exact hshort, ?_, ?_, ?_⟩
      · intro b hb
        simpa using List.mem_takeWhile_imp hb
      · intro t ht
        rw [hlen] at ht
        rw [hcp, if_pos (by omega), Nat.add_sub_cancel_left, takeWhile_byte key t ht]
      · rw [hlen, hcp, if_neg (by omega)]
        exact hK1 _ (by omega)
      · intro i hi
        have hne := (alreadyInserted_eq_false_iff cfg ft key j).mp hdup i hi
        rw [Ne, strncmp_eq_zero_iff _ _ _ (byte_ne_zero_of_lt_strlen key)] at hne
        push_neg at hne
        obtain ⟨t, ht, hne⟩ := hne
        refine ⟨t, by rw [hlen]; exact ht, ?_⟩
        rw [hbelow _ (hslot i t hi (by omega)), takeWhile_byte key t ht]
        exact hne


section Steps

variable {D : Type} [Zero D] [One D] [Add D] [Mul D] [Div D]

/-- An insert that ends with a warning leaves the mapped database as it was. -/
theorem insert_warn_db (cfg : Config) (sqrt : D → D) (db : DB D) (a : InsertArgs D)
    (h : (insert cfg sqrt db a).status = Status.warnDuplicate ∨
         (insert cfg sqrt db a).status = Status.warnEmpty) :
    (insert cfg sqrt db a).db = db := by
  unfold insert at h ⊢
  cases hi : initTables cfg db (some a.inFile) with
  | error e => simp [hi]
  | ok dbH =>
    simp only [hi] at h ⊢
    split_ifs at h ⊢ with h1 h2 h3 h4 h5 h6
    all_goals first
      | rfl
      | (simp at h; done)
      | skip
    · exfalso
      cases ht : (insertTimeStamps (a.inFile.nbytes / (sizeofDouble * dbH.dim) % 2 ^ 32)
          a.usingTimes dbH a.timesFile db.timesTable
          (dbH.length / (dbH.dim * sizeofDouble))).err with
      | some e =>
        simp only [Nat.reducePow] at ht h
        rw [ht] at h
        simp at h
      | none =>
        simp only [Nat.reducePow] at ht h
        rw [ht] at h
        simp only at h
        rw [commit_status] at h
        · simp at h
        · rw [(insertTimeStamps_dbH _ _ _ _ _ _).2.2.1]
          exact h4

/-- Every outcome that is not an `error` is `ok` or one of the two warnings. -/
theorem status_cases (s : Status) (h : ∀ e, s ≠ Status.failed e) :
    s = Status.ok ∨ s = Status.warnDuplicate ∨ s = Status.warnEmpty := by
  cases s with
  | ok => exact Or.inl rfl
  | warnDuplicate => exact Or.inr (Or.inl rfl)
  | warnEmpty => exact Or.inr (Or.inr rfl)
  | failed e => exact absurd rfl (h e)

/-- Header, segment table and key table after an insert that ended `ok`. -/
theorem insert_ok_facts (cfg : Config) (sqrt : D → D) (db : DB D) (a : InsertArgs D)
    (h : (insert cfg sqrt db a).status = Status.ok) :
    ∃ dbH : dbTableHeaderT, ∃ flags : Nat,
      checkDim db.hdr a.inFile = Except.ok dbH ∧
      dataoffset cfg + dbH.length + a.inFile.nbytes ≤ timesTableOffset cfg ∧
      alreadyInserted cfg db.fileTable a.key dbH.numFiles = false ∧
      dbH.dim ≠ 0 ∧
      a.inFile.nbytes / (sizeofDouble * dbH.dim) % 2 ^ 32 ≠ 0 ∧
      (insert cfg sqrt db a).db.hdr =
        { magic := dbH.magic, numFiles := (dbH.numFiles + 1) % 2 ^ 32, dim := dbH.dim,
          length := (dbH.length + a.inFile.nbytes) % 2 ^ 32, flags := flags } ∧
      (insert cfg sqrt db a).db.segTable =
        (fun k => if k = (dbH.numFiles + 1) % 2 ^ 32 - 1
          then a.inFile.nbytes / (sizeofDouble * dbH.dim) % 2 ^ 32 else db.segTable k) ∧
      (insert cfg sqrt db a).db.fileTable =
        strncpy db.fileTable (dbH.numFiles * cfg.O2_FILETABLESIZE) a.key.byte
          (strlen a.key) := by
  obtain ⟨dbH, _, hc, _, hcap, hdup, hdim, hnv, _, _, heq⟩ := insert_ok_inv cfg sqrt db a h
  refine ⟨dbH, (insertTimeStamps (a.inFile.nbytes / (sizeofDouble * dbH.dim) % 2 ^ 32)
    a.usingTimes dbH a.timesFile db.timesTable
    (dbH.length / (dbH.dim * sizeofDouble))).dbH.flags, hc, hcap, hdup, hdim, hnv, ?_, ?_, ?_⟩
  · rw [heq, commit_hdr]
    obtain ⟨t1, t2, t3, t4⟩ := insertTimeStamps_dbH
      (a.inFile.nbytes / (sizeofDouble * dbH.dim) % 2 ^ 32) a.usingTimes dbH a.timesFile
      db.timesTable (dbH.length / (dbH.dim * sizeofDouble))
    simp only [t1, t2, t3, t4]
  · rw [heq, (commit_tables _ _ _ _ _).2.2]
    rw [(insertTimeStamps_dbH _ _ _ _ _ _).2.1]
  · rw [heq, (commit_tables _ _ _ _ _).1]

theorem adopt_inv {E : Type} (cfg : Config) (sF sK : Prop) (hdr dbH : dbTableHeaderT)
    (ft seg : Nat → Nat) {f : FeatureFile E} (hc : checkDim hdr f = Except.ok dbH)
    (hI : StateInv cfg sF sK hdr ft seg) : StateInv cfg sF sK dbH ft seg := by
  obtain ⟨hn, hJ, hK⟩ := hI
  obtain ⟨_, c2, c3, _, _, c6⟩ := checkDim_ok hdr dbH f hc
  rcases c6 with ⟨_, hl⟩ | heq
  · have h0 : hdr.numFiles = 0 := by omega
    refine ⟨by rw [c2, c3]; exact hn, ?_, ?_⟩
    · intro _
      rw [c2, c3, h0, hl]
      simp [segSum]
    · intro hs
      rw [c2]
      exact hK hs
  · rw [heq]
    exact ⟨hn, hJ, hK⟩

/-- The step shared by `insert` and `batchinsert`: from the in-memory header `H` to the
header after `commit`, with the key written in slot `numFiles`. -/
theorem commit_stateInv (cfg : Config) (hcfg : cfg.WellFormed) (sF sK : Prop)
    (H : dbTableHeaderT) (ft seg : Nat → Nat) (nbytes : Nat) (key : CStr)
    (hI : StateInv cfg sF sK H ft seg)
    (hcap : dataoffset cfg + H.length + nbytes ≤ timesTableOffset cfg)
    (hdup : alreadyInserted cfg ft key H.numFiles = false)
    (hdim : H.dim ≠ 0) (hnv : nbytes / (sizeofDouble * H.dim) % 2 ^ 32 ≠ 0)
    (hfile : sF → sizeofDouble * H.dim ∣ nbytes)
    (hkey : sK → strlen key < cfg.O2_FILETABLESIZE) (m fl : Nat) :
    StateInv cfg sF sK
      { magic := m, numFiles := (H.numFiles + 1) % 2 ^ 32, dim := H.dim,
        length := (H.length + nbytes) % 2 ^ 32, flags := fl }
      (strncpy ft (H.numFiles * cfg.O2_FILETABLESIZE) key.byte (strlen key))
      (fun k => if k = (H.numFiles + 1) % 2 ^ 32 - 1
        then nbytes / (sizeofDouble * H.dim) % 2 ^ 32 else seg k) := by
  obtain ⟨hn, hJ, hK⟩ := hI
  obtain ⟨e1, e2, _, e4, e5⟩ := commit_count cfg hcfg H seg nbytes hn hcap hdim hnv
  refine ⟨?_, ?_, ?_⟩
  · simp only [e1, e2]; exact e4
  · intro hs
    have := e5 (hJ hs) (hfile hs)
    simp only [e1, e2] at this ⊢
    exact this
  · intro hs
    simp only [e1]
    exact keyInv_step cfg ft H.numFiles key (hK hs) (hkey hs) hdup

theorem insert_stateInv (cfg : Config) (hcfg : cfg.WellFormed) (sF sK : Prop) (sqrt : D → D)
    (db : DB D) (a : InsertArgs D)
    (hI : StateInv cfg sF sK db.hdr db.fileTable db.segTable)
    (hfile : sF → sizeofDouble * a.inFile.dim ∣ a.inFile.nbytes)
    (hkey : sK → strlen a.key < cfg.O2_FILETABLESIZE)
    (hs : ∀ e, (insert cfg sqrt db a).status ≠ Status.failed e) :
    StateInv cfg sF sK (insert cfg sqrt db a).db.hdr (insert cfg sqrt db a).db.fileTable
      (insert cfg sqrt db a).db.segTable := by
  rcases status_cases _ hs with hok | hw
  · obtain ⟨dbH, fl, hc, hcap, hdup, hdim, hnv, hh, hseg, hft⟩ :=
      insert_ok_facts cfg sqrt db a hok
    have hI2 := adopt_inv cfg sF sK db.hdr dbH db.fileTable db.segTable hc hI
    have hd : dbH.dim = a.inFile.dim := (checkDim_ok _ _ _ hc).2.2.2.2.1
    rw [hh, hseg, hft]
    exact commit_stateInv cfg hcfg sF sK dbH db.fileTable db.segTable a.inFile.nbytes a.key
      hI2 hcap hdup hdim hnv (fun h => hd ▸ hfile h) hkey _ _
  · rw [insert_warn_db cfg sqrt db a hw]
    exact hI

end Steps


section Batch

variable {D : Type} [Zero D] [One D] [Add D] [Mul D] [Div D]

theorem BatchInv.toStateInv {E : Type} (cfg : Config) (sF sK : Prop) (st : BatchState E)
    (h : BatchInv cfg sF sK st) :
    StateInv cfg sF sK st.db.hdr st.db.fileTable st.db.segTable := by
  obtain ⟨⟨hn, hJ, hK⟩, h1, h2, h3⟩ := h
  unfold StateInv
  rw [h1, h2]
  refine ⟨hn, ?_, hK⟩
  intro hs
  rcases h3 with h3 | ⟨h3, h4⟩
  · rw [h3]; exact hJ hs
  · have : st.dbH.numFiles = 0 := by omega
    rw [h3, h4, this]
    simp [segSum]

theorem batchTimes_dbH {E : Type} (cfg : Config) (usingTimes : Bool) (dbH : dbTableHeaderT)
    (timesTable : Nat → E) (e : BatchEntry E) (nv : Nat) :
    (batchTimes cfg usingTimes dbH timesTable e nv).dbH.magic = dbH.magic ∧
    (batchTimes cfg usingTimes dbH timesTable e nv).dbH.numFiles = dbH.numFiles ∧
    (batchTimes cfg usingTimes dbH timesTable e nv).dbH.dim = dbH.dim ∧
    (batchTimes cfg usingTimes dbH timesTable e nv).dbH.length = dbH.length := by
  unfold batchTimes
  split_ifs
  all_goals first
    | exact ⟨rfl, rfl, rfl, rfl⟩
    | exact insertTimeStamps_dbH _ _ _ _ _ _

/-- The state after `batchInsertOne` when it did not end in `error`. -/
theorem batchInsertOne_ok (cfg : Config) (sqrt : D → D) (st : BatchState D)
    (dbH : dbTableHeaderT) (e : BatchEntry D) (nv : Nat)
    (herr : (batchInsertOne cfg sqrt st dbH e nv).err = none) :
    ∃ fl : Nat,
      (batchInsertOne cfg sqrt st dbH e nv).dbH =
        { magic := dbH.magic, numFiles := (dbH.numFiles + 1) % 2 ^ 32, dim := dbH.dim,
          length := (dbH.length + e.thisFile.nbytes) % 2 ^ 32, flags := fl } ∧
      (batchInsertOne cfg sqrt st dbH e nv).db.hdr = (batchInsertOne cfg sqrt st dbH e nv).dbH ∧
      (batchInsertOne cfg sqrt st dbH e nv).db.segTable =
        (fun k => if k = (dbH.numFiles + 1) % 2 ^ 32 - 1 then nv else st.db.segTable k) ∧
      (batchInsertOne cfg sqrt st dbH e nv).db.fileTable =
        strncpy st.db.fileTable (dbH.numFiles * cfg.O2_FILETABLESIZE) e.thisKey.byte
          (strlen e.thisKey) := by
  unfold batchInsertOne at herr ⊢
  have ht := batchTimes_dbH cfg st.usingTimes dbH st.db.timesTable e nv
  generalize batchTimes cfg st.usingTimes dbH st.db.timesTable e nv = t at ht herr ⊢
  obtain ⟨t1, t2, t3, t4⟩ := ht
  cases hte : t.err with
  | some er => simp [hte] at herr
  | none =>
    simp only [hte] at herr ⊢
    refine ⟨t.dbH.flags, ?_, ?_, ?_, ?_⟩
    · simp only [commit_fst, commit_hdr, t1, t2, t3, t4]
    · simp only [commit_fst]
    · simp only [(commit_tables _ _ _ _ _).2.2, t2]
    · simp only [(commit_tables _ _ _ _ _).1, t2]

theorem batchStep_inv (cfg : Config) (hcfg : cfg.WellFormed) (sF sK : Prop) (sqrt : D → D)
    (st : BatchState D) (e : BatchEntry D) (hI : BatchInv cfg sF sK st)
    (hfile : sF → sizeofDouble * e.thisFile.dim ∣ e.thisFile.nbytes)
    (hkey : sK → strlen e.thisKey < cfg.O2_FILETABLESIZE)
    (herr : (batchStep cfg sqrt st e).err = none) :
    BatchInv cfg sF sK (batchStep cfg sqrt st e) := by
  obtain ⟨hS, p1, p2, p3⟩ := hI
  unfold batchStep at herr ⊢
  by_cases hfull : timesTableOffset cfg < dataoffset cfg + (st.dbH.length + e.thisFile.nbytes)
  · simp [hfull] at herr
  · simp only [hfull, if_false] at herr ⊢
    cases hc : checkDim st.dbH e.thisFile with
    | error er => simp [hc] at herr
    | ok dbH =>
      simp only [hc] at herr ⊢
      obtain ⟨c1, c2, c3, c4, c5, c6⟩ := checkDim_ok _ _ _ hc
      have hS2 := adopt_inv cfg sF sK st.dbH dbH st.db.fileTable st.db.segTable hc hS
      have hskip : BatchInv cfg sF sK { st with dbH := dbH } := by
        refine ⟨hS2, ?_, ?_, ?_⟩
        · simp only; rw [c2]; exact p1
        · simp only; rw [c3]; exact p2
        · simp only
          rcases c6 with ⟨d0, l0⟩ | heq
          · right
            refine ⟨by rw [c3]; exact l0, ?_⟩
            rcases p3 with p3 | ⟨_, p3⟩
            · rw [p3]; exact d0
            · exact p3
          · rw [heq]; exact p3
      split_ifs at herr ⊢ with h3 h4 h5
      · exact hskip
      · exact hskip
      · obtain ⟨fl, q1, q2, q3, q4⟩ := batchInsertOne_ok cfg sqrt st dbH e _ herr
        refine ⟨?_, ?_, ?_, ?_⟩
        · rw [q1, q3, q4]
          exact commit_stateInv cfg hcfg sF sK dbH st.db.fileTable st.db.segTable
            e.thisFile.nbytes e.thisKey hS2 (by rw [c3]; omega) (by simpa using h3) h4 h5
            (fun h => c5 ▸ hfile h) hkey _ _
        · rw [q2]
        · rw [q2]
        · left; rw [q2]

theorem batchLoop_inv (cfg : Config) (hcfg : cfg.WellFormed) (sF sK : Prop) (sqrt : D → D)
    (entries : List (BatchEntry D)) :
    ∀ st : BatchState D, BatchInv cfg sF sK st →
      (∀ e ∈ entries, (sF → sizeofDouble * e.thisFile.dim ∣ e.thisFile.nbytes) ∧
        (sK → strlen e.thisKey < cfg.O2_FILETABLESIZE)) →
      (batchLoop cfg sqrt st entries).err = none →
      BatchInv cfg sF sK (batchLoop cfg sqrt st entries) := by
  induction entries with
  | nil => intro st hI _ _; exact hI
  | cons e es ih =>
    intro st hI hfiles herr
    unfold batchLoop at herr ⊢
    cases hs : (batchStep cfg sqrt st e).err with
    | some er =>
      simp only [hs] at herr
      exact absurd herr (by simp)
    | none =>
      simp only [hs] at herr ⊢
      have he := hfiles e (List.mem_cons_self e es)
      exact ih _ (batchStep_inv cfg hcfg sF sK sqrt st e hI he.1 he.2 hs)
        (fun e2 he2 => hfiles e2 (List.mem_cons_of_mem e he2)) herr

theorem batchinsert_stateInv (cfg : Config) (hcfg : cfg.WellFormed) (sF sK : Prop)
    (sqrt : D → D) (db : DB D) (usingTimes : Bool) (entries : List (BatchEntry D))
    (hI : StateInv cfg sF sK db.hdr db.fileTable db.segTable)
    (hfiles : ∀ e ∈ entries, (sF → sizeofDouble * e.thisFile.dim ∣ e.thisFile.nbytes) ∧
        (sK → strlen e.thisKey < cfg.O2_FILETABLESIZE))
    (hs : (batchinsert cfg sqrt db usingTimes entries).status = Status.ok) :
    StateInv cfg sF sK (batchinsert cfg sqrt db usingTimes entries).db.hdr
      (batchinsert cfg sqrt db usingTimes entries).db.fileTable
      (batchinsert cfg sqrt db usingTimes entries).db.segTable := by
  unfold batchinsert at hs ⊢
  split_ifs at hs ⊢ with h1 h2
  · simp only at hs ⊢
    cases he : (batchLoop cfg sqrt
        { dbH := db.hdr, db := db, usingTimes := usingTimes, err := none } entries).err with
    | some er => simp [he] at hs
    | none =>
      simp only [he]
      exact BatchInv.toStateInv cfg sF sK _ (batchLoop_inv cfg hcfg sF sK sqrt entries _
        ⟨hI, rfl, rfl, Or.inl rfl⟩ hfiles he)

theorem l2norm_frame (cfg : Config) (sqrt : D → D) (db : DB D) :
    (l2norm cfg sqrt db).db.hdr.magic = db.hdr.magic ∧
    (l2norm cfg sqrt db).db.hdr.numFiles = db.hdr.numFiles ∧
    (l2norm cfg sqrt db).db.hdr.dim = db.hdr.dim ∧
    (l2norm cfg sqrt db).db.hdr.length = db.hdr.length ∧
    (l2norm cfg sqrt db).db.fileTable = db.fileTable ∧
    (l2norm cfg sqrt db).db.segTable = db.segTable ∧
    (l2norm cfg sqrt db).db.timesTable = db.timesTable := by
  unfold l2norm initTables
  by_cases hm : db.hdr.magic ≠ cfg.O2_MAGIC
  · simp [hm]
  · simp only [hm, if_false]
    split_ifs with h1 h2
    · simp
    · have hf := unitNormAndInsertL2_hdr sqrt db.hdr db 0 db.hdr.dim
        (db.hdr.length / (sizeofDouble * db.hdr.dim)) false
      obtain ⟨f1, f2, f3, f4⟩ := hf
      split
      · simp only
        exact ⟨trivial, trivial, trivial, trivial, f2, f3, f4⟩
      · simp only
        rw [f1]
        exact ⟨rfl, rfl, rfl, rfl, f2, f3, f4⟩
    · simp

/-- Every reachable state satisfies `StateInv`, with `strictFiles` and `shortKeys`
holding when the files and keys presented were restricted accordingly. -/
theorem reachable_stateInv (cfg : Config) (hcfg : cfg.WellFormed) (sqrt : D → D)
    (okKey : CStr → Prop) (okFile : FeatureFile D → Prop) (db : DB D)
    (h : Reachable cfg sqrt okKey okFile db) :
    StateInv cfg (∀ f, okFile f → sizeofDouble * f.dim ∣ f.nbytes)
      (∀ k, okKey k → strlen k < cfg.O2_FILETABLESIZE) db.hdr db.fileTable db.segTable := by
  induction h with
  | create =>
    refine ⟨Nat.le_refl _, fun _ => rfl, fun _ => ⟨fun _ _ => rfl, ?_⟩⟩
    intro j hj
    exact absurd hj (Nat.not_lt_zero j)
  | insert db a _ hk hf hs ih =>
    exact insert_stateInv cfg hcfg _ _ sqrt db a ih (fun h => h _ hf) (fun h => h _ hk) hs
  | batchinsert db usingTimes entries _ hf hs ih =>
    exact batchinsert_stateInv cfg hcfg _ _ sqrt db usingTimes entries ih
      (fun e he => ⟨fun h => h _ (hf e he).2, fun h => h _ (hf e he).1⟩) hs
  | l2norm db _ hs ih =>
    obtain ⟨_, f2, f3, f4, f5, f6, _⟩ := l2norm_frame cfg sqrt db
    unfold StateInv
    rw [f2, f3, f4, f5, f6]
    exact ih

end Batch


/-! ### Unit norm -/

section Norm

variable {D : Type}

theorem scaleVector_spec [Mul D] (c : D) (d : Nat) :
    ∀ (X : Nat → D) (p a : Nat),
      scaleVector c X p d a = if p ≤ a ∧ a < p + d then X a * c else X a := by
  induction d with
  | zero =>
    intro X p a
    rw [if_neg (by omega)]
    rfl
  | succ d ih =>
    intro X p a
    unfold scaleVector
    rw [ih]
    split_ifs <;> first | rfl | (exfalso; omega)

theorem sumSquares_congr [Add D] [Mul D] (X Y : Nat → D) (d : Nat) :
    ∀ (p : Nat) (acc : D), (∀ a, p ≤ a → a < p + d → X a = Y a) →
      sumSquares X p d acc = sumSquares Y p d acc := by
  induction d with
  | zero => intro p acc _; rfl
  | succ d ih =>
    intro p acc h
    unfold sumSquares
    rw [h p (Nat.le_refl p) (by omega)]
    exact ih (p + 1) _ (fun a h1 h2 => h a (by omega) (by omega))

/-- The loop of `unitNormAndInsertL2`: vector `i` of the block is scaled by the
reciprocal of the norm computed from its original coordinates, that norm is stored in
`l2buf[l2ptr + i]`, and nothing else is written. -/
theorem normLoop_spec [Zero D] [One D] [Add D] [Mul D] [Div D] (sqrt : D → D) (dim : Nat)
    (nn : Nat) :
    ∀ (X : Nat → D) (p : Nat) (l2buf : Nat → D) (q : Nat),
      (∀ i d, i < nn → d < dim →
        (normLoop sqrt dim nn X p l2buf q).1 (p + i * dim + d) =
          X (p + i * dim + d) * (1 / sqrt (sumSquares X (p + i * dim) dim 0))) ∧
      (∀ a, (a < p ∨ p + nn * dim ≤ a) → (normLoop sqrt dim nn X p l2buf q).1 a = X a) ∧
      (∀ i, i < nn →
        (normLoop sqrt dim nn X p l2buf q).2 (q + i) =
          sqrt (sumSquares X (p + i * dim) dim 0)) ∧
      (∀ b, (b < q ∨ q + nn ≤ b) → (normLoop sqrt dim nn X p l2buf q).2 b = l2buf b) := by
  induction nn with
  | zero =>
    intro X p l2buf q
    refine ⟨?_, ?_, ?_, ?_⟩
    · intro i d hi; exact absurd hi (Nat.not_lt_zero i)
    · intro a _; rfl
    · intro i hi; exact absurd hi (Nat.not_lt_zero i)
    · intro b _; rfl
  | succ nn ih =>
    intro X p l2buf q
    unfold normLoop
    simp only
    obtain ⟨ih1, ih2, ih3, ih4⟩ := ih
      (scaleVector (1 / sqrt (sumSquares X p dim 0)) X p dim) (p + dim)
      (fun a => if a = q then sqrt (sumSquares X p dim 0) else l2buf a) (q + 1)
    have hX : ∀ a, p + dim ≤ a →
        scaleVector (1 / sqrt (sumSquares X p dim 0)) X p dim a = X a := by
      intro a ha
      rw [scaleVector_spec, if_neg (by omega)]
    have hidx : ∀ i, p + dim + i * dim = p + (i + 1) * dim := by
      intro i
      rw [Nat.succ_mul]
      omega
    refine ⟨?_, ?_, ?_, ?_⟩
    · intro i d hi hd
      cases i with
      | zero =>
        rw [ih2 _ (Or.inl (by omega))]
        simp only [Nat.zero_mul, Nat.add_zero]
        rw [scaleVector_spec, if_pos (by omega)]
      | succ i =>
        have h := ih1 i d (Nat.lt_of_succ_lt_succ hi) hd
        rw [hidx] at h
        rw [h, hX _ (by rw [Nat.succ_mul]; omega)]
        rw [sumSquares_congr _ X dim _ _ (fun a h1 _ => hX a (by rw [Nat.succ_mul] at h1; omega))]
    · intro a ha
      have hle : p + dim + nn * dim = p + (nn + 1) * dim := hidx nn
      rw [ih2 a (by omega), scaleVector_spec, if_neg (by omega)]
    · intro i hi
      cases i with
      | zero =>
        rw [ih4 _ (Or.inl (by omega))]
        simp
      | succ i =>
        have h := ih3 i (Nat.lt_of_succ_lt_succ hi)
        rw [hidx] at h
        rw [show q + (i + 1) = q + 1 + i by omega, h]
        rw [sumSquares_congr _ X dim _ _ (fun a h1 _ => hX a (by rw [Nat.succ_mul] at h1; omega))]
    · intro b hb
      rw [ih4 b (by omega), if_neg (by omega)]

theorem sumSquares_eq_sum [AddCommMonoid D] [Mul D] (X : Nat → D) (d : Nat) :
    ∀ (p : Nat) (acc : D),
      sumSquares X p d acc = acc + ∑ k in Finset.range d, X (p + k) * X (p + k) := by
  induction d with
  | zero => intro p acc; simp [sumSquares]
  | succ d ih =>
    intro p acc
    unfold sumSquares
    rw [ih, Finset.sum_range_succ', add_assoc]
    congr 1
    rw [add_comm]
    congr 1
    apply Finset.sum_congr rfl
    intro k _
    rw [show p + 1 + k = p + (k + 1) by omega]

end Norm


/-! ### L2 retrofit -/

theorem flag_set_after (f : Nat) : (f ||| O2_FLAG_L2NORM) &&& O2_FLAG_L2NORM ≠ 0 := by
  unfold O2_FLAG_L2NORM
  rw [Nat.and_one_is_mod, Nat.or_mod_two_eq_one.mpr (Or.inr rfl)]
  decide

theorem or_flag_of_set (f : Nat) (h : f &&& O2_FLAG_L2NORM ≠ 0) : f ||| O2_FLAG_L2NORM = f := by
  unfold O2_FLAG_L2NORM at h ⊢
  rw [Nat.and_one_is_mod] at h
  apply Nat.eq_of_testBit_eq
  intro i
  rw [Nat.testBit_or]
  cases i with
  | zero =>
    have : f.testBit 0 = true := by
      rw [Nat.testBit_zero]
      simp
      omega
    simp [this]
  | succ i => simp [Nat.testBit_one_eq_true_iff_self_eq_zero]

section Retrofit

variable {D : Type} [Zero D] [One D] [Add D] [Mul D] [Div D]

/-- The L2 retrofit on a database that is not yet flagged: it ends `ok`, sets the flag,
stores in `l2normTable[i]` the norm computed from the original vector `i`, and scales
every coordinate of vector `i` by the reciprocal of that norm. -/
theorem l2norm_spec (cfg : Config) (sqrt : D → D) (db : DB D)
    (hm : db.hdr.magic = cfg.O2_MAGIC) (hflag : db.hdr.flags &&& O2_FLAG_L2NORM = 0)
    (hdim : db.hdr.dim ≠ 0) :
    (l2norm cfg sqrt db).status = Status.ok ∧
    (l2norm cfg sqrt db).db.hdr =
      { db.hdr with flags := db.hdr.flags ||| O2_FLAG_L2NORM } ∧
    ∀ i, i < db.hdr.length / (sizeofDouble * db.hdr.dim) →
      (l2norm cfg sqrt db).db.l2normTable i =
        sqrt (sumSquares db.dataBuf (i * db.hdr.dim) db.hdr.dim 0) ∧
      ∀ d, d < db.hdr.dim →
        (l2norm cfg sqrt db).db.dataBuf (i * db.hdr.dim + d) =
          db.dataBuf (i * db.hdr.dim + d) *
            (1 / sqrt (sumSquares db.dataBuf (i * db.hdr.dim) db.hdr.dim 0)) := by
  unfold l2norm initTables unitNormAndInsertL2
  rw [if_neg (not_not.mpr hm)]
  simp only
  by_cases hl : db.hdr.length > 0
  · rw [if_pos hl, if_neg hdim]
    rw [if_neg (by rw [hflag]; simp)]
    simp only [Bool.false_eq_true, false_and, if_false]
    refine ⟨trivial, trivial, ?_⟩
    intro i hi
    obtain ⟨n1, -, n3, -⟩ := normLoop_spec sqrt db.hdr.dim
      (db.hdr.length / (sizeofDouble * db.hdr.dim)) db.dataBuf 0 (fun _ => 0) 0
    refine ⟨?_, ?_⟩
    · rw [if_pos (by omega)]
      have := n3 i hi
      simp only [Nat.zero_add] at this
      simpa using this
    · intro d hd
      have := n1 i d hi hd
      simp only [Nat.zero_add] at this
      exact this
  · rw [if_neg hl]
    refine ⟨rfl, rfl, ?_⟩
    intro i hi
    exfalso
    have : db.hdr.length = 0 := by omega
    rw [this, Nat.zero_div] at hi
    exact Nat.not_lt_zero i hi

/-- The L2 retrofit on a database that is already flagged: it is rejected when the
database holds payload, and changes nothing when the database is empty. -/
theorem l2norm_flagged (cfg : Config) (sqrt : D → D) (db : DB D)
    (hm : db.hdr.magic = cfg.O2_MAGIC) (hflag : db.hdr.flags &&& O2_FLAG_L2NORM ≠ 0) :
    (0 < db.hdr.length → db.hdr.dim ≠ 0 →
      l2norm cfg sqrt db = { db := db, status := Status.failed Err.AlreadyL2Normed }) ∧
    (db.hdr.length = 0 → l2norm cfg sqrt db = { db := db, status := Status.ok }) := by
  refine ⟨?_, ?_⟩
  · intro hl hdim
    unfold l2norm initTables unitNormAndInsertL2
    rw [if_neg (not_not.mpr hm)]
    simp only
    rw [if_pos hl, if_neg hdim, if_pos ⟨by simp, hflag⟩]
  · intro hl
    unfold l2norm initTables
    rw [if_neg (not_not.mpr hm)]
    simp only
    rw [if_neg (by omega), or_flag_of_set _ hflag]

end Retrofit


/-! ### Further lemmas on the commands -/

theorem not_failed_of_ok (s : Status) (h : s = Status.ok) : ∀ e, s ≠ Status.failed e := by
  intro e he
  rw [h] at he
  cases he

theorem cfgSmall_wellFormed : cfgSmall.WellFormed := by
  unfold Config.WellFormed
  decide

/-- Under `KeyInv` the key printed for slot `j` does not compare equal to the start of
an earlier slot. -/
theorem keyInv_distinct {E : Type} (cfg : Config) (hmax : 0 < cfg.O2_MAXFILES) (db : DB E)
    (hK : KeyInv cfg db.fileTable db.hdr.numFiles) (i j : Nat) (hij : i < j)
    (hj : j < db.hdr.numFiles) : slotCompare cfg db i (keyAt cfg db j) ≠ 0 := by
  obtain ⟨k, hz, hl, hb, h0, hprev⟩ := hK.2 j hj
  have hfuel : k.length < cfg.O2_FILETABLESIZE * cfg.O2_MAXFILES :=
    Nat.lt_of_lt_of_le hl (Nat.le_mul_of_pos_right _ hmax)
  have hkey : keyAt cfg db j = k := by
    unfold keyAt dumpLine
    exact cstrAt_of_key db.fileTable k _ _ hz hfuel hb h0
  rw [hkey]
  unfold slotCompare
  rw [Ne, strncmp_eq_zero_iff _ _ _ (byte_ne_zero_of_lt_strlen k), strlen_eq_length k hz]
  intro hall
  obtain ⟨t, ht, hne⟩ := hprev i hij
  exact hne (hall t ht)

/-- The database `abcDB` is reached with keys shorter than a slot of `cfgSmall`. -/
theorem abcDB_reachable :
    Reachable cfgSmall Real.sqrt (fun k => strlen k < cfgSmall.O2_FILETABLESIZE)
      (fun _ => True) (abcDB Real.sqrt) :=
  Reachable.insert _ (oneVector [97, 98, 99, 100])
    (Reachable.insert _ (oneVector [97, 98, 99]) Reachable.create (by decide) trivial
      (not_failed_of_ok _ (by decide)))
    (by decide) trivial (not_failed_of_ok _ (by decide))

theorem insertTimeStamps_not_using {E : Type} (numVectors : Nat) (dbH : dbTableHeaderT)
    (tf : TimesFile E) (buf : Nat → E) (p : Nat) :
    insertTimeStamps numVectors false dbH tf buf p =
      { dbH := dbH, usingTimes := false, buf := buf, err := none } := by
  unfold insertTimeStamps
  simp

/-- After a key has been copied into slot `n`, the scan over `n + 1` slots finds it. -/
theorem alreadyInserted_after_strncpy (cfg : Config) (ft : Nat → Nat) (key : CStr) (n : Nat) :
    alreadyInserted cfg (strncpy ft (n * cfg.O2_FILETABLESIZE) key.byte (strlen key)) key
      (n + 1) = true := by
  unfold alreadyInserted
  rw [Bool.or_eq_true]
  right
  rw [decide_eq_true_eq, strncmp_eq_zero_iff _ _ _ (byte_ne_zero_of_lt_strlen key)]
  intro i hi
  rw [strncpy_spec _ _ _ _ (byte_ne_zero_of_lt_strlen key), if_pos (by omega),
    Nat.add_sub_cancel_left]

/-- An insert that does not end `ok` leaves the mapped header as it was. -/
theorem insert_hdr_of_not_ok {D : Type} [Zero D] [One D] [Add D] [Mul D] [Div D]
    (cfg : Config) (sqrt : D → D) (db : DB D) (a : InsertArgs D)
    (h : (insert cfg sqrt db a).status ≠ Status.ok) :
    (insert cfg sqrt db a).db.hdr = db.hdr := by
  unfold insert at h ⊢
  cases hi : initTables cfg db (some a.inFile) with
  | error e => simp [hi]
  | ok dbH =>
    simp only [hi] at h ⊢
    split_ifs at h ⊢ with h1 h2 h3 h4 h5 h6
    all_goals first
      | rfl
      | skip
    cases ht : (insertTimeStamps (a.inFile.nbytes / (sizeofDouble * dbH.dim) % 2 ^ 32)
        a.usingTimes dbH a.timesFile db.timesTable
        (dbH.length / (dbH.dim * sizeofDouble))).err with
    | some e => rfl
    | none =>
      exfalso
      simp only [Nat.reducePow] at ht h
      rw [ht] at h
      simp only at h
      rw [commit_status] at h
      · exact h rfl
      · rw [(insertTimeStamps_dbH _ _ _ _ _ _).2.2.1]
        exact h4

theorem batchInsertOne_dim {D : Type} [Zero D] [One D] [Add D] [Mul D] [Div D]
    (cfg : Config) (sqrt : D → D) (st : BatchState D)
    (dbH : dbTableHeaderT) (e : BatchEntry D) (nv : Nat) :
    (batchInsertOne cfg sqrt st dbH e nv).dbH.dim = dbH.dim ∧
    (batchInsertOne cfg sqrt st dbH e nv).dbH.magic = dbH.magic ∧
    ((batchInsertOne cfg sqrt st dbH e nv).db.hdr = st.db.hdr ∨
      (batchInsertOne cfg sqrt st dbH e nv).db.hdr = (batchInsertOne cfg sqrt st dbH e nv).dbH) := by
  unfold batchInsertOne
  have ht := batchTimes_dbH cfg st.usingTimes dbH st.db.timesTable e nv
  generalize batchTimes cfg st.usingTimes dbH st.db.timesTable e nv = t at ht ⊢
  obtain ⟨t1, t2, t3, t4⟩ := ht
  cases hte : t.err with
  | some er =>
    simp only [hte]
    exact ⟨t3, t1, Or.inl trivial⟩
  | none =>
    simp only [hte]
    refine ⟨?_, ?_, Or.inr ?_⟩
    · rw [commit_fst, commit_hdr]; exact t3
    · rw [commit_fst, commit_hdr]; exact t1
    · rw [commit_fst]

/-- One turn of the loop of `batchinsert` keeps a non-zero dimension and the magic
number, in the in-memory header and in the mapped header. -/
theorem batchStep_dim {D : Type} [Zero D] [One D] [Add D] [Mul D] [Div D]
    (cfg : Config) (sqrt : D → D) (st : BatchState D) (e : BatchEntry D)
    (d m : Nat) (hd : d ≠ 0)
    (h : st.dbH.dim = d ∧ st.dbH.magic = m ∧ st.db.hdr.dim = d ∧ st.db.hdr.magic = m) :
    (batchStep cfg sqrt st e).dbH.dim = d ∧ (batchStep cfg sqrt st e).dbH.magic = m ∧
    (batchStep cfg sqrt st e).db.hdr.dim = d ∧ (batchStep cfg sqrt st e).db.hdr.magic = m := by
  obtain ⟨h1, h2, h3, h4⟩ := h
  unfold batchStep
  split_ifs with hfull
  · exact ⟨h1, h2, h3, h4⟩
  · cases hc : checkDim st.dbH e.thisFile with
    | error er => exact ⟨h1, h2, h3, h4⟩
    | ok dbH =>
      simp only
      obtain ⟨c1, _, _, _, _, c6⟩ := checkDim_ok _ _ _ hc
      have hdbH : dbH = st.dbH := by
        rcases c6 with ⟨d0, _⟩ | heq
        · exact absurd (h1 ▸ d0) hd
        · exact heq
      subst hdbH
      split_ifs
      · exact ⟨h1, h2, h3, h4⟩
      · exact ⟨h1, h2, h3, h4⟩
      · exact ⟨h1, h2, h3, h4⟩
      · obtain ⟨b1, b2, b3⟩ := batchInsertOne_dim cfg sqrt st st.dbH e
          (e.thisFile.nbytes / (sizeofDouble * st.dbH.dim) % 2 ^ 32)
        refine ⟨b1.trans h1, b2.trans h2, ?_, ?_⟩
        · rcases b3 with b3 | b3
          · rw [b3]; exact h3
          · rw [b3]; exact b1.trans h1
        · rcases b3 with b3 | b3
          · rw [b3]; exact h4
          · rw [b3]; exact b2.trans h2

theorem batchLoop_dim {D : Type} [Zero D] [One D] [Add D] [Mul D] [Div D]
    (cfg : Config) (sqrt : D → D) (d m : Nat) (hd : d ≠ 0)
    (entries : List (BatchEntry D)) :
    ∀ st : BatchState D,
      (st.dbH.dim = d ∧ st.dbH.magic = m ∧ st.db.hdr.dim = d ∧ st.db.hdr.magic = m) →
      (batchLoop cfg sqrt st entries).db.hdr.dim = d ∧
      (batchLoop cfg sqrt st entries).db.hdr.magic = m := by
  induction entries with
  | nil => intro st h; exact ⟨h.2.2.1, h.2.2.2⟩
  | cons e es ih =>
    intro st h
    have hs := batchStep_dim cfg sqrt st e d m hd h
    unfold batchLoop
    cases (batchStep cfg sqrt st e).err with
    | some er => exact ⟨hs.2.2.1, hs.2.2.2⟩
    | none => exact ih _ hs

theorem batchinsert_dim {D : Type} [Zero D] [One D] [Add D] [Mul D] [Div D]
    (cfg : Config) (sqrt : D → D) (db : DB D) (usingTimes : Bool)
    (entries : List (BatchEntry D)) (hd : db.hdr.dim ≠ 0) :
    (batchinsert cfg sqrt db usingTimes entries).db.hdr.dim = db.hdr.dim ∧
    (batchinsert cfg sqrt db usingTimes entries).db.hdr.magic = db.hdr.magic := by
  unfold batchinsert
  split_ifs
  · exact ⟨rfl, rfl⟩
  · exact ⟨rfl, rfl⟩
  · have := batchLoop_dim cfg sqrt db.hdr.dim db.hdr.magic hd entries
      { dbH := db.hdr, db := db, usingTimes := usingTimes, err := none } ⟨rfl, rfl, rfl, rfl⟩
    simp only
    split <;> exact this


/-! ### Round trip of a key shorter than a slot -/

/-- Under `KeyInv`, a key table that agrees with `ft` below `n` slots prints the same
key for every slot `j < n`. -/
theorem keyAt_congr_below {E : Type} (cfg : Config) (hmax : 0 < cfg.O2_MAXFILES)
    (db db2 : DB E) (n : Nat) (hK : KeyInv cfg db.fileTable n)
    (hsame : ∀ a, a < n * cfg.O2_FILETABLESIZE → db2.fileTable a = db.fileTable a)
    (j : Nat) (hj : j < n) : keyAt cfg db2 j = keyAt cfg db j := by
  obtain ⟨k, hz, hl, hb, h0, -⟩ := hK.2 j hj
  have hfuel : k.length < cfg.O2_FILETABLESIZE * cfg.O2_MAXFILES :=
    Nat.lt_of_lt_of_le hl (Nat.le_mul_of_pos_right _ hmax)
  have hslot : ∀ t, t < cfg.O2_FILETABLESIZE →
      j * cfg.O2_FILETABLESIZE + t < n * cfg.O2_FILETABLESIZE := by
    intro t ht
    have : (j + 1) * cfg.O2_FILETABLESIZE ≤ n * cfg.O2_FILETABLESIZE :=
      Nat.mul_le_mul_right _ hj
    rw [Nat.succ_mul] at this
    omega
  have h1 : keyAt cfg db j = k := by
    unfold keyAt dumpLine
    exact cstrAt_of_key db.fileTable k _ _ hz hfuel hb h0
  have h2 : keyAt cfg db2 j = k := by
    unfold keyAt dumpLine
    apply cstrAt_of_key db2.fileTable k _ _ hz hfuel
    · intro t ht
      rw [hsame _ (hslot t (by omega))]
      exact hb t ht
    · rw [hsame _ (hslot _ hl)]
      exact h0
  rw [h1, h2]

/-- The round trip of `insert` for keys shorter than a slot: in a state reached with
such keys, an insert that ends `ok` under a key `k` without NUL bytes and shorter than a
slot leaves `numFiles = n + 1`, slot `n` reads back `k`, `segTable[n]` is
`(fileSize - 4) / (8 * dim)`, and the keys and vector counts of the slots below `n`
are unchanged. -/
theorem insert_roundtrip {D : Type} [Zero D] [One D] [Add D] [Mul D] [Div D]
    (cfg : Config) (hcfg : cfg.WellFormed) (hmax : 0 < cfg.O2_MAXFILES) (sqrt : D → D)
    (db : DB D) (a : InsertArgs D)
    (hr : Reachable cfg sqrt (fun k => strlen k < cfg.O2_FILETABLESIZE) (fun _ => True) db)
    (hk : strlen a.key < cfg.O2_FILETABLESIZE) (hz : ∀ b ∈ a.key, b ≠ 0)
    (hok : (insert cfg sqrt db a).status = Status.ok) :
    (insert cfg sqrt db a).db.hdr.numFiles = db.hdr.numFiles + 1 ∧
    keyAt cfg (insert cfg sqrt db a).db db.hdr.numFiles = a.key ∧
    (insert cfg sqrt db a).db.segTable db.hdr.numFiles =
      a.inFile.nbytes / (8 * (insert cfg sqrt db a).db.hdr.dim) ∧
    ∀ j, j < db.hdr.numFiles →
      keyAt cfg (insert cfg sqrt db a).db j = keyAt cfg db j ∧
      (insert cfg sqrt db a).db.segTable j = db.segTable j := by
  have hI := reachable_stateInv cfg hcfg sqrt _ _ db hr
  obtain ⟨dbH, fl, hc, hcap, hdup, hdim, hnv, hh, hseg, hft⟩ :=
    insert_ok_facts cfg sqrt db a hok
  obtain ⟨-, c2, c3, -, -, -⟩ := checkDim_ok _ _ _ hc
  have hI2 := adopt_inv cfg _ _ db.hdr dbH db.fileTable db.segTable hc hI
  obtain ⟨e1, -, e3, -, -⟩ := commit_count cfg hcfg dbH db.segTable a.inFile.nbytes
    hI2.1 hcap hdim hnv
  have hK : KeyInv cfg db.fileTable db.hdr.numFiles := hI.2.2 (fun k hk => hk)
  have hcp := strncpy_spec (strlen a.key) db.fileTable (dbH.numFiles * cfg.O2_FILETABLESIZE)
    a.key.byte (byte_ne_zero_of_lt_strlen a.key)
  have hlen : strlen a.key = a.key.length := strlen_eq_length a.key hz
  refine ⟨?_, ?_, ?_, ?_⟩
  · rw [hh]
    simp only
    rw [e1, c2]
  · unfold keyAt dumpLine
    apply cstrAt_of_key _ a.key _ _ hz
      (Nat.lt_of_lt_of_le (hlen ▸ hk) (Nat.le_mul_of_pos_right _ hmax))
    · intro t ht
      rw [hft, hcp, c2, if_pos (by omega), Nat.add_sub_cancel_left]
    · rw [hft, hcp, c2, if_neg (by omega)]
      exact hK.1 _ (by omega)
  · rw [hseg, hh]
    simp only
    rw [e1, c2, Nat.add_sub_cancel, if_pos rfl, e3]
    rfl
  · intro j hj
    refine ⟨?_, ?_⟩
    · apply keyAt_congr_below cfg hmax db _ db.hdr.numFiles hK _ j hj
      intro b hb
      rw [hft, hcp, c2, if_neg (by omega)]
    · rw [hseg, e1, c2, Nat.add_sub_cancel]
      simp only
      rw [if_neg (by omega)]


/-! ### The TIMESTAMPED flag -/

theorem times_bit_or (f g : Nat) (h : f &&& O2_FLAG_TIMES ≠ 0) :
    (f ||| g) &&& O2_FLAG_TIMES ≠ 0 := by
  intro h0
  apply h
  apply Nat.eq_of_testBit_eq
  intro i
  have := congrArg (fun x => x.testBit i) h0
  simp only [Nat.testBit_and, Nat.testBit_or, Nat.zero_testBit] at this ⊢
  cases hf : f.testBit i <;> simp_all

theorem insertTimeStamps_flags {D : Type} (numVectors : Nat) (usingTimes : Bool)
    (dbH : dbTableHeaderT) (tf : TimesFile D) (buf : Nat → D) (p : Nat)
    (h : dbH.flags &&& O2_FLAG_TIMES ≠ 0) :
    (insertTimeStamps numVectors usingTimes dbH tf buf p).dbH.flags &&& O2_FLAG_TIMES ≠ 0 := by
  unfold insertTimeStamps
  dsimp only
  repeat' split
  all_goals first
    | exact h
    | exact times_bit_or _ _ h

theorem batchTimes_flags {E : Type} (cfg : Config) (usingTimes : Bool) (dbH : dbTableHeaderT)
    (timesTable : Nat → E) (e : BatchEntry E) (nv : Nat)
    (h : dbH.flags &&& O2_FLAG_TIMES ≠ 0) :
    (batchTimes cfg usingTimes dbH timesTable e nv).dbH.flags &&& O2_FLAG_TIMES ≠ 0 := by
  unfold batchTimes
  split_ifs
  all_goals first
    | exact h
    | exact insertTimeStamps_flags _ _ _ _ _ _ h

section TimesFlag

variable {D : Type} [Zero D] [One D] [Add D] [Mul D] [Div D]

/-- An insert keeps the TIMESTAMPED flag of the mapped header. -/
theorem insert_flags (cfg : Config) (sqrt : D → D) (db : DB D) (a : InsertArgs D)
    (h : db.hdr.flags &&& O2_FLAG_TIMES ≠ 0) :
    (insert cfg sqrt db a).db.hdr.flags &&& O2_FLAG_TIMES ≠ 0 := by
  by_cases hok : (insert cfg sqrt db a).status = Status.ok
  · obtain ⟨dbH, _, hc, _, _, _, _, _, _, _, heq⟩ := insert_ok_inv cfg sqrt db a hok
    obtain ⟨_, _, _, c4, _, _⟩ := checkDim_ok _ _ _ hc
    rw [heq, commit_hdr]
    exact insertTimeStamps_flags _ _ _ _ _ _ (by rw [c4]; exact h)
  · rw [insert_hdr_of_not_ok cfg sqrt db a hok]
    exact h

theorem batchInsertOne_flags (cfg : Config) (sqrt : D → D) (st : BatchState D)
    (dbH : dbTableHeaderT) (e : BatchEntry D) (nv : Nat)
    (h : dbH.flags &&& O2_FLAG_TIMES ≠ 0) (h2 : st.db.hdr.flags &&& O2_FLAG_TIMES ≠ 0) :
    (batchInsertOne cfg sqrt st dbH e nv).dbH.flags &&& O2_FLAG_TIMES ≠ 0 ∧
    (batchInsertOne cfg sqrt st dbH e nv).db.hdr.flags &&& O2_FLAG_TIMES ≠ 0 := by
  unfold batchInsertOne
  have ht := batchTimes_flags cfg st.usingTimes dbH st.db.timesTable e nv h
  generalize batchTimes cfg st.usingTimes dbH st.db.timesTable e nv = t at ht ⊢
  cases hte : t.err with
  | some er =>
    simp only [hte]
    exact ⟨ht, h2⟩
  | none =>
    simp only [hte]
    refine ⟨?_, ?_⟩
    · rw [commit_fst, commit_hdr]; exact ht
    · rw [commit_hdr]; exact ht

theorem batchStep_flags (cfg : Config) (sqrt : D → D) (st : BatchState D) (e : BatchEntry D)
    (h : st.dbH.flags &&& O2_FLAG_TIMES ≠ 0 ∧ st.db.hdr.flags &&& O2_FLAG_TIMES ≠ 0) :
    (batchStep cfg sqrt st e).dbH.flags &&& O2_FLAG_TIMES ≠ 0 ∧
    (batchStep cfg sqrt st e).db.hdr.flags &&& O2_FLAG_TIMES ≠ 0 := by
  obtain ⟨h1, h2⟩ := h
  unfold batchStep
  split_ifs with hfull
  · exact ⟨h1, h2⟩
  · cases hc : checkDim st.dbH e.thisFile with
    | error er => exact ⟨h1, h2⟩
    | ok dbH =>
      simp only
      obtain ⟨_, _, _, c4, _, _⟩ := checkDim_ok _ _ _ hc
      have h3 : dbH.flags &&& O2_FLAG_TIMES ≠ 0 := by rw [c4]; exact h1
      split_ifs
      · exact ⟨h3, h2⟩
      · exact ⟨h3, h2⟩
      · exact ⟨h3, h2⟩
      · exact batchInsertOne_flags cfg sqrt st dbH e _ h3 h2

theorem batchLoop_flags (cfg : Config) (sqrt : D → D) (entries : List (BatchEntry D)) :
    ∀ st : BatchState D,
      (st.dbH.flags &&& O2_FLAG_TIMES ≠ 0 ∧ st.db.hdr.flags &&& O2_FLAG_TIMES ≠ 0) →
      (batchLoop cfg sqrt st entries).db.hdr.flags &&& O2_FLAG_TIMES ≠ 0 := by
  induction entries with
  | nil => intro st h; exact h.2
  | cons e es ih =>
    intro st h
    have hs := batchStep_flags cfg sqrt st e h
    unfold batchLoop
    cases (batchStep cfg sqrt st e).err with
    | some er => exact hs.2
    | none => exact ih _ hs

/-- A batch insert keeps the TIMESTAMPED flag of the mapped header. -/
theorem batchinsert_flags (cfg : Config) (sqrt : D → D) (db : DB D) (usingTimes : Bool)
    (entries : List (BatchEntry D)) (h : db.hdr.flags &&& O2_FLAG_TIMES ≠ 0) :
    (batchinsert cfg sqrt db usingTimes entries).db.hdr.flags &&& O2_FLAG_TIMES ≠ 0 := by
  unfold batchinsert
  split_ifs
  · exact h
  · exact h
  · have := batchLoop_flags cfg sqrt entries
      { dbH := db.hdr, db := db, usingTimes := usingTimes, err := none } ⟨h, h⟩
    simp only
    split <;> exact this

/-- The L2 retrofit keeps the TIMESTAMPED flag of the mapped header. -/
theorem l2norm_flags (cfg : Config) (sqrt : D → D) (db : DB D)
    (h : db.hdr.flags &&& O2_FLAG_TIMES ≠ 0) :
    (l2norm cfg sqrt db).db.hdr.flags &&& O2_FLAG_TIMES ≠ 0 := by
  unfold l2norm initTables
  split_ifs with hm
  · exact h
  · simp only
    split_ifs with hl hd
    · exact h
    · have hu := unitNormAndInsertL2_hdr sqrt db.hdr db 0 db.hdr.dim
        (db.hdr.length / (sizeofDouble * db.hdr.dim)) false
      generalize unitNormAndInsertL2 sqrt db.hdr db 0 db.hdr.dim
        (db.hdr.length / (sizeofDouble * db.hdr.dim)) false = r at hu ⊢
      cases hs : r.status with
      | ok => exact times_bit_or _ _ h
      | warnDuplicate => simp only; rw [hu.1]; exact h
      | warnEmpty => simp only; rw [hu.1]; exact h
      | failed e => simp only; rw [hu.1]; exact h
    · exact times_bit_or _ _ h

/-- An insert without a times file into a database whose TIMESTAMPED flag is set. -/
theorem insert_without_times (cfg : Config) (sqrt : D → D) (db : DB D) (a : InsertArgs D)
    (h : db.hdr.flags &&& O2_FLAG_TIMES ≠ 0) (hu : a.usingTimes = false) :
    (insert cfg sqrt db a).db = db ∧
    (db.hdr.magic ≠ cfg.O2_MAGIC →
      (insert cfg sqrt db a).status = Status.failed Err.CorruptHeader) ∧
    (db.hdr.magic = cfg.O2_MAGIC → ¬ (db.hdr.dim = 0 ∧ db.hdr.length = 0) →
      db.hdr.dim ≠ a.inFile.dim →
      (insert cfg sqrt db a).status = Status.failed Err.DimensionMismatch) ∧
    (db.hdr.magic = cfg.O2_MAGIC →
      ((db.hdr.dim = 0 ∧ db.hdr.length = 0) ∨ db.hdr.dim = a.inFile.dim) →
      (insert cfg sqrt db a).status = Status.failed Err.TimesRequired) := by
  unfold insert initTables
  by_cases hm : db.hdr.magic ≠ cfg.O2_MAGIC
  · rw [if_pos hm]
    exact ⟨rfl, fun _ => rfl, fun h1 => absurd h1 hm, fun h1 => absurd h1 hm⟩
  · rw [if_neg hm]
    simp only
    cases hc : checkDim db.hdr a.inFile with
    | error er =>
      simp only
      refine ⟨trivial, fun h1 => absurd h1 hm, ?_, ?_⟩
      · intro _ h2 h3
        unfold checkDim at hc
        rw [if_neg h2, if_pos h3] at hc
        cases hc
        rfl
      · intro _ h2
        unfold checkDim at hc
        rcases h2 with h2 | h2
        · rw [if_pos h2] at hc; cases hc
        · split_ifs at hc with h4 h5
          exact absurd h2 h5
    | ok dbH =>
      simp only
      obtain ⟨_, _, _, c4, _, _⟩ := checkDim_ok _ _ _ hc
      rw [if_pos ⟨by simp [hu], by rw [c4]; exact h⟩]
      refine ⟨rfl, fun h1 => absurd h1 hm, ?_, fun _ _ => rfl⟩
      intro _ h2 h3
      unfold checkDim at hc
      rw [if_neg h2, if_pos h3] at hc
      cases hc

end TimesFlag


/-! ### Ranked lists -/

theorem shiftArr_spec {α : Type} (n : Nat) :
    ∀ (l : Nat) (a : Nat → α) (i : Nat),
      shiftArr n l a i = if n < i ∧ i ≤ l then a (i - 1) else a i := by
  intro l
  induction l with
  | zero =>
    intro a i
    unfold shiftArr
    rw [if_neg (by omega)]
  | succ l ih =>
    intro a i
    unfold shiftArr
    by_cases h : n < l + 1
    · rw [if_pos h, ih]
      split_ifs
      all_goals first
        | rfl
        | (exfalso; omega)
        | (congr 1; omega)
    · rw [if_neg h, if_neg (by omega)]

theorem placeAt_spec {α : Type} (top n : Nat) (x : α) (a : Nat → α) (i : Nat) :
    placeAt top n x a i =
      if i = n then x else if n < i ∧ i ≤ top then a (i - 1) else a i := by
  unfold placeAt
  rw [shiftArr_spec]

section Ranks

variable {D : Type} [LinearOrder D]

theorem findRank_none (d : Nat → D) (x : D) :
    ∀ K, findRank d x K = none → K = 0 ∨ x < d (K - 1) := by
  intro K
  induction K with
  | zero => intro _; exact Or.inl rfl
  | succ m ih =>
    intro h
    right
    unfold findRank at h
    by_cases h1 : x ≥ d m
    · rw [if_pos h1] at h
      by_cases h2 : m = 0 ∨ x ≤ d (m - 1)
      · rw [if_pos h2] at h; cases h
      · rw [if_neg h2] at h
        push_neg at h2
        rcases ih h with h3 | h3
        · exact absurd h3 h2.1
        · exact absurd h3 (not_lt.mpr (le_of_lt h2.2))
    · exact not_le.mp h1

theorem findRank_some (d : Nat → D) (x : D) :
    ∀ K n, findRank d x K = some n →
      n < K ∧ d n ≤ x ∧ (n = 0 ∨ x ≤ d (n - 1)) ∧ ∀ i, n < i → i < K → d (i - 1) < x := by
  intro K
  induction K with
  | zero => intro n h; cases h
  | succ m ih =>
    intro n h
    unfold findRank at h
    by_cases h1 : x ≥ d m
    · rw [if_pos h1] at h
      by_cases h2 : m = 0 ∨ x ≤ d (m - 1)
      · rw [if_pos h2] at h
        cases h
        exact ⟨Nat.lt_succ_self _, h1, h2, fun i hi hi2 => by omega⟩
      · rw [if_neg h2] at h
        push_neg at h2
        obtain ⟨a1, a2, a3, a4⟩ := ih n h
        refine ⟨by omega, a2, a3, ?_⟩
        intro i hi hi2
        by_cases him : i = m
        · rw [him]; exact h2.2
        · exact a4 i hi (by omega)
    · rw [if_neg h1] at h; cases h

theorem findRankNBest_none (d : Nat → D) (x : D) :
    ∀ rest m, findRankNBest d x rest m = none → ∀ i, m ≤ i → i < m + rest → x < d i := by
  intro rest
  induction rest with
  | zero => intro m _ i h1 h2; omega
  | succ r ih =>
    intro m h i h1 h2
    unfold findRankNBest at h
    by_cases h3 : x ≥ d m
    · rw [if_pos h3] at h; cases h
    · rw [if_neg h3] at h
      by_cases him : i = m
      · rw [him]; exact not_le.mp h3
      · exact ih (m + 1) h i (by omega) (by omega)

theorem findRankNBest_some (d : Nat → D) (x : D) :
    ∀ rest m p, findRankNBest d x rest m = some p →
      m ≤ p ∧ p < m + rest ∧ d p ≤ x ∧ ∀ i, m ≤ i → i < p → x < d i := by
  intro rest
  induction rest with
  | zero => intro m p h; cases h
  | succ r ih =>
    intro m p h
    unfold findRankNBest at h
    by_cases h3 : x ≥ d m
    · rw [if_pos h3] at h
      cases h
      exact ⟨le_refl _, by omega, h3, fun i h1 h2 => by omega⟩
    · rw [if_neg h3] at h
      obtain ⟨a1, a2, a3, a4⟩ := ih (m + 1) p h
      refine ⟨by omega, by omega, a3, ?_⟩
      intro i h1 h2
      by_cases him : i = m
      · rw [him]; exact not_le.mp h3
      · exact a4 i (by omega) h2

/-- Storing a score at a rank that the search admits keeps the first `K` cells in
non-increasing order, whatever the cell at which the shift starts. -/
theorem placeAt_sorted (d : Nat → D) (K top n : Nat) (x : D) (hs : SortedDesc d K)
    (hn : n < K) (h1 : d n ≤ x) (h2 : n = 0 ∨ x ≤ d (n - 1)) :
    SortedDesc (placeAt top n x d) K := by
  intro i j hij hj
  rw [placeAt_spec, placeAt_spec]
  have hx : ∀ t, t < n → x ≤ d t := by
    intro t ht
    rcases h2 with h2 | h2
    · omega
    · exact le_trans h2 (hs t (n - 1) (by omega) (by omega))
  have hy : ∀ t, n ≤ t → t < K → d t ≤ x := by
    intro t ht htK
    exact le_trans (hs n t ht htK) h1
  by_cases hjn : j = n
  · rw [if_pos hjn]
    by_cases hin : i = n
    · rw [if_pos hin]
    · rw [if_neg hin, if_neg (by omega)]
      exact hx i (by omega)
  · rw [if_neg hjn]
    by_cases hjs : n < j ∧ j ≤ top
    · rw [if_pos hjs]
      by_cases hin : i = n
      · rw [if_pos hin]
        exact hy (j - 1) (by omega) (by omega)
      · rw [if_neg hin]
        by_cases his : n < i ∧ i ≤ top
        · rw [if_pos his]
          exact hs (i - 1) (j - 1) (by omega) (by omega)
        · rw [if_neg his]
          exact hs i (j - 1) (by omega) (by omega)
    · rw [if_neg hjs]
      by_cases hin : i = n
      · rw [if_pos hin]
        exact hy j (by omega) hj
      · rw [if_neg hin]
        by_cases his : n < i ∧ i ≤ top
        · rw [if_pos his]
          exact hs (i - 1) j (by omega) hj
        · rw [if_neg his]
          exact hs i j hij hj

theorem insertPoint_sorted (K : Nat) (x : D) (q s : Nat) (r : PointList D)
    (hs : SortedDesc r.distances K) :
    SortedDesc (insertPoint K x q s r).distances K := by
  unfold insertPoint
  cases h : findRank r.distances x K with
  | none => exact hs
  | some n =>
    obtain ⟨a1, a2, a3, _⟩ := findRank_some _ _ _ _ h
    exact placeAt_sorted _ _ _ _ _ hs a1 a2 a3

theorem insertNBest_sorted (K : Nat) (x : D) (q s : Nat) (r : PointList D)
    (hs : SortedDesc r.distances K) :
    SortedDesc (insertNBest K x q s r).distances K := by
  unfold insertNBest
  cases h : findRankNBest r.distances x K 0 with
  | none => exact hs
  | some n =>
    obtain ⟨_, a2, a3, a4⟩ := findRankNBest_some _ _ _ _ _ h
    refine placeAt_sorted _ _ _ _ _ hs (by omega) a3 ?_
    by_cases hn : n = 0
    · exact Or.inl hn
    · exact Or.inr (le_of_lt (a4 (n - 1) (Nat.zero_le _) (by omega)))

theorem insertSeg_sorted (K top : Nat) (x : D) (g q s : Nat) (r : SegList D)
    (hs : SortedDesc r.segDistances K) :
    SortedDesc (insertSeg K top x g q s r).1.segDistances K := by
  unfold insertSeg
  cases h : findRank r.segDistances x K with
  | none => exact hs
  | some n =>
    obtain ⟨a1, a2, a3, _⟩ := findRank_some _ _ _ _ h
    exact placeAt_sorted _ _ _ _ _ hs a1 a2 a3

end Ranks

theorem sortedDesc_init_point {D : Type} [LinearOrderedField D] (K : Nat) :
    SortedDesc (PointList.init D).distances K := fun _ _ _ _ => le_refl _

theorem sortedDesc_init_seg {D : Type} [LinearOrderedField D] (K : Nat) :
    SortedDesc (SegList.init D).segDistances K := fun _ _ _ _ => le_refl _


/-! ### Order of the lists along the loops -/

theorem strideLoop_inv {σ : Type} (P : σ → Prop) (hop bound : Nat) (body : Nat → σ → σ)
    (hb : ∀ k s, P s → P (body k s)) :
    ∀ fuel k s, P s → P (strideLoop hop bound body fuel k s) := by
  intro fuel
  induction fuel with
  | zero => intro k s h; exact h
  | succ f ih =>
    intro k s h
    unfold strideLoop
    split_ifs
    · exact ih _ _ (hb k s h)
    · exact h

section Loops

variable {D : Type} [LinearOrderedField D]

theorem pointScan_sorted (env : QueryEnv) (K dim totalVecs : Nat) (query dataBuf : Nat → D)
    (qp qIndex : Nat) :
    ∀ k dp (r : PointList D), SortedDesc r.distances K →
      SortedDesc (pointScan env K dim totalVecs query dataBuf qp qIndex k dp r).distances K := by
  intro k
  induction k with
  | zero => intro dp r h; exact h
  | succ k ih =>
    intro dp r h
    unfold pointScan
    apply ih
    split_ifs
    · exact insertPoint_sorted _ _ _ _ _ h
    · exact h

theorem pointLoop_sorted (env : QueryEnv) (K dim totalVecs numVectors : Nat)
    (query dataBuf : Nat → D) :
    ∀ j qp (r : PointList D), SortedDesc r.distances K →
      SortedDesc (pointLoop env K dim totalVecs numVectors query dataBuf j qp r).distances K := by
  intro j
  induction j with
  | zero => intro qp r h; exact h
  | succ j ih =>
    intro qp r h
    unfold pointLoop
    apply ih
    exact pointScan_sorted _ _ _ _ _ _ _ _ _ _ _ h

theorem segScan_sorted (env : QueryEnv) (K dim seg segLen : Nat) (query dataBuf : Nat → D)
    (qp qIndex : Nat) :
    ∀ k dp (r : PointList D), SortedDesc r.distances K →
      SortedDesc (segScan env K dim seg segLen query dataBuf qp qIndex k dp r).distances K := by
  intro k
  induction k with
  | zero => intro dp r h; exact h
  | succ k ih =>
    intro dp r h
    unfold segScan
    apply ih
    split_ifs
    · exact insertPoint_sorted _ _ _ _ _ h
    · exact h

theorem segPointSegs_sorted (env : QueryEnv) (s : QuerySettings) (dim numVectors : Nat)
    (query : Nat → D) (db : DB D) :
    ∀ rest seg (st : PointList D × SegList D),
      SortedDesc st.1.distances s.pointNN ∧ SortedDesc st.2.segDistances s.segNN →
      SortedDesc (segPointSegs env s dim numVectors query db rest seg st).1.distances
          s.pointNN ∧
        SortedDesc (segPointSegs env s dim numVectors query db rest seg st).2.segDistances
          s.segNN := by
  intro rest
  induction rest with
  | zero => intro seg st h; exact h
  | succ rest ih =>
    intro seg st h
    unfold segPointSegs
    apply ih
    unfold segPointStep
    exact ⟨sortedDesc_init_point _, insertSeg_sorted _ _ _ _ _ _ _ h.2⟩

theorem shingleSearch_sorted (s : QuerySettings) (t : Thresholds D) (DD : Nat → Nat → D)
    (numVectors segLen seg qNormAt : Nat) (r : PointList D)
    (h : SortedDesc r.distances s.pointNN) :
    SortedDesc (shingleSearch s t DD numVectors segLen seg qNormAt r).distances s.pointNN := by
  unfold shingleSearch
  apply strideLoop_inv (fun r : PointList D => SortedDesc r.distances s.pointNN)
  · intro j r1 h1
    apply strideLoop_inv (fun r : PointList D => SortedDesc r.distances s.pointNN)
    · intro k r2 h2
      exact insertNBest_sorted _ _ _ _ _ h2
    · exact h1
  · exact h

theorem sequenceSegs_sorted (env : QueryEnv) (s : QuerySettings) (t : Thresholds D)
    (dim numVectors qp qNormAt : Nat) (query : Nat → D) (db : DB D) :
    ∀ rest seg (st : SequenceState D),
      SortedDesc st.points.distances s.pointNN ∧ SortedDesc st.segs.segDistances s.segNN →
      SortedDesc (sequenceSegs env s t dim numVectors qp qNormAt query db rest seg
          st).points.distances s.pointNN ∧
        SortedDesc (sequenceSegs env s t dim numVectors qp qNormAt query db rest seg
          st).segs.segDistances s.segNN := by
  intro rest
  induction rest with
  | zero => intro seg st h; exact h
  | succ rest ih =>
    intro seg st h
    unfold sequenceSegs
    apply ih
    unfold sequenceStep
    split_ifs
    · exact ⟨sortedDesc_init_point _, insertSeg_sorted _ _ _ _ _ _ _ h.2⟩
    · exact ⟨sortedDesc_init_point _, h.2⟩
    · exact h

/-- The list left by a point query that returns. -/
theorem pointQuery_ok (cfg : Config) (sqrt : D → D) (env : QueryEnv) (s : QuerySettings)
    (db : DB D) (inFile : FeatureFile D) (junk : Nat → D) (o : PointOutput D)
    (h : pointQuery cfg sqrt env s db inFile junk = Except.ok o) :
    ∃ dbH : dbTableHeaderT, ∃ query : Nat → D, ∃ numVectors j qp : Nat,
      initTables cfg db (some inFile) = Except.ok dbH ∧ dbH.dim ≠ 0 ∧
      0 < s.pointNN ∧
      (s.usingQueryPoint = true → qp = s.queryPoint * dbH.dim % 2 ^ 32 ∧ j = 1 ∧
        numVectors = (s.queryPoint + 1) % 2 ^ 32 ∧
        queryPointTooLarge s.queryPoint
          (inFile.nbytes / (sizeofDouble * dbH.dim) % 2 ^ 32) = false) ∧
      query = queryInUse sqrt dbH inFile junk ∧
      o.list = pointLoop env s.pointNN dbH.dim (dbH.length / (dbH.dim * sizeofDouble))
        numVectors query db.dataBuf j qp (PointList.init D) ∧
      o.rows = (List.range s.pointNN).filterMap (pointRow db.segTable dbH.numFiles o.list) := by
  unfold pointQuery at h
  cases hi : initTables cfg db (some inFile) with
  | error e => rw [hi] at h; cases h
  | ok dbH =>
    rw [hi] at h
    simp only at h
    by_cases h1 : dbH.dim = 0
    · rw [if_pos h1] at h; cases h
    · rw [if_neg h1] at h
      by_cases h2 : ¬ (s.pointNN > 0 ∧ s.pointNN ≤ env.O2_MAXNN)
      · rw [if_pos h2] at h; cases h
      · rw [if_neg h2] at h
        by_cases h3 : s.usingQueryPoint = true ∧ queryPointTooLarge s.queryPoint
            (inFile.nbytes / (sizeofDouble * dbH.dim) % 2 ^ 32) = true
        · rw [if_pos h3] at h; cases h
        · rw [if_neg h3] at h
          cases h
          refine ⟨dbH, _,
            (if s.usingQueryPoint = true then (s.queryPoint + 1) % 2 ^ 32
              else inFile.nbytes / (sizeofDouble * dbH.dim) % 2 ^ 32),
            (if s.usingQueryPoint = true then 1
              else if env.usingTimes = true then
                (inFile.nbytes / (sizeofDouble * dbH.dim) % 2 ^ 32 + (2 ^ 32 - 1)) % 2 ^ 32
              else inFile.nbytes / (sizeofDouble * dbH.dim) % 2 ^ 32),
            (if s.usingQueryPoint = true then s.queryPoint * dbH.dim % 2 ^ 32 else 0),
            rfl, h1, ?_, ?_, rfl, rfl, rfl⟩
          · by_contra h4
            exact h2 (fun h5 => absurd h5.1 h4)
          · intro hq
            refine ⟨by simp [hq], by simp [hq], by simp [hq], ?_⟩
            by_contra h4
            exact h3 ⟨hq, by simpa using h4⟩

theorem segPointQuery_sorted (cfg : Config) (sqrt : D → D) (env : QueryEnv)
    (s : QuerySettings) (db : DB D) (inFile : FeatureFile D) (junk : Nat → D)
    (o : SegOutput D) (h : segPointQuery cfg sqrt env s db inFile junk = Except.ok o) :
    SortedDesc o.points.distances s.pointNN ∧ SortedDesc o.segs.segDistances s.segNN := by
  unfold segPointQuery at h
  cases hi : initTables cfg db (some inFile) with
  | error e => rw [hi] at h; cases h
  | ok dbH =>
    rw [hi] at h
    simp only at h
    by_cases h1 : dbH.dim = 0
    · rw [if_pos h1] at h; cases h
    · rw [if_neg h1] at h
      by_cases h2 : ¬ (s.pointNN > 0 ∧ s.pointNN ≤ env.O2_MAXNN)
      · rw [if_pos h2] at h; cases h
      · rw [if_neg h2] at h
        by_cases h3 : ¬ (s.segNN > 0 ∧ s.segNN ≤ env.O2_MAXNN)
        · rw [if_pos h3] at h; cases h
        · rw [if_neg h3] at h
          by_cases h4 : s.usingQueryPoint = true ∧ queryPointTooLarge s.queryPoint
              (inFile.nbytes / (sizeofDouble * dbH.dim) % 2 ^ 32) = true
          · rw [if_pos h4] at h; cases h
          · rw [if_neg h4] at h
            cases h
            exact segPointSegs_sorted _ _ _ _ _ _ _ _ _
              ⟨sortedDesc_init_point _, sortedDesc_init_seg _⟩

theorem segSequenceQuery_sorted (cfg : Config) (sqrt : D → D) (env : QueryEnv)
    (s : QuerySettings) (db : DB D) (inFile : FeatureFile D) (junkQ junkS : Nat → D)
    (o : SegOutput D)
    (h : segSequenceQuery cfg sqrt env s db inFile junkQ junkS = Except.ok o) :
    SortedDesc o.points.distances s.pointNN ∧ SortedDesc o.segs.segDistances s.segNN := by
  unfold segSequenceQuery at h
  cases hi : initTables cfg db (some inFile) with
  | error e => rw [hi] at h; cases h
  | ok dbH =>
    rw [hi] at h
    simp only at h
    by_cases h1 : dbH.dim = 0
    · rw [if_pos h1] at h; cases h
    · rw [if_neg h1] at h
      by_cases h0 : dbH.flags &&& O2_FLAG_L2NORM = 0
      · rw [if_pos h0] at h; cases h
      · rw [if_neg h0] at h
        by_cases h5 : s.sequenceLength = 0
        · rw [if_pos h5] at h; cases h
        · rw [if_neg h5] at h
          by_cases h2 : ¬ (s.pointNN > 0 ∧ s.pointNN ≤ env.O2_MAXNN)
          · rw [if_pos h2] at h; cases h
          · rw [if_neg h2] at h
            by_cases h3 : ¬ (s.segNN > 0 ∧ s.segNN ≤ env.O2_MAXNN)
            · rw [if_pos h3] at h; cases h
            · rw [if_neg h3] at h
              by_cases h4 : s.usingQueryPoint = true ∧ sequenceQueryPointTooLarge s.queryPoint
                  (inFile.nbytes / (sizeofDouble * dbH.dim) % 2 ^ 32) s.sequenceLength = true
              · rw [if_pos h4] at h; cases h
              · rw [if_neg h4] at h
                cases h
                exact sequenceSegs_sorted _ _ _ _ _ _ _ _ _ _ _ _
                  ⟨sortedDesc_init_point _, sortedDesc_init_seg _⟩

end Loops


/-! ### Entries of the lists after an insertion -/

theorem pointList_place_entry {D : Type} (top n : Nat) (x : D) (q s : Nat) (r : PointList D)
    (i : Nat) :
    (r.place top n x q s).entry i =
      if i = n then (x, q, s) else if n < i ∧ i ≤ top then r.entry (i - 1) else r.entry i := by
  unfold PointList.place PointList.entry
  simp only [placeAt_spec]
  split_ifs <;> rfl

theorem segList_place_entry {D : Type} (top n : Nat) (x : D) (g q s : Nat) (r : SegList D)
    (i : Nat) :
    (r.place top n x g q s).entry i =
      if i = n then (x, g, q, s)
      else if n < i ∧ i ≤ top then r.entry (i - 1) else r.entry i := by
  unfold SegList.place SegList.entry
  simp only [placeAt_spec]
  split_ifs <;> rfl

section Ties

variable {D : Type} [LinearOrder D]

/-- The rank found by the search from the last rank down lies below every entry whose
score is at least the candidate's, the last rank apart. -/
theorem findRank_after (d : Nat → D) (x : D) (K n i : Nat) (h : findRank d x K = some n)
    (hi : i + 1 < K) (hx : x ≤ d i) : i < n := by
  obtain ⟨_, _, _, a4⟩ := findRank_some d x K n h
  by_contra hni
  have := a4 (i + 1) (by omega) hi
  simp only [Nat.add_sub_cancel] at this
  exact absurd hx (not_le.mpr this)

/-- A candidate that ties with the last entry of a sorted list is stored at the last
rank. -/
theorem findRank_tie_last (d : Nat → D) (x : D) (K : Nat) (hK : 0 < K)
    (hs : SortedDesc d K) (hx : x = d (K - 1)) : findRank d x K = some (K - 1) := by
  obtain ⟨m, rfl⟩ : ∃ m, K = m + 1 := ⟨K - 1, by omega⟩
  simp only [Nat.add_sub_cancel] at hx ⊢
  unfold findRank
  rw [if_pos (by rw [hx])]
  by_cases hm : m = 0
  · rw [if_pos (Or.inl hm)]
  · rw [if_pos (Or.inr (by rw [hx]; exact hs (m - 1) m (by omega) (by omega)))]

theorem insertPoint_keeps (K : Nat) (x : D) (q s : Nat) (r : PointList D) (i : Nat)
    (hi : i + 1 < K) (hx : x ≤ r.distances i) :
    (insertPoint K x q s r).entry i = r.entry i := by
  unfold insertPoint
  cases h : findRank r.distances x K with
  | none => rfl
  | some n =>
    have hin := findRank_after _ _ _ _ _ h hi hx
    simp only
    rw [pointList_place_entry, if_neg (by omega), if_neg (by omega)]

theorem insertPoint_tie_last (K : Nat) (x : D) (q s : Nat) (r : PointList D) (hK : 0 < K)
    (hs : SortedDesc r.distances K) (hx : x = r.distances (K - 1)) :
    (insertPoint K x q s r).entry (K - 1) = (x, q, s) := by
  unfold insertPoint
  rw [findRank_tie_last _ _ _ hK hs hx]
  simp only
  rw [pointList_place_entry, if_pos rfl]

theorem insertSeg_keeps (K top : Nat) (x : D) (g q s : Nat) (r : SegList D) (i : Nat)
    (hi : i + 1 < K) (hx : x ≤ r.segDistances i) :
    (insertSeg K top x g q s r).1.entry i = r.entry i := by
  unfold insertSeg
  cases h : findRank r.segDistances x K with
  | none => rfl
  | some n =>
    have hin := findRank_after _ _ _ _ _ h hi hx
    simp only
    rw [segList_place_entry, if_neg (by omega), if_neg (by omega)]

theorem insertSeg_tie_last (K top : Nat) (x : D) (g q s : Nat) (r : SegList D) (hK : 0 < K)
    (hs : SortedDesc r.segDistances K) (hx : x = r.segDistances (K - 1)) :
    (insertSeg K top x g q s r).1.entry (K - 1) = (x, g, q, s) := by
  unfold insertSeg
  rw [findRank_tie_last _ _ _ hK hs hx]
  simp only
  rw [segList_place_entry, if_pos rfl]

/-- In the insertion of the sequence query a candidate that ties with the entry at rank
`i` is stored at a rank `m <= i`, and that entry moves to rank `i + 1` or, from the
last rank, out of the list. -/
theorem insertNBest_tie (K : Nat) (x : D) (q s : Nat) (r : PointList D) (i : Nat)
    (hi : i < K) (hx : x = r.distances i) :
    ∃ m, m ≤ i ∧ (insertNBest K x q s r).entry m = (x, q, s) ∧
      (i + 1 < K → (insertNBest K x q s r).entry (i + 1) = r.entry i) := by
  unfold insertNBest
  cases h : findRankNBest r.distances x K 0 with
  | none =>
    have := findRankNBest_none _ _ _ _ h i (Nat.zero_le _) (by omega)
    rw [hx] at this
    exact absurd this (lt_irrefl _)
  | some m =>
    obtain ⟨_, a2, a3, a4⟩ := findRankNBest_some _ _ _ _ _ h
    have hmi : m ≤ i := by
      by_contra hc
      have := a4 i (Nat.zero_le _) (by omega)
      rw [hx] at this
      exact absurd this (lt_irrefl _)
    refine ⟨m, hmi, ?_, ?_⟩
    · simp only
      rw [pointList_place_entry, if_pos rfl]
    · intro hi1
      simp only
      rw [pointList_place_entry, if_neg (by omega), if_pos ⟨by omega, by omega⟩]
      rfl

end Ties


/-! ### The scan for the key of a winner -/

theorem segSum_mono (t : Nat → Nat) : ∀ a b, a ≤ b → segSum t a ≤ segSum t b := by
  intro a b h
  induction b with
  | zero =>
    have : a = 0 := by omega
    rw [this]
  | succ b ih =>
    by_cases hab : a = b + 1
    · rw [hab]
    · have h1 := ih (by omega)
      have h2 : segSum t (b + 1) = segSum t b + t b := rfl
      omega

theorem keyScan_spec (t : Nat → Nat) (g n : Nat) (hn : segSum t n < 2 ^ 32) :
    ∀ rest l, l + rest = n → segSum t l ≤ g →
      (g < segSum t n → ∃ l', l ≤ l' ∧ l' < n ∧ segSum t l' ≤ g ∧ g < segSum t (l' + 1) ∧
        keyScan t g rest l (segSum t l) = some (l', g - segSum t l')) ∧
      (segSum t n ≤ g → keyScan t g rest l (segSum t l) = none) := by
  intro rest
  induction rest with
  | zero =>
    intro l hl hg
    have : l = n := by omega
    subst this
    exact ⟨fun h => by omega, fun _ => rfl⟩
  | succ rest ih =>
    intro l hl hg
    have hle : segSum t (l + 1) ≤ segSum t n := segSum_mono t _ _ (by omega)
    have hs : segSum t (l + 1) = segSum t l + t l := rfl
    have hmod : (segSum t l + t l) % 2 ^ 32 = segSum t (l + 1) := by
      rw [← hs]
      exact Nat.mod_eq_of_lt (lt_of_le_of_lt hle hn)
    unfold keyScan
    rw [hmod]
    by_cases h1 : g < segSum t (l + 1)
    · rw [if_pos h1]
      refine ⟨fun _ => ⟨l, le_refl _, by omega, hg, h1, ?_⟩, fun h => by omega⟩
      congr 2
      simp only [Nat.reducePow] at hn hle ⊢
      omega
    · rw [if_neg h1]
      obtain ⟨i1, i2⟩ := ih (l + 1) (by omega) (by omega)
      refine ⟨fun h => ?_, i2⟩
      obtain ⟨l', a1, a2, a3, a4, a5⟩ := i1 h
      exact ⟨l', by omega, a2, a3, a4, a5⟩


/-! ### The comparison with a literal -/

theorem byte_cons_succ (b : Nat) (bs : CStr) :
    (fun i => CStr.byte (b :: bs) (i + 1)) = CStr.byte bs := by
  funext i
  simp [CStr.byte]

/-- Against a literal shorter than the bound, `strncmp` is zero for the literal only. -/
theorem strncmp_literal :
    ∀ (lit s : CStr) (n : Nat), (∀ b ∈ lit, b ≠ 0) → (∀ b ∈ s, b ≠ 0) → lit.length < n →
      (strncmp s.byte lit.byte n = 0 ↔ s = lit) := by
  intro lit
  induction lit with
  | nil =>
    intro s n _ hs hn
    obtain ⟨m, rfl⟩ : ∃ m, n = m + 1 := ⟨n - 1, by simp at hn; omega⟩
    unfold strncmp
    cases s with
    | nil => simp [CStr.byte]
    | cons b bs =>
      have hb : b ≠ 0 := hs b (List.mem_cons_self _ _)
      simp only [CStr.byte, List.getD_cons_zero, List.getD_nil, ne_eq, hb, not_false_eq_true,
        if_true]
      constructor
      · intro h
        exfalso
        apply hb
        have : (b : Int) = 0 := by simpa using h
        exact_mod_cast this
      · intro h; cases h
  | cons c cs ih =>
    intro s n hl hs hn
    obtain ⟨m, rfl⟩ : ∃ m, n = m + 1 := ⟨n - 1, by simp at hn; omega⟩
    have hc : c ≠ 0 := hl c (List.mem_cons_self _ _)
    cases s with
    | nil =>
      unfold strncmp
      simp only [CStr.byte, List.getD_nil, List.getD_cons_zero, ne_eq]
      rw [if_pos (fun h => hc h.symm)]
      constructor
      · intro h
        exfalso
        apply hc
        have : (c : Int) = 0 := by
          have h' : (0 : Int) - (c : Int) = 0 := by simpa using h
          omega
        exact_mod_cast this
      · intro h; cases h
    | cons b bs =>
      have hb : b ≠ 0 := hs b (List.mem_cons_self _ _)
      unfold strncmp
      by_cases hbc : b = c
      · subst hbc
        have e1 : CStr.byte (b :: bs) 0 = b := by simp [CStr.byte]
        have e2 : CStr.byte (b :: cs) 0 = b := by simp [CStr.byte]
        rw [e1, e2, if_neg (by simp), if_neg hb, byte_cons_succ, byte_cons_succ]
        rw [ih bs m (fun x hx => hl x (List.mem_cons_of_mem _ hx))
          (fun x hx => hs x (List.mem_cons_of_mem _ hx))
          (by simp at hn; omega)]
        simp
      · have e1 : CStr.byte (b :: bs) 0 = b := by simp [CStr.byte]
        have e2 : CStr.byte (c :: cs) 0 = c := by simp [CStr.byte]
        rw [e1, e2, if_pos hbc]
        constructor
        · intro h
          exfalso
          apply hbc
          have : (b : Int) = (c : Int) := by omega
          exact_mod_cast this
        · intro h
          cases h
          exact absurd rfl hbc


/-! ### The command line of a query -/

theorem queryTypeOf_spec (MAXSTR : Nat) (hM : 8 < MAXSTR) (q : CStr)
    (hq : ∀ b ∈ q, b ≠ 0) :
    (queryTypeOf MAXSTR q = some QueryType.O2_FLAG_SEG_QUERY ↔ q = strSegment) ∧
    (queryTypeOf MAXSTR q = some QueryType.O2_FLAG_POINT_QUERY ↔ q = strPoint) ∧
    (queryTypeOf MAXSTR q = some QueryType.O2_FLAG_SEQUENCE_QUERY ↔ q = strSequence) ∧
    (queryTypeOf MAXSTR q = none ↔ q ≠ strSegment ∧ q ≠ strPoint ∧ q ≠ strSequence) := by
  have e1 : strncmp q.byte strSegment.byte MAXSTR = 0 ↔ q = strSegment :=
    strncmp_literal strSegment q MAXSTR (by decide) hq (by simp [strSegment]; omega)
  have e2 : strncmp q.byte strPoint.byte MAXSTR = 0 ↔ q = strPoint :=
    strncmp_literal strPoint q MAXSTR (by decide) hq (by simp [strPoint]; omega)
  have e3 : strncmp q.byte strSequence.byte MAXSTR = 0 ↔ q = strSequence :=
    strncmp_literal strSequence q MAXSTR (by decide) hq (by simp [strSequence]; omega)
  have d12 : strSegment ≠ strPoint := by decide
  have d13 : strSegment ≠ strSequence := by decide
  have d23 : strPoint ≠ strSequence := by decide
  unfold queryTypeOf
  simp only [e1, e2, e3]
  by_cases h1 : q = strSegment
  · simp [h1, d12, d13]
  · by_cases h2 : q = strPoint
    · simp [h2, d12.symm, d23]
    · by_cases h3 : q = strSequence
      · simp [h3, d13.symm, d23.symm]
      · simp [h1, h2, h3]

theorem checkRanges_spec (qt : QueryType) (args : QueryOptions) :
    ((∃ s, checkRanges qt args = Except.ok s) ↔
      (1 ≤ args.pointnn_arg ∧ args.pointnn_arg ≤ 1000) ∧
      (1 ≤ args.resultlength_arg ∧ args.resultlength_arg ≤ 1000) ∧
      (1 ≤ args.sequencelength_arg ∧ args.sequencelength_arg ≤ 1000) ∧
      (1 ≤ args.sequencehop_arg ∧ args.sequencehop_arg ≤ 1000) ∧
      (args.exhaustive_flag = true ∨ (0 ≤ args.qpoint_arg ∧ args.qpoint_arg ≤ 10000))) ∧
    (∀ s, checkRanges qt args = Except.ok s →
      (s.segNN : Int) = args.resultlength_arg ∧
      (s.pointNN : Int) = args.pointnn_arg ∧
      (s.sequenceLength : Int) = args.sequencelength_arg ∧
      (s.sequenceHop : Int) = args.sequencehop_arg ∧
      (s.usingQueryPoint = true ↔ args.exhaustive_flag = false) ∧
      (args.exhaustive_flag = false → (s.queryPoint : Int) = args.qpoint_arg) ∧
      s.queryType = qt) := by
  unfold checkRanges
  by_cases c1 : (!args.exhaustive_flag) = true ∧ (args.qpoint_arg < 0 ∨ args.qpoint_arg > 10000)
  · rw [if_pos c1]
    refine ⟨⟨fun h => ?_, fun h => ?_⟩, fun s hs => ?_⟩
    · obtain ⟨s, hs⟩ := h; cases hs
    · exfalso
      rcases h.2.2.2.2 with h6 | h6
      · rw [h6] at c1; simp at c1
      · rcases c1.2 with h7 | h7 <;> omega
    · cases hs
  · rw [if_neg c1]
    by_cases c2 : args.pointnn_arg < 1 ∨ args.pointnn_arg > 1000
    · rw [if_pos c2]
      refine ⟨⟨fun h => ?_, fun h => ?_⟩, fun s hs => ?_⟩
      · obtain ⟨s, hs⟩ := h; cases hs
      · exfalso; rcases c2 with h7 | h7 <;> omega
      · cases hs
    · rw [if_neg c2]
      by_cases c3 : args.resultlength_arg < 1 ∨ args.resultlength_arg > 1000
      · rw [if_pos c3]
        refine ⟨⟨fun h => ?_, fun h => ?_⟩, fun s hs => ?_⟩
        · obtain ⟨s, hs⟩ := h; cases hs
        · exfalso; rcases c3 with h7 | h7 <;> omega
        · cases hs
      · rw [if_neg c3]
        by_cases c4 : args.sequencelength_arg < 1 ∨ args.sequencelength_arg > 1000
        · rw [if_pos c4]
          refine ⟨⟨fun h => ?_, fun h => ?_⟩, fun s hs => ?_⟩
          · obtain ⟨s, hs⟩ := h; cases hs
          · exfalso; rcases c4 with h7 | h7 <;> omega
          · cases hs
        · rw [if_neg c4]
          by_cases c5 : args.sequencehop_arg < 1 ∨ args.sequencehop_arg > 1000
          · rw [if_pos c5]
            refine ⟨⟨fun h => ?_, fun h => ?_⟩, fun s hs => ?_⟩
            · obtain ⟨s, hs⟩ := h; cases hs
            · exfalso; rcases c5 with h7 | h7 <;> omega
            · cases hs
          · rw [if_neg c5]
            push_neg at c1 c2 c3 c4 c5
            have hqp : args.exhaustive_flag = false →
                0 ≤ args.qpoint_arg ∧ args.qpoint_arg ≤ 10000 := by
              intro hx
              have := c1 (by simp [hx])
              omega
            refine ⟨⟨fun _ => ⟨by omega, by omega, by omega, by omega, ?_⟩,
              fun _ => ⟨_, rfl⟩⟩, ?_⟩
            · by_cases hx : args.exhaustive_flag = true
              · exact Or.inl hx
              · exact Or.inr (hqp (by simpa using hx))
            · intro s hs
              cases hs
              refine ⟨?_, ?_, ?_, ?_, by simp, ?_, rfl⟩
              · exact Int.toNat_of_nonneg (by omega)
              · exact Int.toNat_of_nonneg (by omega)
              · exact Int.toNat_of_nonneg (by omega)
              · exact Int.toNat_of_nonneg (by omega)
              · intro hx
                simp only [hx, Bool.false_eq_true, if_false]
                exact Int.toNat_of_nonneg (hqp hx).1


/-! ### The scan of the point query keeps the nearest vectors -/

section Nearest

variable {D : Type} [LinearOrderedField D]

theorem scanInv_init (K : Nat) (score : Nat → D) (q : Nat) :
    ScanInv K score q 0 (PointList.init D) := by
  refine ⟨sortedDesc_init_point K, ?_, ?_, ?_, ?_⟩
  · intro i _ h; omega
  · intro i _ _; rfl
  · intro i i' _ _ h; omega
  · intro g h; omega

theorem scanInv_step (K : Nat) (score : Nat → D) (q t : Nat) (r : PointList D)
    (hK : 0 < K) (hpos : 0 < score t) (h : ScanInv K score q t r) :
    ScanInv K score q (t + 1) (insertPoint K (score t) q t r) := by
  obtain ⟨hs, hreal, hzero, hinj, hcov⟩ := h
  unfold insertPoint
  cases hf : findRank r.distances (score t) K with
  | none =>
    simp only
    have hlt : score t < r.distances (K - 1) := by
      rcases findRank_none _ _ _ hf with h0 | h0
      · omega
      · exact h0
    have hKt : K ≤ t := by
      by_contra hc
      have := hzero (K - 1) (by omega) (by omega)
      rw [this] at hlt
      exact absurd hpos (not_lt.mpr (le_of_lt hlt))
    refine ⟨hs, ?_, ?_, ?_, ?_⟩
    · intro i hi _
      obtain ⟨a, b, c⟩ := hreal i hi (by omega)
      exact ⟨by omega, b, c⟩
    · intro i hi hti; omega
    · intro i i' hi hi' _ _ he
      exact hinj i i' hi hi' (by omega) (by omega) he
    · intro g hg
      by_cases hgt : g = t
      · right; rw [hgt]; exact ⟨by omega, le_of_lt hlt⟩
      · rcases hcov g (by omega) with ⟨i, a, b, c⟩ | ⟨a, b⟩
        · left; exact ⟨i, a, by omega, c⟩
        · right; exact ⟨by omega, b⟩
  | some n =>
    simp only
    obtain ⟨hnK, hdn, hprev, hafter⟩ := findRank_some _ _ _ _ hf
    have hnt : n ≤ t := by
      by_contra hc
      have hz := hzero (n - 1) (by omega) (by omega)
      rcases hprev with h0 | h0
      · omega
      · rw [hz] at h0
        exact absurd hpos (not_lt.mpr h0)
    have hd : ∀ i, (r.place (K - 1) n (score t) q t).distances i =
        if i = n then score t
        else if n < i ∧ i ≤ K - 1 then r.distances (i - 1) else r.distances i :=
      fun i => placeAt_spec _ _ _ _ _
    have hq : ∀ i, (r.place (K - 1) n (score t) q t).qIndexes i =
        if i = n then q
        else if n < i ∧ i ≤ K - 1 then r.qIndexes (i - 1) else r.qIndexes i :=
      fun i => placeAt_spec _ _ _ _ _
    have hx : ∀ i, (r.place (K - 1) n (score t) q t).sIndexes i =
        if i = n then t
        else if n < i ∧ i ≤ K - 1 then r.sIndexes (i - 1) else r.sIndexes i :=
      fun i => placeAt_spec _ _ _ _ _
    have hlast : r.distances (K - 1) ≤ (r.place (K - 1) n (score t) q t).distances (K - 1) := by
      rw [hd]
      by_cases hn1 : K - 1 = n
      · rw [if_pos hn1, hn1]; exact hdn
      · rw [if_neg hn1, if_pos ⟨by omega, le_refl _⟩]
        exact hs (K - 1 - 1) (K - 1) (by omega) (by omega)
    refine ⟨placeAt_sorted _ _ _ _ _ hs hnK hdn hprev, ?_, ?_, ?_, ?_⟩
    · intro i hi hit
      rw [hd, hq, hx]
      by_cases hin : i = n
      · rw [if_pos hin, if_pos hin, if_pos hin]
        exact ⟨by omega, rfl, rfl⟩
      · rw [if_neg hin, if_neg hin, if_neg hin]
        by_cases his : n < i ∧ i ≤ K - 1
        · rw [if_pos his, if_pos his, if_pos his]
          obtain ⟨a, b, c⟩ := hreal (i - 1) (by omega) (by omega)
          exact ⟨by omega, b, c⟩
        · rw [if_neg his, if_neg his, if_neg his]
          obtain ⟨a, b, c⟩ := hreal i hi (by omega)
          exact ⟨by omega, b, c⟩
    · intro i hi hti
      rw [hd, if_neg (by omega), if_pos ⟨by omega, by omega⟩]
      exact hzero (i - 1) (by omega) (by omega)
    · intro i i' hi hi' hit hit' he
      rw [hx, hx] at he
      by_cases hin : i = n
      · rw [if_pos hin] at he
        by_cases hin' : i' = n
        · omega
        · exfalso
          rw [if_neg hin'] at he
          by_cases his' : n < i' ∧ i' ≤ K - 1
          · rw [if_pos his'] at he
            have := (hreal (i' - 1) (by omega) (by omega)).1
            omega
          · rw [if_neg his'] at he
            have := (hreal i' hi' (by omega)).1
            omega
      · rw [if_neg hin] at he
        by_cases his : n < i ∧ i ≤ K - 1
        · rw [if_pos his] at he
          by_cases hin' : i' = n
          · exfalso
            rw [if_pos hin'] at he
            have := (hreal (i - 1) (by omega) (by omega)).1
            omega
          · rw [if_neg hin'] at he
            by_cases his' : n < i' ∧ i' ≤ K - 1
            · rw [if_pos his'] at he
              have := hinj (i - 1) (i' - 1) (by omega) (by omega) (by omega) (by omega) he
              omega
            · rw [if_neg his'] at he
              have := hinj (i - 1) i' (by omega) hi' (by omega) (by omega) he
              omega
        · rw [if_neg his] at he
          by_cases hin' : i' = n
          · exfalso
            rw [if_pos hin'] at he
            have := (hreal i hi (by omega)).1
            omega
          · rw [if_neg hin'] at he
            by_cases his' : n < i' ∧ i' ≤ K - 1
            · rw [if_pos his'] at he
              have := hinj i (i' - 1) hi (by omega) (by omega) (by omega) he
              omega
            · rw [if_neg his'] at he
              exact hinj i i' hi hi' (by omega) (by omega) he
    · intro g hg
      by_cases hgt : g = t
      · left
        refine ⟨n, hnK, by omega, ?_⟩
        rw [hx, if_pos rfl, hgt]
      · rcases hcov g (by omega) with ⟨i, a, b, c⟩ | ⟨a, b⟩
        · by_cases hin : i < n
          · left
            refine ⟨i, a, by omega, ?_⟩
            rw [hx, if_neg (by omega), if_neg (by omega)]
            exact c
          · by_cases hl : i + 1 < K
            · left
              refine ⟨i + 1, hl, by omega, ?_⟩
              rw [hx, if_neg (by omega), if_pos ⟨by omega, by omega⟩]
              simpa using c
            · right
              refine ⟨by omega, ?_⟩
              have hi1 : i = K - 1 := by omega
              have hsc := (hreal i a b).2.1
              rw [c, hi1] at hsc
              rw [← hsc]
              exact hlast
        · right
          exact ⟨by omega, le_trans b hlast⟩

theorem pointScan_inv (env : QueryEnv) (hdur : ∀ a b, env.durOk a b = true)
    (K dim totalVecs : Nat) (query dataBuf : Nat → D) (qp qIndex : Nat) (hK : 0 < K)
    (hpos : ∀ g, g < totalVecs → 0 < vectorScore dim query dataBuf qp g) :
    ∀ k dp (r : PointList D) t, t + k = totalVecs → dp = t * dim →
      ScanInv K (vectorScore dim query dataBuf qp) qIndex t r →
      ScanInv K (vectorScore dim query dataBuf qp) qIndex totalVecs
        (pointScan env K dim totalVecs query dataBuf qp qIndex k dp r) := by
  intro k
  induction k with
  | zero =>
    intro dp r t ht _ h
    have : t = totalVecs := by omega
    rw [← this]
    exact h
  | succ k ih =>
    intro dp r t ht hdp h
    unfold pointScan
    rw [if_pos (hdur _ _)]
    have e1 : totalVecs - k - 1 = t := by omega
    have e2 : innerProduct query dataBuf qp dp dim 0 = vectorScore dim query dataBuf qp t := by
      unfold vectorScore
      rw [hdp]
    rw [e1, e2]
    apply ih (dp + dim) _ (t + 1) (by omega)
    · rw [hdp, Nat.succ_mul]
    · exact scanInv_step K _ qIndex t r hK (hpos t (by omega)) h

end Nearest


/-! ### The sequence query for a query of one shingle -/

section SingleShingle

variable {D : Type} [LinearOrderedField D]

theorem thresholds_single (s : QuerySettings) (dbH : dbTableHeaderT) (db : DB D)
    (qNorm0 junkS : Nat → D) (hL : s.sequenceLength = 1) :
    (sequenceThresholds s dbH db qNorm0 1 junkS).qMeanL2 =
      (sequenceThresholds s dbH db qNorm0 1 junkS).qNorm 0 := by
  have c0 : (1 + (2 ^ 32 - 1 % 2 ^ 32)) % 2 ^ 32 = 0 := by norm_num
  have c1 : (1 + (2 ^ 32 - 1 % 2 ^ 32) + 1) % 2 ^ 32 = 1 := by norm_num
  unfold sequenceThresholds
  simp only [hL, c0, c1, slideQuery, Nat.sub_self, addAhead, Nat.cast_one, div_one]

theorem shingleDistance_single (t : Thresholds D) (DD : Nat → Nat → D) (wL seg k : Nat)
    (h : t.qMeanL2 = t.qNorm 0) : shingleDistance t DD wL seg 0 0 k = 0 := by
  unfold shingleDistance
  rw [if_neg]
  intro hc
  have := hc.2.2.1
  rw [h] at this
  exact lt_irrefl _ this

theorem insertNBest_zero (K q k : Nat) (r : PointList D) (hK : 0 < K)
    (hr : ∀ i, r.distances i = 0) :
    (∀ i, (insertNBest K 0 q k r).distances i = 0) ∧
    (insertNBest K 0 q k r).qIndexes 0 = q ∧ (insertNBest K 0 q k r).sIndexes 0 = k := by
  obtain ⟨m, rfl⟩ : ∃ m, K = m + 1 := ⟨K - 1, by omega⟩
  have hf : findRankNBest r.distances 0 (m + 1) 0 = some 0 := by
    unfold findRankNBest
    rw [if_pos (by rw [hr])]
  unfold insertNBest
  rw [hf]
  simp only
  refine ⟨?_, ?_, ?_⟩
  · intro i
    show placeAt _ _ _ _ i = 0
    rw [placeAt_spec]
    split_ifs
    · rfl
    · exact hr _
    · exact hr _
  · unfold PointList.place
    simp only
    rw [placeAt_spec, if_pos rfl]
  · unfold PointList.place
    simp only
    rw [placeAt_spec, if_pos rfl]

theorem sumDistances_zero (d : Nat → D) (K : Nat) (hd : ∀ i, d i = 0) :
    ∀ n, sumDistances d K n 0 = 0 := by
  intro n
  induction n with
  | zero => rfl
  | succ n ih =>
    unfold sumDistances
    rw [hd, add_zero]
    exact ih

theorem insertSeg_zero_init (S seg q k : Nat) (hS : 0 < S) :
    (insertSeg S (S - 1) (0 : D) seg q k (SegList.init D)).2 = true ∧
    (insertSeg S (S - 1) (0 : D) seg q k (SegList.init D)).1.entry (S - 1) = (0, seg, q, k) ∧
    (∀ i, i + 1 < S →
      (insertSeg S (S - 1) (0 : D) seg q k (SegList.init D)).1.entry i
        = (0, noIndex, noIndex, noIndex)) := by
  obtain ⟨m, rfl⟩ : ∃ m, S = m + 1 := ⟨S - 1, by omega⟩
  have hf : findRank (SegList.init D).segDistances 0 (m + 1) = some m := by
    unfold findRank
    have h0 : ∀ i, (SegList.init D).segDistances i = 0 := fun _ => rfl
    rw [if_pos (by rw [h0]), if_pos (Or.inr (by rw [h0]))]
  unfold insertSeg
  rw [hf]
  simp only [Nat.add_sub_cancel]
  refine ⟨trivial, ?_, ?_⟩
  · rw [segList_place_entry, if_pos rfl]
  · intro i hi
    rw [segList_place_entry, if_neg (by omega), if_neg (by omega)]
    rfl

theorem shingleSearch_single (s : QuerySettings) (t : Thresholds D) (DD : Nat → Nat → D)
    (seg : Nat) (hL : s.sequenceLength = 1) (hH : s.sequenceHop = 1)
    (hqp : s.usingQueryPoint = true) (hq0 : s.queryPoint = 0)
    (ht : t.qMeanL2 = t.qNorm 0) (hK : 0 < s.pointNN) :
    (∀ i, (shingleSearch s t DD 1 2 seg 0 (PointList.init D)).distances i = 0) ∧
    (shingleSearch s t DD 1 2 seg 0 (PointList.init D)).qIndexes 0 = 0 ∧
    (shingleSearch s t DD 1 2 seg 0 (PointList.init D)).sIndexes 0 = 1 := by
  have c1 : (1 + (2 ^ 32 - 1 % 2 ^ 32) + 1) % 2 ^ 32 = 1 := by norm_num
  have e1 : ∀ (body : Nat → PointList D → PointList D) (r : PointList D),
      strideLoop 1 1 body 1 0 r = body 0 r := fun _ _ => rfl
  have e2 : ∀ (body : Nat → PointList D → PointList D) (r : PointList D),
      strideLoop 1 2 body 2 0 r = body 1 (body 0 r) := fun _ _ => rfl
  have hsd : ∀ k, shingleDistance t DD 1 seg 0 0 k = 0 :=
    fun k => shingleDistance_single t DD 1 seg k ht
  unfold shingleSearch
  simp only [hH, hL, c1, e1, e2, hsd, hqp, hq0, if_true]
  obtain ⟨a1, _, _⟩ := insertNBest_zero s.pointNN 0 0 (PointList.init D) hK (fun _ => rfl)
  exact insertNBest_zero s.pointNN 0 1 _ hK a1

theorem segSequenceQuery_single_shingle (cfg : Config) (sqrt : D → D) (s : QuerySettings)
    (db : DB D) (inFile : FeatureFile D) (junkQ junkS : Nat → D) (dbH : dbTableHeaderT)
    (hinit : initTables cfg db (some inFile) = Except.ok dbH) (hdim : dbH.dim ≠ 0)
    (hflag : dbH.flags &&& O2_FLAG_L2NORM ≠ 0)
    (hL : s.sequenceLength = 1) (hH : s.sequenceHop = 1) (hqp : s.usingQueryPoint = true)
    (hq0 : s.queryPoint = 0)
    (hnv : inFile.nbytes / (sizeofDouble * dbH.dim) % 2 ^ 32 = 1)
    (hK : 0 < s.pointNN ∧ s.pointNN ≤ 1000) (hS : 0 < s.segNN ∧ s.segNN ≤ 1000)
    (hfiles : dbH.numFiles = 1) (hseg : db.segTable 0 = 2) :
    ∃ o, segSequenceQuery cfg sqrt plainEnv s db inFile junkQ junkS = Except.ok o ∧
      o.segs.entry (s.segNN - 1) = (0, 0, 0, 1) ∧
      (∀ i, i + 1 < s.segNN → o.segs.entry i = (0, noIndex, noIndex, noIndex)) ∧
      o.rows = [segRow o.segs 0] := by
  have hK' : s.pointNN > 0 ∧ s.pointNN ≤ plainEnv.O2_MAXNN := hK
  have hS' : s.segNN > 0 ∧ s.segNN ≤ plainEnv.O2_MAXNN := hS
  have hqc : sequenceQueryPointTooLarge 0 1 1 = false := by decide
  have hd : plainEnv.durOk 0 0 = true := rfl
  unfold segSequenceQuery
  rw [hinit]
  simp only
  rw [if_neg hdim, if_neg hflag, if_neg (by rw [hL]; decide), if_neg (not_not.mpr hK'),
    if_neg (not_not.mpr hS')]
  rw [hnv, hq0, hL, hqc, if_neg (by simp), hfiles]
  simp only [hqp, if_true]
  unfold sequenceSegs sequenceSegs sequenceStep
  simp only [hL, hseg]
  generalize unitNorm sqrt inFile.indata dbH.dim 1 junkQ = u
  have ht := thresholds_single s dbH db u.2 junkS hL
  generalize sequenceThresholds s dbH db u.2 1 junkS = t at ht ⊢
  generalize matchedFilter (crossCorrelation dbH.dim u.1 db.dataBuf (0 * dbH.dim % 2 ^ 32)
    (segOffsetTable db.segTable dbH.dim 0)) s.sequenceHop 1 2 1 0 (fun _ _ => 0) = DD
  obtain ⟨p1, p2, p3⟩ := shingleSearch_single s t DD 0 hL hH hqp hq0 ht hK.1
  generalize shingleSearch s t DD 1 2 0 0 (PointList.init D) = pts at p1 p2 p3 ⊢
  rw [sumDistances_zero pts.distances s.pointNN p1, zero_div, p2, p3]
  obtain ⟨g1, g2, g3⟩ := @insertSeg_zero_init D _ s.segNN 0 0 1 hS.1
  generalize insertSeg s.segNN (s.segNN - 1) (0 : D) 0 0 1 (SegList.init D) = ins at g1 g2 g3 ⊢
  rw [if_pos (by decide), if_pos hd, g1]
  simp only [if_true]
  refine ⟨_, rfl, g2, g3, ?_⟩
  simp only
  have hm : min s.segNN (0 + 1) = 1 := by
    rw [Nat.zero_add]
    exact Nat.min_eq_right hS.1
  rw [hm]
  rfl

end SingleShingle


/-- The in-memory header that `initTables` returns carries the flags of the mapped
header. -/
theorem initTables_flags {D : Type} (cfg : Config) (db : DB D) (f : FeatureFile D)
    (dbH : dbTableHeaderT) (h : initTables cfg db (some f) = Except.ok dbH) :
    dbH.flags = db.hdr.flags := by
  unfold initTables at h
  split_ifs at h with h1
  exact (checkDim_ok db.hdr dbH f h).2.2.2.1


section ShingleNorms

variable {D : Type} [LinearOrderedField D]

/-- The loop that sums the first shingle changes the cell it sums into and no other. -/
theorem addAhead_other (p : Nat) :
    ∀ w j (a : Nat → D) c, c ≠ p → addAhead p w j a c = a c := by
  intro w
  induction w with
  | zero => intro j a c _; rfl
  | succ w ih =>
    intro j a c hc
    rw [addAhead, ih _ _ _ hc, if_neg hc]

/-- The sliding loop leaves the cells in front of its pointer alone. -/
theorem slideNorms_below (sequenceLength : Nat) :
    ∀ w ps (tmp1 : D) (a : Nat → D) c, c < ps →
      slideNorms sequenceLength w ps tmp1 a c = a c := by
  intro w
  induction w with
  | zero => intro ps tmp1 a c _; rfl
  | succ w ih =>
    intro ps tmp1 a c hc
    rw [slideNorms, ih _ _ _ _ (by omega), if_neg (by omega)]

/-- The first turn of the sliding loop on the first segment: shingle norm 1 is shingle
norm 0, less the norm of vector 0, plus the norm of vector `1 + W`. -/
theorem shingleNorms_second (W L : Nat) (a : Nat → D) (h : W < L) :
    shingleNorms (fun _ => L) W 1 0 0 a 1 =
      shingleNorms (fun _ => L) W 1 0 0 a 0 - a 0 + a (1 + W) := by
  obtain ⟨m, hm⟩ : ∃ m, L - W = m + 1 := ⟨L - W - 1, by omega⟩
  have h1 : shingleNorms (fun _ => L) W 1 0 0 a =
      slideNorms W (m + 1) 1 (a 0) (addAhead 0 (W - 1) 1 a) := by
    rw [shingleNorms, shingleNorms, if_pos h, hm]
  rw [h1, slideNorms, slideNorms_below W m 2 _ _ 1 (by omega),
    slideNorms_below W m 2 _ _ 0 (by omega), if_pos rfl, if_neg (by omega),
    addAhead_other 0 (W - 1) 1 a (1 + W) (by omega)]

/-- The sum of the differences of consecutive cells telescopes. -/
theorem durationSum_eq (t : Nat → D) :
    ∀ n j acc, durationSum t n j acc = acc + (t (j + n) - t j) := by
  intro n
  induction n with
  | zero => intro j acc; simp [durationSum]
  | succ n ih =>
    intro j acc
    rw [durationSum, ih, Nat.add_assoc j 1 n, Nat.add_comm 1 n]
    ring

end ShingleNorms


/-! ### The matched filter -/

/-- A value that no turn from the start on changes is left alone by a loop with
stride. -/
theorem strideLoop_keep {σ α : Type} (val : σ → α) (hop bound : Nat) (body : Nat → σ → σ)
    (P : Nat → Prop) (hb : ∀ i s, P i → val (body i s) = val s)
    (hP : ∀ i, P i → P (i + hop)) :
    ∀ fuel k s, P k → val (strideLoop hop bound body fuel k s) = val s := by
  intro fuel
  induction fuel with
  | zero => intro k s _; rfl
  | succ f ih =>
    intro k s hk
    unfold strideLoop
    split_ifs
    · rw [ih _ _ (hP k hk), hb k s hk]
    · rfl

/-- A value that the turn `k` increases by `c` and no other turn changes is increased
by `c` by a loop with stride that reaches `k`. -/
theorem strideLoop_hit {σ α : Type} [Add α] (val : σ → α) (hop bound : Nat)
    (body : Nat → σ → σ) (k : Nat) (c : α) (hhop : 1 ≤ hop) (hk : k < bound)
    (hhit : ∀ s, val (body k s) = val s + c)
    (hmiss : ∀ i s, i ≠ k → val (body i s) = val s) :
    ∀ t fuel k0 s, k = k0 + t * hop → t < fuel →
      val (strideLoop hop bound body fuel k0 s) = val s + c := by
  intro t
  induction t with
  | zero =>
    intro fuel k0 s hk0 hf
    have hkk : k = k0 := by omega
    subst hkk
    cases fuel with
    | zero => omega
    | succ f =>
      unfold strideLoop
      rw [if_pos hk]
      rw [strideLoop_keep val hop bound body (fun i => k < i)
        (fun i s hi => hmiss i s (by omega)) (fun i hi => by show k < i + hop; omega) f
        (k + hop) (body k s) (by show k < k + hop; omega)]
      exact hhit s
  | succ t ih =>
    intro fuel k0 s hk0 hf
    have hm : (t + 1) * hop = t * hop + hop := Nat.succ_mul t hop
    cases fuel with
    | zero => omega
    | succ f =>
      unfold strideLoop
      rw [if_pos (by omega)]
      rw [ih f (k0 + hop) (body k0 s) (by omega) (by omega)]
      rw [hmiss k0 s (by omega)]

section MatchedFilter

variable {D : Type} [LinearOrderedField D]

/-- The inner product loop adds the products of the coordinates to its accumulator. -/
theorem innerProduct_eq_sum (q data : Nat → D) :
    ∀ l qp dp acc, innerProduct q data qp dp l acc =
      acc + ∑ i in Finset.range l, q (qp + i) * data (dp + i) := by
  intro l
  induction l with
  | zero => intro qp dp acc; simp [innerProduct]
  | succ l ih =>
    intro qp dp acc
    rw [innerProduct, ih, Finset.sum_range_succ', add_assoc]
    congr 1
    rw [add_comm]
    congr 1
    apply Finset.sum_congr rfl
    intro i _
    rw [Nat.add_assoc, Nat.add_comm 1 i, Nat.add_assoc, Nat.add_comm 1 i]

/-- One pass of the loop `while(k--) *sp+++=*spd++` over row `j`. -/
theorem addDiagonal_spec (Dm : Nat → Nat → D) (j w : Nat) :
    ∀ n c0 (DD : Nat → Nat → D) a b,
      addDiagonal Dm j w n c0 DD a b =
        if a = j ∧ c0 ≤ b ∧ b < c0 + n then DD j b + Dm (j + w) (w + b) else DD a b := by
  intro n
  induction n with
  | zero =>
    intro c0 DD a b
    rw [addDiagonal, if_neg (by omega)]
  | succ n ih =>
    intro c0 DD a b
    rw [addDiagonal, ih]
    split_ifs <;> first | rfl | (exfalso; omega) | simp_all

/-- One diagonal of the matched filter with hop 1, over the rows `j0 .. j0+rest-1`. -/
theorem filterRows_spec (Dm : Nat → Nat → D) (segLen w : Nat) :
    ∀ rest j0 (DD : Nat → Nat → D) a b,
      filterRows Dm segLen w rest j0 DD a b =
        if j0 ≤ a ∧ a < j0 + rest ∧ b < segLen - w then DD a b + Dm (a + w) (w + b)
        else DD a b := by
  intro rest
  induction rest with
  | zero =>
    intro j0 DD a b
    rw [filterRows, if_neg (by omega)]
  | succ rest ih =>
    intro j0 DD a b
    rw [filterRows, ih, addDiagonal_spec]
    split_ifs <;> first | rfl | (exfalso; omega) | simp_all

/-- One diagonal of the matched filter with a hop, at a cell whose two indices are
multiples of the hop. -/
theorem stridePass_cell (Dm : Nat → Nat → D) (H bound segLen w j k : Nat)
    (DD : Nat → Nat → D) (hH : 1 ≤ H) (hj : j < bound) (hk : k < segLen - w)
    (hjH : H ∣ j) (hkH : H ∣ k) :
    (strideLoop H bound
      (fun j DD1 =>
        strideLoop H (segLen - w)
          (fun k DD2 => fun a b =>
            if a = j ∧ b = k then DD2 j k + Dm (j + w) (w + k) else DD2 a b)
          (segLen - w) 0 DD1)
      bound 0 DD) j k = DD j k + Dm (j + w) (w + k) := by
  obtain ⟨tj, htj⟩ := hjH
  obtain ⟨tk, htk⟩ := hkH
  have h1 : tj ≤ j := by rw [htj]; exact Nat.le_mul_of_pos_left tj hH
  have h2 : tk ≤ k := by rw [htk]; exact Nat.le_mul_of_pos_left tk hH
  refine strideLoop_hit (fun DD0 : Nat → Nat → D => DD0 j k) H bound _ j
    (Dm (j + w) (w + k)) hH hj ?_ ?_ tj bound 0 DD (by rw [htj, Nat.mul_comm]; omega)
    (by omega)
  · intro s
    refine strideLoop_hit (fun DD0 : Nat → Nat → D => DD0 j k) H (segLen - w) _ k
      (Dm (j + w) (w + k)) hH hk ?_ ?_ tk (segLen - w) 0 s
      (by rw [htk, Nat.mul_comm]; omega) (by omega)
    · intro s2
      show (if j = j ∧ k = k then s2 j k + Dm (j + w) (w + k) else s2 j k) = _
      rw [if_pos ⟨rfl, rfl⟩]
    · intro i s2 hi
      show (if j = j ∧ k = i then s2 j i + Dm (j + w) (w + i) else s2 j k) = _
      rw [if_neg (fun h => hi h.2.symm)]
  · intro i s hi
    refine strideLoop_keep (fun DD0 : Nat → Nat → D => DD0 j k) H (segLen - w) _
      (fun _ => True) ?_ (fun _ _ => trivial) (segLen - w) 0 s trivial
    intro i2 s2 _
    show (if j = i ∧ k = i2 then s2 i i2 + Dm (i + w) (w + i2) else s2 j k) = _
    rw [if_neg (fun h => hi h.1.symm)]

/-- The matched filter adds to a cell the cells of the cross-correlation along its
diagonal, one for each diagonal processed. -/
theorem matchedFilter_cell (Dm : Nat → Nat → D) (H numVectors segLen j k : Nat)
    (hH : 1 ≤ H) (hnv : numVectors < 2 ^ 32) (hjH : H ∣ j) (hkH : H ∣ k) :
    ∀ rest w (DD : Nat → Nat → D), j + (w + rest) ≤ numVectors → k + (w + rest) ≤ segLen →
      matchedFilter Dm H numVectors segLen rest w DD j k =
        DD j k + ∑ t in Finset.range rest, Dm (j + (w + t)) (k + (w + t)) := by
  intro rest
  induction rest with
  | zero => intro w DD _ _; simp [matchedFilter]
  | succ rest ih =>
    intro w DD h1 h2
    have hb : (numVectors + (2 ^ 32 - w % 2 ^ 32)) % 2 ^ 32 = numVectors - w := by
      simp only [Nat.reducePow] at hnv ⊢
      omega
    rw [matchedFilter, ih (w + 1) _ (by omega) (by omega), Finset.sum_range_succ', hb]
    have hcell : (if H = 1 then
          filterRows Dm segLen w (numVectors - w) 0 DD
        else
          strideLoop H (numVectors - w)
            (fun j DD1 =>
              strideLoop H (segLen - w)
                (fun k DD2 => fun a b =>
                  if a = j ∧ b = k then DD2 j k + Dm (j + w) (w + k) else DD2 a b)
                (segLen - w) 0 DD1)
            (numVectors - w) 0 DD) j k = DD j k + Dm (j + w) (w + k) := by
      by_cases hH1 : H = 1
      · rw [if_pos hH1, filterRows_spec, if_pos (by omega)]
      · rw [if_neg hH1]
        exact stridePass_cell Dm H (numVectors - w) segLen w j k DD hH (by omega) (by omega)
          hjH hkH
    rw [hcell, Nat.add_zero, Nat.add_comm w k, add_assoc]
    congr 1
    rw [add_comm]
    congr 1
    apply Finset.sum_congr rfl
    intro t _
    rw [Nat.add_assoc w 1 t, Nat.add_comm 1 t]

end MatchedFilter


section KeyedLemmas

variable {D : Type} [LinearOrderedField D]

/-- Without a key list the run with the member `segFile` is the run of the engine. -/
theorem segPointQueryKeyed_none (cfg : Config) (sqrt : D → D) (env : QueryEnv)
    (s : QuerySettings) (db : DB D) (inFile : FeatureFile D) (junk : Nat → D) :
    keyedAnswerOf (segPointQueryKeyed cfg sqrt env s db inFile junk none) =
      answerOf (segPointQuery cfg sqrt env s db inFile junk) := by
  unfold segPointQueryKeyed segPointQuery
  cases initTables cfg db (some inFile) with
  | error e => rfl
  | ok dbH =>
    simp only
    split_ifs <;> rfl

/-- A key list whose first key sits in the last slot: the loop scores that segment and
ends, whatever follows in the list. -/
theorem segPointKeyed_last_slot (cfg : Config) (env : QueryEnv) (s : QuerySettings)
    (dim numVectors : Nat) (query : Nat → D) (db : DB D) (numFiles : Nat) (nextKey : CStr)
    (rest : List CStr) (st : PointList D × SegList D) (hn : 0 < numFiles)
    (h : getKeyPos cfg db.fileTable nextKey numFiles 0 = some (numFiles - 1)) :
    segPointKeyed cfg env s dim numVectors query db numFiles (nextKey :: rest) 0 0 st =
      Except.ok (segPointStep env s dim numVectors query db (numFiles - 1) st, 1) := by
  rw [segPointKeyed, if_pos hn, h]
  simp only
  cases rest with
  | nil => rfl
  | cons k2 r2 => rw [segPointKeyed, if_neg (by omega)]

end KeyedLemmas


/-- The last state of the tail of an insert is the state that `commit` returns. -/
theorem commitTrace_getLast {D : Type} [Zero D] [One D] [Add D] [Mul D] [Div D]
    (sqrt : D → D) (dbH : dbTableHeaderT) (db : DB D) (inFile : FeatureFile D)
    (numVectors : Nat) :
    (commitTrace sqrt dbH db inFile numVectors).getLast? =
      some (commit sqrt dbH db inFile numVectors).2.db := by
  unfold commitTrace commit
  simp only
  split_ifs <;> rfl

/-- The last state of the trace of an insert is the state that `insert` returns. -/
theorem insertTrace_getLast {D : Type} [Zero D] [One D] [Add D] [Mul D] [Div D]
    (cfg : Config) (sqrt : D → D) (db : DB D) (a : InsertArgs D) :
    (insertTrace cfg sqrt db a).getLast? = some (insert cfg sqrt db a).db := by
  unfold insertTrace insert
  cases initTables cfg db (some a.inFile) with
  | error e => rfl
  | ok dbH =>
    simp only
    split_ifs
    all_goals first
      | rfl
      | (split
         · rfl
         · rw [List.getLast?_append, commitTrace_getLast]
           rfl)


/-- The header that the dimension test returns is the header given, or the header of an
empty database with the dimension of the file. -/
theorem checkDim_shape {D : Type} (hdr dbH : dbTableHeaderT) (f : FeatureFile D)
    (h : checkDim hdr f = Except.ok dbH) :
    dbH = hdr ∨ (hdr.dim = 0 ∧ hdr.length = 0 ∧ dbH = { hdr with dim := f.dim }) := by
  unfold checkDim at h
  split_ifs at h with h1 h2
  · cases h
    exact Or.inr ⟨h1.1, h1.2, rfl⟩
  · cases h
    exact Or.inl rfl

/-- The dimension test on a header in memory that has adopted the dimension of a
skipped file gives what it gives on the mapped header, for a file of that dimension. -/
theorem checkDim_adopted {D : Type} (hdr dbHm dbH : dbTableHeaderT) (f : FeatureFile D) (d : Nat)
    (hinv : dbHm = hdr ∨ (hdr.dim = 0 ∧ hdr.length = 0 ∧ dbHm = { hdr with dim := d }))
    (hd : f.dim = d) (h : checkDim hdr f = Except.ok dbH) :
    checkDim dbHm f = Except.ok dbH := by
  rcases hinv with rfl | ⟨h1, h2, rfl⟩
  · exact h
  · unfold checkDim at h ⊢
    rw [if_pos ⟨h1, h2⟩] at h
    cases h
    subst hd
    simp only
    by_cases h3 : f.dim = 0 ∧ hdr.length = 0
    · rw [if_pos h3]
    · rw [if_neg h3, if_neg (not_not.mpr rfl)]

/-- Without a times list the timestamp part of a turn of `batchinsert` does nothing. -/
theorem batchTimes_not_using {D : Type} (cfg : Config) (dbH : dbTableHeaderT) (tt : Nat → D)
    (e : BatchEntry D) (nv : Nat) :
    batchTimes cfg false dbH tt e nv =
      { dbH := dbH, usingTimes := false, buf := tt, err := none } := by
  unfold batchTimes
  simp

section BatchRefines

variable {D : Type} [Zero D] [One D] [Add D] [Mul D] [Div D]

/-- A list of single inserts whose first insert does not end in `error` goes on with
the rest of the list. -/
theorem insertEach_cons (cfg : Config) (sqrt : D → D) (db : DB D) (e : BatchEntry D)
    (es : List (BatchEntry D))
    (h : ∀ er, (insert cfg sqrt db (entryArgs e)).status ≠ Status.failed er) :
    insertEach cfg sqrt db (e :: es) =
      insertEach cfg sqrt (insert cfg sqrt db (entryArgs e)).db es := by
  rw [insertEach]
  split
  · rename_i er he
    exact absurd he (h er)
  · rfl

/-- A list of single inserts whose first insert ends in `error` ends there. -/
theorem insertEach_cons_failed (cfg : Config) (sqrt : D → D) (db : DB D) (e : BatchEntry D)
    (es : List (BatchEntry D)) (er : Err)
    (h : (insert cfg sqrt db (entryArgs e)).status = Status.failed er) :
    insertEach cfg sqrt db (e :: es) =
      { db := (insert cfg sqrt db (entryArgs e)).db, status := Status.failed er } := by
  rw [insertEach]
  split
  · rename_i er2 he
    rw [h] at he
    cases he
    rfl
  · rename_i hne
    exact absurd h (hne er)

/-- One turn of the loop of `batchinsert` does what the single insert of the entry
does, when that insert does not end in `error`. -/
theorem batchStep_refines (cfg : Config) (sqrt : D → D) (d : Nat) (st : BatchState D)
    (db : DB D) (e : BatchEntry D) (hrel : BatchRel d st db) (hd : e.thisFile.dim = d)
    (hok : ∀ er, (insert cfg sqrt db (entryArgs e)).status ≠ Status.failed er) :
    BatchRel d (batchStep cfg sqrt st e) (insert cfg sqrt db (entryArgs e)).db := by
  obtain ⟨h1, h2, h3, h4⟩ := hrel
  subst h1
  have hm : ¬ st.db.hdr.magic ≠ cfg.O2_MAGIC := by
    intro hm
    apply hok Err.CorruptHeader
    unfold insert initTables
    rw [if_pos hm]
  cases hc : checkDim st.db.hdr e.thisFile with
  | error er =>
    exfalso
    apply hok er
    have hi : initTables cfg st.db (some (entryArgs e).inFile) = Except.error er := by
      unfold initTables
      rw [if_neg hm]
      exact hc
    unfold insert
    rw [hi]
  | ok dbH =>
    have hi : initTables cfg st.db (some (entryArgs e).inFile) = Except.ok dbH := by
      unfold initTables
      rw [if_neg hm]
      exact hc
    have hc2 := checkDim_adopted st.db.hdr st.dbH dbH e.thisFile d h4 hd hc
    have hfacts := checkDim_ok st.db.hdr dbH e.thisFile hc
    have hlen : st.dbH.length = dbH.length := by
      rcases h4 with h4 | ⟨_, _, h4⟩
      · rw [h4, hfacts.2.2.1]
      · rw [h4, hfacts.2.2.1]
    have hshape : dbH = st.db.hdr ∨
        (st.db.hdr.dim = 0 ∧ st.db.hdr.length = 0 ∧ dbH = { st.db.hdr with dim := d }) := by
      rcases checkDim_shape st.db.hdr dbH e.thisFile hc with h | ⟨a, b, c⟩
      · exact Or.inl h
      · exact Or.inr ⟨a, b, by rw [c, hd]⟩
    unfold insert at hok ⊢
    rw [hi] at hok ⊢
    simp only at hok ⊢
    unfold batchStep
    by_cases hT : (!(entryArgs e).usingTimes) = true ∧ dbH.flags &&& O2_FLAG_TIMES ≠ 0
    · exfalso
      rw [if_pos hT] at hok
      exact hok _ rfl
    rw [if_neg hT] at hok ⊢
    by_cases hF : timesTableOffset cfg < dataoffset cfg + dbH.length + (entryArgs e).inFile.nbytes
    · exfalso
      rw [if_pos hF] at hok
      exact hok _ rfl
    rw [if_neg hF] at hok ⊢
    have hF2 : ¬ timesTableOffset cfg < dataoffset cfg + (st.dbH.length + e.thisFile.nbytes) := by
      rw [hlen, ← Nat.add_assoc]
      exact hF
    rw [if_neg hF2, hc2]
    simp only
    by_cases hA : alreadyInserted cfg st.db.fileTable e.thisKey dbH.numFiles = true
    · have hA1 : alreadyInserted cfg st.db.fileTable (entryArgs e).key dbH.numFiles = true := hA
      simp only [if_pos hA, if_pos hA1]
      exact ⟨rfl, h2, h3, hshape⟩
    have hA1 : ¬ alreadyInserted cfg st.db.fileTable (entryArgs e).key dbH.numFiles = true := hA
    simp only [if_neg hA, if_neg hA1] at hok ⊢
    by_cases hz : dbH.dim = 0
    · exfalso
      simp only [if_pos hz] at hok
      exact hok _ rfl
    simp only [if_neg hz] at hok ⊢
    by_cases hn : e.thisFile.nbytes / (sizeofDouble * dbH.dim) % 2 ^ 32 = 0
    · have hn1 : (entryArgs e).inFile.nbytes / (sizeofDouble * dbH.dim) % 2 ^ 32 = 0 := hn
      simp only [if_pos hn, if_pos hn1]
      exact ⟨rfl, h2, h3, hshape⟩
    have hn1 : ¬ (entryArgs e).inFile.nbytes / (sizeofDouble * dbH.dim) % 2 ^ 32 = 0 := hn
    simp only [if_neg hn, if_neg hn1] at hok ⊢
    by_cases hS : ¬ (timesTableOffset cfg + sizeofDouble *
        (dbH.length / (dbH.dim * sizeofDouble) +
          (entryArgs e).inFile.nbytes / (sizeofDouble * dbH.dim) % 2 ^ 32)
        < l2normTableOffset cfg)
    · exfalso
      simp only [if_pos hS] at hok
      exact hok _ rfl
    simp only [if_neg hS] at hok ⊢
    unfold batchInsertOne
    rw [h2, batchTimes_not_using]
    have ht : insertTimeStamps ((entryArgs e).inFile.nbytes / (sizeofDouble * dbH.dim) % 2 ^ 32)
        (entryArgs e).usingTimes dbH (entryArgs e).timesFile st.db.timesTable
        (dbH.length / (dbH.dim * sizeofDouble)) =
        { dbH := dbH, usingTimes := false, buf := st.db.timesTable, err := none } :=
      insertTimeStamps_not_using _ _ _ _ _
    rw [ht] at hok ⊢
    simp only at hok ⊢
    refine ⟨rfl, rfl, ?_, Or.inl (commit_fst sqrt dbH _ _ _)⟩
    rw [commit_status sqrt dbH _ _ _ hz]

/-- The loop of `batchinsert` does what the single inserts of the entries do one after
the other, when none of them ends in `error`. -/
theorem batchLoop_refines (cfg : Config) (sqrt : D → D) (d : Nat)
    (entries : List (BatchEntry D)) :
    ∀ (st : BatchState D) (db : DB D), BatchRel d st db →
      (∀ e ∈ entries, e.thisFile.dim = d) →
      (∀ er, (insertEach cfg sqrt db entries).status ≠ Status.failed er) →
      (batchLoop cfg sqrt st entries).err = none ∧
        (batchLoop cfg sqrt st entries).db = (insertEach cfg sqrt db entries).db := by
  induction entries with
  | nil =>
    intro st db hrel _ _
    exact ⟨hrel.2.2.1, hrel.1⟩
  | cons e es ih =>
    intro st db hrel hdim hok
    have hok1 : ∀ er, (insert cfg sqrt db (entryArgs e)).status ≠ Status.failed er := by
      intro er he
      apply hok er
      rw [insertEach_cons_failed cfg sqrt db e es er he]
    have hstep := batchStep_refines cfg sqrt d st db e hrel
      (hdim e (List.mem_cons_self e es)) hok1
    rw [insertEach_cons cfg sqrt db e es hok1] at hok ⊢
    have hl : batchLoop cfg sqrt st (e :: es) = batchLoop cfg sqrt (batchStep cfg sqrt st e) es := by
      rw [batchLoop]
      rw [hstep.2.2.1]
    rw [hl]
    exact ih _ _ hstep (fun e2 h2 => hdim e2 (List.mem_cons_of_mem e h2)) hok

/-- An insert without times keeps the magic number and the flags of the mapped
header. -/
theorem insert_plain_hdr (cfg : Config) (sqrt : D → D) (db : DB D) (e : BatchEntry D) :
    (insert cfg sqrt db (entryArgs e)).db.hdr.magic = db.hdr.magic ∧
    (insert cfg sqrt db (entryArgs e)).db.hdr.flags = db.hdr.flags := by
  by_cases hok : (insert cfg sqrt db (entryArgs e)).status = Status.ok
  · obtain ⟨dbH, _, hc, _, _, _, _, _, _, _, heq⟩ :=
      insert_ok_inv cfg sqrt db (entryArgs e) hok
    obtain ⟨c1, _, _, c4, _, _⟩ := checkDim_ok _ _ _ hc
    have ht : insertTimeStamps
        ((entryArgs e).inFile.nbytes / (sizeofDouble * dbH.dim) % 2 ^ 32)
        (entryArgs e).usingTimes dbH (entryArgs e).timesFile db.timesTable
        (dbH.length / (dbH.dim * sizeofDouble)) =
        { dbH := dbH, usingTimes := false, buf := db.timesTable, err := none } :=
      insertTimeStamps_not_using _ _ _ _ _
    rw [heq, commit_hdr, ht]
    exact ⟨c1, c4⟩
  · rw [insert_hdr_of_not_ok cfg sqrt db (entryArgs e) hok]
    exact ⟨rfl, rfl⟩

/-- One turn of the loop of `batchinsert` ends in `error` when the single insert of the
entry ends in an `error` other than the failed `assert`. -/
theorem batchStep_fails (cfg : Config) (sqrt : D → D) (d : Nat) (st : BatchState D)
    (db : DB D) (e : BatchEntry D) (hrel : BatchRel d st db) (hd : e.thisFile.dim = d)
    (hmagic : db.hdr.magic = cfg.O2_MAGIC) (hflag : db.hdr.flags &&& O2_FLAG_TIMES = 0)
    (er : Err) (hfail : (insert cfg sqrt db (entryArgs e)).status = Status.failed er)
    (hne : er ≠ Err.AssertFailed) :
    ∃ er2, (batchStep cfg sqrt st e).err = some er2 := by
  obtain ⟨h1, h2, h3, h4⟩ := hrel
  subst h1
  unfold batchStep
  by_cases hF2 : timesTableOffset cfg < dataoffset cfg + (st.dbH.length + e.thisFile.nbytes)
  · rw [if_pos hF2]
    exact ⟨Err.Full, rfl⟩
  rw [if_neg hF2]
  cases hc : checkDim st.db.hdr e.thisFile with
  | error er1 =>
    have hc2 : checkDim st.dbH e.thisFile = Except.error er1 := by
      rcases h4 with h4 | ⟨a, b, _⟩
      · rw [h4]
        exact hc
      · exfalso
        unfold checkDim at hc
        rw [if_pos ⟨a, b⟩] at hc
        cases hc
    rw [hc2]
    exact ⟨er1, rfl⟩
  | ok dbH =>
    have hc2 := checkDim_adopted st.db.hdr st.dbH dbH e.thisFile d h4 hd hc
    rw [hc2]
    simp only
    have hi : initTables cfg st.db (some (entryArgs e).inFile) = Except.ok dbH := by
      unfold initTables
      rw [if_neg (not_not.mpr hmagic)]
      exact hc
    have hfacts := checkDim_ok st.db.hdr dbH e.thisFile hc
    have hlen : st.dbH.length = dbH.length := by
      rcases h4 with h4 | ⟨_, _, h4⟩
      · rw [h4, hfacts.2.2.1]
      · rw [h4, hfacts.2.2.1]
    unfold insert at hfail
    rw [hi] at hfail
    simp only at hfail
    have hT : ¬ ((!(entryArgs e).usingTimes) = true ∧ dbH.flags &&& O2_FLAG_TIMES ≠ 0) :=
      fun h => h.2 (by rw [hfacts.2.2.2.1]; exact hflag)
    rw [if_neg hT] at hfail
    have hF : ¬ timesTableOffset cfg <
        dataoffset cfg + dbH.length + (entryArgs e).inFile.nbytes := by
      rw [← hlen, Nat.add_assoc]
      exact hF2
    rw [if_neg hF] at hfail
    by_cases hA : alreadyInserted cfg st.db.fileTable e.thisKey dbH.numFiles = true
    · exfalso
      have hA1 : alreadyInserted cfg st.db.fileTable (entryArgs e).key dbH.numFiles = true := hA
      rw [if_pos hA1] at hfail
      cases hfail
    have hA1 : ¬ alreadyInserted cfg st.db.fileTable (entryArgs e).key dbH.numFiles = true := hA
    rw [if_neg hA1] at hfail
    rw [if_neg hA]
    by_cases hz : dbH.dim = 0
    · rw [if_pos hz]
      exact ⟨Err.DivideByZero, rfl⟩
    rw [if_neg hz] at hfail
    exfalso
    by_cases hn : (entryArgs e).inFile.nbytes / (sizeofDouble * dbH.dim) % 2 ^ 32 = 0
    · rw [if_pos hn] at hfail
      cases hfail
    rw [if_neg hn] at hfail
    by_cases hS : ¬ (timesTableOffset cfg + sizeofDouble *
        (dbH.length / (dbH.dim * sizeofDouble) +
          (entryArgs e).inFile.nbytes / (sizeofDouble * dbH.dim) % 2 ^ 32)
        < l2normTableOffset cfg)
    · rw [if_pos hS] at hfail
      injection hfail with hfail
      exact hne hfail.symm
    rw [if_neg hS] at hfail
    have ht : insertTimeStamps ((entryArgs e).inFile.nbytes / (sizeofDouble * dbH.dim) % 2 ^ 32)
        (entryArgs e).usingTimes dbH (entryArgs e).timesFile st.db.timesTable
        (dbH.length / (dbH.dim * sizeofDouble)) =
        { dbH := dbH, usingTimes := false, buf := st.db.timesTable, err := none } :=
      insertTimeStamps_not_using _ _ _ _ _
    rw [ht] at hfail
    simp only at hfail
    rw [commit_status sqrt dbH _ _ _ hz] at hfail
    cases hfail

/-- The loop of `batchinsert` ends in `error` when one of the single inserts of the
entries, applied in order, ends in an `error` other than the failed `assert`. -/
theorem batchLoop_fails (cfg : Config) (sqrt : D → D) (d : Nat)
    (entries : List (BatchEntry D)) :
    ∀ (st : BatchState D) (db : DB D), BatchRel d st db →
      db.hdr.magic = cfg.O2_MAGIC → db.hdr.flags &&& O2_FLAG_TIMES = 0 →
      (∀ e ∈ entries, e.thisFile.dim = d) →
      ∀ er, (insertEach cfg sqrt db entries).status = Status.failed er →
        er ≠ Err.AssertFailed →
        ∃ er2, (batchLoop cfg sqrt st entries).err = some er2 := by
  induction entries with
  | nil =>
    intro st db _ _ _ _ er hfail _
    cases hfail
  | cons e es ih =>
    intro st db hrel hmagic hflag hdim er hfail hne
    by_cases hf : ∃ er1, (insert cfg sqrt db (entryArgs e)).status = Status.failed er1
    · obtain ⟨er1, h1⟩ := hf
      rw [insertEach_cons_failed cfg sqrt db e es er1 h1] at hfail
      injection hfail with hfail
      subst hfail
      obtain ⟨er2, h2⟩ := batchStep_fails cfg sqrt d st db e hrel
        (hdim e (List.mem_cons_self e es)) hmagic hflag er1 h1 hne
      refine ⟨er2, ?_⟩
      rw [batchLoop, h2]
      exact h2
    · have hok1 : ∀ er1, (insert cfg sqrt db (entryArgs e)).status ≠ Status.failed er1 :=
        fun er1 h1 => hf ⟨er1, h1⟩
      have hstep := batchStep_refines cfg sqrt d st db e hrel
        (hdim e (List.mem_cons_self e es)) hok1
      rw [insertEach_cons cfg sqrt db e es hok1] at hfail
      have hl : batchLoop cfg sqrt st (e :: es) =
          batchLoop cfg sqrt (batchStep cfg sqrt st e) es := by
        rw [batchLoop]
        rw [hstep.2.2.1]
      rw [hl]
      have hp := insert_plain_hdr cfg sqrt db e
      exact ih _ _ hstep (by rw [hp.1]; exact hmagic) (by rw [hp.2]; exact hflag)
        (fun e2 h2 => hdim e2 (List.mem_cons_of_mem e h2)) er hfail hne

end BatchRefines


/-- The scan of the key table finds a key exactly when the first `strlen(key)` bytes of
some slot below `n` are the bytes of the key. -/
theorem alreadyInserted_iff_prefix_match (cfg : Config) (ft : Nat → Nat) (key : CStr) (n : Nat) :
    alreadyInserted cfg ft key n = true ↔
      ∃ k, k < n ∧ ∀ i, i < strlen key → ft (k * cfg.O2_FILETABLESIZE + i) = key.byte i := by
  constructor
  · intro h
    by_contra hne
    have hf : alreadyInserted cfg ft key n = false := by
      rw [alreadyInserted_eq_false_iff]
      intro k hk hc
      rw [strncmp_eq_zero_iff _ _ _ (byte_ne_zero_of_lt_strlen key)] at hc
      exact hne ⟨k, hk, hc⟩
    rw [hf] at h
    cases h
  · rintro ⟨k, hk, hc⟩
    cases hf : alreadyInserted cfg ft key n with
    | true => rfl
    | false =>
      rw [alreadyInserted_eq_false_iff] at hf
      exact absurd ((strncmp_eq_zero_iff _ _ _ (byte_ne_zero_of_lt_strlen key)).mpr hc)
        (hf k hk)

/-- The tail of an insert does not end in the duplicate-key warning. -/
theorem commit_not_duplicate {D : Type} [Zero D] [One D] [Add D] [Mul D] [Div D]
    (sqrt : D → D) (dbH : dbTableHeaderT) (db : DB D) (f : FeatureFile D) (nv : Nat) :
    (commit sqrt dbH db f nv).2.status ≠ Status.warnDuplicate := by
  unfold commit unitNormAndInsertL2
  simp only []
  split_ifs <;> simp

/-- An insert that gets to the scan of the key table ends in the duplicate-key warning
exactly when the scan finds the key. -/
theorem insert_duplicate_iff {D : Type} [Zero D] [One D] [Add D] [Mul D] [Div D]
    (cfg : Config) (sqrt : D → D) (db : DB D) (a : InsertArgs D) (dbH : dbTableHeaderT)
    (hinit : initTables cfg db (some a.inFile) = Except.ok dbH)
    (htimes : ¬ ((!a.usingTimes) = true ∧ dbH.flags &&& O2_FLAG_TIMES ≠ 0))
    (hroom : ¬ timesTableOffset cfg < dataoffset cfg + dbH.length + a.inFile.nbytes) :
    (insert cfg sqrt db a).status = Status.warnDuplicate ↔
      alreadyInserted cfg db.fileTable a.key dbH.numFiles = true := by
  unfold insert
  rw [hinit]
  simp only
  rw [if_neg htimes, if_neg hroom]
  by_cases hA : alreadyInserted cfg db.fileTable a.key dbH.numFiles = true
  · rw [if_pos hA]
    exact ⟨fun _ => hA, fun _ => rfl⟩
  · rw [if_neg hA]
    refine ⟨fun h => ?_, fun h => absurd h hA⟩
    exfalso
    split_ifs at h with h1 h2 h3
    split at h
    · cases h
    · exact commit_not_duplicate _ _ _ _ _ h


theorem countedValues_nil {D : Type} (ews : Bool) : countedValues ews ([] : List D) = 0 := by
  unfold countedValues
  cases ews <;> rfl

theorem countedValues_cons {D : Type} (ews : Bool) (x : D) (rest : List D)
    (h : ¬ ((rest.isEmpty && !ews) = true)) :
    countedValues ews (x :: rest) = countedValues ews rest + 1 := by
  unfold countedValues
  cases ews
  · cases rest with
    | nil => simp at h
    | cons y r => simp
  · simp

theorem countedValues_last {D : Type} (ews : Bool) (x : D) (rest : List D)
    (h : (rest.isEmpty && !ews) = true) : countedValues ews (x :: rest) = 0 := by
  unfold countedValues
  cases ews
  · cases rest with
    | nil => simp
    | cons y r => simp at h
  · simp at h

theorem countRest_eq {D : Type} (ews : Bool) (l : List D) (n : Nat) :
    countRest ews l n = n + countedValues ews l := by
  induction l generalizing n with
  | nil => rw [countRest, countedValues_nil]; rfl
  | cons x rest ih =>
    rw [countRest]
    split_ifs with h
    · rw [countedValues_last ews x rest h]; rfl
    · rw [ih, countedValues_cons ews x rest h]; omega

theorem readTimes_count {D : Type} (ews : Bool) (N : Nat) (l : List D) (n : Nat)
    (buf : Nat → D) (p : Nat) :
    (if (readTimes ews N l n buf p).2.2.2 then (readTimes ews N l n buf p).2.1
      else countRest ews (readTimes ews N l n buf p).1 (readTimes ews N l n buf p).2.1)
      = n + countedValues ews l := by
  induction l generalizing n buf p with
  | nil => rw [readTimes, countedValues_nil]; rfl
  | cons x rest ih =>
    rw [readTimes]
    by_cases h : (rest.isEmpty && !ews) = true
    · rw [if_pos h, countedValues_last ews x rest h]; rfl
    · rw [if_neg h]
      by_cases h1 : n + 1 < N
      · rw [if_pos h1, ih, countedValues_cons ews x rest h]; omega
      · rw [if_neg h1]
        show countRest ews rest (n + 1) = _
        rw [countRest_eq, countedValues_cons ews x rest h]; omega

theorem countTimes_eq {D : Type} (N : Nat) (tf : TimesFile D) (buf : Nat → D) (p : Nat) :
    countTimes N tf buf p = countedValues tf.endsWithSpace tf.vals := by
  unfold countTimes
  simp only
  rw [readTimes_count]
  omega


/-! ### The point list holds the best `K` candidates -/

theorem firstCells_succ {D : Type} (K : Nat) (d : Nat → D) :
    firstCells (K + 1) d = firstCells K d ++ [d K] := by
  unfold firstCells
  rw [List.range_succ, List.map_append]
  rfl

theorem firstCells_congr {D : Type} (K : Nat) (d e : Nat → D) (h : ∀ i, i < K → d i = e i) :
    firstCells K d = firstCells K e := by
  unfold firstCells
  apply List.map_congr_left
  intro i hi
  exact h i (List.mem_range.mp hi)

theorem firstCells_length {D : Type} (K : Nat) (d : Nat → D) : (firstCells K d).length = K := by
  unfold firstCells
  rw [List.length_map, List.length_range]

theorem mem_firstCells {D : Type} (K : Nat) (d : Nat → D) (a : D) :
    a ∈ firstCells K d ↔ ∃ i, i < K ∧ d i = a := by
  unfold firstCells
  rw [List.mem_map]
  constructor
  · rintro ⟨i, hi, h⟩; exact ⟨i, List.mem_range.mp hi, h⟩
  · rintro ⟨i, hi, h⟩; exact ⟨i, List.mem_range.mpr hi, h⟩

/-- The store at rank `n` of a list of `n + 1 + m` ranks keeps the cells, up to order,
but for the last one, which it drops. -/
theorem placeAt_perm {D : Type} (x : D) (d : Nat → D) (n : Nat) :
    ∀ m, (firstCells (n + 1 + m) (placeAt (n + m) n x d) ++ [d (n + m)]).Perm
      (x :: firstCells (n + 1 + m) d) := by
  intro m
  induction m with
  | zero =>
    simp only [Nat.add_zero]
    rw [firstCells_succ, firstCells_succ,
      firstCells_congr n (placeAt n n x d) d (fun i hi => by
        rw [placeAt_spec, if_neg (by omega), if_neg (by omega)])]
    have hx : placeAt n n x d n = x := by rw [placeAt_spec, if_pos rfl]
    rw [hx]
    rw [List.append_assoc]
    exact (List.perm_middle).trans (List.Perm.refl _)
  | succ m ih =>
    have e1 : n + 1 + (m + 1) = (n + 1 + m) + 1 := by omega
    rw [e1, firstCells_succ, firstCells_succ,
      firstCells_congr (n + 1 + m) (placeAt (n + (m + 1)) n x d) (placeAt (n + m) n x d)
        (fun i hi => by
          rw [placeAt_spec, placeAt_spec]
          by_cases h1 : i = n
          · rw [if_pos h1, if_pos h1]
          · rw [if_neg h1, if_neg h1]
            by_cases h2 : n < i
            · rw [if_pos ⟨h2, by omega⟩, if_pos ⟨h2, by omega⟩]
            · rw [if_neg (fun h => h2 h.1), if_neg (fun h => h2 h.1)])]
    have hl : placeAt (n + (m + 1)) n x d (n + 1 + m) = d (n + m) := by
      rw [placeAt_spec, if_neg (by omega), if_pos ⟨by omega, by omega⟩]
      congr 1
      omega
    have hd : d (n + 1 + m) = d (n + (m + 1)) := by congr 1; omega
    rw [hl, hd]
    have := List.Perm.append_right [d (n + (m + 1))] ih
    simpa using this

section TopK

variable {D : Type} [LinearOrderedField D]

theorem sorted_firstCells (K : Nat) (d : Nat → D) (hs : SortedDesc d K) :
    (firstCells K d).Sorted (fun a b => a ≥ b) := by
  unfold firstCells List.Sorted
  rw [List.pairwise_map]
  exact (List.pairwise_lt_range K).imp_of_mem
    (fun {i j} _ hj hij => hs i j (Nat.le_of_lt hij) (List.mem_range.mp hj))

/-- A sorted list of `K` elements which, with a rest that is nowhere above it, makes
up a list `M`, is the first `K` elements of the descending sort of `M`. -/
theorem take_sort_eq (A R M : List D) (hA : A.Sorted (fun a b => a ≥ b))
    (hp : (A ++ R).Perm M) (hR : ∀ a ∈ A, ∀ y ∈ R, y ≤ a) :
    (M.insertionSort (fun a b => a ≥ b)).take A.length = A := by
  have hs : (A ++ R.insertionSort (fun a b => a ≥ b)).Sorted (fun a b => a ≥ b) := by
    unfold List.Sorted
    rw [List.pairwise_append]
    refine ⟨hA, List.sorted_insertionSort _ R, ?_⟩
    intro a ha y hy
    exact hR a ha y ((List.perm_insertionSort _ R).mem_iff.mp hy)
  have hperm : (A ++ R.insertionSort (fun a b => a ≥ b)).Perm
      (M.insertionSort (fun a b => a ≥ b)) :=
    ((List.Perm.append_left A (List.perm_insertionSort _ R)).trans hp).trans
      (List.perm_insertionSort _ M).symm
  have he := List.eq_of_perm_of_sorted hperm hs (List.sorted_insertionSort _ M)
  rw [← he, List.take_left']
  rfl

theorem topInv_init (K : Nat) : TopInv K (PointList.init D) [] := by
  refine ⟨sortedDesc_init_point K, fun _ _ => le_refl _, [], ?_, ?_⟩
  · rw [List.append_nil, List.nil_append]
    have : firstCells K (PointList.init D).distances = List.replicate K 0 := by
      unfold firstCells PointList.init
      simp
    rw [this]
  · intro y hy; cases hy

theorem topInv_insertPoint (K : Nat) (x : D) (q s : Nat) (r : PointList D) (l : List D)
    (h : TopInv K r l) : TopInv K (insertPoint K x q s r) (l ++ [x]) := by
  obtain ⟨hs, h0, R, hp, hR⟩ := h
  refine ⟨insertPoint_sorted K x q s r hs, ?_, ?_⟩
  · intro i hi
    unfold insertPoint
    cases hf : findRank r.distances x K with
    | none => exact h0 i hi
    | some n =>
      obtain ⟨a1, a2, _, _⟩ := findRank_some _ _ _ _ hf
      show 0 ≤ placeAt (K - 1) n x r.distances i
      rw [placeAt_spec]
      split_ifs with c1 c2
      · exact le_trans (h0 n a1) a2
      · exact h0 _ (by omega)
      · exact h0 i hi
  · unfold insertPoint
    cases hf : findRank r.distances x K with
    | none =>
      refine ⟨x :: R, ?_, ?_⟩
      · have h1 : (firstCells K r.distances ++ x :: R).Perm
            (x :: (firstCells K r.distances ++ R)) := List.perm_middle
        have h2 : (l ++ [x] ++ List.replicate K 0).Perm (x :: (l ++ List.replicate K 0)) := by
          rw [List.append_assoc]
          exact (List.perm_append_comm_assoc l [x] _).trans (List.Perm.refl _)
        exact (h1.trans (List.Perm.cons x hp)).trans h2.symm
      · intro y hy i hi
        rcases List.mem_cons.mp hy with hy | hy
        · rw [hy]
          rcases findRank_none _ _ _ hf with hK | hlt
          · omega
          · exact le_trans (le_of_lt hlt) (hs i (K - 1) (by omega) (by omega))
        · exact hR y hy i hi
    | some n =>
      obtain ⟨a1, a2, a3, _⟩ := findRank_some _ _ _ _ hf
      obtain ⟨m, hm⟩ : ∃ m, K = n + 1 + m := ⟨K - 1 - n, by omega⟩
      have hK1 : K - 1 = n + m := by omega
      refine ⟨r.distances (K - 1) :: R, ?_, ?_⟩
      · show (firstCells K (placeAt (K - 1) n x r.distances) ++ r.distances (K - 1) :: R).Perm _
        have hk := placeAt_perm x r.distances n m
        rw [← hm, ← hK1] at hk
        have h1 : (firstCells K (placeAt (K - 1) n x r.distances)
            ++ r.distances (K - 1) :: R).Perm
            (x :: (firstCells K r.distances ++ R)) := by
          have := List.Perm.append_right R hk
          simpa using this
        have h2 : (l ++ [x] ++ List.replicate K 0).Perm (x :: (l ++ List.replicate K 0)) := by
          rw [List.append_assoc]
          exact (List.perm_append_comm_assoc l [x] _).trans (List.Perm.refl _)
        exact (h1.trans (List.Perm.cons x hp)).trans h2.symm
      · intro y hy i hi
        show y ≤ placeAt (K - 1) n x r.distances i
        have hyn : y ≤ r.distances n ∧ ∀ t, t < K → y ≤ r.distances t := by
          rcases List.mem_cons.mp hy with hy | hy
          · rw [hy]
            exact ⟨hs n (K - 1) (by omega) (by omega),
              fun t ht => hs t (K - 1) (by omega) (by omega)⟩
          · exact ⟨hR y hy n a1, fun t ht => hR y hy t ht⟩
        rw [placeAt_spec]
        split_ifs with c1 c2
        · exact le_trans hyn.1 a2
        · exact hyn.2 _ (by omega)
        · exact hyn.2 i hi

theorem topInv_insertAll (K : Nat) (cands : List (D × Nat × Nat)) :
    ∀ (r : PointList D) (l : List D), TopInv K r l →
      TopInv K (insertAll K cands r) (l ++ cands.map (fun c => c.1)) := by
  induction cands with
  | nil =>
    intro r l h
    rw [List.map_nil, List.append_nil]
    exact h
  | cons c cs ih =>
    intro r l h
    have := ih _ _ (topInv_insertPoint K c.1 c.2.1 c.2.2 r l h)
    rw [List.append_assoc] at this
    exact this

theorem topInv_top (K : Nat) (r : PointList D) (l : List D) (h : TopInv K r l) :
    firstCells K r.distances = topScores K l := by
  obtain ⟨hs, _, R, hp, hR⟩ := h
  have := take_sort_eq (firstCells K r.distances) R (l ++ List.replicate K 0)
    (sorted_firstCells K _ hs) hp
    (fun a ha y hy => by
      obtain ⟨i, hi, rfl⟩ := (mem_firstCells K _ a).mp ha
      exact hR y hy i hi)
  rw [firstCells_length] at this
  exact this.symm

/-- A negative score offered to a list without negative cells is not stored. -/
theorem insertPoint_negative (K : Nat) (x : D) (q s : Nat) (r : PointList D)
    (hx : x < 0) (h0 : ∀ i, i < K → 0 ≤ r.distances i) : insertPoint K x q s r = r := by
  unfold insertPoint
  cases K with
  | zero => rfl
  | succ m =>
    have : findRank r.distances x (m + 1) = none := by
      unfold findRank
      rw [if_neg]
      exact not_le.mpr (lt_of_lt_of_le hx (h0 m (by omega)))
    rw [this]

theorem insertAll_append (K : Nat) (a b : List (D × Nat × Nat)) (r : PointList D) :
    insertAll K (a ++ b) r = insertAll K b (insertAll K a r) := by
  unfold insertAll
  rw [List.foldl_append]

theorem pointScan_eq_insertAll (env : QueryEnv) (K dim totalVecs : Nat)
    (query dataBuf : Nat → D) (qp qIndex : Nat) :
    ∀ (k dp : Nat) (r : PointList D),
      pointScan env K dim totalVecs query dataBuf qp qIndex k dp r
        = insertAll K (scanCandidates env dim totalVecs query dataBuf qp qIndex k dp) r := by
  intro k
  induction k with
  | zero => intro dp r; rfl
  | succ k ih =>
    intro dp r
    unfold pointScan scanCandidates
    rw [ih, insertAll_append]
    split_ifs <;> rfl

theorem pointLoop_eq_insertAll (env : QueryEnv) (K dim totalVecs numVectors : Nat)
    (query dataBuf : Nat → D) :
    ∀ (j qp : Nat) (r : PointList D),
      pointLoop env K dim totalVecs numVectors query dataBuf j qp r
        = insertAll K (loopCandidates env dim totalVecs numVectors query dataBuf j qp) r := by
  intro j
  induction j with
  | zero => intro qp r; rfl
  | succ j ih =>
    intro qp r
    unfold pointLoop loopCandidates
    rw [ih, insertAll_append, pointScan_eq_insertAll]

end TopK


theorem readTimes_frame {D : Type} (ews : Bool) (N : Nat) (l : List D) (n : Nat)
    (buf : Nat → D) (p : Nat) (hn : n < N) (a : Nat) (ha : a < p ∨ p + (N - n) ≤ a) :
    (readTimes ews N l n buf p).2.2.1 a = buf a := by
  induction l generalizing n buf p with
  | nil => rfl
  | cons x rest ih =>
    rw [readTimes]
    have hne : a ≠ p := by omega
    by_cases h : (rest.isEmpty && !ews) = true
    · rw [if_pos h]
      show (if a = p then x else buf a) = buf a
      rw [if_neg hne]
    · rw [if_neg h]
      by_cases h1 : n + 1 < N
      · rw [if_pos h1, ih (n + 1) _ (p + 1) h1 (by omega)]
        rw [if_neg hne]
      · rw [if_neg h1]
        show (if a = p then x else buf a) = buf a
        rw [if_neg hne]

/-- How `insertTimeStamps` can end: without error, with `TimesFileMissing` and the
buffer untouched, or with `TimesCountMismatch` after the first reading loop wrote into
the buffer. -/
theorem insertTimeStamps_err_cases {D : Type} (numVectors : Nat) (usingTimes : Bool)
    (dbH : dbTableHeaderT) (tf : TimesFile D) (buf : Nat → D) (p : Nat) :
    (insertTimeStamps numVectors usingTimes dbH tf buf p).err = none ∨
    ((insertTimeStamps numVectors usingTimes dbH tf buf p).err = some Err.TimesFileMissing ∧
      (insertTimeStamps numVectors usingTimes dbH tf buf p).buf = buf) ∨
    ((insertTimeStamps numVectors usingTimes dbH tf buf p).err = some Err.TimesCountMismatch ∧
      (insertTimeStamps numVectors usingTimes dbH tf buf p).buf
        = (readTimes tf.endsWithSpace numVectors tf.vals 0 buf p).2.2.1) := by
  unfold insertTimeStamps
  dsimp only
  split_ifs
  all_goals first
    | exact Or.inl rfl
    | exact Or.inr (Or.inl ⟨rfl, rfl⟩)
    | exact Or.inr (Or.inr ⟨rfl, rfl⟩)

theorem initTables_error {D : Type} (cfg : Config) (db : DB D) (f : Option (FeatureFile D))
    (er : Err) (h : initTables cfg db f = Except.error er) :
    er = Err.CorruptHeader ∨ er = Err.DimensionMismatch := by
  unfold initTables at h
  by_cases hm : db.hdr.magic ≠ cfg.O2_MAGIC
  · rw [if_pos hm] at h
    cases h
    exact Or.inl rfl
  · rw [if_neg hm] at h
    cases f with
    | none => cases h
    | some f =>
      dsimp only at h
      unfold checkDim at h
      by_cases h1 : db.hdr.dim = 0 ∧ db.hdr.length = 0
      · rw [if_pos h1] at h
        cases h
      · rw [if_neg h1] at h
        by_cases h2 : db.hdr.dim ≠ f.dim
        · rw [if_pos h2] at h
          cases h
          exact Or.inr rfl
        · rw [if_neg h2] at h
          cases h

/-- The two ways in which an insert fails: before it has written anything, or after it
has copied the key into slot `numFiles` (line 561), through the failed `assert` or
through `insertTimeStamps`. -/
theorem insert_failed_cases {D : Type} [Zero D] [One D] [Add D] [Mul D] [Div D]
    (cfg : Config) (sqrt : D → D) (db : DB D) (a : InsertArgs D) (e : Err)
    (h : (insert cfg sqrt db a).status = Status.failed e) :
    ((insert cfg sqrt db a).db = db ∧
      (e = Err.CorruptHeader ∨ e = Err.DimensionMismatch ∨ e = Err.TimesRequired ∨
        e = Err.Full ∨ e = Err.DivideByZero)) ∨
    (∃ dbH : dbTableHeaderT, ∃ T : Nat → D,
      initTables cfg db (some a.inFile) = Except.ok dbH ∧ dbH.dim ≠ 0 ∧
      a.inFile.nbytes / (sizeofDouble * dbH.dim) % 2 ^ 32 ≠ 0 ∧
      (insert cfg sqrt db a).db =
        { db with
          fileTable := strncpy db.fileTable (dbH.numFiles * cfg.O2_FILETABLESIZE)
            a.key.byte (strlen a.key),
          timesTable := T } ∧
      ((e = Err.AssertFailed ∧ T = db.timesTable) ∨
       (e = Err.TimesFileMissing ∧ T = db.timesTable) ∨
       (e = Err.TimesCountMismatch ∧
         T = (readTimes a.timesFile.endsWithSpace
               (a.inFile.nbytes / (sizeofDouble * dbH.dim) % 2 ^ 32) a.timesFile.vals 0
               db.timesTable (dbH.length / (dbH.dim * sizeofDouble))).2.2.1))) := by
  unfold insert at h ⊢
  cases hi : initTables cfg db (some a.inFile) with
  | error er =>
    simp only [hi] at h ⊢
    have he : er = e := by injection h
    subst he
    rcases initTables_error cfg db _ er hi with h0 | h0
    · exact Or.inl ⟨by first | rfl | trivial, Or.inl h0⟩
    · exact Or.inl ⟨by first | rfl | trivial, Or.inr (Or.inl h0)⟩
  | ok dbH =>
    simp only [hi, Nat.reducePow] at h ⊢
    by_cases h1 : (!a.usingTimes) = true ∧ dbH.flags &&& O2_FLAG_TIMES ≠ 0
    · simp only [if_pos h1] at h ⊢
      injection h with h
      subst h
      exact Or.inl ⟨by first | rfl | trivial, Or.inr (Or.inr (Or.inl rfl))⟩
    simp only [if_neg h1] at h ⊢
    by_cases h2 : timesTableOffset cfg < dataoffset cfg + dbH.length + a.inFile.nbytes
    · simp only [if_pos h2] at h ⊢
      injection h with h
      subst h
      exact Or.inl ⟨by first | rfl | trivial, Or.inr (Or.inr (Or.inr (Or.inl rfl)))⟩
    simp only [if_neg h2] at h ⊢
    by_cases h3 : alreadyInserted cfg db.fileTable a.key dbH.numFiles = true
    · simp only [if_pos h3] at h
      cases h
    simp only [if_neg h3] at h ⊢
    by_cases h4 : dbH.dim = 0
    · simp only [if_pos h4] at h ⊢
      injection h with h
      subst h
      exact Or.inl ⟨by first | rfl | trivial, Or.inr (Or.inr (Or.inr (Or.inr rfl)))⟩
    simp only [if_neg h4] at h ⊢
    by_cases h5 : a.inFile.nbytes / (sizeofDouble * dbH.dim) % 4294967296 = 0
    · simp only [if_pos h5] at h
      cases h
    simp only [if_neg h5] at h ⊢
    by_cases h6 : ¬ (timesTableOffset cfg + sizeofDouble * (dbH.length / (dbH.dim * sizeofDouble)
          + a.inFile.nbytes / (sizeofDouble * dbH.dim) % 4294967296) < l2normTableOffset cfg)
    · simp only [if_pos h6] at h ⊢
      injection h with h
      subst h
      exact Or.inr ⟨dbH, _, rfl, h4, h5, rfl, Or.inl ⟨rfl, rfl⟩⟩
    simp only [if_neg h6] at h ⊢
    cases ht : (insertTimeStamps (a.inFile.nbytes / (sizeofDouble * dbH.dim) % 4294967296)
        a.usingTimes dbH a.timesFile db.timesTable
        (dbH.length / (dbH.dim * sizeofDouble))).err with
    | none =>
      exfalso
      rw [ht] at h
      simp only at h
      rw [commit_status] at h
      · cases h
      · rw [(insertTimeStamps_dbH _ _ _ _ _ _).2.2.1]
        exact h4
    | some e1 =>
      rw [ht] at h
      simp only at h ⊢
      injection h with h
      subst h
      right
      rcases insertTimeStamps_err_cases (a.inFile.nbytes / (sizeofDouble * dbH.dim) % 4294967296)
        a.usingTimes dbH a.timesFile db.timesTable
        (dbH.length / (dbH.dim * sizeofDouble)) with h0 | ⟨h0, hb⟩ | ⟨h0, hb⟩
      · rw [h0] at ht; cases ht
      · rw [h0] at ht
        injection ht with ht
        subst ht
        exact ⟨dbH, _, rfl, h4, h5, rfl, Or.inr (Or.inl ⟨rfl, hb⟩)⟩
      · rw [h0] at ht
        injection ht with ht
        subst ht
        exact ⟨dbH, _, rfl, h4, h5, rfl, Or.inr (Or.inr ⟨rfl, hb⟩)⟩


section ShortQuery

variable {D : Type} [LinearOrderedField D]

/-- The second loop on the query norms stores from `ps` on: the cells below are as
they were. -/
theorem slideQuery_below (W : Nat) :
    ∀ (w ps : Nat) (tmp1 : D) (a : Nat → D) (m : D) (i : Nat), i < ps →
      (slideQuery W w ps tmp1 a m).1 i = a i := by
  intro w
  induction w with
  | zero => intro ps tmp1 a m i _; rfl
  | succ w ih =>
    intro ps tmp1 a m i hi
    unfold slideQuery
    rw [ih _ _ _ _ _ (by omega), if_neg (by omega)]

/-- For a query of `nv < W` vectors the count `numVectors-sequenceLength` of line 1484
wraps: the second loop on the query norms is entered with `2^32 - (W - nv)`. -/
theorem sequenceThresholds_short (s : QuerySettings) (dbH : dbTableHeaderT) (db : DB D)
    (q junkS : Nat → D) (nv : Nat) (hnv : nv < s.sequenceLength)
    (hW : s.sequenceLength < 2 ^ 32) :
    (sequenceThresholds s dbH db q nv junkS).qNorm =
      (slideQuery s.sequenceLength (2 ^ 32 - (s.sequenceLength - nv)) 1 (q 0)
        (addAhead 0 (s.sequenceLength - 1) 1 q)
        (addAhead 0 (s.sequenceLength - 1) 1 q 0)).1 := by
  have c0 : (nv + (2 ^ 32 - s.sequenceLength % 2 ^ 32)) % 2 ^ 32
      = 2 ^ 32 - (s.sequenceLength - nv) := by
    simp only [Nat.reducePow] at hW ⊢
    omega
  unfold sequenceThresholds
  simp only [c0]

/-- A sequence query that passes the tests on the database and on the list lengths,
and runs exhaustively or at query point 0, is not rejected, whatever the number of
vectors of the query file. -/
theorem segSequenceQuery_not_rejected (cfg : Config) (sqrt : D → D) (env : QueryEnv)
    (s : QuerySettings) (db : DB D) (inFile : FeatureFile D) (junkQ junkS : Nat → D)
    (dbH : dbTableHeaderT)
    (hinit : initTables cfg db (some inFile) = Except.ok dbH) (hdim : dbH.dim ≠ 0)
    (hflag : dbH.flags &&& O2_FLAG_L2NORM ≠ 0) (hW : s.sequenceLength ≠ 0)
    (hK : 0 < s.pointNN ∧ s.pointNN ≤ env.O2_MAXNN)
    (hS : 0 < s.segNN ∧ s.segNN ≤ env.O2_MAXNN)
    (hq : s.usingQueryPoint = true → s.queryPoint = 0) :
    ∃ o, segSequenceQuery cfg sqrt env s db inFile junkQ junkS = Except.ok o := by
  have hqc : ∀ nv, ¬ (s.usingQueryPoint = true ∧
      sequenceQueryPointTooLarge s.queryPoint nv s.sequenceLength = true) := by
    rintro nv ⟨h1, h2⟩
    rw [hq h1] at h2
    unfold sequenceQueryPointTooLarge at h2
    simp at h2
  unfold segSequenceQuery
  rw [hinit]
  simp only
  rw [if_neg hdim, if_neg hflag, if_neg hW, if_neg (not_not.mpr hK),
    if_neg (not_not.mpr hS), if_neg (hqc _)]
  exact ⟨_, rfl⟩

end ShortQuery


/-! ### The sequence query for a query of exactly one shingle -/

section OneShingle

variable {D : Type} [LinearOrderedField D]

end OneShingle


/-! ### States reached inside the tables -/

theorem ReachableInTables.toReachable {D : Type} [Zero D] [One D] [Add D] [Mul D] [Div D]
    (cfg : Config) (sqrt : D → D) (okKey : CStr → Prop) (okFile : FeatureFile D → Prop)
    (db : DB D) (h : ReachableInTables cfg sqrt okKey okFile db) :
    Reachable cfg sqrt okKey okFile db := by
  induction h with
  | create => exact Reachable.create
  | insert db a _ hk hf hs _ ih => exact Reachable.insert db a ih hk hf hs
  | batchinsert db u es _ hf hs _ ih => exact Reachable.batchinsert db u es ih hf hs
  | l2norm db _ hs ih => exact Reachable.l2norm db ih hs

/-- A state reached inside the tables has at most `O2_MAXFILES` files. -/
theorem reachableInTables_numFiles {D : Type} [Zero D] [One D] [Add D] [Mul D] [Div D]
    (cfg : Config) (sqrt : D → D) (okKey : CStr → Prop) (okFile : FeatureFile D → Prop)
    (db : DB D) (h : ReachableInTables cfg sqrt okKey okFile db) :
    db.hdr.numFiles ≤ cfg.O2_MAXFILES := by
  induction h with
  | create => exact Nat.zero_le _
  | insert db a _ _ _ _ hb _ => exact hb
  | batchinsert db u es _ _ _ hb _ => exact hb
  | l2norm db _ _ ih =>
    rw [(l2norm_frame cfg sqrt db).2.1]
    exact ih

/-- The database `oneKeyDB` is reached inside the tables of `cfgSmall`. -/
theorem oneKeyDB_reachableInTables (okKey : CStr → Prop) (okFile : FeatureFile ℝ → Prop)
    (hk : okKey [97]) (hf : okFile (oneVector [97] : InsertArgs ℝ).inFile) :
    ReachableInTables cfgSmall Real.sqrt okKey okFile (oneKeyDB Real.sqrt) :=
  ReachableInTables.insert _ (oneVector [97]) ReachableInTables.create hk hf
    (not_failed_of_ok _ (by decide)) (by decide)

/-- The database `abcDB` is reached inside the tables of `cfgSmall`, with keys shorter
than a slot. -/
theorem abcDB_reachableInTables :
    ReachableInTables cfgSmall Real.sqrt (fun k => strlen k < cfgSmall.O2_FILETABLESIZE)
      (fun _ => True) (abcDB Real.sqrt) :=
  ReachableInTables.insert _ (oneVector [97, 98, 99, 100])
    (ReachableInTables.insert _ (oneVector [97, 98, 99]) ReachableInTables.create
      (by decide) trivial (not_failed_of_ok _ (by decide)) (by decide))
    (by decide) trivial (not_failed_of_ok _ (by decide)) (by decide)


/-! ### The L2 retrofit in real arithmetic -/

/-- With the scalars read as real numbers and `sqrt` as the real square root: after the
L2 retrofit the norm-table entry `i` is the Euclidean norm of the original vector `i`,
the payload vector is the original divided by it, and it has Euclidean norm 1 unless
the original is the zero vector.  (Rounding, overflow and underflow of `double` are
not part of this reading.) -/
theorem l2norm_unit_in_real_arithmetic (cfg : Config) (db : DB ℝ)
    (hm : db.hdr.magic = cfg.O2_MAGIC) (hflag : db.hdr.flags &&& O2_FLAG_L2NORM = 0)
    (hdim : db.hdr.dim ≠ 0) :
    (l2norm cfg Real.sqrt db).status = Status.ok ∧
    (l2norm cfg Real.sqrt db).db.hdr.flags &&& O2_FLAG_L2NORM ≠ 0 ∧
    ∀ i, i < db.hdr.length / (8 * db.hdr.dim) →
      (l2norm cfg Real.sqrt db).db.l2normTable i =
        euclideanNorm Real.sqrt db.dataBuf (i * db.hdr.dim) db.hdr.dim ∧
      (∀ d, d < db.hdr.dim →
        (l2norm cfg Real.sqrt db).db.dataBuf (i * db.hdr.dim + d) =
          db.dataBuf (i * db.hdr.dim + d) /
            euclideanNorm Real.sqrt db.dataBuf (i * db.hdr.dim) db.hdr.dim) ∧
      (euclideanNorm Real.sqrt db.dataBuf (i * db.hdr.dim) db.hdr.dim ≠ 0 →
        euclideanNorm Real.sqrt (l2norm cfg Real.sqrt db).db.dataBuf (i * db.hdr.dim)
          db.hdr.dim = 1) := by
  obtain ⟨hs, hh, hv⟩ := l2norm_spec cfg Real.sqrt db hm hflag hdim
  refine ⟨hs, ?_, ?_⟩
  · rw [hh]
    exact flag_set_after _
  · intro i hi
    obtain ⟨hn, hx⟩ := hv i hi
    have hsum : sumSquares db.dataBuf (i * db.hdr.dim) db.hdr.dim 0 =
        ∑ d in Finset.range db.hdr.dim,
          db.dataBuf (i * db.hdr.dim + d) * db.dataBuf (i * db.hdr.dim + d) := by
      rw [sumSquares_eq_sum, zero_add]
    rw [hsum] at hn hx
    have hx2 : ∀ d, d < db.hdr.dim →
        (l2norm cfg Real.sqrt db).db.dataBuf (i * db.hdr.dim + d) =
          db.dataBuf (i * db.hdr.dim + d) /
            euclideanNorm Real.sqrt db.dataBuf (i * db.hdr.dim) db.hdr.dim := by
      intro d hd
      rw [hx d hd, mul_one_div]
      rfl
    refine ⟨hn, hx2, ?_⟩
    intro hne
    have hS : 0 ≤ ∑ d in Finset.range db.hdr.dim,
        db.dataBuf (i * db.hdr.dim + d) * db.dataBuf (i * db.hdr.dim + d) :=
      Finset.sum_nonneg (fun d _ => mul_self_nonneg _)
    have hsq : euclideanNorm Real.sqrt db.dataBuf (i * db.hdr.dim) db.hdr.dim *
        euclideanNorm Real.sqrt db.dataBuf (i * db.hdr.dim) db.hdr.dim =
        ∑ d in Finset.range db.hdr.dim,
          db.dataBuf (i * db.hdr.dim + d) * db.dataBuf (i * db.hdr.dim + d) :=
      Real.mul_self_sqrt hS
    have hnew : ∑ d in Finset.range db.hdr.dim,
        (l2norm cfg Real.sqrt db).db.dataBuf (i * db.hdr.dim + d) *
          (l2norm cfg Real.sqrt db).db.dataBuf (i * db.hdr.dim + d) = 1 := by
      rw [Finset.sum_congr rfl (fun d hd => by
        rw [hx2 d (Finset.mem_range.mp hd), div_mul_div_comm])]
      rw [← Finset.sum_div, hsq]
      exact div_self (by rw [← hsq]; exact mul_ne_zero hne hne)
    unfold euclideanNorm at hne ⊢
    rw [hnew, Real.sqrt_one]


/-! ### The scan of the point query keeps the nearest vectors of positive score -/

section NearestGeneral

variable {D : Type} [LinearOrderedField D]

theorem positives_succ (score : Nat → D) (t : Nat) :
    positives score (t + 1) = positives score t + (if 0 < score t then 1 else 0) := by
  unfold positives
  rw [List.range_succ, List.filter_append, List.length_append]
  congr 1
  by_cases h : 0 < score t
  · rw [if_pos h]
    simp [h]
  · rw [if_neg h]
    simp [h]

theorem positives_le (score : Nat → D) (t : Nat) : positives score t ≤ t := by
  unfold positives
  exact le_trans (List.length_filter_le _ _) (by rw [List.length_range])

theorem nearInv_init (K : Nat) (score : Nat → D) (q : Nat) :
    NearInv K score q 0 (PointList.init D) := by
  refine ⟨sortedDesc_init_point K, fun _ _ => le_refl _, ?_, ?_, ?_, ?_⟩
  · intro i _ h
    exact absurd h (lt_irrefl _)
  · intro i i' _ _ h
    exact absurd h (lt_irrefl _)
  · intro g h; omega
  · intro i _ _
    exact Nat.zero_le _

theorem nearInv_step (K : Nat) (score : Nat → D) (q t : Nat) (r : PointList D)
    (hK : 0 < K) (h : NearInv K score q t r) :
    NearInv K score q (t + 1) (insertPoint K (score t) q t r) := by
  obtain ⟨hs, hnn, hreal, hinj, hcov, hcnt⟩ := h
  unfold insertPoint
  cases hf : findRank r.distances (score t) K with
  | none =>
    simp only
    have hlt : score t < r.distances (K - 1) := by
      rcases findRank_none _ _ _ hf with h0 | h0
      · omega
      · exact h0
    refine ⟨hs, hnn, ?_, hinj, ?_, ?_⟩
    · intro i hi hp
      obtain ⟨a, b, c⟩ := hreal i hi hp
      exact ⟨by omega, b, c⟩
    · intro g hg
      by_cases hgt : g = t
      · right; rw [hgt]; exact le_of_lt hlt
      · exact hcov g (by omega)
    · intro i hi hz
      rw [positives_succ]
      by_cases hp : 0 < score t
      · exfalso
        have h1 : r.distances (K - 1) ≤ r.distances i := hs i (K - 1) (by omega) (by omega)
        rw [hz] at h1
        exact absurd (lt_trans hp hlt) (not_lt.mpr h1)
      · rw [if_neg hp]
        exact hcnt i hi hz
  | some n =>
    simp only
    obtain ⟨hnK, hdn, hprev, hafter⟩ := findRank_some _ _ _ _ hf
    have hd : ∀ i, (r.place (K - 1) n (score t) q t).distances i =
        if i = n then score t
        else if n < i ∧ i ≤ K - 1 then r.distances (i - 1) else r.distances i :=
      fun i => placeAt_spec _ _ _ _ _
    have hq : ∀ i, (r.place (K - 1) n (score t) q t).qIndexes i =
        if i = n then q
        else if n < i ∧ i ≤ K - 1 then r.qIndexes (i - 1) else r.qIndexes i :=
      fun i => placeAt_spec _ _ _ _ _
    have hx : ∀ i, (r.place (K - 1) n (score t) q t).sIndexes i =
        if i = n then t
        else if n < i ∧ i ≤ K - 1 then r.sIndexes (i - 1) else r.sIndexes i :=
      fun i => placeAt_spec _ _ _ _ _
    have hx0 : 0 ≤ score t := le_trans (hnn n hnK) hdn
    have hlast : r.distances (K - 1) ≤ (r.place (K - 1) n (score t) q t).distances (K - 1) := by
      rw [hd]
      by_cases hn1 : K - 1 = n
      · rw [if_pos hn1, hn1]; exact hdn
      · rw [if_neg hn1, if_pos ⟨by omega, le_refl _⟩]
        exact hs (K - 1 - 1) (K - 1) (by omega) (by omega)
    have hnn' : ∀ i, i < K → 0 ≤ (r.place (K - 1) n (score t) q t).distances i := by
      intro i hi
      rw [hd]
      split_ifs with c1 c2
      · exact hx0
      · exact hnn _ (by omega)
      · exact hnn i hi
    refine ⟨placeAt_sorted _ _ _ _ _ hs hnK hdn hprev, hnn', ?_, ?_, ?_, ?_⟩
    · intro i hi hp
      rw [hd] at hp
      rw [hd, hq, hx]
      by_cases hin : i = n
      · rw [if_pos hin, if_pos hin, if_pos hin]
        exact ⟨by omega, rfl, rfl⟩
      · rw [if_neg hin] at hp
        rw [if_neg hin, if_neg hin, if_neg hin]
        by_cases his : n < i ∧ i ≤ K - 1
        · rw [if_pos his] at hp
          rw [if_pos his, if_pos his, if_pos his]
          obtain ⟨a, b, c⟩ := hreal (i - 1) (by omega) hp
          exact ⟨by omega, b, c⟩
        · rw [if_neg his] at hp
          rw [if_neg his, if_neg his, if_neg his]
          obtain ⟨a, b, c⟩ := hreal i hi hp
          exact ⟨by omega, b, c⟩
    · intro i i' hi hi' hp hp' he
      rw [hd] at hp hp'
      rw [hx, hx] at he
      by_cases hin : i = n
      · rw [if_pos hin] at he
        by_cases hin' : i' = n
        · omega
        · exfalso
          rw [if_neg hin'] at he hp'
          by_cases his' : n < i' ∧ i' ≤ K - 1
          · rw [if_pos his'] at he hp'
            have := (hreal (i' - 1) (by omega) hp').1
            omega
          · rw [if_neg his'] at he hp'
            have := (hreal i' hi' hp').1
            omega
      · rw [if_neg hin] at he hp
        by_cases his : n < i ∧ i ≤ K - 1
        · rw [if_pos his] at he hp
          by_cases hin' : i' = n
          · exfalso
            rw [if_pos hin'] at he
            have := (hreal (i - 1) (by omega) hp).1
            omega
          · rw [if_neg hin'] at he hp'
            by_cases his' : n < i' ∧ i' ≤ K - 1
            · rw [if_pos his'] at he hp'
              have := hinj (i - 1) (i' - 1) (by omega) (by omega) hp hp' he
              omega
            · rw [if_neg his'] at he hp'
              have := hinj (i - 1) i' (by omega) hi' hp hp' he
              omega
        · rw [if_neg his] at he hp
          by_cases hin' : i' = n
          · exfalso
            rw [if_pos hin'] at he
            have := (hreal i hi hp).1
            omega
          · rw [if_neg hin'] at he hp'
            by_cases his' : n < i' ∧ i' ≤ K - 1
            · rw [if_pos his'] at he hp'
              have := hinj i (i' - 1) hi (by omega) hp hp' he
              omega
            · rw [if_neg his'] at he hp'
              exact hinj i i' hi hi' hp hp' he
    · intro g hg
      by_cases hgt : g = t
      · by_cases hp : 0 < score t
        · left
          refine ⟨n, hnK, ?_, ?_⟩
          · rw [hd, if_pos rfl]; exact hp
          · rw [hx, if_pos rfl, hgt]
        · right
          rw [hgt]
          exact le_trans (not_lt.mp hp) (hnn' (K - 1) (by omega))
      · rcases hcov g (by omega) with ⟨i, a, b, c⟩ | b
        · by_cases hin : i < n
          · left
            refine ⟨i, a, ?_, ?_⟩
            · rw [hd, if_neg (by omega), if_neg (by omega)]; exact b
            · rw [hx, if_neg (by omega), if_neg (by omega)]; exact c
          · by_cases hl : i + 1 < K
            · left
              refine ⟨i + 1, hl, ?_, ?_⟩
              · rw [hd, if_neg (by omega), if_pos ⟨by omega, by omega⟩]
                simpa using b
              · rw [hx, if_neg (by omega), if_pos ⟨by omega, by omega⟩]
                simpa using c
            · right
              have hi1 : i = K - 1 := by omega
              have hsc := (hreal i a b).2.1
              rw [c, hi1] at hsc
              rw [← hsc]
              exact hlast
        · right
          exact le_trans b hlast
    · intro i hi hz
      rw [hd] at hz
      rw [positives_succ]
      by_cases hp : 0 < score t
      · rw [if_pos hp]
        by_cases hin : i = n
        · rw [if_pos hin] at hz
          rw [hz] at hp
          exact absurd hp (lt_irrefl _)
        · rw [if_neg hin] at hz
          by_cases his : n < i ∧ i ≤ K - 1
          · rw [if_pos his] at hz
            have := hcnt (i - 1) (by omega) hz
            omega
          · rw [if_neg his] at hz
            exfalso
            have hlt : i < n := by omega
            rcases hprev with h0 | h0
            · omega
            · have h1 : r.distances (n - 1) ≤ r.distances i :=
                hs i (n - 1) (by omega) (by omega)
              rw [hz] at h1
              exact absurd (lt_of_lt_of_le hp h0) (not_lt.mpr h1)
      · rw [if_neg hp, Nat.add_zero]
        by_cases hin : i = n
        · have hz0 : r.distances n = 0 :=
            le_antisymm (le_trans hdn (not_lt.mp hp)) (hnn n hnK)
          rw [hin]
          exact hcnt n hnK hz0
        · rw [if_neg hin] at hz
          by_cases his : n < i ∧ i ≤ K - 1
          · rw [if_pos his] at hz
            have := hcnt (i - 1) (by omega) hz
            omega
          · rw [if_neg his] at hz
            exact hcnt i hi hz

theorem pointScan_near (env : QueryEnv) (hdur : ∀ a b, env.durOk a b = true)
    (K dim totalVecs : Nat) (query dataBuf : Nat → D) (qp qIndex : Nat) (hK : 0 < K) :
    ∀ k dp (r : PointList D) t, t + k = totalVecs → dp = t * dim →
      NearInv K (vectorScore dim query dataBuf qp) qIndex t r →
      NearInv K (vectorScore dim query dataBuf qp) qIndex totalVecs
        (pointScan env K dim totalVecs query dataBuf qp qIndex k dp r) := by
  intro k
  induction k with
  | zero =>
    intro dp r t ht _ h
    have : t = totalVecs := by omega
    rw [← this]
    exact h
  | succ k ih =>
    intro dp r t ht hdp h
    unfold pointScan
    rw [if_pos (hdur _ _)]
    have e1 : totalVecs - k - 1 = t := by omega
    have e2 : innerProduct query dataBuf qp dp dim 0 = vectorScore dim query dataBuf qp t := by
      unfold vectorScore
      rw [hdp]
    rw [e1, e2]
    apply ih (dp + dim) _ (t + 1) (by omega)
    · rw [hdp, Nat.succ_mul]
    · exact nearInv_step K _ qIndex t r hK h

/-- When at least `K` of the vectors scanned have a positive score, every rank of the
list holds a positive distance. -/
theorem nearInv_full (K : Nat) (score : Nat → D) (q t : Nat) (r : PointList D)
    (h : NearInv K score q t r) (hp : K ≤ positives score t) :
    ∀ i, i < K → 0 < r.distances i := by
  intro i hi
  rcases lt_or_eq_of_le (h.2.1 i hi) with h1 | h1
  · exact h1
  · exfalso
    have := h.2.2.2.2.2 i hi h1.symm
    omega

end NearestGeneral


/-! ### The files already stored during an insert -/

section StoredFiles

variable {D : Type} [Zero D] [One D] [Add D] [Mul D] [Div D]

/-- The norming of the block that starts at double `X` leaves the payload below `X`
as it was. -/
theorem unitNormAndInsertL2_below (sqrt : D → D) (dbH : dbTableHeaderT) (db : DB D)
    (X dim n : Nat) (append : Bool) (c : Nat) (hc : c < X) :
    (unitNormAndInsertL2 sqrt dbH db X dim n append).db.dataBuf c = db.dataBuf c := by
  have hn := (normLoop_spec sqrt dim n db.dataBuf X (fun _ => 0) 0).2.1 c (Or.inl hc)
  unfold unitNormAndInsertL2
  split_ifs
  all_goals first
    | rfl
    | exact hn

/-- Every state of the tail of an insert carries the header of the increased counts,
the key table as it was, the segment table as it was but for the entry
`numFiles-1`, and the payload as it was below the offset of the insertion. -/
theorem commitTrace_frame (sqrt : D → D) (dbH : dbTableHeaderT) (db : DB D)
    (f : FeatureFile D) (nv : Nat) :
    ∀ σ ∈ commitTrace sqrt dbH db f nv,
      σ.hdr = { dbH with numFiles := (dbH.numFiles + 1) % 2 ^ 32,
                         length := (dbH.length + f.nbytes) % 2 ^ 32 } ∧
      σ.fileTable = db.fileTable ∧
      (∀ k, k ≠ (dbH.numFiles + 1) % 2 ^ 32 - 1 → σ.segTable k = db.segTable k) ∧
      ∀ c, c < dbH.length / sizeofDouble → σ.dataBuf c = db.dataBuf c := by
  have hcp : ∀ c, c < dbH.length / sizeofDouble →
      copyPayload db.dataBuf dbH.length f c = db.dataBuf c := by
    intro c hc
    unfold copyPayload
    rw [if_neg (by omega)]
  intro σ hσ
  unfold commitTrace at hσ
  simp only at hσ
  split_ifs at hσ
  · simp only [List.mem_cons, List.mem_singleton, List.not_mem_nil, or_false] at hσ
    rcases hσ with rfl | rfl | rfl | rfl
    · exact ⟨rfl, rfl, fun _ _ => rfl, fun _ _ => rfl⟩
    · exact ⟨rfl, rfl, fun k hk => if_neg hk, fun _ _ => rfl⟩
    · exact ⟨rfl, rfl, fun k hk => if_neg hk, hcp⟩
    · refine ⟨?_, ?_, ?_, ?_⟩
      · rw [(unitNormAndInsertL2_hdr sqrt _ _ _ _ _ _).1]
      · rw [(unitNormAndInsertL2_hdr sqrt _ _ _ _ _ _).2.1]
      · intro k hk
        rw [(unitNormAndInsertL2_hdr sqrt _ _ _ _ _ _).2.2.1]
        exact if_neg hk
      · intro c hc
        rw [unitNormAndInsertL2_below sqrt _ _ _ _ _ _ c hc]
        exact hcp c hc
  · simp only [List.mem_cons, List.mem_singleton, List.not_mem_nil, or_false] at hσ
    rcases hσ with rfl | rfl | rfl
    · exact ⟨rfl, rfl, fun _ _ => rfl, fun _ _ => rfl⟩
    · exact ⟨rfl, rfl, fun k hk => if_neg hk, fun _ _ => rfl⟩
    · exact ⟨rfl, rfl, fun k hk => if_neg hk, hcp⟩

/-- Along the writes of an insert the mapped header is the header found or the header
the insert leaves, and every file already stored keeps its key slot, its entry of the
segment table and its payload. -/
theorem insertTrace_frame (cfg : Config) (sqrt : D → D) (db : DB D) (a : InsertArgs D)
    (hn : db.hdr.numFiles + 1 < 2 ^ 32) :
    ∀ σ ∈ insertTrace cfg sqrt db a,
      (σ.hdr = db.hdr ∨ σ.hdr = (insert cfg sqrt db a).db.hdr) ∧
      ∀ k, k < db.hdr.numFiles →
        (∀ i, i < cfg.O2_FILETABLESIZE →
          σ.fileTable (k * cfg.O2_FILETABLESIZE + i)
            = db.fileTable (k * cfg.O2_FILETABLESIZE + i)) ∧
        σ.segTable k = db.segTable k ∧
        (∀ c, c < db.hdr.length / sizeofDouble → σ.dataBuf c = db.dataBuf c) := by
  have hsame : ∀ σ : DB D, σ = db →
      (σ.hdr = db.hdr ∨ σ.hdr = (insert cfg sqrt db a).db.hdr) ∧
      ∀ k, k < db.hdr.numFiles →
        (∀ i, i < cfg.O2_FILETABLESIZE →
          σ.fileTable (k * cfg.O2_FILETABLESIZE + i)
            = db.fileTable (k * cfg.O2_FILETABLESIZE + i)) ∧
        σ.segTable k = db.segTable k ∧
        (∀ c, c < db.hdr.length / sizeofDouble → σ.dataBuf c = db.dataBuf c) := by
    intro σ h
    rw [h]
    exact ⟨Or.inl rfl, fun _ _ => ⟨fun _ _ => rfl, rfl, fun _ _ => rfl⟩⟩
  intro σ hσ
  unfold insertTrace at hσ
  cases hi : initTables cfg db (some a.inFile) with
  | error er =>
    rw [hi] at hσ
    exact hsame σ (List.mem_singleton.mp hσ)
  | ok dbH =>
    have hc : checkDim db.hdr a.inFile = Except.ok dbH := by
      unfold initTables at hi
      split_ifs at hi
      exact hi
    obtain ⟨_, hnum, hlen, _, _, _⟩ := checkDim_ok _ _ _ hc
    rw [hi] at hσ
    simp only [Nat.reducePow] at hσ
    by_cases h1 : (!a.usingTimes) = true ∧ dbH.flags &&& O2_FLAG_TIMES ≠ 0
    · rw [if_pos h1] at hσ
      exact hsame σ (List.mem_singleton.mp hσ)
    rw [if_neg h1] at hσ
    by_cases h2 : timesTableOffset cfg < dataoffset cfg + dbH.length + a.inFile.nbytes
    · rw [if_pos h2] at hσ
      exact hsame σ (List.mem_singleton.mp hσ)
    rw [if_neg h2] at hσ
    by_cases h3 : alreadyInserted cfg db.fileTable a.key dbH.numFiles = true
    · rw [if_pos h3] at hσ
      exact hsame σ (List.mem_singleton.mp hσ)
    rw [if_neg h3] at hσ
    by_cases h4 : dbH.dim = 0
    · rw [if_pos h4] at hσ
      exact hsame σ (List.mem_singleton.mp hσ)
    rw [if_neg h4] at hσ
    by_cases h5 : a.inFile.nbytes / (sizeofDouble * dbH.dim) % 4294967296 = 0
    · rw [if_pos h5] at hσ
      exact hsame σ (List.mem_singleton.mp hσ)
    rw [if_neg h5] at hσ
    have hkey : ∀ k, k < db.hdr.numFiles → ∀ i, i < cfg.O2_FILETABLESIZE →
        strncpy db.fileTable (dbH.numFiles * cfg.O2_FILETABLESIZE) a.key.byte (strlen a.key)
          (k * cfg.O2_FILETABLESIZE + i) = db.fileTable (k * cfg.O2_FILETABLESIZE + i) := by
      intro k hk i hi2
      rw [strncpy_spec _ _ _ _ (byte_ne_zero_of_lt_strlen a.key), if_neg]
      intro hh
      rw [hnum] at hh
      have : (k + 1) * cfg.O2_FILETABLESIZE ≤ db.hdr.numFiles * cfg.O2_FILETABLESIZE :=
        Nat.mul_le_mul_right _ hk
      rw [Nat.succ_mul] at this
      omega
    by_cases h6 : ¬ (timesTableOffset cfg + sizeofDouble * (dbH.length / (dbH.dim * sizeofDouble)
          + a.inFile.nbytes / (sizeofDouble * dbH.dim) % 4294967296) < l2normTableOffset cfg)
    · rw [if_pos h6] at hσ
      simp only [List.mem_cons, List.mem_singleton, List.not_mem_nil, or_false] at hσ
      rcases hσ with h | h
      · exact hsame σ h
      · rw [h]
        exact ⟨Or.inl rfl, fun k hk => ⟨hkey k hk, rfl, fun _ _ => rfl⟩⟩
    rw [if_neg h6] at hσ
    obtain ⟨t1, t2, t3, t4⟩ := insertTimeStamps_dbH
      (a.inFile.nbytes / (sizeofDouble * dbH.dim) % 4294967296) a.usingTimes dbH a.timesFile
      db.timesTable (dbH.length / (dbH.dim * sizeofDouble))
    cases ht : (insertTimeStamps (a.inFile.nbytes / (sizeofDouble * dbH.dim) % 4294967296)
        a.usingTimes dbH a.timesFile db.timesTable
        (dbH.length / (dbH.dim * sizeofDouble))).err with
    | some e1 =>
      rw [ht] at hσ
      simp only [List.mem_cons, List.mem_singleton, List.not_mem_nil, or_false] at hσ
      rcases hσ with h | h | h
      · exact hsame σ h
      · rw [h]
        exact ⟨Or.inl rfl, fun k hk => ⟨hkey k hk, rfl, fun _ _ => rfl⟩⟩
      · rw [h]
        exact ⟨Or.inl rfl, fun k hk => ⟨hkey k hk, rfl, fun _ _ => rfl⟩⟩
    | none =>
      rw [ht] at hσ
      simp only [List.mem_append, List.mem_cons, List.mem_singleton, List.not_mem_nil,
        or_false] at hσ
      rcases hσ with (h | h | h) | h
      · exact hsame σ h
      · rw [h]
        exact ⟨Or.inl rfl, fun k hk => ⟨hkey k hk, rfl, fun _ _ => rfl⟩⟩
      · rw [h]
        exact ⟨Or.inl rfl, fun k hk => ⟨hkey k hk, rfl, fun _ _ => rfl⟩⟩
      · obtain ⟨f1, f2, f3, f4⟩ := commitTrace_frame sqrt _ _ _ _ σ h
        have hfin : (insert cfg sqrt db a).db.hdr = σ.hdr := by
          unfold insert
          rw [hi]
          simp only [Nat.reducePow]
          rw [if_neg h1, if_neg h2, if_neg h3, if_neg h4, if_neg h5, if_neg h6, ht]
          simp only
          rw [commit_hdr, f1]
        refine ⟨Or.inr hfin.symm, fun k hk => ⟨?_, ?_, ?_⟩⟩
        · intro i hi2
          rw [f2]
          exact hkey k hk i hi2
        · rw [f3 k (by rw [t2, hnum, Nat.mod_eq_of_lt hn]; omega)]
        · intro c hc
          rw [f4 c (by rw [t4, hlen]; exact hc)]

end StoredFiles


/-! ### The point query and its candidates -/

/-- The line printed for a rank carries the distance of that rank. -/
theorem pointRow_distance {D : Type} (segTable : Nat → Nat) (numFiles : Nat) (r : PointList D)
    (k : Nat) (row : ResultRow D) (h : pointRow segTable numFiles r k = some row) :
    row.distance = r.distances k := by
  unfold pointRow at h
  split at h
  · cases h
  · cases h
    rfl

section PointQueryCandidates

variable {D : Type} [LinearOrderedField D]

/-- What `pointQuery` returns when its tests pass: the list after the insertions of
its candidates, and the lines of the ranks of that list. -/
theorem pointQuery_eq (cfg : Config) (sqrt : D → D) (env : QueryEnv) (s : QuerySettings)
    (db : DB D) (inFile : FeatureFile D) (junk : Nat → D) (dbH : dbTableHeaderT)
    (hinit : initTables cfg db (some inFile) = Except.ok dbH) (hdim : dbH.dim ≠ 0)
    (hK : 0 < s.pointNN ∧ s.pointNN ≤ env.O2_MAXNN)
    (hq : ¬ (s.usingQueryPoint = true ∧
      queryPointTooLarge s.queryPoint
        (inFile.nbytes / (sizeofDouble * dbH.dim) % 2 ^ 32) = true)) :
    pointQuery cfg sqrt env s db inFile junk = Except.ok
      { list := insertAll s.pointNN (queryCandidates sqrt env s db inFile junk dbH)
          (PointList.init D)
        rows := (List.range s.pointNN).filterMap
          (pointRow db.segTable dbH.numFiles
            (insertAll s.pointNN (queryCandidates sqrt env s db inFile junk dbH)
              (PointList.init D))) } := by
  unfold pointQuery
  rw [hinit]
  simp only
  rw [if_neg hdim, if_neg (not_not.mpr hK), if_neg hq, pointLoop_eq_insertAll]
  rfl

/-- A point query that returns has passed its tests. -/
theorem pointQuery_tests (cfg : Config) (sqrt : D → D) (env : QueryEnv) (s : QuerySettings)
    (db : DB D) (inFile : FeatureFile D) (junk : Nat → D) (o : PointOutput D)
    (h : pointQuery cfg sqrt env s db inFile junk = Except.ok o) :
    ∃ dbH : dbTableHeaderT,
      initTables cfg db (some inFile) = Except.ok dbH ∧ dbH.dim ≠ 0 ∧
      (0 < s.pointNN ∧ s.pointNN ≤ env.O2_MAXNN) ∧
      ¬ (s.usingQueryPoint = true ∧
        queryPointTooLarge s.queryPoint
          (inFile.nbytes / (sizeofDouble * dbH.dim) % 2 ^ 32) = true) := by
  unfold pointQuery at h
  cases hi : initTables cfg db (some inFile) with
  | error e => rw [hi] at h; cases h
  | ok dbH =>
    rw [hi] at h
    simp only at h
    by_cases h1 : dbH.dim = 0
    · rw [if_pos h1] at h; cases h
    · rw [if_neg h1] at h
      by_cases h2 : ¬ (s.pointNN > 0 ∧ s.pointNN ≤ env.O2_MAXNN)
      · rw [if_pos h2] at h; cases h
      · rw [if_neg h2] at h
        by_cases h3 : s.usingQueryPoint = true ∧ queryPointTooLarge s.queryPoint
            (inFile.nbytes / (sizeofDouble * dbH.dim) % 2 ^ 32) = true
        · rw [if_pos h3] at h; cases h
        · exact ⟨dbH, rfl, h1, not_not.mp h2, h3⟩

end PointQueryCandidates


/-! ## The claims -/

/-- C1, amended: in every state reached from `create` by inserts, batch inserts and L2
retrofits that end without error and without a store outside the tables (`numFiles`
stays at most `O2_MAXFILES`, every key presented is no longer than a key slot, the
segment table has four bytes for each slot), all of them presenting feature files that
hold whole vectors (`8 * dim` divides the size after the dimension word), the header
satisfies `length = 8 * dim * Σ segTable[k < numFiles]`, and `length` is a multiple of
`8 * dim` when `dim > 0`. -/
theorem C1_length_invariant {D : Type} [Zero D] [One D] [Add D] [Mul D] [Div D]
    (cfg : Config) (hcfg : cfg.WellFormed) (hseg : 4 ≤ cfg.O2_SEGTABLESIZE) (sqrt : D → D)
    (db : DB D)
    (h : ReachableInTables cfg sqrt (fun k => strlen k ≤ cfg.O2_FILETABLESIZE)
      (fun f => sizeofDouble * f.dim ∣ f.nbytes) db) :
    db.hdr.numFiles ≤ cfg.O2_MAXFILES ∧
    db.hdr.length = 8 * db.hdr.dim * segSum db.segTable db.hdr.numFiles ∧
    (0 < db.hdr.dim → 8 * db.hdr.dim ∣ db.hdr.length) := by
  have _ := hseg
  have hI := reachable_stateInv cfg hcfg sqrt _ _ db
    (ReachableInTables.toReachable cfg sqrt _ _ db h)
  have hJ := hI.2.1 (fun f hf => hf)
  exact ⟨reachableInTables_numFiles cfg sqrt _ _ db h, hJ, fun _ => ⟨_, hJ⟩⟩

/-- Witness of C1 (amended): the database with one key of `cfgSmall`. -/
theorem C1_length_invariant_witness :
    cfgSmall.WellFormed ∧ 4 ≤ cfgSmall.O2_SEGTABLESIZE ∧
    ReachableInTables cfgSmall Real.sqrt (fun k => strlen k ≤ cfgSmall.O2_FILETABLESIZE)
      (fun f => sizeofDouble * f.dim ∣ f.nbytes) (oneKeyDB Real.sqrt) ∧
    (oneKeyDB Real.sqrt).hdr.numFiles ≤ cfgSmall.O2_MAXFILES ∧
    (oneKeyDB Real.sqrt).hdr.length = 8 * (oneKeyDB Real.sqrt).hdr.dim *
      segSum (oneKeyDB Real.sqrt).segTable (oneKeyDB Real.sqrt).hdr.numFiles ∧
    (0 < (oneKeyDB Real.sqrt).hdr.dim →
      8 * (oneKeyDB Real.sqrt).hdr.dim ∣ (oneKeyDB Real.sqrt).hdr.length) :=
  have hr : ReachableInTables cfgSmall Real.sqrt
      (fun k => strlen k ≤ cfgSmall.O2_FILETABLESIZE)
      (fun f => sizeofDouble * f.dim ∣ f.nbytes) (oneKeyDB Real.sqrt) :=
    oneKeyDB_reachableInTables _ _ (by decide) (by decide)
  ⟨cfgSmall_wellFormed, by decide, hr,
    C1_length_invariant cfgSmall cfgSmall_wellFormed (by decide) Real.sqrt
      (oneKeyDB Real.sqrt) hr⟩

/-- C1 as stated fails: after `create`, the insert of a file with dimension word 2
followed by 24 bytes (three doubles) ends `ok`; the reached state has `length = 24`,
`dim = 2`, `segTable[0] = 1`, so `length ≠ 8 * dim * Σ segTable` and `length` is not a
multiple of `8 * dim`. -/
theorem C1_ragged_file_counterexample :
    Reachable cfgSmall Real.sqrt (fun _ => True) (fun _ => True) (raggedDB Real.sqrt) ∧
    (raggedDB Real.sqrt).hdr.length ≠ 8 * (raggedDB Real.sqrt).hdr.dim *
      segSum (raggedDB Real.sqrt).segTable (raggedDB Real.sqrt).hdr.numFiles ∧
    0 < (raggedDB Real.sqrt).hdr.dim ∧
    ¬ (8 * (raggedDB Real.sqrt).hdr.dim ∣ (raggedDB Real.sqrt).hdr.length) :=
  ⟨Reachable.insert _ raggedInsert Reachable.create trivial trivial
      (not_failed_of_ok _ (by decide)),
    by decide, by decide, by decide⟩

/-- C2, evaluation at the failing input (the steps of test 0012): `create`, `l2norm`,
then the insert of the two vectors `(0, 0.5)` and `(0.5, 0)`.  The database is
L2 normed and holds `V = 0` vectors, the insert ends `ok` with `N = 2` vectors, the
payload is normalised, and both inserted vectors have Euclidean norm `1/2`; but
norm-table entries `V+0` and `V+1` are left at 0 and the two norms are stored in
entries `V+N+0 = 2` and `V+N+1 = 3`, because `unitNormAndInsertL2` computes its
offset from `dbH->length` after `insert` has already added the new block to it. -/
theorem C2_norms_stored_past_block :
    (normedEmptyDB Real.sqrt).hdr.flags &&& O2_FLAG_L2NORM ≠ 0 ∧
    (normedEmptyDB Real.sqrt).hdr.length = 0 ∧
    (insert cfgSmall Real.sqrt (normedEmptyDB Real.sqrt) testfeature).status = Status.ok ∧
    (insert cfgSmall Real.sqrt (normedEmptyDB Real.sqrt) testfeature).db.segTable 0 = 2 ∧
    euclideanNorm Real.sqrt (testfeature : InsertArgs ℝ).inFile.indata 0 2 = 1 / 2 ∧
    euclideanNorm Real.sqrt (testfeature : InsertArgs ℝ).inFile.indata 2 2 = 1 / 2 ∧
    (insert cfgSmall Real.sqrt (normedEmptyDB Real.sqrt) testfeature).db.l2normTable 0 = 0 ∧
    (insert cfgSmall Real.sqrt (normedEmptyDB Real.sqrt) testfeature).db.l2normTable 1 = 0 ∧
    (insert cfgSmall Real.sqrt (normedEmptyDB Real.sqrt) testfeature).db.l2normTable 2
      = 1 / 2 ∧
    (insert cfgSmall Real.sqrt (normedEmptyDB Real.sqrt) testfeature).db.l2normTable 3
      = 1 / 2 ∧
    (insert cfgSmall Real.sqrt (normedEmptyDB Real.sqrt) testfeature).db.dataBuf 1 = 1 ∧
    (insert cfgSmall Real.sqrt (normedEmptyDB Real.sqrt) testfeature).db.dataBuf 2 = 1 := by
  have s0 : sumSquares (testfeature : InsertArgs ℝ).inFile.indata 0 2 0 = (1 / 2) ^ 2 := by
    simp [sumSquares, testfeature, plainInsert, fileOf]
    norm_num
  have s1 : sumSquares (testfeature : InsertArgs ℝ).inFile.indata 2 2 0 = (1 / 2) ^ 2 := by
    simp [sumSquares, testfeature, plainInsert, fileOf]
    norm_num
  have n0 : Real.sqrt (sumSquares (testfeature : InsertArgs ℝ).inFile.indata 0 2 0) = 1 / 2 := by
    rw [s0, Real.sqrt_sq (by norm_num)]
  have n1 : Real.sqrt (sumSquares (testfeature : InsertArgs ℝ).inFile.indata 2 2 0) = 1 / 2 := by
    rw [s1, Real.sqrt_sq (by norm_num)]
  have e0 : euclideanNorm Real.sqrt (testfeature : InsertArgs ℝ).inFile.indata 0 2 = 1 / 2 := by
    unfold euclideanNorm
    rw [← n0, sumSquares_eq_sum, zero_add]
  have e1 : euclideanNorm Real.sqrt (testfeature : InsertArgs ℝ).inFile.indata 2 2 = 1 / 2 := by
    unfold euclideanNorm
    rw [← n1, sumSquares_eq_sum, zero_add]
  have c2 : (insert cfgSmall Real.sqrt (normedEmptyDB Real.sqrt) testfeature).db.l2normTable 2
      = Real.sqrt (sumSquares (testfeature : InsertArgs ℝ).inFile.indata 0 2 0) := rfl
  have c3 : (insert cfgSmall Real.sqrt (normedEmptyDB Real.sqrt) testfeature).db.l2normTable 3
      = Real.sqrt (sumSquares (testfeature : InsertArgs ℝ).inFile.indata 2 2 0) := rfl
  have d1 : (insert cfgSmall Real.sqrt (normedEmptyDB Real.sqrt) testfeature).db.dataBuf 1
      = 1 / (1 + 1) *
        (1 / Real.sqrt (sumSquares (testfeature : InsertArgs ℝ).inFile.indata 0 2 0)) := rfl
  have d2 : (insert cfgSmall Real.sqrt (normedEmptyDB Real.sqrt) testfeature).db.dataBuf 2
      = 1 / (1 + 1) *
        (1 / Real.sqrt (sumSquares (testfeature : InsertArgs ℝ).inFile.indata 2 2 0)) := rfl
  refine ⟨by decide, by decide, by decide, by decide, e0, e1, rfl, rfl, ?_, ?_, ?_, ?_⟩
  · rw [c2, n0]
  · rw [c3, n1]
  · rw [d1, n0]; norm_num
  · rw [d2, n1]; norm_num

/-- C3, evaluation at the failing input: with key slots of 16 bytes, after the insert
of a vector under the 18-byte key "abcdefghijklmnopqr", the insert of a vector under the
key "x" ends `ok` with `numFiles = 2`, but slot 1 reads back "xr", not "x", and slot 0,
which read "abcdefghijklmnopqr", now reads "abcdefghijklmnopxr". -/
theorem C3_long_key_readback :
    (insert cfgSmall Real.sqrt (longKeyDB Real.sqrt) (oneVector [120])).status = Status.ok ∧
    (insert cfgSmall Real.sqrt (longKeyDB Real.sqrt) (oneVector [120])).db.hdr.numFiles = 2 ∧
    keyAt cfgSmall (insert cfgSmall Real.sqrt (longKeyDB Real.sqrt) (oneVector [120])).db 1
      = [120, 114] ∧
    keyAt cfgSmall (longKeyDB Real.sqrt) 0
      = [97, 98, 99, 100, 101, 102, 103, 104, 105, 106, 107, 108, 109, 110, 111, 112, 113,
          114] ∧
    keyAt cfgSmall (insert cfgSmall Real.sqrt (longKeyDB Real.sqrt) (oneVector [120])).db 0
      = [97, 98, 99, 100, 101, 102, 103, 104, 105, 106, 107, 108, 109, 110, 111, 112, 120,
          114] := by
  decide

/-- C4, amended: when an insert has ended `ok`, having stored its key and its count
inside the tables (`numFiles < O2_MAXFILES`, the key no longer than a key slot, four
bytes for each slot in the segment table), the same insert made again leaves the
whole mapped database unchanged; it returns after the duplicate-key warning if the
file would still fit (`dataoffset + length + fileSize - 4 ≤ timesTableOffset`), and
fails with `Full` otherwise, the capacity test being made before the scan of the
keys. -/
theorem C4_second_insert {D : Type} [Zero D] [One D] [Add D] [Mul D] [Div D]
    (cfg : Config) (sqrt : D → D) (db : DB D) (a : InsertArgs D)
    (hok : (insert cfg sqrt db a).status = Status.ok)
    (hn : db.hdr.numFiles + 1 < 2 ^ 32)
    (hin : InTables cfg db.hdr.numFiles a.key) :
    insert cfg sqrt (insert cfg sqrt db a).db a =
      { db := (insert cfg sqrt db a).db,
        status :=
          if timesTableOffset cfg <
              dataoffset cfg + (insert cfg sqrt db a).db.hdr.length + a.inFile.nbytes
          then Status.failed Err.Full else Status.warnDuplicate } := by
  have _ := hin
  obtain ⟨dbH, hm, hc, h1, hcap, hdup, hdim, hnv, has, hterr, heq⟩ :=
    insert_ok_inv cfg sqrt db a hok
  obtain ⟨c1, c2, c3, c4, c5, c6⟩ := checkDim_ok _ _ _ hc
  obtain ⟨t1, t2, t3, t4⟩ := insertTimeStamps_dbH
    (a.inFile.nbytes / (sizeofDouble * dbH.dim) % 2 ^ 32) a.usingTimes dbH a.timesFile
    db.timesTable (dbH.length / (dbH.dim * sizeofDouble))
  have hflags : ¬ ((!a.usingTimes) = true ∧
      (insertTimeStamps (a.inFile.nbytes / (sizeofDouble * dbH.dim) % 2 ^ 32) a.usingTimes
        dbH a.timesFile db.timesTable (dbH.length / (dbH.dim * sizeofDouble))).dbH.flags
        &&& O2_FLAG_TIMES ≠ 0) := by
    rintro ⟨hu, hf⟩
    have hu2 : a.usingTimes = false := by simpa using hu
    rw [hu2, insertTimeStamps_not_using] at hf
    exact h1 ⟨hu, hf⟩
  have hhdr : (insert cfg sqrt db a).db.hdr =
      { magic := dbH.magic, numFiles := (dbH.numFiles + 1) % 2 ^ 32, dim := dbH.dim,
        length := (dbH.length + a.inFile.nbytes) % 2 ^ 32,
        flags := (insertTimeStamps (a.inFile.nbytes / (sizeofDouble * dbH.dim) % 2 ^ 32)
          a.usingTimes dbH a.timesFile db.timesTable
          (dbH.length / (dbH.dim * sizeofDouble))).dbH.flags } := by
    rw [heq, commit_hdr]
    simp only [t1, t2, t3, t4]
  have hft : (insert cfg sqrt db a).db.fileTable =
      strncpy db.fileTable (dbH.numFiles * cfg.O2_FILETABLESIZE) a.key.byte
        (strlen a.key) := by
    rw [heq, (commit_tables _ _ _ _ _).1]
  generalize (insert cfg sqrt db a).db = db1 at hhdr hft ⊢
  have hnum : (dbH.numFiles + 1) % 2 ^ 32 = dbH.numFiles + 1 := by
    rw [c2]; exact Nat.mod_eq_of_lt hn
  have hcd : checkDim db1.hdr a.inFile = Except.ok db1.hdr := by
    unfold checkDim
    rw [hhdr]
    simp only
    rw [if_neg (fun h => hdim h.1), if_neg (not_not.mpr c5)]
  unfold insert initTables
  rw [if_neg (by rw [hhdr]; simp only; rw [c1]; exact not_not.mpr hm)]
  simp only [hcd]
  rw [if_neg (by rw [hhdr]; exact hflags)]
  by_cases hfull : timesTableOffset cfg < dataoffset cfg + db1.hdr.length + a.inFile.nbytes
  · rw [if_pos hfull, if_pos hfull]
  · rw [if_neg hfull, if_neg hfull]
    rw [if_pos]
    rw [hft, hhdr]
    simp only
    rw [hnum]
    exact alreadyInserted_after_strncpy cfg db.fileTable a.key dbH.numFiles

/-- Witness of C4 (amended): the file of five vectors inserted twice into the empty
database of `cfgSmall`; the second insert leaves the database as the first left it. -/
theorem C4_second_insert_witness :
    (insert cfgSmall Real.sqrt (create cfgSmall) fiveVectors).status = Status.ok ∧
    (create cfgSmall : DB ℝ).hdr.numFiles + 1 < 2 ^ 32 ∧
    InTables cfgSmall (create cfgSmall : DB ℝ).hdr.numFiles
      (fiveVectors : InsertArgs ℝ).key ∧
    insert cfgSmall Real.sqrt (insert cfgSmall Real.sqrt (create cfgSmall) fiveVectors).db
        fiveVectors =
      { db := (insert cfgSmall Real.sqrt (create cfgSmall) fiveVectors).db,
        status :=
          if timesTableOffset cfgSmall <
              dataoffset cfgSmall +
                (insert cfgSmall Real.sqrt (create cfgSmall) fiveVectors).db.hdr.length +
                (fiveVectors : InsertArgs ℝ).inFile.nbytes
          then Status.failed Err.Full else Status.warnDuplicate } :=
  ⟨by decide, by decide, ⟨by decide, by decide, by decide⟩,
    C4_second_insert cfgSmall Real.sqrt (create cfgSmall) fiveVectors (by decide) (by decide)
      ⟨by decide, by decide, by decide⟩⟩

/-- C4 as stated fails: in the payload region of 64 bytes of `cfgSmall`, the insert of
a file of 40 bytes under key "a" ends `ok`; the same insert made a second time does not
return success, it fails with `Full`. -/
theorem C4_second_insert_full_counterexample :
    (insert cfgSmall Real.sqrt (create cfgSmall) fiveVectors).status = Status.ok ∧
    (insert cfgSmall Real.sqrt (insert cfgSmall Real.sqrt (create cfgSmall) fiveVectors).db
      fiveVectors).status = Status.failed Err.Full := by
  decide

/-- C5, amended: in every state reached from `create` by commands that end without
error and without a store outside the tables (`numFiles` stays at most `O2_MAXFILES`,
the segment table has four bytes for each slot) and that present only keys shorter
than a key slot, for all slots `i < j < numFiles` the key of slot `j` does not
prefix-match slot `i`:
`strncmp(fileTable + i*O2_FILETABLESIZE, key_j, strlen(key_j)) ≠ 0`. -/
theorem C5_later_key_not_prefix_of_earlier {D : Type} [Zero D] [One D] [Add D] [Mul D] [Div D]
    (cfg : Config) (hcfg : cfg.WellFormed) (hmax : 0 < cfg.O2_MAXFILES)
    (hseg : 4 ≤ cfg.O2_SEGTABLESIZE) (sqrt : D → D) (db : DB D)
    (h : ReachableInTables cfg sqrt (fun k => strlen k < cfg.O2_FILETABLESIZE)
      (fun _ => True) db)
    (i j : Nat) (hij : i < j) (hj : j < db.hdr.numFiles) :
    j < cfg.O2_MAXFILES ∧ slotCompare cfg db i (keyAt cfg db j) ≠ 0 := by
  have _ := hseg
  have hI := reachable_stateInv cfg hcfg sqrt _ _ db
    (ReachableInTables.toReachable cfg sqrt _ _ db h)
  exact ⟨Nat.lt_of_lt_of_le hj (reachableInTables_numFiles cfg sqrt _ _ db h),
    keyInv_distinct cfg hmax db (hI.2.2 (fun k hk => hk)) i j hij hj⟩

/-- Witness of C5 (amended): in `abcDB` the key "abcd" of slot 1 does not prefix-match
slot 0, which holds "abc". -/
theorem C5_later_key_not_prefix_of_earlier_witness :
    cfgSmall.WellFormed ∧ 0 < cfgSmall.O2_MAXFILES ∧ 4 ≤ cfgSmall.O2_SEGTABLESIZE ∧
    ReachableInTables cfgSmall Real.sqrt (fun k => strlen k < cfgSmall.O2_FILETABLESIZE)
      (fun _ => True) (abcDB Real.sqrt) ∧
    0 < 1 ∧ 1 < (abcDB Real.sqrt).hdr.numFiles ∧
    slotCompare cfgSmall (abcDB Real.sqrt) 0 (keyAt cfgSmall (abcDB Real.sqrt) 1) ≠ 0 :=
  ⟨cfgSmall_wellFormed, by decide, by decide, abcDB_reachableInTables, by decide, by decide,
    (C5_later_key_not_prefix_of_earlier cfgSmall cfgSmall_wellFormed (by decide) (by decide)
      Real.sqrt (abcDB Real.sqrt) abcDB_reachableInTables 0 1 (by decide) (by decide)).2⟩

/-- C5 as stated fails: `abcDB` is reached by inserting under "abc" and then under
"abcd" (both inserts end `ok`, both keys are shorter than a slot); slots 1 and 0 are
distinct slots below `numFiles = 2`, and the key "abc" of slot 0 prefix-matches slot 1:
`strncmp(key_1, key_0, strlen(key_0)) = 0`. -/
theorem C5_prefix_counterexample :
    Reachable cfgSmall Real.sqrt (fun k => strlen k < cfgSmall.O2_FILETABLESIZE)
      (fun _ => True) (abcDB Real.sqrt) ∧
    (abcDB Real.sqrt).hdr.numFiles = 2 ∧
    keyAt cfgSmall (abcDB Real.sqrt) 0 = [97, 98, 99] ∧
    keyAt cfgSmall (abcDB Real.sqrt) 1 = [97, 98, 99, 100] ∧
    slotCompare cfgSmall (abcDB Real.sqrt) 1 (keyAt cfgSmall (abcDB Real.sqrt) 0) = 0 :=
  ⟨abcDB_reachable, by decide, by decide, by decide, by decide⟩

/-- C6: once an insert has ended `ok` the dimension is fixed.  An insert that ends `ok`
leaves a non-zero `dim` equal to the dimension word of its file (so the first insert,
on a database with `dim = 0` and `length = 0`, adopts the file's dimension) and a valid
magic number; on a database with valid magic number and `dim ≠ 0`, every insert whose
file has a different dimension word fails with `DimensionMismatch` and leaves the
database unchanged; and on a database with `dim ≠ 0` every insert, every batch insert
and every L2 retrofit, however it ends, leaves `dim` and the magic number as they
were. -/
theorem C6_dimension_fixed {D : Type} [Zero D] [One D] [Add D] [Mul D] [Div D]
    (cfg : Config) (sqrt : D → D) (db : DB D) (a : InsertArgs D) :
    ((insert cfg sqrt db a).status = Status.ok →
      (insert cfg sqrt db a).db.hdr.dim = a.inFile.dim ∧
      (insert cfg sqrt db a).db.hdr.dim ≠ 0 ∧
      (insert cfg sqrt db a).db.hdr.magic = cfg.O2_MAGIC) ∧
    (db.hdr.magic = cfg.O2_MAGIC → db.hdr.dim ≠ 0 → a.inFile.dim ≠ db.hdr.dim →
      insert cfg sqrt db a = { db := db, status := Status.failed Err.DimensionMismatch }) ∧
    (db.hdr.dim ≠ 0 →
      (insert cfg sqrt db a).db.hdr.dim = db.hdr.dim ∧
      (insert cfg sqrt db a).db.hdr.magic = db.hdr.magic) ∧
    (db.hdr.dim ≠ 0 → ∀ (usingTimes : Bool) (entries : List (BatchEntry D)),
      (batchinsert cfg sqrt db usingTimes entries).db.hdr.dim = db.hdr.dim ∧
      (batchinsert cfg sqrt db usingTimes entries).db.hdr.magic = db.hdr.magic) ∧
    ((l2norm cfg sqrt db).db.hdr.dim = db.hdr.dim ∧
      (l2norm cfg sqrt db).db.hdr.magic = db.hdr.magic) := by
  refine ⟨?_, ?_, ?_, ?_, ?_⟩
  · intro hok
    obtain ⟨dbH, hm, hc, -, -, -, hdim, -, -, -, heq⟩ := insert_ok_inv cfg sqrt db a hok
    obtain ⟨c1, -, -, -, c5, -⟩ := checkDim_ok _ _ _ hc
    obtain ⟨t1, -, t3, -⟩ := insertTimeStamps_dbH
      (a.inFile.nbytes / (sizeofDouble * dbH.dim) % 2 ^ 32) a.usingTimes dbH a.timesFile
      db.timesTable (dbH.length / (dbH.dim * sizeofDouble))
    rw [heq, commit_hdr]
    simp only [t1, t3]
    exact ⟨c5, hdim, c1.trans hm⟩
  · intro hm hd hne
    unfold insert initTables checkDim
    rw [if_neg (not_not.mpr hm)]
    simp only
    rw [if_neg (fun h => hd h.1), if_pos (fun h => hne h.symm)]
  · intro hd
    by_cases hok : (insert cfg sqrt db a).status = Status.ok
    · obtain ⟨dbH, hm, hc, -, -, -, -, -, -, -, heq⟩ := insert_ok_inv cfg sqrt db a hok
      obtain ⟨c1, -, -, -, -, c6⟩ := checkDim_ok _ _ _ hc
      obtain ⟨t1, -, t3, -⟩ := insertTimeStamps_dbH
        (a.inFile.nbytes / (sizeofDouble * dbH.dim) % 2 ^ 32) a.usingTimes dbH a.timesFile
        db.timesTable (dbH.length / (dbH.dim * sizeofDouble))
      have hdbH : dbH = db.hdr := by
        rcases c6 with ⟨d0, _⟩ | h
        · exact absurd d0 hd
        · exact h
      rw [heq, commit_hdr]
      simp only [t1, t3]
      rw [hdbH]
      exact ⟨rfl, rfl⟩
    · rw [insert_hdr_of_not_ok cfg sqrt db a hok]
      exact ⟨rfl, rfl⟩
  · intro hd usingTimes entries
    exact batchinsert_dim cfg sqrt db usingTimes entries hd
  · obtain ⟨f1, -, f3, -⟩ := l2norm_frame cfg sqrt db
    exact ⟨f3, f1⟩

/-- Witness of C6: on the database with one key of `cfgSmall` (dimension 1), the
insert of a file of dimension 2 fails with `DimensionMismatch`, and the first insert
adopted dimension 1. -/
theorem C6_dimension_fixed_witness :
    (insert cfgSmall Real.sqrt (create cfgSmall) (oneVector [97])).status = Status.ok ∧
    (oneKeyDB Real.sqrt).hdr.magic = cfgSmall.O2_MAGIC ∧
    (oneKeyDB Real.sqrt).hdr.dim ≠ 0 ∧
    (raggedInsert : InsertArgs ℝ).inFile.dim ≠ (oneKeyDB Real.sqrt).hdr.dim ∧
    (insert cfgSmall Real.sqrt (create cfgSmall) (oneVector [97])).db.hdr.dim = 1 ∧
    insert cfgSmall Real.sqrt (oneKeyDB Real.sqrt) raggedInsert =
      { db := oneKeyDB Real.sqrt, status := Status.failed Err.DimensionMismatch } :=
  ⟨by decide, by decide, by decide, by decide,
    ((C6_dimension_fixed cfgSmall Real.sqrt (create cfgSmall) (oneVector [97])).1
      (by decide)).1,
    (C6_dimension_fixed cfgSmall Real.sqrt (oneKeyDB Real.sqrt) raggedInsert).2.1
      (by decide) (by decide) (by decide)⟩

/-- C7, amended: the payload never runs into the timestamp table.  An insert for which
`dataoffset + length + (fileSize - 4)` exceeds `timesTableOffset` terminates with an
error and leaves the database unchanged; the error is `Full` when the header, the
dimension and the timestamp checks made before it pass; the same test ends a turn of
the batch insert with `Full`.  After every insert that ended `ok`,
`dataoffset + length ≤ timesTableOffset` (equality is possible). -/
theorem C7_capacity {D : Type} [Zero D] [One D] [Add D] [Mul D] [Div D]
    (cfg : Config) (sqrt : D → D) (db : DB D) (a : InsertArgs D) :
    (timesTableOffset cfg < dataoffset cfg + db.hdr.length + a.inFile.nbytes →
      (insert cfg sqrt db a).db = db ∧
      (∃ e, (insert cfg sqrt db a).status = Status.failed e) ∧
      (db.hdr.magic = cfg.O2_MAGIC →
        (db.hdr.dim = a.inFile.dim ∨ (db.hdr.dim = 0 ∧ db.hdr.length = 0)) →
        (a.usingTimes = true ∨ db.hdr.flags &&& O2_FLAG_TIMES = 0) →
        (insert cfg sqrt db a).status = Status.failed Err.Full)) ∧
    ((insert cfg sqrt db a).status = Status.ok →
      dataoffset cfg + (insert cfg sqrt db a).db.hdr.length ≤ timesTableOffset cfg) ∧
    (∀ (st : BatchState D) (e : BatchEntry D),
      timesTableOffset cfg < dataoffset cfg + (st.dbH.length + e.thisFile.nbytes) →
      batchStep cfg sqrt st e = { st with err := some Err.Full }) := by
  refine ⟨?_, ?_, ?_⟩
  · intro hfull
    unfold insert initTables
    by_cases hm : db.hdr.magic ≠ cfg.O2_MAGIC
    · rw [if_pos hm]
      exact ⟨rfl, ⟨_, rfl⟩, fun h => absurd h hm⟩
    · rw [if_neg hm]
      simp only
      cases hc : checkDim db.hdr a.inFile with
      | error e =>
        simp only
        refine ⟨trivial, ⟨e, rfl⟩, ?_⟩
        intro _ hd _
        exfalso
        unfold checkDim at hc
        split_ifs at hc with h1 h2
        rcases hd with hd | hd
        · exact h2 hd
        · exact h1 hd
      | ok dbH =>
        simp only
        obtain ⟨_, _, c3, c4, _, _⟩ := checkDim_ok _ _ _ hc
        by_cases ht : (!a.usingTimes) = true ∧ dbH.flags &&& O2_FLAG_TIMES ≠ 0
        · rw [if_pos ht]
          refine ⟨rfl, ⟨_, rfl⟩, ?_⟩
          intro _ _ hu
          exfalso
          rcases hu with hu | hu
          · rw [hu] at ht
            simp at ht
          · rw [c4] at ht
            exact ht.2 hu
        · rw [if_neg ht, if_pos (by rw [c3]; exact hfull)]
          exact ⟨rfl, ⟨_, rfl⟩, fun _ _ _ => rfl⟩
  · intro hok
    obtain ⟨dbH, fl, hc, hcap, -, -, -, hh, -, -⟩ := insert_ok_facts cfg sqrt db a hok
    rw [hh]
    simp only
    have := Nat.mod_le (dbH.length + a.inFile.nbytes) (2 ^ 32)
    omega
  · intro st e hfull
    unfold batchStep
    rw [if_pos hfull]

/-- Witness of C7 (amended): after the file of five vectors (40 bytes), a second copy
would end at `60 + 40 + 40 = 140 > 124`: the insert fails with `Full` and leaves the
database unchanged. -/
theorem C7_capacity_witness :
    timesTableOffset cfgSmall <
      dataoffset cfgSmall +
        (insert cfgSmall Real.sqrt (create cfgSmall) fiveVectors).db.hdr.length +
        (fiveVectors : InsertArgs ℝ).inFile.nbytes ∧
    (insert cfgSmall Real.sqrt (insert cfgSmall Real.sqrt (create cfgSmall) fiveVectors).db
      fiveVectors).db = (insert cfgSmall Real.sqrt (create cfgSmall) fiveVectors).db ∧
    (insert cfgSmall Real.sqrt (insert cfgSmall Real.sqrt (create cfgSmall) fiveVectors).db
      fiveVectors).status = Status.failed Err.Full :=
  have h := (C7_capacity cfgSmall Real.sqrt
    (insert cfgSmall Real.sqrt (create cfgSmall) fiveVectors).db fiveVectors).1 (by decide)
  ⟨by decide, h.1, h.2.2 (by decide) (by decide) (by decide)⟩

/-- C7 as stated fails: the insert of a file of 64 bytes into the empty database of
`cfgSmall`, whose payload region has 64 bytes, has
`dataoffset + length + numVectors*dim*8 = timesTableOffset`, which is not strictly
less than `timesTableOffset`; it does not fail with `Full`, it ends `ok`, and
afterwards `dataoffset + length = timesTableOffset`. -/
theorem C7_exact_fit_counterexample :
    ¬ (dataoffset cfgSmall + (create cfgSmall : DB ℝ).hdr.length + 4 * 2 * 8
        < timesTableOffset cfgSmall) ∧
    (insert cfgSmall Real.sqrt (create cfgSmall) fillingInsert).status = Status.ok ∧
    (insert cfgSmall Real.sqrt (create cfgSmall) fillingInsert).db.segTable 0 = 4 ∧
    ¬ (dataoffset cfgSmall +
        (insert cfgSmall Real.sqrt (create cfgSmall) fillingInsert).db.hdr.length
        < timesTableOffset cfgSmall) := by
  decide

/-- C8, evaluation at the failing input: with `O2_MAXFILES = 2`, three inserts of one
vector each under the keys "a", "b", "c" all end `ok`; the third is made with
`numFiles = O2_MAXFILES`, writes key slot 2 and `segTable[2]`, and leaves
`numFiles = 3 > O2_MAXFILES`. -/
theorem C8_numFiles_exceeds_MAXFILES :
    (insert cfgSmall Real.sqrt (create cfgSmall) (oneVector [97])).status = Status.ok ∧
    (insert cfgSmall Real.sqrt (oneKeyDB Real.sqrt) (oneVector [98])).status = Status.ok ∧
    (insert cfgSmall Real.sqrt (oneKeyDB Real.sqrt) (oneVector [98])).db.hdr.numFiles
      = cfgSmall.O2_MAXFILES ∧
    (insert cfgSmall Real.sqrt
      (insert cfgSmall Real.sqrt (oneKeyDB Real.sqrt) (oneVector [98])).db
      (oneVector [99])).status = Status.ok ∧
    (threeKeysDB Real.sqrt).hdr.numFiles = 3 ∧
    cfgSmall.O2_MAXFILES < (threeKeysDB Real.sqrt).hdr.numFiles ∧
    (threeKeysDB Real.sqrt).segTable 2 = 1 ∧
    keyAt cfgSmall (threeKeysDB Real.sqrt) 2 = [99] := by
  decide

/-- C10, amended: on a database whose L2_NORMED flag is already set (and whose magic
number is valid), the L2 retrofit fails with `AlreadyL2Normed` when the database holds
payload (`length > 0`); when the database is empty it does not fail, it ends `ok`; in
both cases payload, norm table and header are left unchanged. -/
theorem C10_l2norm_reentry {D : Type} [Zero D] [One D] [Add D] [Mul D] [Div D]
    (cfg : Config) (sqrt : D → D) (db : DB D)
    (hm : db.hdr.magic = cfg.O2_MAGIC) (hflag : db.hdr.flags &&& O2_FLAG_L2NORM ≠ 0) :
    (0 < db.hdr.length → db.hdr.dim ≠ 0 →
      l2norm cfg sqrt db = { db := db, status := Status.failed Err.AlreadyL2Normed }) ∧
    (db.hdr.length = 0 → l2norm cfg sqrt db = { db := db, status := Status.ok }) :=
  l2norm_flagged cfg sqrt db hm hflag

/-- Witness of C10 (amended): the database of test 0012 after `create`, `l2norm` and
the insert of two vectors is flagged and holds payload; a further `l2norm` fails with
`AlreadyL2Normed` and changes nothing. -/
theorem C10_l2norm_reentry_witness :
    (insert cfgSmall Real.sqrt (normedEmptyDB Real.sqrt) testfeature).db.hdr.magic
      = cfgSmall.O2_MAGIC ∧
    (insert cfgSmall Real.sqrt (normedEmptyDB Real.sqrt) testfeature).db.hdr.flags
      &&& O2_FLAG_L2NORM ≠ 0 ∧
    0 < (insert cfgSmall Real.sqrt (normedEmptyDB Real.sqrt) testfeature).db.hdr.length ∧
    (insert cfgSmall Real.sqrt (normedEmptyDB Real.sqrt) testfeature).db.hdr.dim ≠ 0 ∧
    l2norm cfgSmall Real.sqrt
        (insert cfgSmall Real.sqrt (normedEmptyDB Real.sqrt) testfeature).db =
      { db := (insert cfgSmall Real.sqrt (normedEmptyDB Real.sqrt) testfeature).db,
        status := Status.failed Err.AlreadyL2Normed } :=
  ⟨by decide, by decide, by decide, by decide,
    (C10_l2norm_reentry cfgSmall Real.sqrt
      (insert cfgSmall Real.sqrt (normedEmptyDB Real.sqrt) testfeature).db (by decide)
      (by decide)).1 (by decide) (by decide)⟩

/-- C10 as stated fails: the empty database after `create` and `l2norm` has its
L2_NORMED flag set; a second `l2norm` on it does not fail, it ends `ok`. -/
theorem C10_empty_reentry_counterexample :
    (normedEmptyDB Real.sqrt).hdr.flags &&& O2_FLAG_L2NORM ≠ 0 ∧
    (normedEmptyDB Real.sqrt).hdr.length = 0 ∧
    (l2norm cfgSmall Real.sqrt (normedEmptyDB Real.sqrt)).status = Status.ok := by
  decide


/-- C11, evaluation at the failing input: on the empty database of `cfgSmall` and the
feature file of test 0012 (two vectors of norm 1/2), both orders end `ok` and agree on
the header, the key table, the segment table and the payload, but not on the norm
table: `l2norm` after `insert` stores the two norms in cells 0 and 1, `insert` after
`l2norm` stores them in cells 2 and 3 and leaves cells 0 and 1 zero. -/
theorem C11_retrofit_and_insert_do_not_commute :
    (l2norm cfgSmall Real.sqrt
      (insert cfgSmall Real.sqrt (create cfgSmall) testfeature).db).status = Status.ok ∧
    (insert cfgSmall Real.sqrt (normedEmptyDB Real.sqrt) testfeature).status = Status.ok ∧
    (insertedThenNormedDB Real.sqrt).hdr = (normedThenInsertedDB Real.sqrt).hdr ∧
    (insertedThenNormedDB Real.sqrt).fileTable = (normedThenInsertedDB Real.sqrt).fileTable ∧
    (insertedThenNormedDB Real.sqrt).segTable = (normedThenInsertedDB Real.sqrt).segTable ∧
    (insertedThenNormedDB Real.sqrt).dataBuf = (normedThenInsertedDB Real.sqrt).dataBuf ∧
    (insertedThenNormedDB Real.sqrt).l2normTable 0 = 1 / 2 ∧
    (insertedThenNormedDB Real.sqrt).l2normTable 1 = 1 / 2 ∧
    (insertedThenNormedDB Real.sqrt).l2normTable 2 = 0 ∧
    (insertedThenNormedDB Real.sqrt).l2normTable 3 = 0 ∧
    (normedThenInsertedDB Real.sqrt).l2normTable 0 = 0 ∧
    (normedThenInsertedDB Real.sqrt).l2normTable 1 = 0 ∧
    (normedThenInsertedDB Real.sqrt).l2normTable 2 = 1 / 2 ∧
    (normedThenInsertedDB Real.sqrt).l2normTable 3 = 1 / 2 ∧
    (insertedThenNormedDB Real.sqrt).l2normTable ≠
      (normedThenInsertedDB Real.sqrt).l2normTable := by
  have s0 : sumSquares (testfeature : InsertArgs ℝ).inFile.indata 0 2 0 = (1 / 2) ^ 2 := by
    simp [sumSquares, testfeature, plainInsert, fileOf]
    norm_num
  have s1 : sumSquares (testfeature : InsertArgs ℝ).inFile.indata 2 2 0 = (1 / 2) ^ 2 := by
    simp [sumSquares, testfeature, plainInsert, fileOf]
    norm_num
  have n0 : Real.sqrt (sumSquares (testfeature : InsertArgs ℝ).inFile.indata 0 2 0) = 1 / 2 := by
    rw [s0, Real.sqrt_sq (by norm_num)]
  have n1 : Real.sqrt (sumSquares (testfeature : InsertArgs ℝ).inFile.indata 2 2 0) = 1 / 2 := by
    rw [s1, Real.sqrt_sq (by norm_num)]
  have a0 : (insertedThenNormedDB Real.sqrt).l2normTable 0
      = Real.sqrt (sumSquares (testfeature : InsertArgs ℝ).inFile.indata 0 2 0) := rfl
  have a1 : (insertedThenNormedDB Real.sqrt).l2normTable 1
      = Real.sqrt (sumSquares (testfeature : InsertArgs ℝ).inFile.indata 2 2 0) := rfl
  have b2 : (normedThenInsertedDB Real.sqrt).l2normTable 2
      = Real.sqrt (sumSquares (testfeature : InsertArgs ℝ).inFile.indata 0 2 0) := rfl
  have b3 : (normedThenInsertedDB Real.sqrt).l2normTable 3
      = Real.sqrt (sumSquares (testfeature : InsertArgs ℝ).inFile.indata 2 2 0) := rfl
  have b0 : (normedThenInsertedDB Real.sqrt).l2normTable 0 = 0 := rfl
  refine ⟨by decide, by decide, by decide, rfl, rfl, rfl, ?_, ?_, rfl, rfl, b0, rfl, ?_, ?_, ?_⟩
  · rw [a0, n0]
  · rw [a1, n1]
  · rw [b2, n0]
  · rw [b3, n1]
  · intro h
    have h0 := congrFun h 0
    rw [a0, n0, b0] at h0
    norm_num at h0


/-- C12, evaluation at the failing input: the steps of test 0006 over the rationals
with `Rat.sqrt`, whatever the fresh arrays `qNorm` and `sNorm` hold.  After `create`, the insert of `(0, 1)`, `(1, 0)` under "testfeature" and
`l2norm`, the sequence query with sequence length 1 at query point 0 (the defaults
`resultlength = 10`, `sequencehop = 1`) prints one line for the query `(0, 0.5)` and
one for `(0.5, 0)`, with `pointNN = 10` and with `pointNN = 1` alike, and in all four
runs it is the line of rank 0 of a list whose only entry was stored at rank 9:
distance 0 and the indices `~0`, the key read from slot `~0`.  The query holds one
shingle, so `qMeanL2` equals its norm and the power test `qNorm[j] > qMeanL2` fails for
every pair: every distance is 0, the mean is 0, and the search from the last rank down
stores a mean of 0 at the last rank.  With `resultlength = 1` the line is
`testfeature 0 0 1` for both queries. -/
theorem C12_sequence_query_of_test_0006 (junkQ junkS : Nat → ℚ) :
    (insert cfgSmall Rat.sqrt (create cfgSmall) feature0006).status = Status.ok ∧
    (l2norm cfgSmall Rat.sqrt
      (insert cfgSmall Rat.sqrt (create cfgSmall) feature0006).db).status = Status.ok ∧
    keyAt cfgSmall (db0006 Rat.sqrt) 0 = [116, 101, 115, 116, 102, 101, 97, 116, 117, 114, 101] ∧
    answerOf (segSequenceQuery cfgSmall Rat.sqrt plainEnv
        (settingsAt QueryType.O2_FLAG_SEQUENCE_QUERY 0 10 10) (db0006 Rat.sqrt) queryA
        junkQ junkS)
      = some [{ slot := noIndex, distance := 0, qpos := noIndex, spos := noIndex }] ∧
    answerOf (segSequenceQuery cfgSmall Rat.sqrt plainEnv
        (settingsAt QueryType.O2_FLAG_SEQUENCE_QUERY 0 1 10) (db0006 Rat.sqrt) queryA
        junkQ junkS)
      = some [{ slot := noIndex, distance := 0, qpos := noIndex, spos := noIndex }] ∧
    answerOf (segSequenceQuery cfgSmall Rat.sqrt plainEnv
        (settingsAt QueryType.O2_FLAG_SEQUENCE_QUERY 0 10 10) (db0006 Rat.sqrt) queryB
        junkQ junkS)
      = some [{ slot := noIndex, distance := 0, qpos := noIndex, spos := noIndex }] ∧
    answerOf (segSequenceQuery cfgSmall Rat.sqrt plainEnv
        (settingsAt QueryType.O2_FLAG_SEQUENCE_QUERY 0 1 10) (db0006 Rat.sqrt) queryB
        junkQ junkS)
      = some [{ slot := noIndex, distance := 0, qpos := noIndex, spos := noIndex }] ∧
    answerOf (segSequenceQuery cfgSmall Rat.sqrt plainEnv
        (settingsAt QueryType.O2_FLAG_SEQUENCE_QUERY 0 10 1) (db0006 Rat.sqrt) queryA
        junkQ junkS)
      = some [{ slot := 0, distance := 0, qpos := 0, spos := 1 }] ∧
    answerOf (segSequenceQuery cfgSmall Rat.sqrt plainEnv
        (settingsAt QueryType.O2_FLAG_SEQUENCE_QUERY 0 10 1) (db0006 Rat.sqrt) queryB
        junkQ junkS)
      = some [{ slot := 0, distance := 0, qpos := 0, spos := 1 }] := by
  have hmagic : (db0006 Rat.sqrt).hdr.magic = cfgSmall.O2_MAGIC := by decide!
  have hdim : (db0006 Rat.sqrt).hdr.dim = 2 := by decide!
  have hfiles : (db0006 Rat.sqrt).hdr.numFiles = 1 := by decide!
  have hflags : (db0006 Rat.sqrt).hdr.flags = 1 := by decide!
  have hseg : (db0006 Rat.sqrt).segTable 0 = 2 := by decide!
  have run : ∀ (pointNN segNN : Nat) (inFile : FeatureFile ℚ),
      0 < pointNN ∧ pointNN ≤ 1000 → 0 < segNN ∧ segNN ≤ 1000 →
      inFile.dim = 2 → inFile.nbytes = 16 →
      ∃ o, segSequenceQuery cfgSmall Rat.sqrt plainEnv
          (settingsAt QueryType.O2_FLAG_SEQUENCE_QUERY 0 pointNN segNN) (db0006 Rat.sqrt) inFile
          junkQ junkS = Except.ok o ∧
        o.segs.entry (segNN - 1) = (0, 0, 0, 1) ∧
        (∀ i, i + 1 < segNN → o.segs.entry i = (0, noIndex, noIndex, noIndex)) ∧
        o.rows = [segRow o.segs 0] := by
    intro pointNN segNN inFile hK hS hd hn
    have hinit : initTables cfgSmall (db0006 Rat.sqrt) (some inFile) =
        Except.ok (db0006 Rat.sqrt).hdr := by
      unfold initTables checkDim
      rw [if_neg (not_not.mpr hmagic)]
      simp only
      rw [if_neg (fun h => absurd h.1 (by rw [hdim]; decide)),
        if_neg (by rw [hd, hdim]; decide)]
    exact segSequenceQuery_single_shingle cfgSmall Rat.sqrt _ (db0006 Rat.sqrt) inFile
      junkQ junkS (db0006 Rat.sqrt).hdr hinit (by rw [hdim]; decide)
      (by rw [hflags]; decide) rfl rfl rfl rfl
      (by rw [hn, hdim]; decide) hK hS hfiles hseg
  have sentinel : ∀ (pointNN : Nat) (inFile : FeatureFile ℚ),
      0 < pointNN ∧ pointNN ≤ 1000 → inFile.dim = 2 → inFile.nbytes = 16 →
      answerOf (segSequenceQuery cfgSmall Rat.sqrt plainEnv
          (settingsAt QueryType.O2_FLAG_SEQUENCE_QUERY 0 pointNN 10) (db0006 Rat.sqrt) inFile
          junkQ junkS)
        = some [{ slot := noIndex, distance := 0, qpos := noIndex, spos := noIndex }] := by
    intro pointNN inFile hK hd hn
    obtain ⟨o, h1, _, h3, h4⟩ := run pointNN 10 inFile hK (by decide) hd hn
    rw [h1]
    unfold answerOf
    simp only
    rw [h4]
    have := h3 0 (by decide)
    unfold SegList.entry at this
    unfold segRow
    simp only [Prod.mk.injEq] at this
    rw [this.1, this.2.1, this.2.2.1, this.2.2.2]
  have last : ∀ (inFile : FeatureFile ℚ), inFile.dim = 2 → inFile.nbytes = 16 →
      answerOf (segSequenceQuery cfgSmall Rat.sqrt plainEnv
          (settingsAt QueryType.O2_FLAG_SEQUENCE_QUERY 0 10 1) (db0006 Rat.sqrt) inFile
          junkQ junkS)
        = some [{ slot := 0, distance := 0, qpos := 0, spos := 1 }] := by
    intro inFile hd hn
    obtain ⟨o, h1, h2, _, h4⟩ := run 10 1 inFile (by decide) (by decide) hd hn
    rw [h1]
    unfold answerOf
    simp only
    rw [h4]
    unfold SegList.entry at h2
    unfold segRow
    simp only [Prod.mk.injEq] at h2
    rw [h2.1, h2.2.1, h2.2.2.1, h2.2.2.2]
  exact ⟨by decide!, by decide!, by decide!, sentinel 10 queryA (by decide) rfl rfl,
    sentinel 1 queryA (by decide) rfl rfl, sentinel 10 queryB (by decide) rfl rfl,
    sentinel 1 queryB (by decide) rfl rfl, last queryA rfl rfl, last queryB rfl rfl⟩


/-- C13, evaluation at the failing input and what holds besides it.  In `segPointQuery`
the arrays of the segment level have `segNN` cells (lines 1158-1161), but the shift
that makes room for a new entry starts at cell `pointNN-1` (line 1312), where
`segSequenceQuery` starts at `segNN-1` (line 1740).  With `pointNN = 5` and
`segNN = 4` on the database of test 0006, the segment is stored at rank 0, so the loop
`for(l=pointNN-1; l>n; l--)` starts with `l = 4` and stores `segDistances[4]`,
`segIDs[4]`, `segQIndexes[4]` and `segSIndexes[4]` (the score `1/5` of the segment
finds rank 0 in the list of four zeros): for every list and every store at
a rank `n < top`, cell `top` receives the content of cell `top-1`, also when `top` is
not below the number `K` of declared cells.  What these stores hit is not defined.
When `pointNN <= segNN` the stores stay inside the arrays and both lists of
`segPointQuery` are in non-increasing order on exit; the lists of `pointQuery` and of
`segSequenceQuery`, whose shifts start at the last cell of the array they move, are in
non-increasing order for every `pointNN` and `segNN`. -/
theorem C13_segment_shift_stores_past_arrays {D : Type} [LinearOrderedField D] :
    answerOf (segPointQuery cfgSmall Rat.sqrt plainEnv
        (settingsAt QueryType.O2_FLAG_SEG_QUERY 0 5 4) (db0006 Rat.sqrt) queryA
        (fun _ => 0))
      = some [{ slot := 0, distance := 1 / 5, qpos := 0, spos := 0 }] ∧
    (settingsAt QueryType.O2_FLAG_SEG_QUERY 0 5 4).segNN
      ≤ (settingsAt QueryType.O2_FLAG_SEG_QUERY 0 5 4).pointNN - 1 ∧
    findRank (SegList.init ℚ).segDistances (1 / 5 : ℚ) 4 = some 0 ∧
    (insertSeg 4 (5 - 1) (1 / 5 : ℚ) 0 0 0 (SegList.init ℚ)).1.entry 4
      = (SegList.init ℚ).entry 3 ∧
    (∀ (env : QueryEnv) (s : QuerySettings) (dim numVectors : Nat) (query : Nat → D)
        (db : DB D) (seg : Nat) (st : PointList D × SegList D),
      ∃ (thisDist : D) (q k : Nat),
        (segPointStep env s dim numVectors query db seg st).2
          = (insertSeg s.segNN (s.pointNN - 1) thisDist seg q k st.2).1) ∧
    (∀ (K top n : Nat) (x : D) (seg q k : Nat) (rs : SegList D),
      findRank rs.segDistances x K = some n → n < top →
        (insertSeg K top x seg q k rs).1.entry top = rs.entry (top - 1)) ∧
    (∀ (cfg : Config) (sqrt : D → D) (env : QueryEnv) (s : QuerySettings) (db : DB D)
        (inFile : FeatureFile D) (junkQ junkS : Nat → D),
      (∀ o, pointQuery cfg sqrt env s db inFile junkQ = Except.ok o →
        SortedDesc o.list.distances s.pointNN) ∧
      (s.pointNN ≤ s.segNN →
        ∀ o, segPointQuery cfg sqrt env s db inFile junkQ = Except.ok o →
          SortedDesc o.points.distances s.pointNN ∧
            SortedDesc o.segs.segDistances s.segNN) ∧
      (∀ o, segSequenceQuery cfg sqrt env s db inFile junkQ junkS = Except.ok o →
        SortedDesc o.points.distances s.pointNN ∧
          SortedDesc o.segs.segDistances s.segNN)) := by
  refine ⟨by decide!, by decide, by decide!, by decide!, ?_, ?_, ?_⟩
  · intro env s dim numVectors query db seg st
    exact ⟨_, _, _, rfl⟩
  · intro K top n x seg q k rs hf hn
    unfold insertSeg
    rw [hf]
    simp only
    rw [segList_place_entry, if_neg (by omega), if_pos ⟨hn, Nat.le_refl _⟩]
  · intro cfg sqrt env s db inFile junkQ junkS
    refine ⟨?_, ?_, ?_⟩
    · intro o h
      obtain ⟨dbH, query, nv, j, qp, _, _, _, _, _, hl, _⟩ :=
        pointQuery_ok cfg sqrt env s db inFile junkQ o h
      rw [hl]
      exact pointLoop_sorted _ _ _ _ _ _ _ _ _ _ (sortedDesc_init_point _)
    · intro _ o h
      exact segPointQuery_sorted cfg sqrt env s db inFile junkQ o h
    · intro o h
      exact segSequenceQuery_sorted cfg sqrt env s db inFile junkQ junkS o h


/-- C14, amended: the point query at a query point, without timestamps, on a database
in which at least `pointNN` vectors have a positive inner product with the query
vector.  It returns when its tests pass (the dimension is not 0, `pointNN` is in
`1..O2_MAXNN`, the query point lies in the query file), and when it returns, the
`pointNN` ranks are in non-increasing order of distance, they hold `pointNN` different vectors of the database, each with its own
inner product, which is positive, as distance and the query point as query position,
and every vector of the database that is not in the list has an inner product no
greater than the last rank.  (The query vector is the normed one when the database is
L2 normed.) -/
theorem C14_point_query_nearest {D : Type} [LinearOrderedField D] (cfg : Config)
    (sqrt : D → D) (env : QueryEnv) (s : QuerySettings) (db : DB D) (inFile : FeatureFile D)
    (junk : Nat → D) (dbH : dbTableHeaderT)
    (hinit : initTables cfg db (some inFile) = Except.ok dbH)
    (hq : s.usingQueryPoint = true) (hdur : ∀ a b, env.durOk a b = true)
    (hpos : s.pointNN ≤ positives (pointScore sqrt dbH s db inFile junk)
      (dbH.length / (dbH.dim * sizeofDouble))) :
    (dbH.dim ≠ 0 → 0 < s.pointNN ∧ s.pointNN ≤ env.O2_MAXNN →
      queryPointTooLarge s.queryPoint
        (inFile.nbytes / (sizeofDouble * dbH.dim) % 2 ^ 32) = false →
      ∃ o, pointQuery cfg sqrt env s db inFile junk = Except.ok o) ∧
    ∀ o, pointQuery cfg sqrt env s db inFile junk = Except.ok o →
      SortedDesc o.list.distances s.pointNN ∧
      (∀ k, k < s.pointNN →
        o.list.sIndexes k < dbH.length / (dbH.dim * sizeofDouble) ∧
        o.list.distances k = pointScore sqrt dbH s db inFile junk (o.list.sIndexes k) ∧
        0 < o.list.distances k ∧
        o.list.qIndexes k = s.queryPoint) ∧
      (∀ k k', k < s.pointNN → k' < s.pointNN →
        o.list.sIndexes k = o.list.sIndexes k' → k = k') ∧
      (∀ g, g < dbH.length / (dbH.dim * sizeofDouble) →
        (∃ k, k < s.pointNN ∧ o.list.sIndexes k = g) ∨
        pointScore sqrt dbH s db inFile junk g ≤ o.list.distances (s.pointNN - 1)) := by
  refine ⟨fun hdim hK hqp => ⟨_, pointQuery_eq cfg sqrt env s db inFile junk dbH hinit hdim hK
    (fun hc => by rw [hqp] at hc; exact Bool.noConfusion hc.2)⟩, ?_⟩
  intro o h
  obtain ⟨dbH', query, nv, j, qp, hinit', _, hK0, hqp, hquery, hl, _⟩ :=
    pointQuery_ok cfg sqrt env s db inFile junk o h
  rw [hinit] at hinit'
  cases hinit'
  obtain ⟨e1, e2, e3, e4⟩ := hqp hq
  have hqi : (nv + (2 ^ 32 - 1 - 0)) % 2 ^ 32 = s.queryPoint := by
    unfold queryPointTooLarge at e4
    simp only [Nat.reducePow, decide_eq_false_iff_not] at e4 ⊢
    rw [e3]
    simp only [Nat.reducePow]
    omega
  have hsc : vectorScore dbH.dim query db.dataBuf qp =
      pointScore sqrt dbH s db inFile junk := by
    funext g
    unfold pointScore
    rw [hquery, e1]
  have hinv := pointScan_near env hdur s.pointNN dbH.dim
    (dbH.length / (dbH.dim * sizeofDouble)) query db.dataBuf qp s.queryPoint hK0
    (dbH.length / (dbH.dim * sizeofDouble)) 0 (PointList.init D) 0 (by omega) (by omega)
    (nearInv_init _ _ _)
  have hlist : o.list = pointScan env s.pointNN dbH.dim (dbH.length / (dbH.dim * sizeofDouble))
      query db.dataBuf qp s.queryPoint (dbH.length / (dbH.dim * sizeofDouble)) 0
      (PointList.init D) := by
    rw [hl, e2]
    unfold pointLoop
    rw [hqi]
    rfl
  rw [← hlist, hsc] at hinv
  have hfull := nearInv_full _ _ _ _ _ hinv hpos
  obtain ⟨i1, _, i3, i4, i5, _⟩ := hinv
  refine ⟨i1, ?_, ?_, ?_⟩
  · intro k hk
    obtain ⟨a, b, c⟩ := i3 k hk (hfull k hk)
    exact ⟨a, b, hfull k hk, c⟩
  · intro k k' hk hk' he
    exact i4 k k' hk hk' (hfull k hk) (hfull k' hk') he
  · intro g hg
    rcases i5 g hg with ⟨i, a, _, c⟩ | b
    · exact Or.inl ⟨i, a, c⟩
    · exact Or.inr b

/-- Witness of C14 (amended): the point query with `pointNN = 1` at query point 0 for
the query vector `(1)` on the database that holds the vectors `(1)`, `(0)`, `(0)`, of
which one has a positive inner product: the list holds vector 0 with distance 1, and
the other vectors score no more. -/
theorem C14_point_query_nearest_witness :
    1 ≤ positives (pointScore Rat.sqrt (sparseVectorsDB Rat.sqrt).hdr
          (settingsAt QueryType.O2_FLAG_POINT_QUERY 0 1 1) (sparseVectorsDB Rat.sqrt) queryOne
          (fun _ => 0))
        ((sparseVectorsDB Rat.sqrt).hdr.length /
          ((sparseVectorsDB Rat.sqrt).hdr.dim * sizeofDouble)) ∧
    ∃ o, pointQuery cfgSmall Rat.sqrt plainEnv
        (settingsAt QueryType.O2_FLAG_POINT_QUERY 0 1 1) (sparseVectorsDB Rat.sqrt) queryOne
        (fun _ => 0) = Except.ok o ∧
      o.list.entry 0 = (1, 0, 0) ∧
      SortedDesc o.list.distances 1 ∧
      (∀ g, g < 3 → (∃ k, k < 1 ∧ o.list.sIndexes k = g) ∨
        pointScore Rat.sqrt (sparseVectorsDB Rat.sqrt).hdr
          (settingsAt QueryType.O2_FLAG_POINT_QUERY 0 1 1) (sparseVectorsDB Rat.sqrt) queryOne
          (fun _ => 0) g ≤ o.list.distances 0) := by
  have hok : (match pointQuery cfgSmall Rat.sqrt plainEnv
        (settingsAt QueryType.O2_FLAG_POINT_QUERY 0 1 1) (sparseVectorsDB Rat.sqrt) queryOne
        (fun _ => 0) with
      | Except.ok o => decide (o.list.entry 0 = (1, 0, 0))
      | Except.error _ => false) = true := by decide!
  have hlen : (sparseVectorsDB Rat.sqrt).hdr.length /
      ((sparseVectorsDB Rat.sqrt).hdr.dim * sizeofDouble) = 3 := by decide!
  have hp : 1 ≤ positives (pointScore Rat.sqrt (sparseVectorsDB Rat.sqrt).hdr
        (settingsAt QueryType.O2_FLAG_POINT_QUERY 0 1 1) (sparseVectorsDB Rat.sqrt) queryOne
        (fun _ => 0))
      ((sparseVectorsDB Rat.sqrt).hdr.length /
        ((sparseVectorsDB Rat.sqrt).hdr.dim * sizeofDouble)) := by decide!
  refine ⟨hp, ?_⟩
  cases h : pointQuery cfgSmall Rat.sqrt plainEnv
      (settingsAt QueryType.O2_FLAG_POINT_QUERY 0 1 1) (sparseVectorsDB Rat.sqrt) queryOne
      (fun _ => 0) with
  | error e => rw [h] at hok; cases hok
  | ok o =>
    rw [h] at hok
    have he := of_decide_eq_true hok
    have hthm := (C14_point_query_nearest cfgSmall Rat.sqrt plainEnv
      (settingsAt QueryType.O2_FLAG_POINT_QUERY 0 1 1) (sparseVectorsDB Rat.sqrt) queryOne
      (fun _ => 0) (sparseVectorsDB Rat.sqrt).hdr rfl rfl (fun _ _ => rfl) hp).2 o h
    refine ⟨o, rfl, he, hthm.1, ?_⟩
    intro g hg
    exact hthm.2.2.2 g (by rw [hlen]; exact hg)

/-- C14 as stated fails when an inner product is not positive, because the ranks start
from the distance 0.  For the query vector `(-1)` and `pointNN = 1` on the database
that holds `(1)`, `(3)`, `(2)`, every inner product is negative: the rank keeps its
initial content (distance 0, no vector) and no line is printed.  For the query vector
`(1)` and `pointNN = 3` on the database that holds `(1)`, `(0)`, `(0)`, rank 1 keeps
its initial content although the database holds three vectors. -/
theorem C14_nonpositive_scores_counterexample :
    (threeVectorsDB Rat.sqrt).hdr.length /
      ((threeVectorsDB Rat.sqrt).hdr.dim * sizeofDouble) = 3 ∧
    pointScore Rat.sqrt (threeVectorsDB Rat.sqrt).hdr
      (settingsAt QueryType.O2_FLAG_POINT_QUERY 0 1 1) (threeVectorsDB Rat.sqrt)
      queryMinusOne (fun _ => 0) 0 = -1 ∧
    (match pointQuery cfgSmall Rat.sqrt plainEnv
        (settingsAt QueryType.O2_FLAG_POINT_QUERY 0 1 1) (threeVectorsDB Rat.sqrt)
        queryMinusOne (fun _ => 0) with
      | Except.ok o => decide (o.list.entry 0 = (0, noIndex, noIndex) ∧ o.rows = [])
      | Except.error _ => false) = true ∧
    (sparseVectorsDB Rat.sqrt).hdr.length /
      ((sparseVectorsDB Rat.sqrt).hdr.dim * sizeofDouble) = 3 ∧
    (match pointQuery cfgSmall Rat.sqrt plainEnv
        (settingsAt QueryType.O2_FLAG_POINT_QUERY 0 3 3) (sparseVectorsDB Rat.sqrt)
        queryOne (fun _ => 0) with
      | Except.ok o =>
        decide (o.list.entry 0 = (1, 0, 0) ∧ o.list.entry 1 = (0, noIndex, noIndex) ∧
          o.list.entry 2 = (0, 0, 2) ∧
          o.rows = [{ slot := 0, distance := 1, qpos := 0, spos := 0 },
                    { slot := 0, distance := 0, qpos := 0, spos := 2 }])
      | Except.error _ => false) = true := by
  refine ⟨by decide!, by decide!, by decide!, by decide!, by decide!⟩


/-- C15, amended: what an insertion does with ties, for sorted lists of `K >= 1` ranks.
In `pointQuery`, at the point level of `segPointQuery` and at the segment level of
both segment engines, every entry above the last rank whose score is at least the
candidate's keeps its rank and its content, so a candidate never moves ahead of an
equal score; but a candidate whose score equals that of the last entry takes the
place of that entry.  At the segment level this is stated for a shift that starts
inside the array, `top < K` (in `segPointQuery`, where `top = pointNN-1` and
`K = segNN`, that is `pointNN <= segNN`; in `segSequenceQuery` `top = segNN-1`).  In
the insertion of `segSequenceQuery` at the point level a
candidate whose score equals that of the entry at rank `i` is stored at a rank
`m <= i`, ahead of it, and that entry moves one rank down. -/
theorem C15_ties_in_insertion {D : Type} [LinearOrderedField D] (K top : Nat) (x : D)
    (seg q s : Nat) (r : PointList D) (rs : SegList D) (hK : 0 < K)
    (hr : SortedDesc r.distances K) (hrs : SortedDesc rs.segDistances K) :
    (∀ i, i + 1 < K → x ≤ r.distances i → (insertPoint K x q s r).entry i = r.entry i) ∧
    (x = r.distances (K - 1) → (insertPoint K x q s r).entry (K - 1) = (x, q, s)) ∧
    (top < K → ∀ i, i + 1 < K → x ≤ rs.segDistances i →
      (insertSeg K top x seg q s rs).1.entry i = rs.entry i) ∧
    (top < K → x = rs.segDistances (K - 1) →
      (insertSeg K top x seg q s rs).1.entry (K - 1) = (x, seg, q, s)) ∧
    (∀ i, i < K → x = r.distances i →
      ∃ m, m ≤ i ∧ (insertNBest K x q s r).entry m = (x, q, s) ∧
        (i + 1 < K → (insertNBest K x q s r).entry (i + 1) = r.entry i)) :=
  ⟨fun i hi hx => insertPoint_keeps K x q s r i hi hx,
   fun hx => insertPoint_tie_last K x q s r hK hr hx,
   fun _ i hi hx => insertSeg_keeps K top x seg q s rs i hi hx,
   fun _ hx => insertSeg_tie_last K top x seg q s rs hK hrs hx,
   fun i hi hx => insertNBest_tie K x q s r i hi hx⟩

/-- Witness of C15 (amended): lists of two ranks that hold the scores 2 and 1, and a
candidate of score 1: in `insertPoint` and `insertSeg` the entry of score 2 stays and
the candidate replaces the entry of score 1; in `insertNBest` the candidate is stored
at rank 1 as well, ahead of the entry it ties with, which leaves the list. -/
theorem C15_ties_in_insertion_witness :
    (insertPoint 2 (1 : ℚ) 0 7
        (insertPoint 2 1 0 6 (insertPoint 2 (1 + 1) 0 5 (PointList.init ℚ)))).entry 0
      = (1 + 1, 0, 5) ∧
    (insertPoint 2 (1 : ℚ) 0 7
        (insertPoint 2 1 0 6 (insertPoint 2 (1 + 1) 0 5 (PointList.init ℚ)))).entry 1
      = (1, 0, 7) ∧
    (∃ m, m ≤ 1 ∧
      (insertNBest 2 (1 : ℚ) 0 7
        (insertPoint 2 1 0 6 (insertPoint 2 (1 + 1) 0 5 (PointList.init ℚ)))).entry m
        = (1, 0, 7)) ∧
    (insertSeg 2 1 (0 : ℚ) 0 0 7 (SegList.init ℚ)).1.entry 1 = (0, 0, 0, 7) :=
  have hs : SortedDesc
      (insertPoint 2 (1 : ℚ) 0 6 (insertPoint 2 (1 + 1) 0 5 (PointList.init ℚ))).distances 2 :=
    insertPoint_sorted _ _ _ _ _ (insertPoint_sorted _ _ _ _ _ (sortedDesc_init_point _))
  have h := C15_ties_in_insertion 2 1 (1 : ℚ) 0 0 7
    (insertPoint 2 1 0 6 (insertPoint 2 (1 + 1) 0 5 (PointList.init ℚ))) (SegList.init ℚ)
    (by decide) hs (sortedDesc_init_seg _)
  ⟨(h.1 0 (by decide) (by decide!)).trans (by decide!),
   h.2.1 (by decide!),
   (h.2.2.2.2 1 (by decide) (by decide!)).imp (fun _ hm => ⟨hm.1, hm.2.1⟩),
   (C15_ties_in_insertion 2 1 (0 : ℚ) 0 0 7 (PointList.init ℚ) (SegList.init ℚ) (by decide)
      (sortedDesc_init_point _) (sortedDesc_init_seg _)).2.2.2.1 (by decide) rfl⟩

/-- C15 as stated fails: an equal score does evict, and in the sequence query it also
outranks.  With one rank, the second of two candidates of score 1 replaces the first
(`insertPoint`); the point query with `pointNN = 1` on the database that holds the
vector `(1)` twice answers with the second vector, position 1.  With two ranks, the
second of two candidates of score 1 is stored ahead of the first (`insertNBest`). -/
theorem C15_equal_score_evicts_counterexample :
    (insertPoint 1 (1 : ℚ) 0 0 (PointList.init ℚ)).entry 0 = (1, 0, 0) ∧
    (insertPoint 1 (1 : ℚ) 0 1 (insertPoint 1 (1 : ℚ) 0 0 (PointList.init ℚ))).entry 0
      = (1, 0, 1) ∧
    (match pointQuery cfgSmall Rat.sqrt plainEnv
        (settingsAt QueryType.O2_FLAG_POINT_QUERY 0 1 1) (equalVectorsDB Rat.sqrt)
        queryOne (fun _ => 0) with
      | Except.ok o => o.rows
      | Except.error _ => []) = [{ slot := 0, distance := 1, qpos := 0, spos := 1 }] ∧
    (insertNBest 2 (1 : ℚ) 0 1 (insertNBest 2 (1 : ℚ) 0 0 (PointList.init ℚ))).entry 0
      = (1, 0, 1) ∧
    (insertNBest 2 (1 : ℚ) 0 1 (insertNBest 2 (1 : ℚ) 0 0 (PointList.init ℚ))).entry 1
      = (1, 0, 0) := by
  refine ⟨by decide!, by decide!, by decide!, by decide!, by decide!⟩


/-- C16, amended: the line printed for a winner of the point query.  Let `g` be the
global index held at rank `k`, below the number of vectors counted in the segment
table, `Σ segTable[i < numFiles]` (a sum that fits an `unsigned`).  Then a line is
printed for rank `k`; its key is the one slot `l` with
`Σ segTable[i < l] <= g < Σ segTable[i <= l]`, its position is `g - Σ segTable[i < l]`,
which is below `segTable[l]`, and its distance and query position are those of rank
`k`.  For `g` not below that sum no line is printed.  In a state that satisfies P2,
the sum is the number of vectors scanned, `length / (8 * dim)`. -/
theorem C16_key_and_position_of_winner {D : Type} (db : DB D) (r : PointList D) (k : Nat)
    (hsum : segSum db.segTable db.hdr.numFiles < 2 ^ 32) :
    (r.sIndexes k < segSum db.segTable db.hdr.numFiles →
      ∃ l, l < db.hdr.numFiles ∧
        segSum db.segTable l ≤ r.sIndexes k ∧ r.sIndexes k < segSum db.segTable (l + 1) ∧
        (∀ l', segSum db.segTable l' ≤ r.sIndexes k →
          r.sIndexes k < segSum db.segTable (l' + 1) → l' = l) ∧
        pointRow db.segTable db.hdr.numFiles r k =
          some { slot := l, distance := r.distances k, qpos := r.qIndexes k,
                 spos := r.sIndexes k - segSum db.segTable l } ∧
        r.sIndexes k - segSum db.segTable l < db.segTable l) ∧
    (segSum db.segTable db.hdr.numFiles ≤ r.sIndexes k →
      pointRow db.segTable db.hdr.numFiles r k = none) ∧
    (0 < db.hdr.dim →
      db.hdr.length = 8 * db.hdr.dim * segSum db.segTable db.hdr.numFiles →
      db.hdr.length / (db.hdr.dim * sizeofDouble) = segSum db.segTable db.hdr.numFiles) := by
  obtain ⟨h1, h2⟩ := keyScan_spec db.segTable (r.sIndexes k) db.hdr.numFiles hsum
    db.hdr.numFiles 0 (by omega) (Nat.zero_le _)
  refine ⟨?_, ?_, ?_⟩
  · intro hg
    obtain ⟨l, _, a2, a3, a4, a5⟩ := h1 hg
    refine ⟨l, a2, a3, a4, ?_, ?_, ?_⟩
    · intro l' b1 b2
      by_contra hne
      rcases Nat.lt_or_gt_of_ne hne with hlt | hgt
      · have := segSum_mono db.segTable (l' + 1) l (by omega)
        omega
      · have := segSum_mono db.segTable (l + 1) l' (by omega)
        omega
    · unfold pointRow
      have a5' : keyScan db.segTable (r.sIndexes k) db.hdr.numFiles 0 0 =
          some (l, r.sIndexes k - segSum db.segTable l) := a5
      rw [a5']
    · have : segSum db.segTable (l + 1) = segSum db.segTable l + db.segTable l := rfl
      omega
  · intro hg
    unfold pointRow
    have a5' : keyScan db.segTable (r.sIndexes k) db.hdr.numFiles 0 0 = none := h2 hg
    rw [a5']
  · intro hd hl
    rw [hl]
    unfold sizeofDouble
    rw [Nat.mul_comm 8 db.hdr.dim]
    exact Nat.mul_div_cancel_left _ (by omega)

/-- Witness of C16 (amended): the point query with `pointNN = 2` on the database that holds the
vectors `(1)`, `(3)`, `(2)` under one key; rank 0 holds the global index 1, and the
line printed for it names slot 0 and position 1. -/
theorem C16_key_and_position_of_winner_witness :
    segSum (threeVectorsDB Rat.sqrt).segTable (threeVectorsDB Rat.sqrt).hdr.numFiles = 3 ∧
    (∃ o, pointQuery cfgSmall Rat.sqrt plainEnv
        (settingsAt QueryType.O2_FLAG_POINT_QUERY 0 2 2) (threeVectorsDB Rat.sqrt) queryOne
        (fun _ => 0) = Except.ok o ∧
      o.list.sIndexes 0 = 1 ∧
      pointRow (threeVectorsDB Rat.sqrt).segTable (threeVectorsDB Rat.sqrt).hdr.numFiles
        o.list 0 = some { slot := 0, distance := 1 + 1 + 1, qpos := 0, spos := 1 }) := by
  refine ⟨by decide!, ?_⟩
  have hok : (match pointQuery cfgSmall Rat.sqrt plainEnv
        (settingsAt QueryType.O2_FLAG_POINT_QUERY 0 2 2) (threeVectorsDB Rat.sqrt) queryOne
        (fun _ => 0) with
      | Except.ok o => decide (o.list.entry 0 = (1 + 1 + 1, 0, 1))
      | Except.error _ => false) = true := by decide!
  cases h : pointQuery cfgSmall Rat.sqrt plainEnv
      (settingsAt QueryType.O2_FLAG_POINT_QUERY 0 2 2) (threeVectorsDB Rat.sqrt) queryOne
      (fun _ => 0) with
  | error e => rw [h] at hok; cases hok
  | ok o =>
    rw [h] at hok
    have he : o.list.entry 0 = (1 + 1 + 1, 0, 1) := of_decide_eq_true hok
    have hd : o.list.distances 0 = 1 + 1 + 1 := congrArg Prod.fst he
    have hq : o.list.qIndexes 0 = 0 := congrArg (fun p => p.2.1) he
    have hs : o.list.sIndexes 0 = 1 := congrArg (fun p => p.2.2) he
    refine ⟨o, rfl, hs, ?_⟩
    obtain ⟨l, _, a2, a3, _, a5, _⟩ :=
      (C16_key_and_position_of_winner (threeVectorsDB Rat.sqrt) o.list 0 (by decide!)).1
        (by rw [hs]; decide!)
    have hl : l = 0 := by
      have h3 : segSum (threeVectorsDB Rat.sqrt).segTable 1 = 3 := by decide!
      have h0 : segSum (threeVectorsDB Rat.sqrt).segTable 0 = 0 := rfl
      by_contra hne
      have := segSum_mono (threeVectorsDB Rat.sqrt).segTable 1 l (by omega)
      rw [hs] at a2
      omega
    rw [a5, hl, hd, hq, hs]
    rfl

/-- C16 as stated fails in a state that does not satisfy P2.  After the inserts of two
files of 24 bytes with dimension 2, the header counts `length / (8 * dim) = 3` vectors
and the segment table two.  The point query with `pointNN = 3` for the query vector
`(1, 1)` ranks first the vector with global index 2, below the total vector count;
there is no slot `l` with `Σ segTable[i < l] <= 2 < Σ segTable[i <= l]`, and no line is
printed for this winner: the answer has the two lines of the other ranks. -/
theorem C16_winner_without_key_counterexample :
    (insert cfgSmall Rat.sqrt (raggedDB Rat.sqrt) raggedInsertB).status = Status.ok ∧
    (raggedTwiceDB Rat.sqrt).hdr.length /
      ((raggedTwiceDB Rat.sqrt).hdr.dim * sizeofDouble) = 3 ∧
    segSum (raggedTwiceDB Rat.sqrt).segTable (raggedTwiceDB Rat.sqrt).hdr.numFiles = 2 ∧
    (match pointQuery cfgSmall Rat.sqrt plainEnv
        (settingsAt QueryType.O2_FLAG_POINT_QUERY 0 3 3) (raggedTwiceDB Rat.sqrt)
        queryOneOne (fun _ => 0) with
      | Except.ok o =>
        decide (o.list.entry 0 = (1 + 1 + 1 + 1 + 1, 0, 2) ∧
          pointRow (raggedTwiceDB Rat.sqrt).segTable (raggedTwiceDB Rat.sqrt).hdr.numFiles
            o.list 0 = none ∧
          o.rows = [{ slot := 1, distance := 1 + 1 + 1 + 1, qpos := 0, spos := 0 },
                    { slot := 0, distance := 1 + 1 + 1, qpos := 0, spos := 0 }])
      | Except.error _ => false) = true := by
  refine ⟨by decide!, by decide!, by decide!, by decide!⟩


/-- C17, evaluation at the failing inputs.  The test `queryPoint>numVectors-1` of
`pointQuery` and `segPointQuery` rejects exactly the query points `>= numVectors` when
the query file holds at least one vector, but for a query file without vectors
`numVectors-1` wraps to the largest `unsigned` and no query point is rejected: both
engines run on the file that holds only its dimension word, with query point 0.  The
test `queryPoint>numVectors || queryPoint>numVectors-wL+1` of `segSequenceQuery` lets
the query point `numVectors` through when the sequence length is 1 (the engine runs on
a file of one vector with query point 1), and lets every query point up to
`numVectors` through when `wL > numVectors + 1`, where `numVectors-wL+1` wraps. -/
theorem C17_query_point_not_rejected :
    (∀ qp nv, 0 < nv → nv < 2 ^ 32 → (queryPointTooLarge qp nv = true ↔ nv ≤ qp)) ∧
    (∀ qp, qp < 2 ^ 32 → queryPointTooLarge qp 0 = false) ∧
    (queryNone : FeatureFile ℚ).nbytes / (sizeofDouble * (queryNone : FeatureFile ℚ).dim) = 0 ∧
    (pointQuery cfgSmall Rat.sqrt plainEnv (settingsAt QueryType.O2_FLAG_POINT_QUERY 0 1 1)
      (threeVectorsDB Rat.sqrt) queryNone (fun _ => 0)).toBool = true ∧
    (segPointQuery cfgSmall Rat.sqrt plainEnv (settingsAt QueryType.O2_FLAG_SEG_QUERY 0 1 1)
      (threeVectorsDB Rat.sqrt) queryNone (fun _ => 0)).toBool = true ∧
    (queryA : FeatureFile ℚ).nbytes / (sizeofDouble * (queryA : FeatureFile ℚ).dim) = 1 ∧
    sequenceQueryPointTooLarge 1 1 1 = false ∧
    (segSequenceQuery cfgSmall Rat.sqrt plainEnv
      (settingsAt QueryType.O2_FLAG_SEQUENCE_QUERY 1 1 1) (db0006 Rat.sqrt) queryA
      (fun _ => 0) (fun _ => 0)).toBool = true ∧
    (∀ qp nv wL, nv + 1 < wL → wL < 2 ^ 32 → qp ≤ nv →
      sequenceQueryPointTooLarge qp nv wL = false) := by
  refine ⟨?_, ?_, by decide, by decide!, by decide!, by decide, by decide, by decide!, ?_⟩
  · intro qp nv h1 h2
    unfold queryPointTooLarge
    simp only [Nat.reducePow, decide_eq_true_eq] at h2 ⊢
    omega
  · intro qp h
    unfold queryPointTooLarge
    simp only [Nat.reducePow, decide_eq_false_iff_not] at h ⊢
    omega
  · intro qp nv wL h1 h2 h3
    unfold sequenceQueryPointTooLarge
    simp only [Nat.reducePow, decide_eq_false_iff_not] at h2 ⊢
    omega


/-- C18: the QUERY branch of `processArgs` accepts its options exactly when the query
type is one of "point", "segment", "sequence", each of `pointnn`, `resultlength`,
`sequencelength` and `sequencehop` lies in 1..1000, and `--exhaustive` is given or
`qpoint` lies in 0..10000.  On acceptance `segNN` is `resultlength`, the other three
members hold their options, `usingQueryPoint` is set exactly when `--exhaustive` is
not given, in which case `queryPoint` is `qpoint`, and `queryType` is the type named.
(`MAXSTR`, the bound of the comparisons, exceeds the length of the three names; the
option string holds no NUL before its end.) -/
theorem C18_processArgs_query (MAXSTR : Nat) (hM : 8 < MAXSTR) (args : QueryOptions)
    (hq : ∀ b ∈ args.QUERY_arg, b ≠ 0) :
    ((∃ s, processArgs MAXSTR args = Except.ok s) ↔
      (args.QUERY_arg = strPoint ∨ args.QUERY_arg = strSegment ∨
        args.QUERY_arg = strSequence) ∧
      (1 ≤ args.pointnn_arg ∧ args.pointnn_arg ≤ 1000) ∧
      (1 ≤ args.resultlength_arg ∧ args.resultlength_arg ≤ 1000) ∧
      (1 ≤ args.sequencelength_arg ∧ args.sequencelength_arg ≤ 1000) ∧
      (1 ≤ args.sequencehop_arg ∧ args.sequencehop_arg ≤ 1000) ∧
      (args.exhaustive_flag = true ∨ (0 ≤ args.qpoint_arg ∧ args.qpoint_arg ≤ 10000))) ∧
    (∀ s, processArgs MAXSTR args = Except.ok s →
      (s.segNN : Int) = args.resultlength_arg ∧
      (s.pointNN : Int) = args.pointnn_arg ∧
      (s.sequenceLength : Int) = args.sequencelength_arg ∧
      (s.sequenceHop : Int) = args.sequencehop_arg ∧
      (s.usingQueryPoint = true ↔ args.exhaustive_flag = false) ∧
      (args.exhaustive_flag = false → (s.queryPoint : Int) = args.qpoint_arg) ∧
      (s.queryType = QueryType.O2_FLAG_POINT_QUERY ↔ args.QUERY_arg = strPoint) ∧
      (s.queryType = QueryType.O2_FLAG_SEG_QUERY ↔ args.QUERY_arg = strSegment) ∧
      (s.queryType = QueryType.O2_FLAG_SEQUENCE_QUERY ↔ args.QUERY_arg = strSequence)) := by
  obtain ⟨t1, t2, t3, t4⟩ := queryTypeOf_spec MAXSTR hM args.QUERY_arg hq
  unfold processArgs
  cases hqt : queryTypeOf MAXSTR args.QUERY_arg with
  | none =>
    simp only
    obtain ⟨n1, n2, n3⟩ := t4.mp hqt
    refine ⟨⟨fun h => ?_, fun h => ?_⟩, fun s hs => ?_⟩
    · obtain ⟨s, hs⟩ := h; cases hs
    · exfalso
      rcases h.1 with h4 | h4 | h4
      · exact n2 h4
      · exact n1 h4
      · exact n3 h4
    · cases hs
  | some qt =>
    simp only
    obtain ⟨r1, r2⟩ := checkRanges_spec qt args
    have hty : args.QUERY_arg = strPoint ∨ args.QUERY_arg = strSegment ∨
        args.QUERY_arg = strSequence := by
      cases qt with
      | O2_FLAG_SEG_QUERY => exact Or.inr (Or.inl (t1.mp hqt))
      | O2_FLAG_POINT_QUERY => exact Or.inl (t2.mp hqt)
      | O2_FLAG_SEQUENCE_QUERY => exact Or.inr (Or.inr (t3.mp hqt))
    refine ⟨⟨fun h => ⟨hty, r1.mp h⟩, fun h => r1.mpr h.2⟩, fun s hs => ?_⟩
    obtain ⟨a1, a2, a3, a4, a5, a6, a7⟩ := r2 s hs
    refine ⟨a1, a2, a3, a4, a5, a6, ?_, ?_, ?_⟩
    · rw [a7, ← t2, hqt]; simp
    · rw [a7, ← t1, hqt]; simp
    · rw [a7, ← t3, hqt]; simp

/-- Witness of C18: the options `-Q sequence -l 1` of tests 0006 and 0012 with the
defaults of the other options (`qpoint` 0, `pointnn` 10, `resultlength` 10,
`sequencehop` 1) are accepted, for `MAXSTR = 512`. -/
theorem C18_processArgs_query_witness :
    (∃ s, processArgs 512
      { QUERY_arg := strSequence, exhaustive_flag := false, qpoint_arg := 0,
        pointnn_arg := 10, resultlength_arg := 10, sequencelength_arg := 1,
        sequencehop_arg := 1 } = Except.ok s) ∧
    processArgs 512
      { QUERY_arg := strSequence, exhaustive_flag := false, qpoint_arg := 0,
        pointnn_arg := 10, resultlength_arg := 10, sequencelength_arg := 1,
        sequencehop_arg := 1 } =
      Except.ok (settingsAt QueryType.O2_FLAG_SEQUENCE_QUERY 0 10 10) :=
  ⟨(C18_processArgs_query 512 (by decide)
      { QUERY_arg := strSequence, exhaustive_flag := false, qpoint_arg := 0,
        pointnn_arg := 10, resultlength_arg := 10, sequencelength_arg := 1,
        sequencehop_arg := 1 } (by decide)).1.mpr (by decide),
   rfl⟩


/-- C19, amended: for a feature file with `(fileSize - 4) / (8 * dim) = 0` vectors,
`insert` leaves the database unchanged and never ends `ok`; it returns with the
zero-vector warning exactly when the checks made before the vector count pass: the
magic number, the dimension (an empty database adopts it, any other must agree), the
times file on a TIMESTAMPED database, the capacity, the key not yet present, and a
dimension other than zero. -/
theorem C19_zero_vector_insert {D : Type} [Zero D] [One D] [Add D] [Mul D] [Div D]
    (cfg : Config) (sqrt : D → D) (db : DB D) (a : InsertArgs D)
    (hz : a.inFile.nbytes / (sizeofDouble * a.inFile.dim) = 0) :
    (insert cfg sqrt db a).db = db ∧
    (insert cfg sqrt db a).status ≠ Status.ok ∧
    ((insert cfg sqrt db a).status = Status.warnEmpty ↔
      db.hdr.magic = cfg.O2_MAGIC ∧
      ((db.hdr.dim = 0 ∧ db.hdr.length = 0) ∨ db.hdr.dim = a.inFile.dim) ∧
      (a.usingTimes = true ∨ db.hdr.flags &&& O2_FLAG_TIMES = 0) ∧
      dataoffset cfg + db.hdr.length + a.inFile.nbytes ≤ timesTableOffset cfg ∧
      alreadyInserted cfg db.fileTable a.key db.hdr.numFiles = false ∧
      a.inFile.dim ≠ 0) := by
  unfold insert initTables
  by_cases hm : db.hdr.magic ≠ cfg.O2_MAGIC
  · rw [if_pos hm]
    refine ⟨rfl, by simp, ?_⟩
    constructor
    · intro h; simp at h
    · intro h; exact absurd h.1 hm
  · rw [if_neg hm]
    simp only
    cases hc : checkDim db.hdr a.inFile with
    | error er =>
      simp only
      refine ⟨trivial, by simp, ?_⟩
      constructor
      · intro h; simp at h
      · intro h
        exfalso
        unfold checkDim at hc
        rcases h.2.1 with h2 | h2
        · rw [if_pos h2] at hc; cases hc
        · split_ifs at hc with h4 h5
          exact absurd h2 h5
    | ok dbH =>
      simp only
      obtain ⟨_, c2, c3, c4, c5, c6⟩ := checkDim_ok _ _ _ hc
      have hd : (db.hdr.dim = 0 ∧ db.hdr.length = 0) ∨ db.hdr.dim = a.inFile.dim := by
        rcases c6 with c6 | c6
        · exact Or.inl c6
        · right; rw [← c5, c6]
      have hnv : a.inFile.nbytes / (sizeofDouble * a.inFile.dim) % 2 ^ 32 = 0 := by
        rw [hz, Nat.zero_mod]
      rw [c2, c3, c4, c5]
      split_ifs with h1 h2 h3 h4
      · refine ⟨rfl, by simp, ?_⟩
        constructor
        · intro h; simp at h
        · intro h
          exfalso
          rcases h.2.2.1 with h6 | h6
          · rw [h6] at h1; simp at h1
          · exact h1.2 h6
      · refine ⟨rfl, by simp, ?_⟩
        constructor
        · intro h; simp at h
        · intro h; exfalso; omega
      · refine ⟨rfl, by simp, ?_⟩
        constructor
        · intro h; simp at h
        · intro h; rw [h.2.2.2.2.1] at h3; simp at h3
      · refine ⟨rfl, by simp, ?_⟩
        constructor
        · intro h; simp at h
        · intro h; exact absurd h4 h.2.2.2.2.2
      · refine ⟨rfl, by simp, ?_⟩
        constructor
        · intro _
          refine ⟨not_not.mp hm, hd, ?_, by omega, by simpa using h3, h4⟩
          by_cases hu : a.usingTimes = true
          · exact Or.inl hu
          · right
            by_contra h6
            exact h1 ⟨by simpa using hu, h6⟩
        · intro _; trivial

/-- Witness of C19 (amended): a file holding only the dimension word 1, presented under
the new key "b" to the database that holds one vector of dimension 1 under "a". -/
theorem C19_zero_vector_insert_witness :
    (emptyFile [98] 1 : InsertArgs ℝ).inFile.nbytes /
      (sizeofDouble * (emptyFile [98] 1 : InsertArgs ℝ).inFile.dim) = 0 ∧
    (insert cfgSmall Real.sqrt (oneKeyDB Real.sqrt) (emptyFile [98] 1)).db
      = oneKeyDB Real.sqrt ∧
    (insert cfgSmall Real.sqrt (oneKeyDB Real.sqrt) (emptyFile [98] 1)).status
      = Status.warnEmpty :=
  have h := C19_zero_vector_insert cfgSmall Real.sqrt (oneKeyDB Real.sqrt)
    (emptyFile [98] 1) (by decide)
  ⟨by decide, h.1, h.2.2.mpr (by decide)⟩

/-- C19 as stated fails: a file holding only its dimension word is not always met with
the warning.  Presented without a times file to the database that holds one vector
with timestamps, it ends in the error "Must use timestamps with timestamped database";
presented with dimension word 2 to a database of dimension 1, it ends in the error
of the dimension test. -/
theorem C19_zero_vector_error_counterexample :
    (timedDB Real.sqrt).hdr.flags &&& O2_FLAG_TIMES ≠ 0 ∧
    (emptyFile [98] 1 : InsertArgs ℝ).inFile.nbytes /
      (sizeofDouble * (emptyFile [98] 1 : InsertArgs ℝ).inFile.dim) = 0 ∧
    (insert cfgSmall Real.sqrt (timedDB Real.sqrt) (emptyFile [98] 1)).status
      = Status.failed Err.TimesRequired ∧
    (emptyFile [98] 2 : InsertArgs ℝ).inFile.nbytes /
      (sizeofDouble * (emptyFile [98] 2 : InsertArgs ℝ).inFile.dim) = 0 ∧
    (insert cfgSmall Real.sqrt (oneKeyDB Real.sqrt) (emptyFile [98] 2)).status
      = Status.failed Err.DimensionMismatch := by
  refine ⟨by decide, by decide, by decide, by decide, by decide⟩

/-- C20, amended: once the TIMESTAMPED flag is set in the mapped header, no insert, no
batch insert and no L2 retrofit clears it, and every later insert without a times file
fails and leaves the database unchanged.  The error is "Must use timestamps with
timestamped database" when the magic number and the dimension of the file pass the
tests of `initTables`; otherwise it is the error of the test that fails. -/
theorem C20_times_flag_persists {D : Type} [Zero D] [One D] [Add D] [Mul D] [Div D]
    (cfg : Config) (sqrt : D → D) (db : DB D)
    (hflag : db.hdr.flags &&& O2_FLAG_TIMES ≠ 0) :
    (∀ a : InsertArgs D, (insert cfg sqrt db a).db.hdr.flags &&& O2_FLAG_TIMES ≠ 0) ∧
    (∀ (usingTimes : Bool) (entries : List (BatchEntry D)),
      (batchinsert cfg sqrt db usingTimes entries).db.hdr.flags &&& O2_FLAG_TIMES ≠ 0) ∧
    (l2norm cfg sqrt db).db.hdr.flags &&& O2_FLAG_TIMES ≠ 0 ∧
    (∀ a : InsertArgs D, a.usingTimes = false →
      (insert cfg sqrt db a).db = db ∧
      (db.hdr.magic ≠ cfg.O2_MAGIC →
        (insert cfg sqrt db a).status = Status.failed Err.CorruptHeader) ∧
      (db.hdr.magic = cfg.O2_MAGIC → ¬ (db.hdr.dim = 0 ∧ db.hdr.length = 0) →
        db.hdr.dim ≠ a.inFile.dim →
        (insert cfg sqrt db a).status = Status.failed Err.DimensionMismatch) ∧
      (db.hdr.magic = cfg.O2_MAGIC →
        ((db.hdr.dim = 0 ∧ db.hdr.length = 0) ∨ db.hdr.dim = a.inFile.dim) →
        (insert cfg sqrt db a).status = Status.failed Err.TimesRequired)) :=
  ⟨fun a => insert_flags cfg sqrt db a hflag,
   fun u es => batchinsert_flags cfg sqrt db u es hflag,
   l2norm_flags cfg sqrt db hflag,
   fun a hu => insert_without_times cfg sqrt db a hflag hu⟩

/-- Witness of C20 (amended): the database that holds one vector with timestamps; the
first insert, which supplied the times file, set the flag, and the insert of a second
vector of the same dimension without a times file fails with the timestamp error. -/
theorem C20_times_flag_persists_witness :
    (create cfgSmall : DB ℝ).hdr.flags &&& O2_FLAG_TIMES = 0 ∧
    (insert cfgSmall Real.sqrt (create cfgSmall) timedVector).status = Status.ok ∧
    (timedDB Real.sqrt).hdr.flags &&& O2_FLAG_TIMES ≠ 0 ∧
    (l2norm cfgSmall Real.sqrt (timedDB Real.sqrt)).db.hdr.flags &&& O2_FLAG_TIMES ≠ 0 ∧
    (insert cfgSmall Real.sqrt (timedDB Real.sqrt) (oneVector [98])).db = timedDB Real.sqrt ∧
    (insert cfgSmall Real.sqrt (timedDB Real.sqrt) (oneVector [98])).status
      = Status.failed Err.TimesRequired :=
  have h := C20_times_flag_persists cfgSmall Real.sqrt (timedDB Real.sqrt) (by decide)
  ⟨by decide, by decide, by decide, h.2.2.1, (h.2.2.2 (oneVector [98]) rfl).1,
    (h.2.2.2 (oneVector [98]) rfl).2.2.2 (by decide) (by decide)⟩

/-- C20 as stated fails in the error it names: on the database of dimension 1 that holds
one vector with timestamps, the insert without a times file of a file whose dimension
word is 2 fails in the dimension test of `initTables`, which comes first. -/
theorem C20_dimension_test_first_counterexample :
    (timedDB Real.sqrt).hdr.flags &&& O2_FLAG_TIMES ≠ 0 ∧
    (plainInsert [98] 2 16 [1, 1] : InsertArgs ℝ).usingTimes = false ∧
    (insert cfgSmall Real.sqrt (timedDB Real.sqrt) (plainInsert [98] 2 16 [1, 1])).status
      = Status.failed Err.DimensionMismatch ∧
    (insert cfgSmall Real.sqrt (timedDB Real.sqrt) (plainInsert [98] 2 16 [1, 1])).status
      ≠ Status.failed Err.TimesRequired := by
  refine ⟨by decide, rfl, by decide, by decide⟩


/-- C21, counterexample: on the database that holds one vector of dimension 1 under key
"a" and is not L2 normed, the sequence query with the query file of dimension 2 ends
in the dimension error of `initTables`, which runs before the L2 test, and not in
`NotL2Normed`. -/
theorem C21_dimension_error_first_counterexample :
    (oneKeyDB Rat.sqrt).hdr.flags &&& O2_FLAG_L2NORM = 0 ∧
    (∀ junkQ junkS : Nat → ℚ,
      segSequenceQuery cfgSmall Rat.sqrt plainEnv
          (settingsAt QueryType.O2_FLAG_SEQUENCE_QUERY 0 1 1) (oneKeyDB Rat.sqrt) queryA
          junkQ junkS
        = Except.error (QueryErr.Init Err.DimensionMismatch) ∧
      segSequenceQuery cfgSmall Rat.sqrt plainEnv
          (settingsAt QueryType.O2_FLAG_SEQUENCE_QUERY 0 1 1) (oneKeyDB Rat.sqrt) queryA
          junkQ junkS
        ≠ Except.error QueryErr.NotL2Normed) := by
  refine ⟨by decide!, ?_⟩
  intro junkQ junkS
  have h : segSequenceQuery cfgSmall Rat.sqrt plainEnv
      (settingsAt QueryType.O2_FLAG_SEQUENCE_QUERY 0 1 1) (oneKeyDB Rat.sqrt) queryA
      junkQ junkS = Except.error (QueryErr.Init Err.DimensionMismatch) := by
    have h1 : initTables cfgSmall (oneKeyDB Rat.sqrt) (some (queryA : FeatureFile ℚ))
        = Except.error Err.DimensionMismatch := by
      have hm : (oneKeyDB Rat.sqrt).hdr.magic = cfgSmall.O2_MAGIC := by decide!
      have hd : (oneKeyDB Rat.sqrt).hdr.dim = 1 := by decide!
      unfold initTables checkDim
      rw [if_neg (not_not.mpr hm)]
      simp only
      rw [if_neg (fun h => absurd h.1 (by rw [hd]; decide)),
        if_pos (by rw [hd]; decide)]
    unfold segSequenceQuery
    rw [h1]
  refine ⟨h, ?_⟩
  rw [h]
  intro h2
  cases h2

/-- C21, amended: on a database whose L2_NORMED flag is not set the sequence query
never returns an answer, for every query file, every setting and whatever the fresh
arrays hold.  It ends in the failure of `initTables` when that fails (wrong magic
number, or a query file whose dimension is not the one of the database), in the
division by zero at line 1396 when the dimension in use is 0, and in `NotL2Normed` in
every other case. -/
theorem C21_sequence_query_requires_l2norm {D : Type} [LinearOrderedField D] (cfg : Config)
    (sqrt : D → D) (env : QueryEnv) (s : QuerySettings) (db : DB D) (inFile : FeatureFile D)
    (junkQ junkS : Nat → D) (hflag : db.hdr.flags &&& O2_FLAG_L2NORM = 0) :
    answerOf (segSequenceQuery cfg sqrt env s db inFile junkQ junkS) = none ∧
    segSequenceQuery cfg sqrt env s db inFile junkQ junkS =
      (match initTables cfg db (some inFile) with
       | Except.error e => Except.error (QueryErr.Init e)
       | Except.ok dbH =>
         if dbH.dim = 0 then Except.error QueryErr.DivideByZero
         else Except.error QueryErr.NotL2Normed) := by
  have h : segSequenceQuery cfg sqrt env s db inFile junkQ junkS =
      (match initTables cfg db (some inFile) with
       | Except.error e => Except.error (QueryErr.Init e)
       | Except.ok dbH =>
         if dbH.dim = 0 then Except.error QueryErr.DivideByZero
         else Except.error QueryErr.NotL2Normed) := by
    unfold segSequenceQuery
    cases hi : initTables cfg db (some inFile) with
    | error e => rfl
    | ok dbH =>
      simp only
      by_cases hd : dbH.dim = 0
      · rw [if_pos hd, if_pos hd]
      · rw [if_neg hd, if_neg hd, if_pos (by rw [initTables_flags cfg db inFile dbH hi]; exact hflag)]
  refine ⟨?_, h⟩
  rw [h]
  cases initTables cfg db (some inFile) with
  | error e => rfl
  | ok dbH =>
    simp only
    split_ifs <;> rfl

/-- C21, witness: the database that holds one vector of dimension 1 and is not L2
normed, queried with a file of dimension 1, ends in `NotL2Normed`. -/
theorem C21_sequence_query_requires_l2norm_witness :
    (oneKeyDB Rat.sqrt).hdr.flags &&& O2_FLAG_L2NORM = 0 ∧
    segSequenceQuery cfgSmall Rat.sqrt plainEnv
        (settingsAt QueryType.O2_FLAG_SEQUENCE_QUERY 0 1 1) (oneKeyDB Rat.sqrt) queryOne
        (fun _ => 0) (fun _ => 0)
      = Except.error QueryErr.NotL2Normed :=
  ⟨by decide!,
    (C21_sequence_query_requires_l2norm cfgSmall Rat.sqrt plainEnv
      (settingsAt QueryType.O2_FLAG_SEQUENCE_QUERY 0 1 1) (oneKeyDB Rat.sqrt) queryOne
      (fun _ => 0) (fun _ => 0) (by decide!)).2.trans rfl⟩


/-- C22, evaluation at the failing input: the database that holds the three vectors
`(1)`, `(3)`, `(2)` under one key, after `l2norm` (norms 1, 3, 2), whatever the fresh
array `sNorm` holds past its three cells.  The recurrence of line 1444 adds
`*(ps+sequenceLength)`, the norm of vector `i+W`, where the sum of the norms
`i .. i+W-1` needs the norm of vector `i+W-1`.  With `W = 1` the shingle norms computed
are `1, 2, sNorm[3]-1` instead of `1, 3, 2`; with `W = 2` they are `4, 3+sNorm[3]`
instead of `4, 5`: the last one is computed from the cell `sNorm[3]`, which lies past
the segment and past the array.  With `W = 3`, a segment of exactly `W` vectors, the
test `segTable[i]>sequenceLength` of line 1434 skips the segment and its one shingle
norm stays 1 instead of 6.  For every array of norms and every first segment of more
than `W` vectors, shingle norm 1 is shingle norm 0, less the norm of vector 0, plus
the norm of vector `1 + W`. -/
theorem C22_shingle_norms_read_one_ahead (junkS qNorm0 : Nat → ℚ) (numVectors : Nat) :
    (threeNormedDB Rat.sqrt).hdr.numFiles = 1 ∧
    (threeNormedDB Rat.sqrt).segTable 0 = 3 ∧
    (threeNormedDB Rat.sqrt).l2normTable 0 = 1 ∧
    (threeNormedDB Rat.sqrt).l2normTable 1 = 3 ∧
    (threeNormedDB Rat.sqrt).l2normTable 2 = 2 ∧
    (sequenceThresholds (sequenceSettings 1) (threeNormedDB Rat.sqrt).hdr
      (threeNormedDB Rat.sqrt) qNorm0 numVectors junkS).sNorm 0 = 1 ∧
    (sequenceThresholds (sequenceSettings 1) (threeNormedDB Rat.sqrt).hdr
      (threeNormedDB Rat.sqrt) qNorm0 numVectors junkS).sNorm 1 = 2 ∧
    (sequenceThresholds (sequenceSettings 1) (threeNormedDB Rat.sqrt).hdr
      (threeNormedDB Rat.sqrt) qNorm0 numVectors junkS).sNorm 2 = junkS 3 - 1 ∧
    shingleNormOf (threeNormedDB Rat.sqrt).l2normTable 0 1 1 = 3 ∧
    shingleNormOf (threeNormedDB Rat.sqrt).l2normTable 0 1 2 = 2 ∧
    (sequenceThresholds (sequenceSettings 2) (threeNormedDB Rat.sqrt).hdr
      (threeNormedDB Rat.sqrt) qNorm0 numVectors junkS).sNorm 0 = 4 ∧
    (sequenceThresholds (sequenceSettings 2) (threeNormedDB Rat.sqrt).hdr
      (threeNormedDB Rat.sqrt) qNorm0 numVectors junkS).sNorm 1 = 3 + junkS 3 ∧
    shingleNormOf (threeNormedDB Rat.sqrt).l2normTable 0 2 1 = 5 ∧
    (sequenceThresholds (sequenceSettings 3) (threeNormedDB Rat.sqrt).hdr
      (threeNormedDB Rat.sqrt) qNorm0 numVectors junkS).sNorm 0 = 1 ∧
    shingleNormOf (threeNormedDB Rat.sqrt).l2normTable 0 3 0 = 6 ∧
    (∀ (a : Nat → ℚ) (W L : Nat), W < L →
      shingleNorms (fun _ => L) W 1 0 0 a 1 =
        shingleNorms (fun _ => L) W 1 0 0 a 0 - a 0 + a (1 + W)) := by
  have hf : (threeNormedDB Rat.sqrt).hdr.numFiles = 1 := by decide!
  have hs : (threeNormedDB Rat.sqrt).segTable 0 = 3 := by decide!
  have hv : (threeNormedDB Rat.sqrt).hdr.length
      / (sizeofDouble * (threeNormedDB Rat.sqrt).hdr.dim) = 3 := by decide!
  have h0 : (threeNormedDB Rat.sqrt).l2normTable 0 = 1 := by decide!
  have h1 : (threeNormedDB Rat.sqrt).l2normTable 1 = 3 := by decide!
  have h2 : (threeNormedDB Rat.sqrt).l2normTable 2 = 2 := by decide!
  have spec : ∀ W i, shingleNormOf (threeNormedDB Rat.sqrt).l2normTable 0 W i
      = ∑ w in Finset.range W, (threeNormedDB Rat.sqrt).l2normTable (0 + i + w) :=
    fun _ _ => rfl
  refine ⟨hf, hs, h0, h1, h2, ?_, ?_, ?_, ?_, ?_, ?_, ?_, ?_, ?_, ?_,
    fun a W L h => shingleNorms_second W L a h⟩
  · simp [sequenceThresholds, sequenceSettings, shingleNorms, slideNorms, addAhead, hf, hs,
      hv, h0]
  · simp [sequenceThresholds, sequenceSettings, shingleNorms, slideNorms, addAhead, hf, hs,
      hv, h0, h2]
  · simp [sequenceThresholds, sequenceSettings, shingleNorms, slideNorms, addAhead, hf, hs,
      hv, h0, h1, h2]
    ring
  · rw [spec]
    simp [Finset.sum_range_succ, h1]
  · rw [spec]
    simp [Finset.sum_range_succ, h2]
  · simp [sequenceThresholds, sequenceSettings, shingleNorms, slideNorms, addAhead, hf, hs,
      hv, h0, h1]
    norm_num
  · simp [sequenceThresholds, sequenceSettings, shingleNorms, slideNorms, addAhead, hf, hs,
      hv, h0, h1]
  · rw [spec]
    simp [Finset.sum_range_succ, h1, h2]
    norm_num
  · simp [sequenceThresholds, sequenceSettings, shingleNorms, slideNorms, addAhead, hf, hs,
      hv, h0]
  · rw [spec]
    simp [Finset.sum_range_succ, h0, h1, h2]
    norm_num


/-- C23, evaluation at the failing input: the database of two segments of two unit
vectors each, with the norms 4, 4 (key "a") and 1, 1 (key "b"), queried with the file
`(4), (1)` at query point 0 with sequence length 1, the fresh arrays holding zeroes.
The power test reads `sNorm[k]` (lines 1694-1700) with `k` counted from the start of
the segment, for every segment: for segment 1, whose shingles start at cell 2, it reads
the cells of segment 0.  The pair `(0, 0)` of segment 1 is admitted with the score 1 on
the norm 4 of segment 0, where the norm of the segment's own shingle is 1 and differs
from the norm 4 of the query by more than `DIFF_THRESH = 3/4`, so that the score of the
claim is 0.  The answer lists key "b" with the distance 1. -/
theorem C23_power_test_reads_first_segment :
    (loudQuietDB Rat.sqrt).hdr.numFiles = 2 ∧
    (loudQuietDB Rat.sqrt).segTable 0 = 2 ∧
    (loudQuietDB Rat.sqrt).segTable 1 = 2 ∧
    (sequenceThresholds (settingsAt QueryType.O2_FLAG_SEQUENCE_QUERY 0 1 2)
        (loudQuietDB Rat.sqrt).hdr (loudQuietDB Rat.sqrt)
        (unitNorm Rat.sqrt (queryLoud : FeatureFile ℚ).indata 1 2 (fun _ => 0)).2 2
        (fun _ => 0)).qNorm 0 = 4 ∧
    (sequenceThresholds (settingsAt QueryType.O2_FLAG_SEQUENCE_QUERY 0 1 2)
        (loudQuietDB Rat.sqrt).hdr (loudQuietDB Rat.sqrt)
        (unitNorm Rat.sqrt (queryLoud : FeatureFile ℚ).indata 1 2 (fun _ => 0)).2 2
        (fun _ => 0)).sNorm 0 = 4 ∧
    (sequenceThresholds (settingsAt QueryType.O2_FLAG_SEQUENCE_QUERY 0 1 2)
        (loudQuietDB Rat.sqrt).hdr (loudQuietDB Rat.sqrt)
        (unitNorm Rat.sqrt (queryLoud : FeatureFile ℚ).indata 1 2 (fun _ => 0)).2 2
        (fun _ => 0)).sNorm 2 = 1 ∧
    (sequenceThresholds (settingsAt QueryType.O2_FLAG_SEQUENCE_QUERY 0 1 2)
        (loudQuietDB Rat.sqrt).hdr (loudQuietDB Rat.sqrt)
        (unitNorm Rat.sqrt (queryLoud : FeatureFile ℚ).indata 1 2 (fun _ => 0)).2 2
        (fun _ => 0)).DIFF_THRESH = 3 / 4 ∧
    shingleDistance
        (sequenceThresholds (settingsAt QueryType.O2_FLAG_SEQUENCE_QUERY 0 1 2)
          (loudQuietDB Rat.sqrt).hdr (loudQuietDB Rat.sqrt)
          (unitNorm Rat.sqrt (queryLoud : FeatureFile ℚ).indata 1 2 (fun _ => 0)).2 2
          (fun _ => 0))
        (matchedFilter
          (crossCorrelation 1 (unitNorm Rat.sqrt (queryLoud : FeatureFile ℚ).indata 1 2
            (fun _ => 0)).1 (loudQuietDB Rat.sqrt).dataBuf 0
            (segOffsetTable (loudQuietDB Rat.sqrt).segTable 1 1))
          1 1 2 1 0 (fun _ _ => 0))
        1 1 0 0 0 = 1 ∧
    shingleScoreOf
        (sequenceThresholds (settingsAt QueryType.O2_FLAG_SEQUENCE_QUERY 0 1 2)
          (loudQuietDB Rat.sqrt).hdr (loudQuietDB Rat.sqrt)
          (unitNorm Rat.sqrt (queryLoud : FeatureFile ℚ).indata 1 2 (fun _ => 0)).2 2
          (fun _ => 0))
        (matchedFilter
          (crossCorrelation 1 (unitNorm Rat.sqrt (queryLoud : FeatureFile ℚ).indata 1 2
            (fun _ => 0)).1 (loudQuietDB Rat.sqrt).dataBuf 0
            (segOffsetTable (loudQuietDB Rat.sqrt).segTable 1 1))
          1 1 2 1 0 (fun _ _ => 0))
        1 (segSum (loudQuietDB Rat.sqrt).segTable 1) 1 0 0 = 0 ∧
    answerOf (segSequenceQuery cfgSmall Rat.sqrt plainEnv
        (settingsAt QueryType.O2_FLAG_SEQUENCE_QUERY 0 1 2) (loudQuietDB Rat.sqrt) queryLoud
        (fun _ => 0) (fun _ => 0))
      = some [{ slot := 0, distance := 1, qpos := 0, spos := 0 },
              { slot := 1, distance := 1, qpos := 0, spos := 0 }] := by
  refine ⟨by decide!, by decide!, by decide!, by decide!, by decide!, by decide!, by decide!,
    by decide!, by decide!, by decide!⟩


/-- C24, evaluation at the failing input: the database of three segments of one vector
each, with the norms 1, 2 and 4, and sequence length 1, whatever the fresh arrays
hold.  After the mean of segment `i` the pointer `ps` is set to `sNorm + segTable[i]`
(line 1468), the length of segment `i` alone, not the position at which segment `i+1`
starts.  The means of segments 0 and 1 are their own shingle norms 1 and 2; the mean
of segment 2 is read from cell `segTable[1] = 1`, it is 2, the shingle norm of segment
1, where segment 2 starts at cell 2 and its own shingle norm is 4.  The thresholds are
computed as the claim says from the means so obtained: `SILENCE_THRESH` is
`(1+2+2)/3/20 = 1/12` and `DIFF_THRESH` is `(1+2+2)/3/2 = 5/6`, where the own means
give 7/60 and 7/6. -/
theorem C24_segment_mean_reads_other_segment (junkS qNorm0 : Nat → ℚ) (numVectors : Nat) :
    (threeSegmentsDB Rat.sqrt).hdr.numFiles = 3 ∧
    (threeSegmentsDB Rat.sqrt).segTable 0 = 1 ∧
    (threeSegmentsDB Rat.sqrt).segTable 1 = 1 ∧
    (threeSegmentsDB Rat.sqrt).segTable 2 = 1 ∧
    (sequenceThresholds (sequenceSettings 1) (threeSegmentsDB Rat.sqrt).hdr
      (threeSegmentsDB Rat.sqrt) qNorm0 numVectors junkS).sNorm 0 = 1 ∧
    (sequenceThresholds (sequenceSettings 1) (threeSegmentsDB Rat.sqrt).hdr
      (threeSegmentsDB Rat.sqrt) qNorm0 numVectors junkS).sNorm 1 = 2 ∧
    (sequenceThresholds (sequenceSettings 1) (threeSegmentsDB Rat.sqrt).hdr
      (threeSegmentsDB Rat.sqrt) qNorm0 numVectors junkS).sNorm 2 = 4 ∧
    (sequenceThresholds (sequenceSettings 1) (threeSegmentsDB Rat.sqrt).hdr
      (threeSegmentsDB Rat.sqrt) qNorm0 numVectors junkS).sMeanL2 0 = 1 ∧
    (sequenceThresholds (sequenceSettings 1) (threeSegmentsDB Rat.sqrt).hdr
      (threeSegmentsDB Rat.sqrt) qNorm0 numVectors junkS).sMeanL2 1 = 2 ∧
    (sequenceThresholds (sequenceSettings 1) (threeSegmentsDB Rat.sqrt).hdr
      (threeSegmentsDB Rat.sqrt) qNorm0 numVectors junkS).sMeanL2 2 = 2 ∧
    segMeanOf (sequenceThresholds (sequenceSettings 1) (threeSegmentsDB Rat.sqrt).hdr
      (threeSegmentsDB Rat.sqrt) qNorm0 numVectors junkS).sNorm
      (segSum (threeSegmentsDB Rat.sqrt).segTable 2) 1 = 4 ∧
    (sequenceThresholds (sequenceSettings 1) (threeSegmentsDB Rat.sqrt).hdr
      (threeSegmentsDB Rat.sqrt) qNorm0 numVectors junkS).SILENCE_THRESH = 1 / 12 ∧
    (sequenceThresholds (sequenceSettings 1) (threeSegmentsDB Rat.sqrt).hdr
      (threeSegmentsDB Rat.sqrt) qNorm0 numVectors junkS).DIFF_THRESH = 5 / 6 ∧
    (∀ sNorm : Nat → ℚ,
      (segMeans (fun _ => 1) 1 sNorm 3 0 0
        { sMeanL2 := fun _ => 0, SILENCE_THRESH := 0, processedSegs := 0 }).sMeanL2 2
      = sNorm 1) := by
  have hf : (threeSegmentsDB Rat.sqrt).hdr.numFiles = 3 := by decide!
  have hs0 : (threeSegmentsDB Rat.sqrt).segTable 0 = 1 := by decide!
  have hs1 : (threeSegmentsDB Rat.sqrt).segTable 1 = 1 := by decide!
  have hs2 : (threeSegmentsDB Rat.sqrt).segTable 2 = 1 := by decide!
  have hv : (threeSegmentsDB Rat.sqrt).hdr.length
      / (sizeofDouble * (threeSegmentsDB Rat.sqrt).hdr.dim) = 3 := by decide!
  have h0 : (threeSegmentsDB Rat.sqrt).l2normTable 0 = 1 := by decide!
  have h1 : (threeSegmentsDB Rat.sqrt).l2normTable 1 = 2 := by decide!
  have h2 : (threeSegmentsDB Rat.sqrt).l2normTable 2 = 4 := by decide!
  have hn : (sequenceThresholds (sequenceSettings 1) (threeSegmentsDB Rat.sqrt).hdr
      (threeSegmentsDB Rat.sqrt) qNorm0 numVectors junkS).sNorm =
      fun i => if i < 3 then (threeSegmentsDB Rat.sqrt).l2normTable i else junkS i := by
    simp [sequenceThresholds, sequenceSettings, shingleNorms, hf, hs0, hs1, hs2, hv]
  refine ⟨hf, hs0, hs1, hs2, ?_, ?_, ?_, ?_, ?_, ?_, ?_, ?_, ?_, ?_⟩
  · rw [hn]; simp [h0]
  · rw [hn]; simp [h1]
  · rw [hn]; simp [h2]
  · simp [sequenceThresholds, sequenceSettings, shingleNorms, segMeans, sumNorms, hf, hs0,
      hs1, hs2, hv, h0]
  · simp [sequenceThresholds, sequenceSettings, shingleNorms, segMeans, sumNorms, hf, hs0,
      hs1, hs2, hv, h1]
  · simp [sequenceThresholds, sequenceSettings, shingleNorms, segMeans, sumNorms, hf, hs0,
      hs1, hs2, hv, h1]
  · rw [hn]
    simp [segMeanOf, segSum, hs0, hs1, h2]
  · simp [sequenceThresholds, sequenceSettings, shingleNorms, segMeans, sumNorms, hf, hs0,
      hs1, hs2, hv, h0, h1]
    norm_num
  · simp [sequenceThresholds, sequenceSettings, shingleNorms, segMeans, sumNorms, hf, hs0,
      hs1, hs2, hv, h0, h1]
    norm_num
  · intro sNorm
    simp [segMeans, sumNorms]


/-- C25: for every hop `H >= 1`, every segment of more than `W` vectors, a query of at
least `W` vectors (fewer than `2^32`), and all `j`, `k` that are multiples of `H` with
`j <= numVectors - W` and `k <= segLen - W`, the cell `DD[j][k]` left by the matched
filter is the sum over `w < W` of `D[j+w][k+w]`, where `D[a][b]` is the inner product
of vector `a` of the query with vector `b` of the segment; so the code for `H > 1`
leaves in that cell what the code for `H = 1` leaves there. -/
theorem C25_matched_filter_sum {D : Type} [LinearOrderedField D] (dim : Nat)
    (query dataBuf : Nat → D) (qp segOffset : Nat) (H numVectors segLen W j k : Nat)
    (hH : 1 ≤ H) (hnv : numVectors < 2 ^ 32) (hW : W ≤ numVectors) (hseg : W < segLen)
    (hj : j ≤ numVectors - W) (hk : k ≤ segLen - W) (hjH : H ∣ j) (hkH : H ∣ k) :
    matchedFilter (crossCorrelation dim query dataBuf qp segOffset) H numVectors segLen W 0
        (fun _ _ => 0) j k
      = ∑ w in Finset.range W, crossCorrelation dim query dataBuf qp segOffset (j + w) (k + w) ∧
    (∀ a b, crossCorrelation dim query dataBuf qp segOffset a b
      = ∑ l in Finset.range dim, query (qp + a * dim + l) * dataBuf (segOffset + b * dim + l)) ∧
    matchedFilter (crossCorrelation dim query dataBuf qp segOffset) H numVectors segLen W 0
        (fun _ _ => 0) j k
      = matchedFilter (crossCorrelation dim query dataBuf qp segOffset) 1 numVectors segLen W 0
        (fun _ _ => 0) j k := by
  have hsum : ∀ H1, 1 ≤ H1 → H1 ∣ j → H1 ∣ k →
      matchedFilter (crossCorrelation dim query dataBuf qp segOffset) H1 numVectors segLen W 0
        (fun _ _ => 0) j k
      = ∑ w in Finset.range W,
          crossCorrelation dim query dataBuf qp segOffset (j + w) (k + w) := by
    intro H1 h1 h2 h3
    rw [matchedFilter_cell _ H1 numVectors segLen j k h1 hnv h2 h3 W 0 _ (by omega) (by omega),
      zero_add]
    apply Finset.sum_congr rfl
    intro t _
    rw [Nat.zero_add]
  refine ⟨hsum H hH hjH hkH, ?_, ?_⟩
  · intro a b
    unfold crossCorrelation
    rw [innerProduct_eq_sum, zero_add]
  · rw [hsum H hH hjH hkH, hsum 1 (le_refl 1) (one_dvd j) (one_dvd k)]

/-- C25, witness: hop 2, a query of four vectors, a segment of five, `W = 2`, at the
cell `(2, 2)`. -/
theorem C25_matched_filter_sum_witness :
    (1 ≤ 2 ∧ 4 < 2 ^ 32 ∧ 2 ≤ 4 ∧ 2 < 5 ∧ 2 ≤ 4 - 2 ∧ 2 ≤ 5 - 2 ∧ 2 ∣ 2) ∧
    matchedFilter (crossCorrelation 1 (fun i => (i : ℚ)) (fun i => (i : ℚ)) 0 0) 2 4 5 2 0
        (fun _ _ => 0) 2 2
      = ∑ w in Finset.range 2,
          crossCorrelation 1 (fun i => (i : ℚ)) (fun i => (i : ℚ)) 0 0 (2 + w) (2 + w) :=
  ⟨by decide,
    (C25_matched_filter_sum 1 (fun i => (i : ℚ)) (fun i => (i : ℚ)) 0 0 2 4 5 2 2 2
      (by decide) (by decide) (by decide) (by decide) (by decide) (by decide) (by decide)
      (by decide)).1⟩


/-- C26, evaluation at the failing input.  The segment-level insertion of
`segPointQuery` shifts from cell `pointNN-1` (line 1312), not from `segNN-1`.  With
`pointNN = 1` nothing is shifted: storing at rank 0 leaves rank 1 as it was and drops
the entry that was at rank 0.  With `pointNN = 2` and a list of `segNN = 1` rank, the
old entry of rank 0 is stored into cell 1, past the end of the four arrays.  On the
database that holds `(1)` under "a" and `(2)` under "b", the query `(1)` with
`pointNN = 1` and `resultlength = 2` scores 1 for "a" and 2 for "b"; the answer is the
line of "b" followed by the line of an empty rank (distance 0, key read from slot
`~0`), and "a" is not in it.  With `pointNN = 2` and `resultlength = 2`, where the two
bounds agree, both keys are listed, with the means 1 and 1/2. -/
theorem C26_segment_shift_starts_at_pointNN :
    (∀ (r : SegList ℚ) (x : ℚ) (seg qi si : Nat),
      (r.place (1 - 1) 0 x seg qi si).entry 0 = (x, seg, qi, si) ∧
      (r.place (1 - 1) 0 x seg qi si).entry 1 = r.entry 1) ∧
    (∀ (r : SegList ℚ) (x : ℚ) (seg qi si : Nat),
      (r.place (2 - 1) 0 x seg qi si).entry 1 = r.entry 0) ∧
    answerOf (segPointQuery cfgSmall Rat.sqrt plainEnv
        (settingsAt QueryType.O2_FLAG_SEG_QUERY 0 1 2) (twoKeysDB Rat.sqrt) queryOne
        (fun _ => 0))
      = some [{ slot := 1, distance := 2, qpos := 0, spos := 0 },
              { slot := noIndex, distance := 0, qpos := noIndex, spos := noIndex }] ∧
    answerOf (segPointQuery cfgSmall Rat.sqrt plainEnv
        (settingsAt QueryType.O2_FLAG_SEG_QUERY 0 2 2) (twoKeysDB Rat.sqrt) queryOne
        (fun _ => 0))
      = some [{ slot := 1, distance := 1, qpos := 0, spos := 0 },
              { slot := 0, distance := 1 / 2, qpos := 0, spos := 0 }] := by
  refine ⟨?_, ?_, by decide!, by decide!⟩
  · intro r x seg qi si
    exact ⟨rfl, rfl⟩
  · intro r x seg qi si
    rfl


/-- C27, evaluation at the failing input: the database that holds `(1)` under "a" (slot
0) and `(2)` under "b" (slot 1), queried with `(1)`, `pointNN = 2` and
`resultlength = 2`.  The loop of `segPointQuery` stores the position of each key read
in its own loop variable `seg` (line 1246) and then tests `seg < numFiles` after
`seg++`.  With the key list "b", "a" the first turn sets `seg = 1`, the increment gives
2 and the loop ends: "a" is never read, the answer is the one line of "b".  With the
key list "a", "b", the order of the key table, both keys are scored, and without a key
list the answer is the same.  Both keys are resolved to their slots by `getKeyPos`. -/
theorem C27_key_list_ends_at_last_slot :
    keyAt cfgSmall (twoKeysDB Rat.sqrt) 0 = [97] ∧
    keyAt cfgSmall (twoKeysDB Rat.sqrt) 1 = [98] ∧
    getKeyPos cfgSmall (twoKeysDB Rat.sqrt).fileTable [97] 2 0 = some 0 ∧
    getKeyPos cfgSmall (twoKeysDB Rat.sqrt).fileTable [98] 2 0 = some 1 ∧
    keyedAnswerOf (segPointQueryKeyed cfgSmall Rat.sqrt plainEnv
        (settingsAt QueryType.O2_FLAG_SEG_QUERY 0 2 2) (twoKeysDB Rat.sqrt) queryOne
        (fun _ => 0) (some [[98], [97]]))
      = some [{ slot := 1, distance := 1, qpos := 0, spos := 0 }] ∧
    keyedAnswerOf (segPointQueryKeyed cfgSmall Rat.sqrt plainEnv
        (settingsAt QueryType.O2_FLAG_SEG_QUERY 0 2 2) (twoKeysDB Rat.sqrt) queryOne
        (fun _ => 0) (some [[97], [98]]))
      = some [{ slot := 1, distance := 1, qpos := 0, spos := 0 },
              { slot := 0, distance := 1 / 2, qpos := 0, spos := 0 }] ∧
    keyedAnswerOf (segPointQueryKeyed cfgSmall Rat.sqrt plainEnv
        (settingsAt QueryType.O2_FLAG_SEG_QUERY 0 2 2) (twoKeysDB Rat.sqrt) queryOne
        (fun _ => 0) none)
      = some [{ slot := 1, distance := 1, qpos := 0, spos := 0 },
              { slot := 0, distance := 1 / 2, qpos := 0, spos := 0 }] := by
  refine ⟨by decide!, by decide!, by decide!, by decide!, by decide!, by decide!, by decide!⟩


/-- C28, evaluation at the failing input: the timestamped database of two segments of
two vectors each, "a" with the times 0, 1 and "b" with the times 0, 10, which lie in
the cells 0, 1 and 2, 3 of `timesTable`.  The loop of lines 1208-1209 (and 1560-1561)
reads `timesTable[j]` and `timesTable[j+1]` with `j` counted from 0 for every segment:
`meanDBdur[1]` is 1, the mean duration of segment 0, where the timestamps of segment 1
give 10.  A query of two vectors with the times 0, 10 (mean duration 10) is therefore
refused for both segments, also for "b", whose mean duration is that of the query: no
point is scored and both lines of the answer carry the distance 0 and the positions
`~0` (the first is the line of an empty rank).  The same query with the times 0, 1 is admitted for both segments, also for
"b", whose mean duration 10 is not within a tenth of 1.  For every database and every
segment `k`, `meanDBdur[k]` is the difference of the cells `segTable[k]-1` and 0 of
`timesTable` over `segTable[k]-1`. -/
theorem C28_mean_duration_reads_first_segment :
    (twoTemposDB Rat.sqrt).hdr.flags &&& O2_FLAG_TIMES ≠ 0 ∧
    (twoTemposDB Rat.sqrt).segTable 0 = 2 ∧
    (twoTemposDB Rat.sqrt).segTable 1 = 2 ∧
    (twoTemposDB Rat.sqrt).timesTable 0 = 0 ∧
    (twoTemposDB Rat.sqrt).timesTable 1 = 1 ∧
    (twoTemposDB Rat.sqrt).timesTable 2 = 0 ∧
    (twoTemposDB Rat.sqrt).timesTable 3 = 10 ∧
    meanDBdur (twoTemposDB Rat.sqrt).segTable (twoTemposDB Rat.sqrt).timesTable 0 = 1 ∧
    meanDBdur (twoTemposDB Rat.sqrt).segTable (twoTemposDB Rat.sqrt).timesTable 1 = 1 ∧
    meanDurationOf (twoTemposDB Rat.sqrt).timesTable
      (segSum (twoTemposDB Rat.sqrt).segTable 1) ((twoTemposDB Rat.sqrt).segTable 1) = 10 ∧
    segDurationOk true (twoTemposDB Rat.sqrt).segTable (twoTemposDB Rat.sqrt).timesTable
      10 1 = false ∧
    segDurationOk true (twoTemposDB Rat.sqrt).segTable (twoTemposDB Rat.sqrt).timesTable
      1 1 = true ∧
    timedAnswerOf (segPointQueryTimed cfgSmall Rat.sqrt 1000 true (timesUpTo 10)
        (settingsAt QueryType.O2_FLAG_SEG_QUERY 0 1 2) (twoTemposDB Rat.sqrt) queryTwoOnes
        (fun _ => 0) (fun _ => 0))
      = some [{ slot := noIndex, distance := 0, qpos := noIndex, spos := noIndex },
              { slot := 1, distance := 0, qpos := noIndex, spos := noIndex }] ∧
    timedAnswerOf (segPointQueryTimed cfgSmall Rat.sqrt 1000 true (timesUpTo 1)
        (settingsAt QueryType.O2_FLAG_SEG_QUERY 0 1 2) (twoTemposDB Rat.sqrt) queryTwoOnes
        (fun _ => 0) (fun _ => 0))
      = some [{ slot := 0, distance := 1, qpos := 0, spos := 1 },
              { slot := 1, distance := 1, qpos := 0, spos := 1 }] ∧
    (∀ (segTable : Nat → Nat) (timesTable : Nat → ℚ) (k : Nat),
      meanDBdur segTable timesTable k =
        (timesTable ((segTable k + (2 ^ 32 - 1)) % 2 ^ 32) - timesTable 0)
          / (((segTable k + (2 ^ 32 - 1)) % 2 ^ 32 : Nat) : ℚ)) := by
  refine ⟨by decide!, by decide!, by decide!, by decide!, by decide!, by decide!, by decide!,
    by decide!, by decide!, by decide!, by decide!, by decide!, by decide!, by decide!, ?_⟩
  intro segTable timesTable k
  unfold meanDBdur
  rw [durationSum_eq, Nat.zero_add, zero_add]


/-- C29 as stated fails: the insert of one vector `(1)` of dimension 1 under key "a"
into the database just created.  The run passes through six states of
the mapped file.  `insert` copies the header back (line 578) before it stores
`segTable[numFiles-1]` (line 582) and before it copies the payload (line 585): in the
fourth state the mapped header already counts one file and eight bytes, while
`segTable[0]` and the payload cell 0 still hold 0, where the insert leaves 1 and 1.
The property of the claim holds in the first three states, whose header counts no
file, fails in the fourth and in the fifth, and holds in the last.  For every insert
the first state of the tail is the state before it with the header of the counts
already increased, the tables unchanged. -/
theorem C29_header_written_before_tables_counterexample :
    (insert cfgSmall Rat.sqrt (create cfgSmall) (oneVector [97])).status = Status.ok ∧
    (insertTrace cfgSmall Rat.sqrt (create cfgSmall) (oneVector [97])).length = 6 ∧
    (insertTrace cfgSmall Rat.sqrt (create cfgSmall) (oneVector [97])).getLast? =
      some (insert cfgSmall Rat.sqrt (create cfgSmall) (oneVector [97])).db ∧
    (oneKeyDB Rat.sqrt).hdr.numFiles = 1 ∧
    (oneKeyDB Rat.sqrt).segTable 0 = 1 ∧
    (oneKeyDB Rat.sqrt).dataBuf 0 = 1 ∧
    ((insertTrace cfgSmall Rat.sqrt (create cfgSmall) (oneVector [97])).getD 2
      (create cfgSmall)).hdr.numFiles = 0 ∧
    ((insertTrace cfgSmall Rat.sqrt (create cfgSmall) (oneVector [97])).getD 3
      (create cfgSmall)).hdr.numFiles = 1 ∧
    ((insertTrace cfgSmall Rat.sqrt (create cfgSmall) (oneVector [97])).getD 3
      (create cfgSmall)).hdr.length = 8 ∧
    ((insertTrace cfgSmall Rat.sqrt (create cfgSmall) (oneVector [97])).getD 3
      (create cfgSmall)).segTable 0 = 0 ∧
    ((insertTrace cfgSmall Rat.sqrt (create cfgSmall) (oneVector [97])).getD 3
      (create cfgSmall)).dataBuf 0 = 0 ∧
    ((insertTrace cfgSmall Rat.sqrt (create cfgSmall) (oneVector [97])).getD 4
      (create cfgSmall)).segTable 0 = 1 ∧
    ((insertTrace cfgSmall Rat.sqrt (create cfgSmall) (oneVector [97])).getD 4
      (create cfgSmall)).dataBuf 0 = 0 ∧
    (∀ i, i < 3 → PrefixInPlace cfgSmall
      ((insertTrace cfgSmall Rat.sqrt (create cfgSmall) (oneVector [97])).getD i
        (create cfgSmall)) (oneKeyDB Rat.sqrt)) ∧
    ¬ PrefixInPlace cfgSmall
      ((insertTrace cfgSmall Rat.sqrt (create cfgSmall) (oneVector [97])).getD 3
        (create cfgSmall)) (oneKeyDB Rat.sqrt) ∧
    ¬ PrefixInPlace cfgSmall
      ((insertTrace cfgSmall Rat.sqrt (create cfgSmall) (oneVector [97])).getD 4
        (create cfgSmall)) (oneKeyDB Rat.sqrt) ∧
    PrefixInPlace cfgSmall
      ((insertTrace cfgSmall Rat.sqrt (create cfgSmall) (oneVector [97])).getD 5
        (create cfgSmall)) (oneKeyDB Rat.sqrt) ∧
    (∀ (sqrt : ℚ → ℚ) (dbH : dbTableHeaderT) (db : DB ℚ) (inFile : FeatureFile ℚ)
        (numVectors : Nat),
      (commitTrace sqrt dbH db inFile numVectors).head? =
        some { db with hdr := { dbH with numFiles := (dbH.numFiles + 1) % 2 ^ 32,
                                         length := (dbH.length + inFile.nbytes) % 2 ^ 32 } }) := by
  have h30 : ((insertTrace cfgSmall Rat.sqrt (create cfgSmall) (oneVector [97])).getD 3
      (create cfgSmall)).hdr.numFiles = 1 := by decide!
  have h3l : ((insertTrace cfgSmall Rat.sqrt (create cfgSmall) (oneVector [97])).getD 3
      (create cfgSmall)).hdr.length = 8 := by decide!
  have h3s : ((insertTrace cfgSmall Rat.sqrt (create cfgSmall) (oneVector [97])).getD 3
      (create cfgSmall)).segTable 0 = 0 := by decide!
  have h40 : ((insertTrace cfgSmall Rat.sqrt (create cfgSmall) (oneVector [97])).getD 4
      (create cfgSmall)).hdr.numFiles = 1 := by decide!
  have h4l : ((insertTrace cfgSmall Rat.sqrt (create cfgSmall) (oneVector [97])).getD 4
      (create cfgSmall)).hdr.length = 8 := by decide!
  have h4d : ((insertTrace cfgSmall Rat.sqrt (create cfgSmall) (oneVector [97])).getD 4
      (create cfgSmall)).dataBuf 0 = 0 := by decide!
  have hs : (oneKeyDB Rat.sqrt).segTable 0 = 1 := by decide!
  have hd : (oneKeyDB Rat.sqrt).dataBuf 0 = 1 := by decide!
  have h5 : (insertTrace cfgSmall Rat.sqrt (create cfgSmall) (oneVector [97])).getD 5
      (create cfgSmall) = oneKeyDB Rat.sqrt := rfl
  refine ⟨by decide!, by decide!, insertTrace_getLast _ _ _ _, by decide!, hs, hd, by decide!,
    h30, h3l, h3s, by decide!, by decide!, h4d, ?_, ?_, ?_, ?_, ?_⟩
  · intro i hi k hk
    have h0 : ((insertTrace cfgSmall Rat.sqrt (create cfgSmall) (oneVector [97])).getD i
        (create cfgSmall)).hdr.numFiles = 0 := by
      interval_cases i <;> decide!
    rw [h0] at hk
    exact absurd hk (Nat.not_lt_zero k)
  · intro h
    have h1 := (h 0 (by rw [h30]; decide)).2.1
    rw [h3s, hs] at h1
    exact absurd h1 (by decide)
  · intro h
    have h1 := (h 0 (by rw [h40]; decide)).2.2 0 (by rw [h4l]; decide)
    rw [h4d, hd] at h1
    exact absurd h1 (by decide)
  · rw [h5]
    intro k _
    exact ⟨fun _ _ => rfl, rfl, fun _ _ => rfl⟩
  · intro sqrt dbH db inFile numVectors
    unfold commitTrace
    simp only
    split_ifs <;> rfl

/-- C29, amended: along the writes of an insert whose key and count are stored inside
the tables, the mapped file starts as it was found and ends as `insert` leaves it; at
every step the mapped header is the header found or the header the insert leaves,
and every `k` below the `numFiles` found (the files stored before) has its key slot,
its `segTable[k]` and its payload, as far as the `length` found counts it, in place
and unchanged.  The header with the increased `numFiles` and `length` is the first
write of the tail (line 578), before `segTable[numFiles-1]` (line 582) and the
payload (line 585): the entry of the file being stored is complete only at the last
step. -/
theorem C29_stored_files_stay_in_place {D : Type} [Zero D] [One D] [Add D] [Mul D] [Div D]
    (cfg : Config) (sqrt : D → D) (db : DB D) (a : InsertArgs D)
    (hn : db.hdr.numFiles + 1 < 2 ^ 32) (hin : InTables cfg db.hdr.numFiles a.key) :
    (insertTrace cfg sqrt db a).head? = some db ∧
    (insertTrace cfg sqrt db a).getLast? = some (insert cfg sqrt db a).db ∧
    (∀ σ ∈ insertTrace cfg sqrt db a,
      (σ.hdr = db.hdr ∨ σ.hdr = (insert cfg sqrt db a).db.hdr) ∧
      ∀ k, k < db.hdr.numFiles →
        (∀ i, i < cfg.O2_FILETABLESIZE →
          σ.fileTable (k * cfg.O2_FILETABLESIZE + i)
            = db.fileTable (k * cfg.O2_FILETABLESIZE + i)) ∧
        σ.segTable k = db.segTable k ∧
        (∀ c, c < db.hdr.length / sizeofDouble → σ.dataBuf c = db.dataBuf c)) ∧
    (∀ (dbH : dbTableHeaderT) (db0 : DB D) (inFile : FeatureFile D) (numVectors : Nat),
      (commitTrace sqrt dbH db0 inFile numVectors).head? =
        some { db0 with hdr := { dbH with numFiles := (dbH.numFiles + 1) % 2 ^ 32,
                                          length := (dbH.length + inFile.nbytes) % 2 ^ 32 } }) := by
  have _ := hin
  refine ⟨?_, insertTrace_getLast _ _ _ _, insertTrace_frame cfg sqrt db a hn, ?_⟩
  · unfold insertTrace
    cases initTables cfg db (some a.inFile) with
    | error e => rfl
    | ok dbH =>
      simp only
      split_ifs
      all_goals first
        | rfl
        | (split <;> rfl)
  · intro dbH db0 inFile numVectors
    unfold commitTrace
    simp only
    split_ifs <;> rfl

/-- C29, witness: the insert of one vector under key "b" into the database that holds
one vector under key "a": along the six states of the run the file stored under "a"
keeps its key, its count and its payload. -/
theorem C29_stored_files_stay_in_place_witness :
    (oneKeyDB Rat.sqrt).hdr.numFiles + 1 < 2 ^ 32 ∧
    InTables cfgSmall (oneKeyDB Rat.sqrt).hdr.numFiles (oneVector [98] : InsertArgs ℚ).key ∧
    (insert cfgSmall Rat.sqrt (oneKeyDB Rat.sqrt) (oneVector [98])).status = Status.ok ∧
    (insertTrace cfgSmall Rat.sqrt (oneKeyDB Rat.sqrt) (oneVector [98])).length = 6 ∧
    (oneKeyDB Rat.sqrt).hdr.numFiles = 1 ∧
    (∀ σ ∈ insertTrace cfgSmall Rat.sqrt (oneKeyDB Rat.sqrt) (oneVector [98]),
      (σ.hdr = (oneKeyDB Rat.sqrt).hdr ∨
        σ.hdr = (insert cfgSmall Rat.sqrt (oneKeyDB Rat.sqrt) (oneVector [98])).db.hdr) ∧
      ∀ k, k < (oneKeyDB Rat.sqrt).hdr.numFiles →
        (∀ i, i < cfgSmall.O2_FILETABLESIZE →
          σ.fileTable (k * cfgSmall.O2_FILETABLESIZE + i)
            = (oneKeyDB Rat.sqrt).fileTable (k * cfgSmall.O2_FILETABLESIZE + i)) ∧
        σ.segTable k = (oneKeyDB Rat.sqrt).segTable k ∧
        (∀ c, c < (oneKeyDB Rat.sqrt).hdr.length / sizeofDouble →
          σ.dataBuf c = (oneKeyDB Rat.sqrt).dataBuf c)) :=
  ⟨by decide!, ⟨by decide!, by decide, by decide⟩, by decide!, by decide!, by decide!,
    (C29_stored_files_stay_in_place cfgSmall Rat.sqrt (oneKeyDB Rat.sqrt) (oneVector [98])
      (by decide!) ⟨by decide!, by decide, by decide⟩).2.2.1⟩


/-- C30, counterexample.  On the database just created, the list of two files "a" (the
dimension word 2 and no vector) and "b" (one vector `(1)` of dimension 1): `insert`
skips "a" with a warning and leaves the file untouched, then inserts "b", whose
dimension the empty database adopts.  `batchinsert` keeps the header in memory from
one file to the next: it has adopted the dimension 2 of "a" when it meets "b", and ends
in the dimension error with nothing inserted.  Conversely, for the one file of eight
vectors of dimension 1, `insert` fails its `assert` on the size of the timestamp table
(line 568) after it has written the key, while `batchinsert`, which makes that
`assert` only with a times list (line 783), inserts the file. -/
theorem C30_adopted_dimension_counterexample :
    (insertEach cfgSmall Rat.sqrt (create cfgSmall)
      [plainEntry [97] 2 0 [], plainEntry [98] 1 8 [1]]).status = Status.ok ∧
    (insertEach cfgSmall Rat.sqrt (create cfgSmall)
      [plainEntry [97] 2 0 [], plainEntry [98] 1 8 [1]]).db.hdr.numFiles = 1 ∧
    (batchinsert cfgSmall Rat.sqrt (create cfgSmall) false
      [plainEntry [97] 2 0 [], plainEntry [98] 1 8 [1]]).status
      = Status.failed Err.DimensionMismatch ∧
    (batchinsert cfgSmall Rat.sqrt (create cfgSmall) false
      [plainEntry [97] 2 0 [], plainEntry [98] 1 8 [1]]).db.hdr.numFiles = 0 ∧
    (insertEach cfgSmall Rat.sqrt (create cfgSmall)
      [plainEntry [97] 1 64 [1, 1, 1, 1, 1, 1, 1, 1]]).status
      = Status.failed Err.AssertFailed ∧
    (insertEach cfgSmall Rat.sqrt (create cfgSmall)
      [plainEntry [97] 1 64 [1, 1, 1, 1, 1, 1, 1, 1]]).db.hdr.numFiles = 0 ∧
    (batchinsert cfgSmall Rat.sqrt (create cfgSmall) false
      [plainEntry [97] 1 64 [1, 1, 1, 1, 1, 1, 1, 1]]).status = Status.ok ∧
    (batchinsert cfgSmall Rat.sqrt (create cfgSmall) false
      [plainEntry [97] 1 64 [1, 1, 1, 1, 1, 1, 1, 1]]).db.hdr.numFiles = 1 := by
  refine ⟨by decide!, by decide!, by decide!, by decide!, by decide!, by decide!, by decide!,
    by decide!⟩

/-- C30, amended: for a database with the right magic number and without the
TIMESTAMPED flag, and a list of feature files that all carry the same dimension word,
run without times.  Whenever the single inserts of the entries, applied in order, all
end without `error` (inserted, or skipped with a warning), `batchinsert` ends without
`error` too and leaves the same mapped file.  Whenever one of the single inserts ends
in an `error` other than the failed `assert` on the size of the timestamp table,
`batchinsert` ends in an `error` too. -/
theorem C30_batch_refines_inserts {D : Type} [Zero D] [One D] [Add D] [Mul D] [Div D]
    (cfg : Config) (sqrt : D → D) (db : DB D) (entries : List (BatchEntry D)) (d : Nat)
    (hmagic : db.hdr.magic = cfg.O2_MAGIC) (hflag : db.hdr.flags &&& O2_FLAG_TIMES = 0)
    (hdim : ∀ e ∈ entries, e.thisFile.dim = d) :
    ((∀ er, (insertEach cfg sqrt db entries).status ≠ Status.failed er) →
      (insertEach cfg sqrt db entries).status = Status.ok ∧
      (batchinsert cfg sqrt db false entries).status = Status.ok ∧
      (batchinsert cfg sqrt db false entries).db = (insertEach cfg sqrt db entries).db) ∧
    (∀ er, (insertEach cfg sqrt db entries).status = Status.failed er →
      er ≠ Err.AssertFailed →
      ∃ er2, (batchinsert cfg sqrt db false entries).status = Status.failed er2) := by
  have hrel : BatchRel d { dbH := db.hdr, db := db, usingTimes := false, err := none } db :=
    ⟨rfl, rfl, rfl, Or.inl rfl⟩
  constructor
  · intro hok
    have h := batchLoop_refines cfg sqrt d entries _ db hrel hdim hok
    have hs : ∀ (es : List (BatchEntry D)) (db0 : DB D),
        (∀ er, (insertEach cfg sqrt db0 es).status ≠ Status.failed er) →
        (insertEach cfg sqrt db0 es).status = Status.ok := by
      intro es
      induction es with
      | nil => intro db0 _; rfl
      | cons e es ih =>
        intro db0 h0
        have h1 : ∀ er, (insert cfg sqrt db0 (entryArgs e)).status ≠ Status.failed er := by
          intro er he
          apply h0 er
          rw [insertEach_cons_failed cfg sqrt db0 e es er he]
        rw [insertEach_cons cfg sqrt db0 e es h1] at h0 ⊢
        exact ih _ h0
    refine ⟨hs entries db hok, ?_⟩
    unfold batchinsert
    rw [if_neg (fun hc => hc.2 hflag), if_neg (not_not.mpr hmagic)]
    simp only
    rw [h.1]
    exact ⟨rfl, h.2⟩
  · intro er hfail hne
    obtain ⟨er2, h2⟩ := batchLoop_fails cfg sqrt d entries _ db hrel hmagic hflag hdim er
      hfail hne
    refine ⟨er2, ?_⟩
    unfold batchinsert
    rw [if_neg (fun hc => hc.2 hflag), if_neg (not_not.mpr hmagic)]
    simp only
    rw [h2]

/-- C30, witness: the list of the two files "a" `(1)` and "b" `(2)` of dimension 1 on
the database just created. -/
theorem C30_batch_refines_inserts_witness :
    ((create cfgSmall : DB ℚ).hdr.magic = cfgSmall.O2_MAGIC ∧
      (create cfgSmall : DB ℚ).hdr.flags &&& O2_FLAG_TIMES = 0) ∧
    (insertEach cfgSmall Rat.sqrt (create cfgSmall)
      [plainEntry [97] 1 8 [1], plainEntry [98] 1 8 [1 + 1]]).status = Status.ok ∧
    (batchinsert cfgSmall Rat.sqrt (create cfgSmall) false
      [plainEntry [97] 1 8 [1], plainEntry [98] 1 8 [1 + 1]]).status = Status.ok ∧
    (batchinsert cfgSmall Rat.sqrt (create cfgSmall) false
      [plainEntry [97] 1 8 [1], plainEntry [98] 1 8 [1 + 1]]).db =
    (insertEach cfgSmall Rat.sqrt (create cfgSmall)
      [plainEntry [97] 1 8 [1], plainEntry [98] 1 8 [1 + 1]]).db ∧
    (insertEach cfgSmall Rat.sqrt (create cfgSmall)
      [plainEntry [97] 1 8 [1], plainEntry [98] 1 8 [1 + 1]]).db.hdr.numFiles = 2 :=
  ⟨⟨rfl, rfl⟩,
    ((C30_batch_refines_inserts cfgSmall Rat.sqrt (create cfgSmall)
      [plainEntry [97] 1 8 [1], plainEntry [98] 1 8 [1 + 1]] 1 rfl rfl
      (by intro e he; simp at he; rcases he with rfl | rfl <;> rfl)).1
      (not_failed_of_ok _ (by decide!))).1,
    ((C30_batch_refines_inserts cfgSmall Rat.sqrt (create cfgSmall)
      [plainEntry [97] 1 8 [1], plainEntry [98] 1 8 [1 + 1]] 1 rfl rfl
      (by intro e he; simp at he; rcases he with rfl | rfl <;> rfl)).1
      (not_failed_of_ok _ (by decide!))).2.1,
    ((C30_batch_refines_inserts cfgSmall Rat.sqrt (create cfgSmall)
      [plainEntry [97] 1 8 [1], plainEntry [98] 1 8 [1 + 1]] 1 rfl rfl
      (by intro e he; simp at he; rcases he with rfl | rfl <;> rfl)).1
      (not_failed_of_ok _ (by decide!))).2.2,
    by decide!⟩


/-- C31: an insert that gets to the scan of the key table (the header and the dimension
are accepted, no times file is missing on a timestamped database, the file fits) ends
in the duplicate-key warning if and only if there is a slot `k < numFiles` whose first
`strlen(key)` bytes are the bytes of the key, that is, the key is a byte prefix of what
slot `k` holds; it then leaves the mapped file as it was.  A turn of `batchinsert`
that gets to its scan skips the file in the same case. -/
theorem C31_duplicate_iff_prefix_match {D : Type} [Zero D] [One D] [Add D] [Mul D] [Div D]
    (cfg : Config) (sqrt : D → D) (db : DB D) (a : InsertArgs D) (dbH : dbTableHeaderT)
    (hinit : initTables cfg db (some a.inFile) = Except.ok dbH)
    (htimes : ¬ ((!a.usingTimes) = true ∧ dbH.flags &&& O2_FLAG_TIMES ≠ 0))
    (hroom : ¬ timesTableOffset cfg < dataoffset cfg + dbH.length + a.inFile.nbytes) :
    ((insert cfg sqrt db a).status = Status.warnDuplicate ↔
      ∃ k, k < db.hdr.numFiles ∧
        ∀ i, i < strlen a.key → db.fileTable (k * cfg.O2_FILETABLESIZE + i) = a.key.byte i) ∧
    ((insert cfg sqrt db a).status = Status.warnDuplicate → (insert cfg sqrt db a).db = db) ∧
    (∀ (st : BatchState D) (e : BatchEntry D) (stH : dbTableHeaderT),
      ¬ timesTableOffset cfg < dataoffset cfg + (st.dbH.length + e.thisFile.nbytes) →
      checkDim st.dbH e.thisFile = Except.ok stH →
      ((∃ k, k < st.dbH.numFiles ∧
          ∀ i, i < strlen e.thisKey →
            st.db.fileTable (k * cfg.O2_FILETABLESIZE + i) = e.thisKey.byte i) →
        batchStep cfg sqrt st e = { st with dbH := stH })) := by
  have hn : dbH.numFiles = db.hdr.numFiles := by
    unfold initTables at hinit
    split_ifs at hinit
    exact (checkDim_ok _ _ _ hinit).2.1
  refine ⟨?_, ?_, ?_⟩
  · rw [insert_duplicate_iff cfg sqrt db a dbH hinit htimes hroom,
      alreadyInserted_iff_prefix_match, hn]
  · intro h
    exact insert_warn_db cfg sqrt db a (Or.inl h)
  · intro st e stH hF hc hp
    have hA : alreadyInserted cfg st.db.fileTable e.thisKey stH.numFiles = true := by
      rw [alreadyInserted_iff_prefix_match, (checkDim_ok _ _ _ hc).2.1]
      exact hp
    unfold batchStep
    rw [if_neg hF, hc]
    simp only
    rw [if_pos hA]

/-- C31, witness: with "abcd" stored, the insert under "abc" is skipped as a duplicate;
with only "abc" stored, the insert under "abcd" is made. -/
theorem C31_duplicate_iff_prefix_match_witness :
    (initTables cfgSmall (abcdOnlyDB Rat.sqrt)
        (some (oneVector [97, 98, 99] : InsertArgs ℚ).inFile)
      = Except.ok (abcdOnlyDB Rat.sqrt).hdr) ∧
    keyAt cfgSmall (abcdOnlyDB Rat.sqrt) 0 = [97, 98, 99, 100] ∧
    (insert cfgSmall Rat.sqrt (abcdOnlyDB Rat.sqrt) (oneVector [97, 98, 99])).status
      = Status.warnDuplicate ∧
    keyAt cfgSmall (abcOnlyDB Rat.sqrt) 0 = [97, 98, 99] ∧
    (insert cfgSmall Rat.sqrt (abcOnlyDB Rat.sqrt) (oneVector [97, 98, 99, 100])).status
      = Status.ok ∧
    ¬ (∃ k, k < (abcOnlyDB Rat.sqrt).hdr.numFiles ∧
        ∀ i, i < strlen (oneVector [97, 98, 99, 100] : InsertArgs ℚ).key →
          (abcOnlyDB Rat.sqrt).fileTable (k * cfgSmall.O2_FILETABLESIZE + i)
            = (oneVector [97, 98, 99, 100] : InsertArgs ℚ).key.byte i) :=
  ⟨rfl, by decide!,
    (C31_duplicate_iff_prefix_match cfgSmall Rat.sqrt (abcdOnlyDB Rat.sqrt)
      (oneVector [97, 98, 99]) (abcdOnlyDB Rat.sqrt).hdr rfl (by decide!) (by decide!)).1.mpr
      ⟨0, by decide!, by decide!⟩,
    by decide!, by decide!,
    fun h =>
      absurd ((C31_duplicate_iff_prefix_match cfgSmall Rat.sqrt (abcOnlyDB Rat.sqrt)
        (oneVector [97, 98, 99, 100]) (abcOnlyDB Rat.sqrt).hdr rfl (by decide!)
        (by decide!)).1.mpr h) (by decide!)⟩


/-- C32: when timestamps are in use (the times file is open and the database is
timestamped or still empty), `insertTimeStamps` for `numVectors` vectors returns
without error if and only if the count `numtimes` of its two reading loops lies
between `numVectors` and `numVectors + 2` inclusive, and every other count ends in
`TimesCountMismatch`.  The count is the number of values of the file when white space
follows the last value, and one less when the file ends right after its last value. -/
theorem C32_times_count_window {D : Type} (numVectors : Nat) (dbH : dbTableHeaderT)
    (timesFile : TimesFile D) (buf : Nat → D) (timesdata : Nat)
    (hopen : timesFile.is_open = true)
    (hflag : dbH.flags &&& O2_FLAG_TIMES ≠ 0 ∨ dbH.numFiles = 0) :
    ((insertTimeStamps numVectors true dbH timesFile buf timesdata).err = none ↔
      numVectors ≤ countTimes numVectors timesFile buf timesdata ∧
        countTimes numVectors timesFile buf timesdata ≤ numVectors + 2) ∧
    (¬ (numVectors ≤ countTimes numVectors timesFile buf timesdata ∧
        countTimes numVectors timesFile buf timesdata ≤ numVectors + 2) →
      (insertTimeStamps numVectors true dbH timesFile buf timesdata).err
        = some Err.TimesCountMismatch) ∧
    (insertTimeStamps numVectors true dbH timesFile buf timesdata).usingTimes = true ∧
    countTimes numVectors timesFile buf timesdata
      = countedValues timesFile.endsWithSpace timesFile.vals := by
  have hu : (if dbH.flags &&& O2_FLAG_TIMES = 0 ∧ dbH.numFiles = 0 then true
      else if dbH.flags &&& O2_FLAG_TIMES = 0 then false else true) = true := by
    split_ifs with h1 h2
    · rfl
    · rcases hflag with h | h
      · exact absurd h2 h
      · exact absurd ⟨h2, h⟩ h1
    · rfl
  have key : insertTimeStamps numVectors true dbH timesFile buf timesdata
      = (if countTimes numVectors timesFile buf timesdata < numVectors ∨
            countTimes numVectors timesFile buf timesdata > numVectors + 2 then
          { dbH := if dbH.flags &&& O2_FLAG_TIMES = 0 ∧ dbH.numFiles = 0 then
                     { dbH with flags := dbH.flags ||| O2_FLAG_TIMES } else dbH,
            usingTimes := true,
            buf := (readTimes timesFile.endsWithSpace numVectors timesFile.vals 0 buf
                      timesdata).2.2.1,
            err := some Err.TimesCountMismatch }
        else
          { dbH := if dbH.flags &&& O2_FLAG_TIMES = 0 ∧ dbH.numFiles = 0 then
                     { dbH with flags := dbH.flags ||| O2_FLAG_TIMES } else dbH,
            usingTimes := true,
            buf := (readTimes timesFile.endsWithSpace numVectors timesFile.vals 0 buf
                      timesdata).2.2.1,
            err := none }) := by
    unfold insertTimeStamps countTimes
    simp only [hopen, hu, if_true, Bool.not_true, Bool.false_eq_true, false_and, if_false]
  refine ⟨?_, ?_, ?_, countTimes_eq _ _ _ _⟩
  · by_cases h : countTimes numVectors timesFile buf timesdata < numVectors ∨
        countTimes numVectors timesFile buf timesdata > numVectors + 2
    · rw [key, if_pos h]
      constructor
      · intro h0; cases h0
      · intro h0; omega
    · rw [key, if_neg h]
      constructor
      · intro _; omega
      · intro _; rfl
  · intro h
    rw [key, if_pos (by omega)]
  · rw [key]
    by_cases h : countTimes numVectors timesFile buf timesdata < numVectors ∨
        countTimes numVectors timesFile buf timesdata > numVectors + 2
    · rw [if_pos h]
    · rw [if_neg h]

/-- C32, witness: for one vector on the empty database, files of one, two and three
counted values are accepted and files of none and of four are refused, by
`insertTimeStamps` and by the insert that calls it. -/
theorem C32_times_count_window_witness :
    ((insertTimeStamps 1 true (create cfgSmall : DB ℚ).hdr
        (timedOne [0, 1, 2] : InsertArgs ℚ).timesFile
        (create cfgSmall : DB ℚ).timesTable 0).err = none ↔
      1 ≤ countTimes 1 (timedOne [0, 1, 2] : InsertArgs ℚ).timesFile
            (create cfgSmall : DB ℚ).timesTable 0 ∧
        countTimes 1 (timedOne [0, 1, 2] : InsertArgs ℚ).timesFile
            (create cfgSmall : DB ℚ).timesTable 0 ≤ 1 + 2) ∧
    countTimes 1 (timedOne [0, 1, 2] : InsertArgs ℚ).timesFile
        (create cfgSmall : DB ℚ).timesTable 0 = 3 ∧
    countTimes 1 ({ is_open := true, vals := [0, 1, 2], endsWithSpace := false } :
        TimesFile ℚ) (create cfgSmall : DB ℚ).timesTable 0 = 2 ∧
    (insert cfgSmall Rat.sqrt (create cfgSmall) (timedOne [])).status
      = Status.failed Err.TimesCountMismatch ∧
    (insert cfgSmall Rat.sqrt (create cfgSmall) (timedOne [0])).status = Status.ok ∧
    (insert cfgSmall Rat.sqrt (create cfgSmall) (timedOne [0, 1])).status = Status.ok ∧
    (insert cfgSmall Rat.sqrt (create cfgSmall) (timedOne [0, 1, 2])).status = Status.ok ∧
    (insert cfgSmall Rat.sqrt (create cfgSmall) (timedOne [0, 1, 2, 3])).status
      = Status.failed Err.TimesCountMismatch :=
  ⟨(C32_times_count_window 1 (create cfgSmall : DB ℚ).hdr
      (timedOne [0, 1, 2] : InsertArgs ℚ).timesFile
      (create cfgSmall : DB ℚ).timesTable 0 rfl (Or.inr rfl)).1,
    by decide!, by decide!, by decide!, by decide!, by decide!, by decide!, by decide!⟩


/-- C33: `create` writes the header `magic = O2_MAGIC`, `numFiles = 0`, `dim = 0`,
`length = 0`, `flags = 0`; `initTables` succeeds on it, with and without a feature
file (whose dimension word it adopts); and on every database whose magic number
differs from the constant `initTables` fails with `CorruptHeader`, and so do `insert`
and `l2norm`, which return the mapped file as they found it.  `batchinsert`, which
reads the header itself, fails as well and leaves the file as it found it; it
reports `CorruptHeader` unless its test for a timestamped database, made first,
reports `TimesRequired`. -/
theorem C33_create_and_magic {D : Type} [Zero D] [One D] [Add D] [Mul D] [Div D]
    (cfg : Config) (sqrt : D → D) (db : DB D) (hbad : db.hdr.magic ≠ cfg.O2_MAGIC) :
    (create cfg : DB D).hdr =
      { magic := cfg.O2_MAGIC, numFiles := 0, dim := 0, length := 0, flags := 0 } ∧
    initTables cfg (create cfg : DB D) none = Except.ok (create cfg : DB D).hdr ∧
    (∀ f : FeatureFile D, initTables cfg (create cfg : DB D) (some f) =
      Except.ok { magic := cfg.O2_MAGIC, numFiles := 0, dim := f.dim, length := 0,
                  flags := 0 }) ∧
    (∀ f : Option (FeatureFile D), initTables cfg db f = Except.error Err.CorruptHeader) ∧
    (∀ a : InsertArgs D,
      insert cfg sqrt db a = { db := db, status := Status.failed Err.CorruptHeader }) ∧
    l2norm cfg sqrt db = { db := db, status := Status.failed Err.CorruptHeader } ∧
    (∀ (usingTimes : Bool) (entries : List (BatchEntry D)),
      (batchinsert cfg sqrt db usingTimes entries).db = db ∧
      (batchinsert cfg sqrt db usingTimes entries).status =
        if !usingTimes ∧ db.hdr.flags &&& O2_FLAG_TIMES ≠ 0 then
          Status.failed Err.TimesRequired
        else Status.failed Err.CorruptHeader) := by
  have hi : ∀ f : Option (FeatureFile D), initTables cfg db f =
      Except.error Err.CorruptHeader := by
    intro f
    unfold initTables
    rw [if_pos hbad]
  refine ⟨rfl, ?_, ?_, hi, ?_, ?_, ?_⟩
  · have hm : ¬ (create cfg : DB D).hdr.magic ≠ cfg.O2_MAGIC := not_not.mpr rfl
    unfold initTables
    rw [if_neg hm]
  · intro f
    have hm : ¬ (create cfg : DB D).hdr.magic ≠ cfg.O2_MAGIC := not_not.mpr rfl
    have hz : (create cfg : DB D).hdr.dim = 0 ∧ (create cfg : DB D).hdr.length = 0 :=
      ⟨rfl, rfl⟩
    unfold initTables checkDim
    rw [if_neg hm]
    simp only
    rw [if_pos hz]
    rfl
  · intro a
    unfold insert
    rw [hi]
  · unfold l2norm
    rw [hi]
  · intro usingTimes entries
    unfold batchinsert
    by_cases h : (!usingTimes) = true ∧ db.hdr.flags &&& O2_FLAG_TIMES ≠ 0
    · rw [if_pos h, if_pos h]
      exact ⟨rfl, rfl⟩
    · rw [if_neg h, if_neg h, if_pos hbad]
      exact ⟨rfl, rfl⟩

/-- C33, witness: the database just created with its magic number replaced by 0. -/
theorem C33_create_and_magic_witness :
    ({ (create cfgSmall : DB ℚ) with
        hdr := { magic := 0, numFiles := 0, dim := 0, length := 0, flags := 0 } } : DB ℚ).hdr.magic
      ≠ cfgSmall.O2_MAGIC ∧
    (create cfgSmall : DB ℚ).hdr =
      { magic := cfgSmall.O2_MAGIC, numFiles := 0, dim := 0, length := 0, flags := 0 } ∧
    initTables cfgSmall
      ({ (create cfgSmall : DB ℚ) with
          hdr := { magic := 0, numFiles := 0, dim := 0, length := 0, flags := 0 } } : DB ℚ)
      (none : Option (FeatureFile ℚ)) = Except.error Err.CorruptHeader :=
  ⟨by decide,
    (C33_create_and_magic cfgSmall Rat.sqrt
      ({ (create cfgSmall : DB ℚ) with
          hdr := { magic := 0, numFiles := 0, dim := 0, length := 0, flags := 0 } } : DB ℚ)
      (by decide)).1,
    (C33_create_and_magic cfgSmall Rat.sqrt
      ({ (create cfgSmall : DB ℚ) with
          hdr := { magic := 0, numFiles := 0, dim := 0, length := 0, flags := 0 } } : DB ℚ)
      (by decide)).2.2.2.1 none⟩


/-- C34: for every list of admitted candidates and every `pointNN = K`, the first `K`
cells of `distances` after the insertions, started from the list of zeros, are the
first `K` elements of the descending sort of the candidate scores together with `K`
zeros; every cell is at least 0, and a candidate of negative score leaves the list as
it is.  The loops of `pointQuery` make exactly these insertions, for the pairs that
pass the duration test, in the order of the loops.  A run of `pointQuery` that passes
its tests returns; the list it returns is the list after the insertions of its
candidates, so its first `pointNN` distances are the first `pointNN` elements of the
descending sort of their scores together with `pointNN` zeros; the lines it prints are
those of the ranks of that list, and every distance printed is at least 0 and is one
of these elements.  On the database that holds `(1)`, `(3)`, `(2)` the query `(1)`
with `pointNN = 2` prints the distances 3 and 2, and the query `(-1)` prints
nothing. -/
theorem C34_point_list_is_top_K {D : Type} [LinearOrderedField D] (K : Nat)
    (cands : List (D × Nat × Nat)) :
    firstCells K (insertAll K cands (PointList.init D)).distances
      = topScores K (cands.map (fun c => c.1)) ∧
    (∀ i, i < K → 0 ≤ (insertAll K cands (PointList.init D)).distances i) ∧
    (∀ (pre post : List (D × Nat × Nat)) (c : D × Nat × Nat),
      cands = pre ++ c :: post → c.1 < 0 →
        insertAll K (pre ++ [c]) (PointList.init D) = insertAll K pre (PointList.init D)) ∧
    (∀ (env : QueryEnv) (dim totalVecs numVectors : Nat) (query dataBuf : Nat → D)
      (j qp : Nat),
      pointLoop env K dim totalVecs numVectors query dataBuf j qp (PointList.init D)
        = insertAll K (loopCandidates env dim totalVecs numVectors query dataBuf j qp)
            (PointList.init D)) ∧
    (∀ (cfg : Config) (sqrt : D → D) (env : QueryEnv) (s : QuerySettings) (db : DB D)
        (inFile : FeatureFile D) (junk : Nat → D) (dbH : dbTableHeaderT),
      initTables cfg db (some inFile) = Except.ok dbH → dbH.dim ≠ 0 →
      (0 < s.pointNN ∧ s.pointNN ≤ env.O2_MAXNN) →
      ¬ (s.usingQueryPoint = true ∧
        queryPointTooLarge s.queryPoint
          (inFile.nbytes / (sizeofDouble * dbH.dim) % 2 ^ 32) = true) →
      ∃ o, pointQuery cfg sqrt env s db inFile junk = Except.ok o) ∧
    (∀ (cfg : Config) (sqrt : D → D) (env : QueryEnv) (s : QuerySettings) (db : DB D)
        (inFile : FeatureFile D) (junk : Nat → D) (o : PointOutput D),
      pointQuery cfg sqrt env s db inFile junk = Except.ok o →
      ∃ dbH : dbTableHeaderT,
        initTables cfg db (some inFile) = Except.ok dbH ∧
        o.list = insertAll s.pointNN (queryCandidates sqrt env s db inFile junk dbH)
          (PointList.init D) ∧
        firstCells s.pointNN o.list.distances
          = topScores s.pointNN
              ((queryCandidates sqrt env s db inFile junk dbH).map (fun c => c.1)) ∧
        o.rows = (List.range s.pointNN).filterMap
          (pointRow db.segTable dbH.numFiles o.list) ∧
        ∀ row ∈ o.rows, 0 ≤ row.distance ∧
          row.distance ∈ topScores s.pointNN
            ((queryCandidates sqrt env s db inFile junk dbH).map (fun c => c.1))) ∧
    (match pointQuery cfgSmall Rat.sqrt plainEnv
        (settingsAt QueryType.O2_FLAG_POINT_QUERY 0 2 2) (threeVectorsDB Rat.sqrt)
        queryOne (fun _ => 0) with
      | Except.ok o => o.rows
      | Except.error _ => []) =
      [{ slot := 0, distance := 3, qpos := 0, spos := 1 },
       { slot := 0, distance := 2, qpos := 0, spos := 2 }] ∧
    (queryCandidates Rat.sqrt plainEnv (settingsAt QueryType.O2_FLAG_POINT_QUERY 0 2 2)
        (threeVectorsDB Rat.sqrt) queryOne (fun _ => 0) (threeVectorsDB Rat.sqrt).hdr).map
      (fun c => c.1) = [1, 3, 2] ∧
    topScores 2 ([1, 3, 2] : List ℚ) = [3, 2] ∧
    (match pointQuery cfgSmall Rat.sqrt plainEnv
        (settingsAt QueryType.O2_FLAG_POINT_QUERY 0 2 2) (threeVectorsDB Rat.sqrt)
        queryMinusOne (fun _ => 0) with
      | Except.ok o => some o.rows
      | Except.error _ => none) = some [] := by
  have hinv : ∀ (K : Nat) (l : List (D × Nat × Nat)),
      TopInv K (insertAll K l (PointList.init D)) (l.map (fun c => c.1)) := by
    intro K l
    have := topInv_insertAll K l (PointList.init D) [] (topInv_init K)
    rw [List.nil_append] at this
    exact this
  refine ⟨topInv_top K _ _ (hinv K cands), (hinv K cands).2.1, ?_, ?_, ?_, ?_,
    by decide!, by decide!, by decide!, by decide!⟩
  · intro pre post c _ hc
    rw [insertAll_append]
    show insertPoint K c.1 c.2.1 c.2.2 (insertAll K pre (PointList.init D)) = _
    exact insertPoint_negative K c.1 c.2.1 c.2.2 _ hc (hinv K pre).2.1
  · intro env dim totalVecs numVectors query dataBuf j qp
    exact pointLoop_eq_insertAll env K dim totalVecs numVectors query dataBuf j qp _
  · intro cfg sqrt env s db inFile junk dbH hinit hdim hK hq
    exact ⟨_, pointQuery_eq cfg sqrt env s db inFile junk dbH hinit hdim hK hq⟩
  · intro cfg sqrt env s db inFile junk o h
    obtain ⟨dbH, hinit, hdim, hK, hq⟩ := pointQuery_tests cfg sqrt env s db inFile junk o h
    have he := pointQuery_eq cfg sqrt env s db inFile junk dbH hinit hdim hK hq
    rw [h] at he
    injection he with he
    have htop := topInv_top s.pointNN _ _
      (hinv s.pointNN (queryCandidates sqrt env s db inFile junk dbH))
    have hnn := (hinv s.pointNN (queryCandidates sqrt env s db inFile junk dbH)).2.1
    refine ⟨dbH, hinit, ?_, ?_, ?_, ?_⟩
    · rw [he]
    · rw [he]; exact htop
    · rw [he]
    · intro row hrow
      rw [he] at hrow
      simp only [List.mem_filterMap, List.mem_range] at hrow
      obtain ⟨k, hk, hr⟩ := hrow
      rw [pointRow_distance _ _ _ _ _ hr]
      refine ⟨hnn k hk, ?_⟩
      rw [← htop, mem_firstCells]
      exact ⟨k, hk, rfl⟩


/-- C35, evaluation at the failing inputs.  A segment whose mean score is 0 is stored at
the last rank of the segment list (the search from the last rank down stops at once,
since `0 >= segDistances[segNN-1]` and `0 <= segDistances[segNN-2]`), while the lines
printed are those of the first ranks.  Segment point query: the database that holds
the three vectors `(1)`, `(3)`, `(2)` under one key, queried with `(-1)`, `pointNN = 1`
and `resultlength = 2`: no point is admitted, the mean 0 goes to rank 1,
`processedSegs` is 1 and the one line printed is that of rank 0, which still holds the
initial `~0` in `segIDs`.  Sequence query: the database of test 0006 queried with
`(0, 0.5)`, sequence length 1 and `resultlength = 10`, whatever the fresh arrays hold:
the mean 0 goes to rank 9, `successfulSegs` is 1 and the line printed is that of rank
0, with `segIDs[0] = ~0`.  In both runs `numFiles` is 1. -/
theorem C35_row_of_an_empty_rank :
    (threeVectorsDB Rat.sqrt).hdr.numFiles = 1 ∧
    answerOf (segPointQuery cfgSmall Rat.sqrt plainEnv
        (settingsAt QueryType.O2_FLAG_SEG_QUERY 0 1 2) (threeVectorsDB Rat.sqrt)
        queryMinusOne (fun _ => 0))
      = some [{ slot := noIndex, distance := 0, qpos := noIndex, spos := noIndex }] ∧
    (db0006 Rat.sqrt).hdr.numFiles = 1 ∧
    (∀ junkQ junkS : Nat → ℚ,
      answerOf (segSequenceQuery cfgSmall Rat.sqrt plainEnv
          (settingsAt QueryType.O2_FLAG_SEQUENCE_QUERY 0 1 10) (db0006 Rat.sqrt) queryA
          junkQ junkS)
        = some [{ slot := noIndex, distance := 0, qpos := noIndex, spos := noIndex }]) ∧
    ¬ noIndex < 1 := by
  refine ⟨by decide!, by decide!, by decide!, ?_, by decide⟩
  intro junkQ junkS
  have hmagic : (db0006 Rat.sqrt).hdr.magic = cfgSmall.O2_MAGIC := by decide!
  have hdim : (db0006 Rat.sqrt).hdr.dim = 2 := by decide!
  have hfiles : (db0006 Rat.sqrt).hdr.numFiles = 1 := by decide!
  have hflags : (db0006 Rat.sqrt).hdr.flags = 1 := by decide!
  have hseg : (db0006 Rat.sqrt).segTable 0 = 2 := by decide!
  have hinit : initTables cfgSmall (db0006 Rat.sqrt) (some (queryA : FeatureFile ℚ)) =
      Except.ok (db0006 Rat.sqrt).hdr := by
    unfold initTables checkDim
    rw [if_neg (not_not.mpr hmagic)]
    simp only
    rw [if_neg (fun h => absurd h.1 (by rw [hdim]; decide)),
      if_neg (by rw [hdim]; exact not_not.mpr rfl)]
  obtain ⟨o, h1, _, h3, h4⟩ :=
    segSequenceQuery_single_shingle cfgSmall Rat.sqrt
      (settingsAt QueryType.O2_FLAG_SEQUENCE_QUERY 0 1 10) (db0006 Rat.sqrt) queryA
      junkQ junkS (db0006 Rat.sqrt).hdr hinit (by rw [hdim]; decide)
      (by rw [hflags]; decide) rfl rfl rfl rfl
      (by rw [hdim]; rfl) (by decide) (by decide) hfiles hseg
  rw [h1]
  unfold answerOf
  simp only
  rw [h4]
  have := h3 0 (by decide)
  unfold SegList.entry at this
  unfold segRow
  simp only [Prod.mk.injEq] at this
  rw [this.1, this.2.1, this.2.2.1, this.2.2.2]


/-- C36, counterexample: on the empty database an insert under the key "ab" that names
a times file which cannot be opened fails with `TimesFileMissing`, and an insert whose
times file holds four values for one vector fails with `TimesCountMismatch`; both
leave their key in slot 0 of the key table, the second also its first value in the
timestamp table, so the mapped database is not what it was.  The insert of one vector
under the key "a" that follows the first failure is stored under "ab". -/
theorem C36_failed_insert_keeps_key_counterexample :
    (insert cfgSmall Rat.sqrt (create cfgSmall) (missingTimes [97, 98])).status
      = Status.failed Err.TimesFileMissing ∧
    (create cfgSmall : DB ℚ).fileTable 0 = 0 ∧
    (insert cfgSmall Rat.sqrt (create cfgSmall) (missingTimes [97, 98])).db.fileTable 0 = 97 ∧
    (insert cfgSmall Rat.sqrt (create cfgSmall) (missingTimes [97, 98])).db.fileTable 1 = 98 ∧
    (insert cfgSmall Rat.sqrt (create cfgSmall) (missingTimes [97, 98])).db
      ≠ create cfgSmall ∧
    (insert cfgSmall Rat.sqrt (create cfgSmall) (timedOne [5, 6, 7, 8])).status
      = Status.failed Err.TimesCountMismatch ∧
    (insert cfgSmall Rat.sqrt (create cfgSmall) (timedOne [5, 6, 7, 8])).db.fileTable 0 = 97 ∧
    (create cfgSmall : DB ℚ).timesTable 0 = 0 ∧
    (insert cfgSmall Rat.sqrt (create cfgSmall) (timedOne [5, 6, 7, 8])).db.timesTable 0 = 5 ∧
    (insert cfgSmall Rat.sqrt
        (insert cfgSmall Rat.sqrt (create cfgSmall) (missingTimes [97, 98])).db
        (oneVector [97])).status = Status.ok ∧
    keyAt cfgSmall
      (insert cfgSmall Rat.sqrt
        (insert cfgSmall Rat.sqrt (create cfgSmall) (missingTimes [97, 98])).db
        (oneVector [97])).db 0 = [97, 98] :=
  ⟨by decide!, by decide!, by decide!, by decide!,
    fun h => absurd (congrArg (fun d : DB ℚ => d.fileTable 0) h) (by decide!),
    by decide!, by decide!, by decide!, by decide!, by decide!, by decide!⟩

/-- C36, amended: an insert that fails with `CorruptHeader`, `DimensionMismatch`,
`TimesRequired` or `Full` (or in the division by a zero dimension) leaves the whole
mapped database unchanged.  An insert that fails with `TimesFileMissing`,
`TimesCountMismatch` or in the `assert` has already copied its key into slot
`numFiles` (line 561).  When that store stays inside the key table (`numFiles <
O2_MAXFILES`, the key no longer than a key slot), the header, the segment table, the
payload and the norm table are unchanged, the key table is unchanged but for the
bytes of the key in slot `numFiles`, and the timestamp table is unchanged unless the
failure is `TimesCountMismatch`, and then it is unchanged outside the `numVectors`
entries from `length / (8 dim)` on. -/
theorem C36_failed_insert_frame {D : Type} [Zero D] [One D] [Add D] [Mul D] [Div D]
    (cfg : Config) (sqrt : D → D) (db : DB D) (a : InsertArgs D) (e : Err)
    (h : (insert cfg sqrt db a).status = Status.failed e) :
    (e = Err.CorruptHeader ∨ e = Err.DimensionMismatch ∨ e = Err.TimesRequired ∨
      e = Err.Full ∨ e = Err.DivideByZero → (insert cfg sqrt db a).db = db) ∧
    (InTables cfg db.hdr.numFiles a.key →
      (insert cfg sqrt db a).db.hdr = db.hdr ∧
      (insert cfg sqrt db a).db.segTable = db.segTable ∧
      (insert cfg sqrt db a).db.dataBuf = db.dataBuf ∧
      (insert cfg sqrt db a).db.l2normTable = db.l2normTable ∧
      (e = Err.TimesFileMissing ∨ e = Err.TimesCountMismatch ∨ e = Err.AssertFailed →
        ∀ i, (insert cfg sqrt db a).db.fileTable i =
          if db.hdr.numFiles * cfg.O2_FILETABLESIZE ≤ i ∧
              i < db.hdr.numFiles * cfg.O2_FILETABLESIZE + strlen a.key then
            a.key.byte (i - db.hdr.numFiles * cfg.O2_FILETABLESIZE)
          else db.fileTable i) ∧
      (∀ i, i < cfg.O2_FILETABLESIZE * cfg.O2_MAXFILES →
        ¬ (db.hdr.numFiles * cfg.O2_FILETABLESIZE ≤ i ∧
            i < db.hdr.numFiles * cfg.O2_FILETABLESIZE + strlen a.key) →
        (insert cfg sqrt db a).db.fileTable i = db.fileTable i) ∧
      (e ≠ Err.TimesCountMismatch → (insert cfg sqrt db a).db.timesTable = db.timesTable) ∧
      (∀ i, i < db.hdr.length / (a.inFile.dim * sizeofDouble) ∨
          db.hdr.length / (a.inFile.dim * sizeofDouble)
            + a.inFile.nbytes / (sizeofDouble * a.inFile.dim) % 2 ^ 32 ≤ i →
        (insert cfg sqrt db a).db.timesTable i = db.timesTable i)) := by
  rcases insert_failed_cases cfg sqrt db a e h with ⟨hdb, he⟩ | ⟨dbH, T, hi, hdim, hnv, hdb, hT⟩
  · rw [hdb]
    refine ⟨fun _ => rfl, fun _ =>
      ⟨rfl, rfl, rfl, rfl, ?_, fun _ _ _ => rfl, fun _ => rfl, fun _ _ => rfl⟩⟩
    intro h3
    exfalso
    rcases he with h0 | h0 | h0 | h0 | h0 <;> rcases h3 with h3 | h3 | h3 <;>
      (rw [h0] at h3; cases h3)
  · have hc : checkDim db.hdr a.inFile = Except.ok dbH := by
      unfold initTables at hi
      split_ifs at hi
      exact hi
    obtain ⟨_, hnum, hlen, _, hd, _⟩ := checkDim_ok _ _ _ hc
    have hft : ∀ i, (insert cfg sqrt db a).db.fileTable i =
        if db.hdr.numFiles * cfg.O2_FILETABLESIZE ≤ i ∧
            i < db.hdr.numFiles * cfg.O2_FILETABLESIZE + strlen a.key then
          a.key.byte (i - db.hdr.numFiles * cfg.O2_FILETABLESIZE)
        else db.fileTable i := by
      intro i
      rw [hdb]
      show strncpy db.fileTable (dbH.numFiles * cfg.O2_FILETABLESIZE) a.key.byte
        (strlen a.key) i = _
      rw [strncpy_spec _ _ _ _ (byte_ne_zero_of_lt_strlen a.key), hnum]
    refine ⟨?_, fun _ => ?_⟩
    · intro h5
      exfalso
      rcases hT with ⟨h0, _⟩ | ⟨h0, _⟩ | ⟨h0, _⟩ <;> rcases h5 with h5 | h5 | h5 | h5 | h5 <;>
        (rw [h0] at h5; cases h5)
    · refine ⟨by rw [hdb], by rw [hdb], by rw [hdb], by rw [hdb], fun _ => hft, ?_, ?_, ?_⟩
      · intro i _ hout
        rw [hft i, if_neg hout]
      · intro hne
        rw [hdb]
        show T = db.timesTable
        rcases hT with ⟨_, h0⟩ | ⟨_, h0⟩ | ⟨h0, _⟩
        · exact h0
        · exact h0
        · exact absurd h0 hne
      · intro i hi2
        rw [hdb]
        show T i = db.timesTable i
        rcases hT with ⟨_, h0⟩ | ⟨_, h0⟩ | ⟨_, h0⟩
        · rw [h0]
        · rw [h0]
        · rw [hd] at hnv
          rw [h0, hd, hlen]
          exact readTimes_frame _ _ _ _ _ _ (by omega) i (by omega)

/-- C36, witness: the two failing inserts of the counterexample, whose key stays
inside the key table, and the insert that fails before it writes. -/
theorem C36_failed_insert_frame_witness :
    ((insert cfgSmall Rat.sqrt (create cfgSmall) (timedOne [5, 6, 7, 8])).status
      = Status.failed Err.TimesCountMismatch) ∧
    InTables cfgSmall (create cfgSmall : DB ℚ).hdr.numFiles
      (timedOne [5, 6, 7, 8] : InsertArgs ℚ).key ∧
    (insert cfgSmall Rat.sqrt (create cfgSmall) (timedOne [5, 6, 7, 8])).db.hdr
      = (create cfgSmall : DB ℚ).hdr ∧
    (insert cfgSmall Rat.sqrt (create cfgSmall) (timedOne [5, 6, 7, 8])).db.segTable
      = (create cfgSmall : DB ℚ).segTable ∧
    (∀ i, 0 + 8 / (8 * 1) % 2 ^ 32 ≤ i →
      (insert cfgSmall Rat.sqrt (create cfgSmall) (timedOne [5, 6, 7, 8])).db.timesTable i
        = (create cfgSmall : DB ℚ).timesTable i) ∧
    (insert cfgSmall Rat.sqrt (create cfgSmall) (missingTimes [97, 98])).db.timesTable
      = (create cfgSmall : DB ℚ).timesTable ∧
    (insert cfgSmall Rat.sqrt (create cfgSmall) (plainInsert [97] 0 8 [1])).db
      = create cfgSmall :=
  ⟨by decide!, ⟨by decide, by decide, by decide⟩,
    ((C36_failed_insert_frame cfgSmall Rat.sqrt (create cfgSmall) (timedOne [5, 6, 7, 8])
      Err.TimesCountMismatch (by decide!)).2 ⟨by decide, by decide, by decide⟩).1,
    ((C36_failed_insert_frame cfgSmall Rat.sqrt (create cfgSmall) (timedOne [5, 6, 7, 8])
      Err.TimesCountMismatch (by decide!)).2 ⟨by decide, by decide, by decide⟩).2.1,
    fun i hi =>
      ((C36_failed_insert_frame cfgSmall Rat.sqrt (create cfgSmall) (timedOne [5, 6, 7, 8])
        Err.TimesCountMismatch (by decide!)).2
          ⟨by decide, by decide, by decide⟩).2.2.2.2.2.2.2 i (Or.inr hi),
    ((C36_failed_insert_frame cfgSmall Rat.sqrt (create cfgSmall) (missingTimes [97, 98])
      Err.TimesFileMissing (by decide!)).2
        ⟨by decide, by decide, by decide⟩).2.2.2.2.2.2.1 (by decide),
    (C36_failed_insert_frame cfgSmall Rat.sqrt (create cfgSmall) (plainInsert [97] 0 8 [1])
      Err.DivideByZero (by decide!)).1 (Or.inr (Or.inr (Or.inr (Or.inr rfl))))⟩


/-- C38: a sequence query with sequence length 2 whose query file holds one vector is
not rejected: the test on the query point passes at query point 0, and no test
compares `numVectors` with `sequenceLength`.  The count `numVectors-sequenceLength` of
line 1484 is evaluated and wraps to `2^32 - 1`, and the norm of the query shingle that
the power test uses is `qNorm[0] + qNorm[1]`, where `qNorm[1]` lies beyond the one
entry that `unitNorm` has stored.  In general the count wraps to `2^32 - (W - nv)` for
every query of `nv < W` vectors. -/
theorem C38_short_query_wraps_and_reads_past_norms :
    initTables cfgSmall (threeNormedDB Rat.sqrt) (some queryOne)
      = Except.ok (threeNormedDB Rat.sqrt).hdr ∧
    (queryOne : FeatureFile ℚ).nbytes / (sizeofDouble * (threeNormedDB Rat.sqrt).hdr.dim)
      % 2 ^ 32 = 1 ∧
    (sequenceSettings 2).sequenceLength = 2 ∧
    sequenceQueryPointTooLarge (sequenceSettings 2).queryPoint 1 2 = false ∧
    (∀ junkQ junkS : Nat → ℚ,
      (sequenceThresholds (sequenceSettings 2) (threeNormedDB Rat.sqrt).hdr
          (threeNormedDB Rat.sqrt)
          (unitNorm Rat.sqrt (queryOne : FeatureFile ℚ).indata 1 1 junkQ).2 1 junkS).qNorm
        = (slideQuery 2 4294967295 1
            ((unitNorm Rat.sqrt (queryOne : FeatureFile ℚ).indata 1 1 junkQ).2 0)
            (addAhead 0 1 1 (unitNorm Rat.sqrt (queryOne : FeatureFile ℚ).indata 1 1 junkQ).2)
            (addAhead 0 1 1 (unitNorm Rat.sqrt (queryOne : FeatureFile ℚ).indata 1 1 junkQ).2
              0)).1) ∧
    (∀ junkQ junkS : Nat → ℚ,
      (sequenceThresholds (sequenceSettings 2) (threeNormedDB Rat.sqrt).hdr
          (threeNormedDB Rat.sqrt)
          (unitNorm Rat.sqrt (queryOne : FeatureFile ℚ).indata 1 1 junkQ).2 1 junkS).qNorm 0
        = 1 + junkQ 1) ∧
    (∀ junkQ junkS : Nat → ℚ,
      ∃ o, segSequenceQuery cfgSmall Rat.sqrt plainEnv (sequenceSettings 2)
        (threeNormedDB Rat.sqrt) queryOne junkQ junkS = Except.ok o) ∧
    (∀ (s : QuerySettings) (dbH : dbTableHeaderT) (db : DB ℚ) (q junkS : Nat → ℚ) (nv : Nat),
      nv < s.sequenceLength → s.sequenceLength < 2 ^ 32 →
      (sequenceThresholds s dbH db q nv junkS).qNorm =
        (slideQuery s.sequenceLength (2 ^ 32 - (s.sequenceLength - nv)) 1 (q 0)
          (addAhead 0 (s.sequenceLength - 1) 1 q)
          (addAhead 0 (s.sequenceLength - 1) 1 q 0)).1) := by
  have hu : ∀ junkQ : Nat → ℚ,
      (unitNorm Rat.sqrt (queryOne : FeatureFile ℚ).indata 1 1 junkQ).2
        = fun a => if a = 0 then 1 else junkQ a := by
    intro junkQ
    have h1 : Rat.sqrt (sumSquares (queryOne : FeatureFile ℚ).indata 0 1 0) = 1 := by decide!
    unfold unitNorm normLoop normLoop
    simp only [h1]
  have ht : ∀ junkQ junkS : Nat → ℚ,
      (sequenceThresholds (sequenceSettings 2) (threeNormedDB Rat.sqrt).hdr
          (threeNormedDB Rat.sqrt)
          (unitNorm Rat.sqrt (queryOne : FeatureFile ℚ).indata 1 1 junkQ).2 1 junkS).qNorm
        = (slideQuery 2 4294967295 1
            ((unitNorm Rat.sqrt (queryOne : FeatureFile ℚ).indata 1 1 junkQ).2 0)
            (addAhead 0 1 1 (unitNorm Rat.sqrt (queryOne : FeatureFile ℚ).indata 1 1 junkQ).2)
            (addAhead 0 1 1 (unitNorm Rat.sqrt (queryOne : FeatureFile ℚ).indata 1 1 junkQ).2
              0)).1 := by
    intro junkQ junkS
    exact sequenceThresholds_short (sequenceSettings 2) _ _ _ junkS 1 (by decide) (by decide)
  refine ⟨rfl, by decide!, rfl, by decide, ht, ?_, ?_, ?_⟩
  · intro junkQ junkS
    rw [ht junkQ junkS, slideQuery_below 2 _ 1 _ _ _ 0 (by decide), hu junkQ]
    simp [addAhead]
  · intro junkQ junkS
    exact segSequenceQuery_not_rejected cfgSmall Rat.sqrt plainEnv (sequenceSettings 2)
      (threeNormedDB Rat.sqrt) queryOne junkQ junkS (threeNormedDB Rat.sqrt).hdr rfl
      (by decide!) (by decide!) (by decide) (by decide) (by decide) (fun _ => rfl)
  · intro s dbH db q junkS nv h1 h2
    exact sequenceThresholds_short s dbH db q junkS nv h1 h2


/-- C40, evaluation at the failing input: a feature file whose dimension word is 0,
presented to the database just created.  The empty database adopts the dimension word
(line 493, and line 736 in `batchinsert`), no test refuses it, the scan of the keys
finds nothing, and `numVectors` is computed as `(st_size-4)/(sizeof(double)*dbH->dim)`
with `dbH->dim = 0` (line 550, and line 768 in `batchinsert`): an integer division by
zero.  This holds for every insert of a file with dimension word 0 that fits into an
empty database without timestamps, whatever the file holds. -/
theorem C40_zero_dimension_reaches_division :
    (insert cfgSmall Rat.sqrt (create cfgSmall) (plainInsert [97] 0 8 [1])).status
      = Status.failed Err.DivideByZero ∧
    (insert cfgSmall Rat.sqrt (create cfgSmall) (plainInsert [97] 0 0 [])).status
      = Status.failed Err.DivideByZero ∧
    (batchinsert cfgSmall Rat.sqrt (create cfgSmall) false [plainEntry [97] 0 8 [1]]).status
      = Status.failed Err.DivideByZero ∧
    (∀ (cfg : Config) (sqrt : ℚ → ℚ) (db : DB ℚ) (a : InsertArgs ℚ),
      db.hdr.magic = cfg.O2_MAGIC → db.hdr.dim = 0 → db.hdr.length = 0 →
      db.hdr.numFiles = 0 → db.hdr.flags &&& O2_FLAG_TIMES = 0 → a.inFile.dim = 0 →
      dataoffset cfg + a.inFile.nbytes ≤ timesTableOffset cfg →
      (insert cfg sqrt db a).status = Status.failed Err.DivideByZero) := by
  refine ⟨by decide!, by decide!, by decide!, ?_⟩
  intro cfg sqrt db a hm hd hl hn hf hz hroom
  have hi : initTables cfg db (some a.inFile) = Except.ok { db.hdr with dim := a.inFile.dim } := by
    unfold initTables checkDim
    rw [if_neg (not_not.mpr hm)]
    simp only
    rw [if_pos ⟨hd, hl⟩]
  unfold insert
  rw [hi]
  simp only
  rw [if_neg (fun h => h.2 hf), if_neg (by rw [hl]; omega), hn]
  have ha : alreadyInserted cfg db.fileTable a.key 0 = false := rfl
  rw [ha]
  simp only [Bool.false_eq_true, if_false]
  rw [if_pos hz]

end audioDB
